import Mathlib

/-!
# RubiChess search core: a shallow embedding of `search.cpp`

The definitions below are translated from `src/src/search.cpp`.  Code that lives in
`RubiChess.h` and the other translation units (macros, constants, table types, the board,
the move generator, the transposition table) is not part of the sources at hand; it enters
the development as fields of parameter structures.

Conventions
* C++ `int` values are `Int`; move codes, hashes and array indices that come out of
  unsigned macros are `Nat`; stack indices computed with `- 1` are `Int`.
* `a / b` on C++ ints is `Int.tdiv` (truncation toward zero).
* A store into an `intN_t` array element goes through `wrapInt N`, and so do the `int` sums
  and products of `resetEndTime` over the clock values.
-/

namespace RubiChess

/-! ## History tables (`getHistory`, `updateHistory`) -/

/-- Conversion of an `int` to a signed integer type of `bits` bits (two's complement
wrap-around), as performed by a store into an `int16_t` or `int32_t` array element. -/
def wrapInt (bits : Nat) (x : Int) : Int :=
  (x + 2 ^ (bits - 1)) % 2 ^ bits - 2 ^ (bits - 1)

/-- Modelled from the spec: the move-code macros and table constants of `RubiChess.h`, which is
not among the sources.  The spec describes a move code as the packed record
`from6, to6, piece4, captured4, promoted4, special bits`; the decoding macros are kept
abstract.  `historyBits` is the width of the element type of `history[2][64][64]`
(the element type of the continuation-history planes is visible in the source: `int16_t`). -/
structure Macros where
  GETPIECE : Nat → Nat
  GETFROM : Nat → Nat
  GETTO : Nat → Nat
  GETCAPTURE : Nat → Nat
  ISTACTICAL : Nat → Bool
  S2MMASK : Nat
  historyBits : Nat

/-- A continuation-history pointer `cmptr[i]`: `none` is `NULL`, `some (piece, to)` points to
the plane `counterhistory[piece][to]`. -/
abbrev PlanePtr := Option (Nat × Nat)

/-- The per-thread history tables: `history[s2m][from][to]` and the continuation-history planes
`counterhistory[piece][to][index]`, `index = pc * 64 + to`. -/
structure Tables where
  history : Nat → Nat → Nat → Int
  counterhistory : Nat → Nat → Nat → Int

/-- The tables after `memset(…, 0, …)`. -/
def Tables.zero : Tables := ⟨fun _ _ _ => 0, fun _ _ _ => 0⟩

/-- Assignment `history[s][f][t] = v`. -/
def Tables.setHistory (T : Tables) (s f t : Nat) (v : Int) : Tables :=
  { T with history := fun s' f' t' => if s' = s ∧ f' = f ∧ t' = t then v else T.history s' f' t' }

/-- Assignment `plane[idx] = v` for the plane `counterhistory[p.1][p.2]`. -/
def Tables.setCounter (T : Tables) (p : Nat × Nat) (idx : Nat) (v : Int) : Tables :=
  { T with counterhistory := fun a b i =>
      if a = p.1 ∧ b = p.2 ∧ i = idx then v else T.counterhistory a b i }

/-- The expression `32 * value - entry * abs(value) / 256` of `updateHistory`. -/
def historyDelta (value entry : Int) : Int :=
  32 * value - (entry * abs value).tdiv 256

/-- Body of the loop `for (i = 0; i < CMPLIES; i++) if (cmptr[i]) …` of `updateHistory`,
for one `i`. -/
def updateHistoryPlane (value : Int) (idx : Nat) (T : Tables) (c : PlanePtr) : Tables :=
  match c with
  | none => T
  | some p =>
    let delta := historyDelta value (T.counterhistory p.1 p.2 idx)
    T.setCounter p idx (wrapInt 16 (T.counterhistory p.1 p.2 idx + delta))

/-- `chessposition::updateHistory(code, cmptr, value)`.  The array `cmptr` has `CMPLIES`
elements; it is the list `cmptr`. -/
def updateHistory (P : Macros) (code : Nat) (cmptr : List PlanePtr) (value : Int)
    (T : Tables) : Tables :=
  let pc := P.GETPIECE code
  let s2m := pc &&& P.S2MMASK
  let frm := P.GETFROM code
  let to_ := P.GETTO code
  let value := max (-256) (min 256 value)
  let delta := historyDelta value (T.history s2m frm to_)
  let T := T.setHistory s2m frm to_ (wrapInt P.historyBits (T.history s2m frm to_ + delta))
  cmptr.foldl (updateHistoryPlane value (pc * 64 + to_)) T

/-- `chessposition::getHistory(code, cmptr)`: the returned value and the tables after the call. -/
def getHistory (P : Macros) (code : Nat) (cmptr : List PlanePtr) (T : Tables) : Int × Tables :=
  let pc := P.GETPIECE code
  let s2m := pc &&& P.S2MMASK
  let frm := P.GETFROM code
  let to_ := P.GETTO code
  let value := T.history s2m frm to_
  (cmptr.foldl (fun value c =>
      match c with
      | none => value
      | some p => value + T.counterhistory p.1 p.2 (pc * 64 + to_)) value, T)

/-- One call of `updateHistory`, as issued by the search. -/
structure HistoryCall where
  code : Nat
  cmptr : List PlanePtr
  value : Int

/-- A finite sequence of `updateHistory` calls, executed in order. -/
def runUpdates (P : Macros) (calls : List HistoryCall) (T : Tables) : Tables :=
  calls.foldl (fun T c => updateHistory P c.code c.cmptr c.value T) T

/-- Every entry of both tables lies in `[-B, B]`. -/
def Tables.Bounded (B : Int) (T : Tables) : Prop :=
  (∀ s f t, -B ≤ T.history s f t ∧ T.history s f t ≤ B) ∧
  (∀ p q i, -B ≤ T.counterhistory p q i ∧ T.counterhistory p q i ≤ B)

/-- Every entry is representable in its element type: `history` entries in a signed integer
of `bits` bits, continuation-history entries in `int16_t`. -/
def Tables.Typed (bits : Nat) (T : Tables) : Prop :=
  (∀ s f t, -(2 : Int) ^ (bits - 1) ≤ T.history s f t ∧ T.history s f t < 2 ^ (bits - 1)) ∧
  (∀ p q i, -32768 ≤ T.counterhistory p q i ∧ T.counterhistory p q i ≤ 32767)

/-- A concrete decoding of the packed move code, used for examples: `to` in bits 0-5, `from`
in bits 6-11, promotion in bits 12-15, capture in bits 16-19, piece in bits 28-31; the side to
move is the lowest bit of the piece; `history` has 32-bit elements. -/
def exampleMacros : Macros where
  GETPIECE := fun x => (x &&& 0xf0000000) >>> 28
  GETFROM := fun x => (x &&& 0x0fc0) >>> 6
  GETTO := fun x => x &&& 0x003f
  GETCAPTURE := fun x => (x &&& 0xf0000) >>> 16
  ISTACTICAL := fun x => (x &&& 0xff000) != 0
  S2MMASK := 1
  historyBits := 32

/-! ## Search state and collaborators -/

/-- Modelled from the spec: the bound tag of a transposition-table entry,
`bound2 ∈ {EXACT, ALPHA, BETA}` (the enumeration is declared in `RubiChess.h`). -/
inductive Bound where
  | HASHALPHA
  | HASHBETA
  | HASHEXACT
  deriving DecidableEq, Repr

/-- Modelled from the spec: the coarse stop state `en.stopLevel`, in the order the spec lists
it, `{RUN, STOPSOON, STOPIMMEDIATELY, STOPPED, WANTSTOP, TERMINATEDSEARCH}` (the enumeration is
declared in `RubiChess.h`). -/
inductive StopLevel where
  | ENGINERUN
  | ENGINESTOPSOON
  | ENGINESTOPIMMEDIATELY
  | ENGINESTOPPED
  | ENGINEWANTSTOP
  | ENGINETERMINATEDSEARCH
  deriving DecidableEq, Repr

/-- The integer value of a stop level, as used by the comparisons `en.stopLevel < …`. -/
def StopLevel.toNat : StopLevel → Nat
  | ENGINERUN => 0
  | ENGINESTOPSOON => 1
  | ENGINESTOPIMMEDIATELY => 2
  | ENGINESTOPPED => 3
  | ENGINEWANTSTOP => 4
  | ENGINETERMINATEDSEARCH => 5

/-- An operation on the shared transposition table `tp`.  The table itself is not among the
sources; it is represented by the sequence of operations applied to it so far, and the results
of `probeHash` and `getMoveCode` are arbitrary functions of that sequence. -/
inductive TTOp where
  /-- `tp.probeHash(key, …, depth, alpha, beta, ply)` -/
  | probe (key : Nat) (depth alpha beta ply : Int)
  /-- `tp.addHash(key, score, staticeval, bound, depth, movecode)` -/
  | store (key : Nat) (score staticeval : Int) (bound : Bound) (depth : Int) (movecode : Nat)
  /-- `tp.getMoveCode(key)` -/
  | getMove (key : Nat)
  deriving DecidableEq, Repr

/-- The key of a transposition-table operation. -/
def TTOp.key : TTOp → Nat
  | probe k _ _ _ _ => k
  | store k _ _ _ _ _ => k
  | getMove k => k

/-- Whether the operation is a store (`addHash`). -/
def TTOp.isStore : TTOp → Bool
  | store _ _ _ _ _ _ => true
  | _ => false

/-- Assignment `a[i] = v` on an array indexed by `int`. -/
def upd {α : Type} (a : Int → α) (i : Int) (v : α) : Int → α :=
  fun j => if j = i then v else a j

/-- Assignment `a[i][j] = v`. -/
def upd2 {α : Type} (a : Int → Int → α) (i j : Int) (v : α) : Int → Int → α :=
  fun i' j' => if i' = i ∧ j' = j then v else a i' j'

/-- The members of `chessmove` that `search.cpp` uses: the packed move code and the ordering
value. -/
structure chessmove where
  code : Nat
  value : Int
  deriving DecidableEq, Repr

/-- The members of `chessposition` that `search.cpp` reads or writes itself.  Everything else
(piece bitboards, undo information, evaluation caches, …) is the abstract `board`. -/
structure Pos (B : Type) extends Tables where
  board : B
  nodes : Nat
  ply : Int
  mstop : Int
  rootheight : Int
  seldepth : Int
  hash : Nat
  halfmovescounter : Int
  /-- the check mask; non-zero when the side to move is in check -/
  isCheckbb : Nat
  state : Nat
  nullmoveply : Int
  nullmoveside : Int
  pvtable : Int → Int → Nat
  /-- `movestack[i].movecode` -/
  movestack : Int → Nat
  staticevalstack : Int → Int
  excludemovestack : Int → Nat
  killer : Int → Int → Nat
  countermove : Nat → Nat → Nat
  /-- the root move list: `rootmovelist.length` is the length of the list -/
  rootmovelist : List chessmove
  bestmove : chessmove
  pondermove : chessmove
  defaultmove : chessmove
  bestFailingLow : Nat
  bestmovescore : Int → Int
  lastbestmovescore : Int
  multipvtable : Int → Int → Nat
  lastpv : Int → Nat
  tbPosition : Int
  useRootmoveScore : Int
  threadindex : Int

/-- The visible members of `MoveSelector`; `rest` is its private state.  The member
`legalmovenum`, which only `getQuiescence` writes, is carried by the quiescence loop. -/
structure MoveSelector (S : Type) where
  state : Int
  cmptr : List PlanePtr
  rest : S

/-- The state a search call works on: the position of the worker, the transposition table,
the global counter `en.tbhits`, and the number of reads of `en.stopLevel` made so far (the
flag is written by another thread; its value at the `n`-th read is given by the
environment). -/
structure World (B : Type) where
  pos : Pos B
  tt : List TTOp
  tbhits : Nat
  stopReads : Nat

/-- Everything `search.cpp` uses but does not define: the constants, macros and tables of
`RubiChess.h`, the engine options, and the collaborating member functions (board, move
generator, evaluation, transposition table, tablebases).  They are parameters of the model. -/
structure Env (B S : Type) extends Macros where
  -- constants of `RubiChess.h`
  SCOREDRAW : Int
  SCOREBLACKWINS : Int
  SCOREWHITEWINS : Int
  SCORETBWIN : Int
  NOSCORE : Int
  MAXDEPTH : Int
  BADTACTICALSTATE : Int
  /-- `CEVAL(eps.eTempo, 2)` -/
  tempo : Int
  -- macros
  S2MSIGN : Nat → Int
  MATEFORME : Int → Bool
  FIXMATESCOREADD : Int → Int → Int
  -- engine options and the tables filled by `searchinit` (floating point)
  useTb : Int
  Syzygy50MoveRule : Bool
  MultiPV : Int
  -- move ordering values and tables of the root move list
  PVVAL : Int
  KILLERVAL1 : Int
  KILLERVAL2 : Int
  BLANK : Nat
  mvv : Nat → Nat
  lva : Nat → Nat
  reductiontable : Bool → Int → Int → Int
  lmptable : Bool → Int → Int
  materialvalue : Nat → Int
  /-- the value of `en.stopLevel` at the `n`-th read -/
  stopLevel : Nat → StopLevel
  -- collaborators that only read the position
  testRepetiton : Pos B → Int
  /-- the return value of `CreateMovelist<EVASION>(this, …)` -/
  CreateMovelistEvasion : Pos B → Int
  /-- `POPCOUNT(occupied00[0] | occupied00[1])` -/
  pieceCount : Pos B → Int
  /-- `probe_wdl(&success, this)`: the pair `(success, v)` -/
  probe_wdl : Pos B → Int × Int
  shortMove2FullMove : Pos B → Nat → Nat
  getEval : Pos B → Int
  getBestPossibleCapture : Pos B → Int
  /-- `getMoves(…, TACTICAL)`: the generated move codes -/
  getMovesTactical : Pos B → List Nat
  see : Pos B → Nat → Int → Bool
  moveGivesCheck : Pos B → Nat → Bool
  -- collaborators that change the position
  updatePvTable : Pos B → Nat → Bool → Pos B
  updateMultiPvTable : Pos B → Int → Nat → Bool → Pos B
  prepareStack : Pos B → Pos B
  playNullMove : Pos B → Pos B
  unplayNullMove : Pos B → Pos B
  /-- `playMove(m)`: the returned flag and the position afterwards -/
  playMove : Pos B → Nat → Bool × Pos B
  unplayMove : Pos B → Nat → Pos B
  -- the transposition table
  /-- `tp.probeHash(key, &val, &staticeval, &movecode, depth, alpha, beta, ply)` on the table
  given by its history: the returned flag and the three in/out values afterwards -/
  probeHash : List TTOp → Nat → Int → Int → Nat → Int → Int → Int → Int → Bool × Int × Int × Nat
  getMoveCode : List TTOp → Nat → Nat
  -- the move selector
  /-- `ms.SetPreferredMoves(this)` on a zero-initialised selector (quiescence) -/
  SetPreferredMovesQs : Pos B → MoveSelector S
  /-- `ms.SetPreferredMoves(this, hashmove, killer1, killer2, counter, excludemove)` on a
  zero-initialised selector -/
  SetPreferredMoves : Pos B → Nat → Nat → Nat → Nat → Nat → MoveSelector S
  /-- `ms.next()`: the move code of the returned move (`none` for the null pointer) and the
  selector afterwards -/
  next : MoveSelector S → Pos B → Option Nat × MoveSelector S

/-- The conversion of a `bool` to `int` in arithmetic (`true` is 1, `false` is 0). -/
def b2i (b : Bool) : Int := if b then 1 else 0

/-- `const int deltapruningmargin = 100;` -/
def deltapruningmargin : Int := 100

/-- `#define MAXLMPDEPTH 9` -/
def MAXLMPDEPTH : Int := 9

/-- `SHRT_MIN` -/
def SHRT_MIN : Int := -32768

/-- `SHRT_MAX` -/
def SHRT_MAX : Int := 32767

/-- The result of a search call: `none` when the model ran out of fuel, otherwise the returned
score and the state after the call. -/
abbrev Result (B : Type) := Option (Int × World B)

/-- A recursive search call `f(alpha, beta, depth)`. -/
abbrev Search (B : Type) := Int → Int → Int → World B → Result B

/-- Performs `tp.probeHash` and records it. -/
def World.probe {B S : Type} (env : Env B S) (w : World B) (key : Nat) (val staticeval : Int)
    (movecode : Nat) (depth alpha beta ply : Int) : (Bool × Int × Int × Nat) × World B :=
  (env.probeHash w.tt key val staticeval movecode depth alpha beta ply,
    { w with tt := w.tt ++ [TTOp.probe key depth alpha beta ply] })

/-- Performs `tp.addHash`. -/
def World.addHash {B : Type} (w : World B) (key : Nat) (score staticeval : Int) (bound : Bound)
    (depth : Int) (movecode : Nat) : World B :=
  { w with tt := w.tt ++ [TTOp.store key score staticeval bound depth movecode] }

/-- Replaces the position. -/
def World.setPos {B : Type} (w : World B) (p : Pos B) : World B := { w with pos := p }

/-- The static evaluation as computed by `getQuiescence` and `alphabeta` when the table gave
none: after a null move the negated evaluation of the previous ply plus tempo, otherwise the
evaluator's value from the side to move. -/
def computeStaticeval {B S : Type} (env : Env B S) (p : Pos B) : Int :=
  if p.movestack (p.mstop - 1) = 0 then
    -(p.staticevalstack (p.mstop - 1)) + env.tempo
  else
    env.S2MSIGN (p.state &&& env.S2MMASK) * env.getEval p

/-! ## Quiescence search -/

/-- The move loop `while ((m = ms.next())) …` of `getQuiescence` followed by the code after
it.  `qs` is the recursive call, `legalmovenum` the member `ms.legalmovenum`; the first
argument bounds the number of iterations. -/
def qsLoop {B S : Type} (env : Env B S) (qs : Search B) (myIsCheck : Bool)
    (staticeval beta depth : Int) :
    Nat → Int → Int → Int → MoveSelector S → World B → Result B
  | 0, _, _, _, _, _ => none
  | n + 1, alpha, bestscore, legalmovenum, ms, w =>
    match env.next ms w.pos with
    | (none, _) =>
      if myIsCheck ∧ legalmovenum = 0 then
        -- It's a mate
        some (env.SCOREBLACKWINS + w.pos.ply, w)
      else
        some (bestscore, w)
    | (some m, ms) =>
      if ¬ myIsCheck ∧
          staticeval + env.materialvalue (env.GETCAPTURE m >>> 1) + deltapruningmargin ≤ alpha then
        -- Leave out capture that is delta-pruned
        qsLoop env qs myIsCheck staticeval beta depth n alpha bestscore legalmovenum ms w
      else
        match env.playMove w.pos m with
        | (false, p) =>
          qsLoop env qs myIsCheck staticeval beta depth n alpha bestscore legalmovenum ms
            (w.setPos p)
        | (true, p) =>
          match qs (-beta) (-alpha) (depth - 1) (w.setPos p) with
          | none => none
          | some (r, w) =>
            let score := -r
            let w := w.setPos (env.unplayMove w.pos m)
            if score > bestscore then
              if score ≥ beta then
                some (score, w)
              else if score > alpha then
                qsLoop env qs myIsCheck staticeval beta depth n score score (legalmovenum + 1) ms
                  (w.setPos (env.updatePvTable w.pos m true))
              else
                qsLoop env qs myIsCheck staticeval beta depth n alpha score (legalmovenum + 1) ms w
            else
              qsLoop env qs myIsCheck staticeval beta depth n alpha bestscore (legalmovenum + 1)
                ms w

/-- The part of `getQuiescence` after the stand-pat block: `prepareStack()`, the selector and
the move loop. -/
def qsMoves {B S : Type} (env : Env B S) (qs : Search B) (fuel : Nat) (myIsCheck : Bool)
    (staticeval alpha beta depth bestscore : Int) (w : World B) : Result B :=
  let w := w.setPos (env.prepareStack w.pos)
  let ms := env.SetPreferredMovesQs w.pos
  qsLoop env qs myIsCheck staticeval beta depth fuel alpha bestscore 0 ms w

/-- The entry of `getQuiescence`: the reset of the principal variation,
`pvtable[ply][0] = 0`, and the transposition-table probe with the out-parameters initialised
to `NOSCORE`, `NOSCORE`, `0`.  Returns the probe's flag and out-parameters and the state after
the probe. -/
def qsProbe {B S : Type} (env : Env B S) (alpha beta depth : Int) (w : World B) :
    (Bool × Int × Int × Nat) × World B :=
  -- Reset pv
  let w := w.setPos { w.pos with pvtable := upd2 w.pos.pvtable w.pos.ply 0 0 }
  w.probe env w.pos.hash env.NOSCORE env.NOSCORE 0 depth alpha beta w.pos.ply

/-- The stand-pat score of a quiescence node that is not in check: the static evaluation
cached in the table if there is one, otherwise the computed one. -/
def standPat {B S : Type} (env : Env B S) (staticeval : Int) (p : Pos B) : Int :=
  if staticeval = env.NOSCORE then computeStaticeval env p else staticeval

/-- The body of `chessposition::getQuiescence(alpha, beta, depth)`; `qs` is the recursive
call. -/
def qsNode {B S : Type} (env : Env B S) (qs : Search B) (fuel : Nat) : Search B :=
  fun alpha beta depth w =>
    let bestscore := SHRT_MIN
    let myIsCheck : Bool := decide (w.pos.isCheckbb ≠ 0)
    match qsProbe env alpha beta depth w with
    | ((true, hashscore, _, _), w) => some (hashscore, w)
    | ((false, _, staticeval, _), w) =>
      if ¬ myIsCheck then
        -- get static evaluation of the position
        let staticeval := standPat env staticeval w.pos
        let bestscore := staticeval
        if staticeval ≥ beta then
          some (staticeval, w)
        else
          let alpha := if staticeval > alpha then staticeval else alpha
          -- Delta pruning
          let bestCapture := env.getBestPossibleCapture w.pos
          if staticeval + deltapruningmargin + bestCapture < alpha then
            some (staticeval, w)
          else
            qsMoves env qs fuel myIsCheck staticeval alpha beta depth bestscore w
      else
        qsMoves env qs fuel myIsCheck staticeval alpha beta depth bestscore w

/-- `chessposition::getQuiescence`, with a bound on the recursion depth and on the length of
every move loop. -/
def getQuiescence {B S : Type} (env : Env B S) : Nat → Search B
  | 0 => fun _ _ _ _ => none
  | fuel + 1 => qsNode env (getQuiescence env fuel) fuel

/-! ## Alpha-beta search: the move loop -/

/-- The outcome of a piece of the search that can `return` from the enclosing function:
`fuel` when a recursive call of the model ran out of fuel, `ret r` for `return r`, `cont s` when
control goes on with state `s`. -/
inductive Step (σ ρ : Type) where
  | fuel
  | ret (r : ρ)
  | cont (s : σ)

/-- Locals of `alphabeta` that are fixed while the move loop runs. -/
structure NodeCtx where
  beta : Int
  depth : Int
  PVNode : Bool
  excludeMove : Nat
  newhash : Nat
  extendall : Int
  positionImproved : Bool
  futility : Bool
  bestknownscore : Int
  lastmove : Nat

/-- Locals of `alphabeta` that change while the move loop runs.  The array `quietMoves` with
its fill count `quietsPlayed` is the list `quietMoves`. -/
structure LoopState (S : Type) where
  alpha : Int
  bestscore : Int
  bestcode : Nat
  eval_type : Bound
  LegalMoves : Int
  quietMoves : List Nat
  ms : MoveSelector S
  hashscore : Int
  staticeval : Int
  hashmovecode : Nat

/-- `quietsPlayed` -/
def LoopState.quietsPlayed {S : Type} (st : LoopState S) : Int := st.quietMoves.length

/-- The value `cmptr[i][idx] < 0` guarded by `cmptr[i] != NULL`. -/
def cmptrNegative (T : Tables) (cmptr : List PlanePtr) (i idx : Nat) : Bool :=
  match cmptr.get? i with
  | some (some p) => decide (T.counterhistory p.1 p.2 idx < 0)
  | _ => false

/-- The code of `alphabeta` after the move loop: the terminal check and the final store. -/
def abFinish {B S : Type} (env : Env B S) (c : NodeCtx) (st : LoopState S) (w : World B) :
    Int × World B :=
  if st.LegalMoves = 0 then
    if c.excludeMove ≠ 0 then
      (st.alpha, w)
    else if w.pos.isCheckbb ≠ 0 then
      -- It's a mate
      (env.SCOREBLACKWINS + w.pos.ply, w)
    else
      -- It's a stalemate
      (env.SCOREDRAW, w)
  else if st.bestcode ≠ 0 ∧ c.excludeMove = 0 then
    (st.bestscore, w.addHash c.newhash (env.FIXMATESCOREADD st.bestscore w.pos.ply) st.staticeval
      st.eval_type c.depth (st.bestcode % 65536))
  else
    (st.bestscore, w)

/-- The singular-extension block of the move loop for move `m`.  Continues with the value of
`extendMove`. -/
def abSingular {B S : Type} (env : Env B S) (ab : Search B) (c : NodeCtx) (m : Nat)
    (st : LoopState S) (w : World B) : Step (Int × LoopState S × World B) (Int × World B) :=
  if m &&& 0xffff = st.hashmovecode ∧ c.depth > 7 ∧ c.excludeMove = 0 then
    match w.probe env c.newhash st.hashscore st.staticeval st.hashmovecode (c.depth - 3) st.alpha
        c.beta w.pos.ply with
    | ((hit, hashscore, staticeval, hashmovecode), w) =>
      let st := { st with hashscore := hashscore, staticeval := staticeval,
                          hashmovecode := hashmovecode }
      if hit = true ∧ hashscore > st.alpha then
        let w := w.setPos { w.pos with
          excludemovestack := upd w.pos.excludemovestack (w.pos.mstop - 1) hashmovecode }
        let sBeta := max (hashscore - 2 * c.depth) env.SCOREBLACKWINS
        match ab (sBeta - 1) sBeta (c.depth.tdiv 2) w with
        | none => Step.fuel
        | some (redScore, w) =>
          let w := w.setPos { w.pos with
            excludemovestack := upd w.pos.excludemovestack (w.pos.mstop - 1) 0 }
          if redScore < sBeta then
            -- Move is singular
            Step.cont (1, st, w)
          else if c.bestknownscore ≥ c.beta ∧ sBeta ≥ c.beta then
            Step.ret (sBeta, w)
          else
            Step.cont (0, st, w)
      else
        Step.cont (0, st, w)
  else
    Step.cont (0, st, w)

/-- The late-move-reduction block: the value of `reduction` for move `m` with history
value `stats`. -/
def abReduction {B S : Type} (env : Env B S) (c : NodeCtx) (m : Nat) (LegalMoves stats : Int) :
    Int :=
  if c.depth > 2 ∧ ¬ env.ISTACTICAL m then
    let reduction := env.reductiontable c.positionImproved c.depth (min 63 (LegalMoves + 1))
    -- adjust reduction by stats value
    let reduction := reduction - stats.tdiv 4096
    -- adjust reduction at PV nodes
    let reduction := reduction - b2i c.PVNode
    min c.depth (max 0 reduction)
  else
    0

/-- `effectiveDepth = depth + extendall - reduction + extendMove;` for move `m`. -/
def abEffectiveDepth {B S : Type} (env : Env B S) (c : NodeCtx) (m : Nat)
    (LegalMoves stats extendMove : Int) : Int :=
  c.depth + c.extendall - abReduction env c m LegalMoves stats + extendMove

/-- The principal-variation search of the played move: the score and the final value of
`effectiveDepth`. -/
def abSearchMove {B : Type} (ab : Search B) (beta alpha : Int) (eval_type : Bound)
    (effectiveDepth reduction : Int) (w : World B) : Option (Int × Int × World B) :=
  if eval_type ≠ Bound.HASHEXACT then
    -- First move ("PV-move"); do a normal search
    match ab (-beta) (-alpha) (effectiveDepth - 1) w with
    | none => none
    | some (r, w) =>
      let score := -r
      if reduction ≠ 0 ∧ score > alpha then
        -- research without reduction
        let effectiveDepth := effectiveDepth + reduction
        match ab (-beta) (-alpha) (effectiveDepth - 1) w with
        | none => none
        | some (r, w) => some (-r, effectiveDepth, w)
      else
        some (score, effectiveDepth, w)
  else
    -- try a PV-Search
    match ab (-alpha - 1) (-alpha) (effectiveDepth - 1) w with
    | none => none
    | some (r, w) =>
      let score := -r
      if score > alpha ∧ score < beta then
        -- reasearch with full window
        match ab (-beta) (-alpha) (effectiveDepth - 1) w with
        | none => none
        | some (r, w) => some (-r, effectiveDepth, w)
      else
        some (score, effectiveDepth, w)

/-- The statistics update at a beta cutoff by the quiet move `m`: history bonus for `m`,
penalty for the quiet moves tried before, killer moves, counter move. -/
def abCutoffQuiet {B S : Type} (env : Env B S) (c : NodeCtx) (m : Nat) (st : LoopState S)
    (p : Pos B) : Pos B :=
  let T := updateHistory env.toMacros m st.ms.cmptr (c.depth * c.depth) p.toTables
  let T := st.quietMoves.foldl
    (fun T qm => updateHistory env.toMacros qm st.ms.cmptr (-(c.depth * c.depth)) T) T
  let p := { p with toTables := T }
  -- Killermove
  let p :=
    if p.killer p.ply 0 ≠ m then
      { p with killer := upd2 (upd2 p.killer p.ply 1 (p.killer p.ply 0)) p.ply 0 m }
    else p
  -- save countermove
  if c.lastmove ≠ 0 then
    { p with countermove := fun a b =>
        if a = env.GETPIECE c.lastmove ∧ b = env.GETTO c.lastmove then m else p.countermove a b }
  else p

/-- `if (!ISTACTICAL(m->code)) quietMoves[quietsPlayed++] = m->code;` -/
def pushQuiet {B S : Type} (env : Env B S) (m : Nat) (st : LoopState S) : LoopState S :=
  if ¬ env.ISTACTICAL m then { st with quietMoves := st.quietMoves ++ [m] } else st

/-- The end of the loop body, from `if (score > bestscore)` on, for the searched move `m`. -/
def abUpdate {B S : Type} (env : Env B S) (c : NodeCtx) (m : Nat) (st : LoopState S)
    (w : World B) (score effectiveDepth : Int) : Step (LoopState S × World B) (Int × World B) :=
  if score > st.bestscore then
    let st := { st with bestscore := score, bestcode := m }
    if score ≥ c.beta then
      let w := if ¬ env.ISTACTICAL m then w.setPos (abCutoffQuiet env c m st w.pos) else w
      let w :=
        if c.excludeMove = 0 then
          w.addHash c.newhash (env.FIXMATESCOREADD score w.pos.ply) st.staticeval Bound.HASHBETA
            effectiveDepth (st.bestcode % 65536)
        else w
      -- fail soft beta-cutoff
      Step.ret (score, w)
    else if score > st.alpha then
      Step.cont (pushQuiet env m { st with alpha := score, eval_type := Bound.HASHEXACT },
        w.setPos (env.updatePvTable w.pos st.bestcode true))
    else
      Step.cont (pushQuiet env m st, w)
  else
    Step.cont (pushQuiet env m st, w)

/-- The loop body of `alphabeta` after a successful `playMove(m)`: `LegalMoves++`, the second
futility test, the search of the move, `unplayMove(m)`, the stop test and the update of the
best score. -/
def abMoveSearch {B S : Type} (env : Env B S) (ab : Search B) (c : NodeCtx) (m : Nat)
    (futilityPrune : Bool) (effectiveDepth reduction : Int) (st : LoopState S) (w : World B) :
    Step (LoopState S × World B) (Int × World B) :=
  let st := { st with LegalMoves := st.LegalMoves + 1 }
  -- Check again for futility pruning now that we found a valid move
  if futilityPrune then
    Step.cont (st, w.setPos (env.unplayMove w.pos m))
  else
    match abSearchMove ab c.beta st.alpha st.eval_type effectiveDepth reduction w with
    | none => Step.fuel
    | some (score, effectiveDepth, w) =>
      let w := w.setPos (env.unplayMove w.pos m)
      let stop := env.stopLevel w.stopReads
      let w := { w with stopReads := w.stopReads + 1 }
      if stop = StopLevel.ENGINESTOPIMMEDIATELY then
        -- time is over; immediate stop requested
        Step.ret (c.beta, w)
      else
        abUpdate env c m st w score effectiveDepth

/-- The loop body of `alphabeta` from the late move reduction on, for the move `m` with
history value `stats` and extension `extendMove`. -/
def abMovePlay {B S : Type} (env : Env B S) (ab : Search B) (c : NodeCtx) (m : Nat)
    (futilityPrune : Bool) (stats extendMove : Int) (st : LoopState S) (w : World B) :
    Step (LoopState S × World B) (Int × World B) :=
  let reduction := abReduction env c m st.LegalMoves stats
  let pc := env.GETPIECE m
  let to_ := env.GETTO m
  let effectiveDepth := abEffectiveDepth env c m st.LegalMoves stats extendMove
  -- Prune moves with bad counter move history
  if ¬ env.ISTACTICAL m ∧ effectiveDepth < 4
      ∧ cmptrNegative w.pos.toTables st.ms.cmptr 0 (pc * 64 + to_)
      ∧ cmptrNegative w.pos.toTables st.ms.cmptr 1 (pc * 64 + to_) then
    Step.cont (st, w)
  else
    match env.playMove w.pos m with
    | (false, p) => Step.cont (st, w.setPos p)
    | (true, p) => abMoveSearch env ab c m futilityPrune effectiveDepth reduction st (w.setPos p)

/-- The branch `else if (staticeval > bestscore) bestscore = staticeval;` of the futility test
of a move, taken when no legal move has been found yet: the static score becomes the start
value of `bestscore`. -/
def futilityStart {S : Type} (futilityPrune : Bool) (st : LoopState S) : LoopState S :=
  -- Use the static score from futility test as a bestscore start value
  if futilityPrune ∧ st.staticeval > st.bestscore then
    { st with bestscore := st.staticeval }
  else st

/-- One iteration of the move loop of `alphabeta`, for the move `m` returned by `ms.next()`.
`cont` stands for both `continue` and reaching the end of the loop body. -/
def abMove {B S : Type} (env : Env B S) (ab : Search B) (c : NodeCtx) (m : Nat)
    (st : LoopState S) (w : World B) : Step (LoopState S × World B) (Int × World B) :=
  -- Leave out the move to test for singularity
  if m &&& 0xffff = c.excludeMove then
    Step.cont (st, w)
  -- Late move pruning
  else if c.depth < MAXLMPDEPTH ∧ ¬ env.ISTACTICAL m ∧ st.bestscore > env.NOSCORE
      ∧ st.quietsPlayed > env.lmptable c.positionImproved c.depth then
    -- Proceed to next moveselector state manually to save some time
    Step.cont ({ st with ms := { st.ms with state := st.ms.state + 1 } }, w)
  else
    let futilityPrune : Bool := decide (c.futility ∧ ¬ env.ISTACTICAL m ∧ w.pos.isCheckbb = 0
      ∧ st.alpha ≤ 900 ∧ ¬ env.moveGivesCheck w.pos m)
    if futilityPrune ∧ st.LegalMoves ≠ 0 then
      Step.cont (st, w)
    else
      let st := futilityStart futilityPrune st
      -- Prune tactical moves with bad SEE
      if w.pos.isCheckbb = 0 ∧ c.depth < 8 ∧ st.bestscore > env.NOSCORE
          ∧ st.ms.state ≥ env.BADTACTICALSTATE ∧ ¬ env.see w.pos m (-20 * c.depth * c.depth) then
        Step.cont (st, w)
      else
        let stats := (getHistory env.toMacros m st.ms.cmptr w.pos.toTables).1
        match abSingular env ab c m st w with
        | Step.fuel => Step.fuel
        | Step.ret r => Step.ret r
        | Step.cont (extendMove, st, w) => abMovePlay env ab c m futilityPrune stats extendMove st w

/-- The move loop `while ((m = ms.next())) …` of `alphabeta` followed by the code after it.
`ab` is the recursive call; the first argument bounds the number of iterations. -/
def abLoop {B S : Type} (env : Env B S) (ab : Search B) (c : NodeCtx) :
    Nat → LoopState S → World B → Result B
  | 0, _, _ => none
  | n + 1, st, w =>
    match env.next st.ms w.pos with
    | (none, ms) => some (abFinish env c { st with ms := ms } w)
    | (some m, ms) =>
      match abMove env ab c m { st with ms := ms } w with
      | Step.fuel => none
      | Step.ret r => some r
      | Step.cont (st, w) => abLoop env ab c n st w

/-! ## Alpha-beta search: the node -/

/-- Locals of `alphabeta` before the move loop. -/
structure Locals where
  alpha : Int
  beta : Int
  depth : Int
  PVNode : Bool
  rep : Int
  excludeMove : Nat
  newhash : Nat
  hashscore : Int
  staticeval : Int
  hashmovecode : Nat
  extendall : Int
  positionImproved : Bool
  futility : Bool

/-- `killer[ply + 1][0] = killer[ply + 1][1] = 0;` -/
def resetChildKillers {B : Type} (p : Pos B) : Pos B :=
  { p with killer := upd2 (upd2 p.killer (p.ply + 1) 1 0) (p.ply + 1) 0 0 }

/-- The counter move lookup, the killer reset for the child ply, the move selector, and the
move loop. -/
def abMovesPhase {B S : Type} (env : Env B S) (ab : Search B) (fuel : Nat) (L : Locals)
    (bestknownscore : Int) (w : World B) : Result B :=
  -- Get possible countermove from table
  let lastmove := w.pos.movestack (w.pos.mstop - 1)
  let counter :=
    if lastmove ≠ 0 then w.pos.countermove (env.GETPIECE lastmove) (env.GETTO lastmove) else 0
  -- Reset killers for child ply
  let w := w.setPos (resetChildKillers w.pos)
  let ms := env.SetPreferredMoves w.pos L.hashmovecode (w.pos.killer w.pos.ply 0)
    (w.pos.killer w.pos.ply 1) counter L.excludeMove
  abLoop env ab
    { beta := L.beta, depth := L.depth, PVNode := L.PVNode, excludeMove := L.excludeMove,
      newhash := L.newhash, extendall := L.extendall, positionImproved := L.positionImproved,
      futility := L.futility, bestknownscore := bestknownscore, lastmove := lastmove }
    fuel
    { alpha := L.alpha, bestscore := env.NOSCORE, bestcode := 0, eval_type := Bound.HASHALPHA,
      LegalMoves := 0, quietMoves := [], ms := ms, hashscore := L.hashscore,
      staticeval := L.staticeval, hashmovecode := L.hashmovecode }
    w

/-- Internal iterative deepening, then the rest of the node. -/
def abIID {B S : Type} (env : Env B S) (ab : Search B) (fuel : Nat) (L : Locals)
    (bestknownscore : Int) (w : World B) : Result B :=
  if L.PVNode ∧ L.hashmovecode = 0 ∧ L.depth ≥ 3 then
    match ab L.alpha L.beta (L.depth - 2) w with
    | none => none
    | some (_, w) =>
      let hashmovecode := env.getMoveCode w.tt L.newhash
      let w := { w with tt := w.tt ++ [TTOp.getMove L.newhash] }
      abMovesPhase env ab fuel { L with hashmovecode := hashmovecode } bestknownscore w
  else
    abMovesPhase env ab fuel L bestknownscore w

/-- The loop over the tactical moves of ProbCut. -/
def probCutLoop {B S : Type} (env : Env B S) (ab : Search B) (staticeval depth rbeta : Int) :
    List Nat → World B → Step (World B) (Int × World B)
  | [], w => Step.cont w
  | m :: rest, w =>
    if ¬ env.see w.pos m (rbeta - staticeval) then
      probCutLoop env ab staticeval depth rbeta rest w
    else
      match env.playMove w.pos m with
      | (false, p) => probCutLoop env ab staticeval depth rbeta rest (w.setPos p)
      | (true, p) =>
        match ab (-rbeta) (-rbeta + 1) (depth - 4) (w.setPos p) with
        | none => Step.fuel
        | some (r, w) =>
          let probcutscore := -r
          let w := w.setPos (env.unplayMove w.pos m)
          if probcutscore ≥ rbeta then
            -- ProbCut off
            Step.ret (probcutscore, w)
          else
            probCutLoop env ab staticeval depth rbeta rest w

/-- ProbCut, then the rest of the node. -/
def abProbCut {B S : Type} (env : Env B S) (ab : Search B) (fuel : Nat) (L : Locals)
    (bestknownscore : Int) (w : World B) : Result B :=
  if ¬ L.PVNode ∧ L.depth ≥ 5 ∧ |L.beta| < env.SCOREWHITEWINS then
    let rbeta := min env.SCOREWHITEWINS (L.beta + 100)
    match probCutLoop env ab L.staticeval L.depth rbeta (env.getMovesTactical w.pos) w with
    | Step.fuel => none
    | Step.ret r => some r
    | Step.cont w => abIID env ab fuel L bestknownscore w
  else
    abIID env ab fuel L bestknownscore w

/-- `int bestknownscore = (hashscore != NOSCORE ? hashscore : staticeval);` -/
def bestKnownScore {B S : Type} (env : Env B S) (L : Locals) : Int :=
  if L.hashscore ≠ env.NOSCORE then L.hashscore else L.staticeval

/-- `int R = 4 + (depth / 6) + (bestknownscore - beta) / 150 + !PVNode * 2;` -/
def nullMoveR (L : Locals) (bestknownscore : Int) : Int :=
  4 + L.depth.tdiv 6 + (bestknownscore - L.beta).tdiv 150 + b2i (!L.PVNode) * 2

/-- The null-move block after a null-move search that returned `score >= beta` (with `score`
already replaced by `beta` if it was a mate score): the low-depth cutoff, otherwise the
verification search; then the rest of the node. -/
def abNullMoveVerify {B S : Type} (env : Env B S) (ab : Search B) (fuel : Nat) (L : Locals)
    (bestknownscore R score : Int) (w : World B) : Result B :=
  if |L.beta| < 5000 ∧ (L.depth < 12 ∨ w.pos.nullmoveply ≠ 0) then
    some (score, w)
  else
    -- Verification search
    let w := w.setPos { w.pos with
      nullmoveply := w.pos.ply + (3 * (L.depth - R)).tdiv 4,
      nullmoveside := w.pos.ply.tmod 2 }
    match ab (L.beta - 1) L.beta (L.depth - R) w with
    | none => none
    | some (verificationscore, w) =>
      let w := w.setPos { w.pos with nullmoveside := 0, nullmoveply := 0 }
      if verificationscore ≥ L.beta then
        some (score, w)
      else
        abProbCut env ab fuel L bestknownscore w

/-- Null-move pruning with verification, then the rest of the node. -/
def abNullMove {B S : Type} (env : Env B S) (ab : Search B) (fuel : Nat) (L : Locals)
    (w : World B) : Result B :=
  let bestknownscore := bestKnownScore env L
  if w.pos.isCheckbb = 0 ∧ L.depth ≥ 2 ∧ bestknownscore ≥ L.beta
      ∧ (w.pos.ply ≥ w.pos.nullmoveply ∨ w.pos.ply.tmod 2 ≠ w.pos.nullmoveside) then
    let w := w.setPos (env.playNullMove w.pos)
    let R := nullMoveR L bestknownscore
    match ab (-L.beta) (-L.beta + 1) (L.depth - R) w with
    | none => none
    | some (r, w) =>
      let score := -r
      let w := w.setPos (env.unplayNullMove w.pos)
      if score ≥ L.beta then
        abNullMoveVerify env ab fuel L bestknownscore R
          (if env.MATEFORME score then L.beta else score) w
      else
        abProbCut env ab fuel L bestknownscore w
  else
    abProbCut env ab fuel L bestknownscore w

/-- Reverse futility pruning and the futility flag, then the rest of the node. -/
def abFutility {B S : Type} (env : Env B S) (ab : Search B) (fuel : Nat) (L : Locals)
    (w : World B) : Result B :=
  if L.depth ≤ 6 then
    -- reverse futility pruning
    if w.pos.isCheckbb = 0
        ∧ L.staticeval - L.depth * (72 - 20 * b2i L.positionImproved) > L.beta then
      some (L.staticeval, w)
    else
      abNullMove env ab fuel
        { L with futility := decide (L.staticeval < L.alpha - (100 + 80 * L.depth)) } w
  else
    abNullMove env ab fuel { L with futility := false } w

/-- Razoring, then the rest of the node. -/
def abRazor {B S : Type} (env : Env B S) (ab qs : Search B) (fuel : Nat) (L : Locals)
    (w : World B) : Result B :=
  if ¬ L.PVNode ∧ w.pos.isCheckbb = 0 ∧ L.depth ≤ 2 then
    let ralpha := L.alpha - 250 - L.depth * 50
    if L.staticeval < ralpha then
      if L.depth = 1 ∧ ralpha < L.alpha then
        qs L.alpha L.beta L.depth w
      else
        match qs ralpha (ralpha + 1) L.depth w with
        | none => none
        | some (value, w) =>
          if value ≤ ralpha then some (value, w) else abFutility env ab fuel L w
    else
      abFutility env ab fuel L w
  else
    abFutility env ab fuel L w

/-- Check extension, `prepareStack()`, the static evaluation and the `improving` flag, then
the rest of the node. -/
def abStaticEval {B S : Type} (env : Env B S) (ab qs : Search B) (fuel : Nat) (L : Locals)
    (w : World B) : Result B :=
  -- Check extension
  let extendall : Int := if w.pos.isCheckbb ≠ 0 then 1 else 0
  let w := w.setPos (env.prepareStack w.pos)
  -- get static evaluation of the position
  let staticeval :=
    if L.staticeval = env.NOSCORE then computeStaticeval env w.pos else L.staticeval
  let w := w.setPos { w.pos with
    staticevalstack := upd w.pos.staticevalstack w.pos.mstop staticeval }
  let positionImproved : Bool := decide (w.pos.mstop ≥ w.pos.rootheight + 2
    ∧ w.pos.staticevalstack w.pos.mstop > w.pos.staticevalstack (w.pos.mstop - 2))
  abRazor env ab qs fuel
    { L with extendall := extendall, staticeval := staticeval,
             positionImproved := positionImproved } w

/-- The bound and the score a successful tablebase probe with value `v` is mapped to at
ply `ply`. -/
def tbBoundScore {B S : Type} (env : Env B S) (v ply : Int) : Bound × Int :=
  if v ≤ -1 - b2i env.Syzygy50MoveRule then
    (Bound.HASHALPHA, -env.SCORETBWIN + ply)
  else if v ≥ 1 + b2i env.Syzygy50MoveRule then
    (Bound.HASHBETA, env.SCORETBWIN - ply)
  else
    (Bound.HASHEXACT, env.SCOREDRAW + v)

/-- The test `bound == HASHEXACT || (bound == HASHALPHA ? (score <= alpha) : (score >= beta))`
that guards the tablebase store. -/
def tbStoreTest (bound : Bound) (score alpha beta : Int) : Bool :=
  decide (bound = Bound.HASHEXACT) ||
    (if bound = Bound.HASHALPHA then decide (score ≤ alpha) else decide (score ≥ beta))

/-- The tablebase probe, then the rest of the node. -/
def abTB {B S : Type} (env : Env B S) (ab qs : Search B) (fuel : Nat) (L : Locals)
    (w : World B) : Result B :=
  if env.pieceCount w.pos ≤ env.useTb ∧ w.pos.halfmovescounter = 0 then
    if (env.probe_wdl w.pos).1 ≠ 0 then
      let v := (env.probe_wdl w.pos).2
      let w := { w with tbhits := w.tbhits + 1 }
      let bound := (tbBoundScore env v w.pos.ply).1
      let score := (tbBoundScore env v w.pos.ply).2
      if tbStoreTest bound score L.alpha L.beta then
        some (score, w.addHash w.pos.hash score L.staticeval bound env.MAXDEPTH 0)
      else
        some (score, w)
    else
      abStaticEval env ab qs fuel L w
  else
    abStaticEval env ab qs fuel L w

/-- The exclusion move, the hash key of the node and the transposition-table probe, then the
rest of the node. -/
def abProbe {B S : Type} (env : Env B S) (ab qs : Search B) (fuel : Nat)
    (alpha beta depth : Int) (PVNode : Bool) (rep : Int) (w : World B) : Result B :=
  -- Get move for singularity check and change hash to seperate partial searches from full searches
  let excludeMove := w.pos.excludemovestack (w.pos.mstop - 1) % 65536
  let w := w.setPos { w.pos with excludemovestack := upd w.pos.excludemovestack w.pos.mstop 0 }
  let newhash := w.pos.hash ^^^ excludeMove
  match w.probe env newhash env.NOSCORE env.NOSCORE 0 depth alpha beta w.pos.ply with
  | ((tpHit, hashscore, staticeval, hashmovecode), w) =>
    if tpHit = true ∧ rep = 0 then
      -- not a single repetition; we can (almost) safely trust the hash value
      let fullhashmove := env.shortMove2FullMove w.pos hashmovecode
      let w := if fullhashmove ≠ 0 then w.setPos (env.updatePvTable w.pos fullhashmove false) else w
      some (hashscore, w)
    else
      abTB env ab qs fuel
        { alpha := alpha, beta := beta, depth := depth, PVNode := PVNode, rep := rep,
          excludeMove := excludeMove, newhash := newhash, hashscore := hashscore,
          staticeval := staticeval, hashmovecode := hashmovecode, extendall := 0,
          positionImproved := false, futility := false } w

/-- The bookkeeping at the entry of `alphabeta`: `nodes++` and the reset of the principal
variation, `pvtable[ply][0] = 0`. -/
def abEnter {B : Type} (w : World B) : World B :=
  w.setPos { w.pos with nodes := w.pos.nodes + 1, pvtable := upd2 w.pos.pvtable w.pos.ply 0 0 }

/-- The body of `chessposition::alphabeta(alpha, beta, depth)`; `ab` and `qs` are the
recursive calls of `alphabeta` and `getQuiescence`. -/
def abNode {B S : Type} (env : Env B S) (ab qs : Search B) (fuel : Nat) : Search B :=
  fun alpha beta depth w =>
    let PVNode : Bool := decide (alpha ≠ beta - 1)
    let w := abEnter w
    -- test for remis via repetition
    let rep := env.testRepetiton w.pos
    if rep ≥ 2 then
      some (env.SCOREDRAW, w)
    -- test for remis via 50 moves rule
    else if w.pos.halfmovescounter ≥ 100 then
      if w.pos.isCheckbb = 0 then
        some (env.SCOREDRAW, w)
      else
        -- special case: test for checkmate
        if env.CreateMovelistEvasion w.pos > 0 then
          some (env.SCOREDRAW, w)
        else
          some (env.SCOREBLACKWINS + w.pos.ply, w)
    else
      let stop := env.stopLevel w.stopReads
      let w := { w with stopReads := w.stopReads + 1 }
      if stop = StopLevel.ENGINESTOPIMMEDIATELY then
        -- time is over; immediate stop requested
        some (beta, w)
      -- Reached depth? Do a qsearch
      else if depth ≤ 0 then
        -- update selective depth info
        let w :=
          if w.pos.seldepth < w.pos.ply + 1 then
            w.setPos { w.pos with seldepth := w.pos.ply + 1 }
          else w
        qs alpha beta depth w
      else
        abProbe env ab qs fuel alpha beta depth PVNode rep w

/-- `chessposition::alphabeta`, with a bound on the recursion depth and on the length of every
move loop. -/
def alphabeta {B S : Type} (env : Env B S) : Nat → Search B
  | 0 => fun _ _ _ _ => none
  | fuel + 1 => abNode env (alphabeta env fuel) (getQuiescence env fuel) fuel

/-! ## A concrete environment for examples -/

/-- A position with all counters and tables zero, at ply 0 with one entry on the move stack. -/
def examplePos : Pos Unit where
  toTables := Tables.zero
  board := ()
  nodes := 0
  ply := 0
  mstop := 1
  rootheight := 1
  seldepth := 0
  hash := 0x1234
  halfmovescounter := 0
  isCheckbb := 0
  state := 0
  nullmoveply := 0
  nullmoveside := 0
  pvtable := fun _ _ => 0
  movestack := fun _ => 0x10000314
  staticevalstack := fun _ => 0
  excludemovestack := fun _ => 0
  killer := fun _ _ => 0
  countermove := fun _ _ => 0
  rootmovelist := []
  bestmove := ⟨0, 0⟩
  pondermove := ⟨0, 0⟩
  defaultmove := ⟨0, 0⟩
  bestFailingLow := 0
  bestmovescore := fun _ => 0
  lastbestmovescore := 0
  multipvtable := fun _ _ => 0
  lastpv := fun _ => 0
  tbPosition := 0
  useRootmoveScore := 0
  threadindex := 0

/-- The world around `examplePos`: an untouched transposition table, no tablebase hits, no
read of the stop flag yet. -/
def exampleWorld : World Unit := { pos := examplePos, tt := [], tbhits := 0, stopReads := 0 }

/-- An environment for examples: the usual score constants, an empty transposition table
(every probe misses), no tablebases, a board without moves whose evaluation is 0, a stop flag
that stays at `ENGINERUN`. -/
def exampleEnv : Env Unit Unit where
  toMacros := exampleMacros
  SCOREDRAW := 0
  SCOREBLACKWINS := -30000
  SCOREWHITEWINS := 30000
  SCORETBWIN := 29900
  NOSCORE := -32001
  MAXDEPTH := 256
  BADTACTICALSTATE := 9
  tempo := 10
  S2MSIGN := fun s => if s = 0 then 1 else -1
  MATEFORME := fun s => decide (s > 29000)
  FIXMATESCOREADD := fun s _ => s
  useTb := 0
  Syzygy50MoveRule := false
  MultiPV := 1
  PVVAL := 0x40000000
  KILLERVAL1 := 0x20000000
  KILLERVAL2 := 0x20000001
  BLANK := 0
  mvv := fun p => p * 0x1000000
  lva := fun p => (7 - p) * 0x100000
  reductiontable := fun _ _ _ => 1
  lmptable := fun _ _ => 5
  materialvalue := fun _ => 0
  stopLevel := fun _ => StopLevel.ENGINERUN
  testRepetiton := fun _ => 0
  CreateMovelistEvasion := fun _ => 0
  pieceCount := fun _ => 32
  probe_wdl := fun _ => (0, 0)
  shortMove2FullMove := fun _ m => m
  getEval := fun _ => 0
  getBestPossibleCapture := fun _ => 0
  getMovesTactical := fun _ => []
  see := fun _ _ _ => true
  moveGivesCheck := fun _ _ => false
  updatePvTable := fun p mc _ => { p with pvtable := upd2 p.pvtable p.ply 0 mc }
  updateMultiPvTable := fun p _ _ _ => p
  prepareStack := fun p => p
  playNullMove := fun p => p
  unplayNullMove := fun p => p
  playMove := fun p _ => (true, p)
  unplayMove := fun p _ => p
  probeHash := fun _ _ val staticeval movecode _ _ _ _ => (false, val, staticeval, movecode)
  getMoveCode := fun _ _ => 0
  SetPreferredMovesQs := fun _ => { state := 0, cmptr := [], rest := () }
  SetPreferredMoves := fun _ _ _ _ _ _ => { state := 0, cmptr := [], rest := () }
  next := fun ms _ => (none, ms)

/-- An environment in which the current position is a second repetition. -/
def repetitionEnv : Env Unit Unit := { exampleEnv with testRepetiton := fun _ => 2 }

/-- An environment in which the stop flag reads `ENGINESTOPIMMEDIATELY` at every read. -/
def stoppedEnv : Env Unit Unit :=
  { exampleEnv with stopLevel := fun _ => StopLevel.ENGINESTOPIMMEDIATELY }

/-- An environment in which the stop flag reads `ENGINESTOPIMMEDIATELY` at every read and the
current position is a second repetition. -/
def stoppedRepetitionEnv : Env Unit Unit :=
  { exampleEnv with
      stopLevel := fun _ => StopLevel.ENGINESTOPIMMEDIATELY
      testRepetiton := fun _ => 2 }

/-- The move loop of quiescence for a node in check, as the spec words it: per-move delta
pruning applies only when not in check, so every move of the selector is applied; a beta cut
returns at once, a raise of alpha updates the principal variation, and when no legal move was
found the result is the mate score `SCOREBLACKWINS + ply`. -/
def qsLoopInCheck {B S : Type} (env : Env B S) (qs : Search B) (beta depth : Int) :
    Nat → Int → Int → Int → MoveSelector S → World B → Result B
  | 0, _, _, _, _, _ => none
  | n + 1, alpha, bestscore, legalmovenum, ms, w =>
    match env.next ms w.pos with
    | (none, _) =>
      if legalmovenum = 0 then some (env.SCOREBLACKWINS + w.pos.ply, w) else some (bestscore, w)
    | (some m, ms) =>
      match env.playMove w.pos m with
      | (false, p) => qsLoopInCheck env qs beta depth n alpha bestscore legalmovenum ms (w.setPos p)
      | (true, p) =>
        match qs (-beta) (-alpha) (depth - 1) (w.setPos p) with
        | none => none
        | some (r, w) =>
          let w := w.setPos (env.unplayMove w.pos m)
          if -r > bestscore then
            if -r ≥ beta then some (-r, w)
            else if -r > alpha then
              qsLoopInCheck env qs beta depth n (-r) (-r) (legalmovenum + 1) ms
                (w.setPos (env.updatePvTable w.pos m true))
            else qsLoopInCheck env qs beta depth n alpha (-r) (legalmovenum + 1) ms w
          else qsLoopInCheck env qs beta depth n alpha bestscore (legalmovenum + 1) ms w

/-- The position reached when, within the given number of calls, the selector runs out of
moves and `playMove` has rejected every move it returned; `none` if some move is legal or the
selector has not run out by then. -/
def noLegalMove {B S : Type} (env : Env B S) : Nat → MoveSelector S → Pos B → Option (Pos B)
  | 0, _, _ => none
  | k + 1, ms, p =>
    match env.next ms p with
    | (none, _) => some p
    | (some m, ms) =>
      match env.playMove p m with
      | (false, p) => noLegalMove env k ms p
      | (true, _) => none

/-- The example world with the side to move in check. -/
def checkWorld : World Unit := { exampleWorld with pos := { examplePos with isCheckbb := 1 } }

/-! ## Predicates on runs -/

/-- The table of `w'` is the table of `w` followed by operations that all satisfy `P`. -/
def TTExtends {B : Type} (P : TTOp → Prop) (w w' : World B) : Prop :=
  ∃ l : List TTOp, w'.tt = w.tt ++ l ∧ ∀ op ∈ l, P op

/-- Every returning call of the search function `f` appends to the table only operations
that satisfy `P`. -/
def AppendsOnly {B : Type} (P : TTOp → Prop) (f : Search B) : Prop :=
  ∀ (alpha beta depth : Int) (w : World B) (r : Int) (w' : World B),
    f alpha beta depth w = some (r, w') → TTExtends P w w'

/-- An operation an `alphabeta` node performs itself on a position with hash `h` while the
exclusion move `e` is active: a probe or a move lookup with the key `h XOR e`, never a
store. -/
def ExclusionOp (h e : Nat) (op : TTOp) : Prop :=
  op.isStore = false ∧ op.key = h ^^^ e

/-- The tablebase probe of `alphabeta` (lines 368-395) succeeds on the position `p`: few
enough pieces, `halfmovescounter == 0`, and `probe_wdl` reports success. -/
def TbSuccess {B S : Type} (env : Env B S) (p : Pos B) : Prop :=
  env.pieceCount p ≤ env.useTb ∧ p.halfmovescounter = 0 ∧ (env.probe_wdl p).1 ≠ 0

/-- `P` holds of the state returned by a search call, if it returned. -/
def ResultAll {B : Type} (P : World B → Prop) : Result B → Prop
  | none => True
  | some (_, w') => P w'

/-- `P` holds of the state a step ends in, whether it returns or continues; `proj` extracts
the state from the continuation value. -/
def StepAll {B σ : Type} (proj : σ → World B) (P : World B → Prop) :
    Step σ (Int × World B) → Prop
  | Step.fuel => True
  | Step.ret (_, w') => P w'
  | Step.cont s => P (proj s)

/-- An environment with tablebases: positions of up to 32 pieces are probed and every probe
succeeds with the value 2 (a win). -/
def tablebaseEnv : Env Unit Unit :=
  { exampleEnv with
      useTb := 32
      probe_wdl := fun _ => (1, 2) }

/-- The example world inside a singular-extension search: the exclusion move `0x0314` is
active for the current node (`excludemovestack[mstop - 1]`, with `mstop = 1`). -/
def exclusionWorld : World Unit :=
  { exampleWorld with
      pos := { examplePos with excludemovestack := fun i => if i = 0 then 0x0314 else 0 } }

/-! ## Root search -/

/-- The template parameter `RootsearchType RT` of `rootsearch` and `search_gen1`. -/
inductive RootsearchType where
  | SinglePVSearch
  | MultiPVSearch
  | PonderSearch
  deriving DecidableEq, Repr

/-- `swap(rootmovelist.move[i], rootmovelist.move[j])` -/
def swapMoves (l : List chessmove) (i j : Nat) : List chessmove :=
  (l.set i (l.getD j ⟨0, 0⟩)).set j (l.getD i ⟨0, 0⟩)

/-- Modelled from the spec: `operator<` of `chessmove` is declared in `RubiChess.h`; the spec
says the root moves are iterated in descending `value`, so moves are compared by `value`.
The function is the selection step
`for (j = i + 1; j < length; j++) if (move[i] < move[j]) swap(move[i], move[j]);`. -/
def selectBest (l : List chessmove) (i : Nat) : List chessmove :=
  (List.range' (i + 1) (l.length - (i + 1))).foldl
    (fun l j => if (l.getD i ⟨0, 0⟩).value < (l.getD j ⟨0, 0⟩).value then swapMoves l i j else l) l

/-- The value a root move gets in the block "Reset move values". -/
def rootMoveValue {B S : Type} (env : Env B S) (p : Pos B) (hashmovecode : Nat) (m : chessmove) :
    Int :=
  -- PV moves gets top score
  if hashmovecode = m.code &&& 0xffff then env.PVVAL
  else if p.bestFailingLow = m.code then env.KILLERVAL2 - 1
  -- killermoves gets score better than non-capture
  else if p.killer 0 0 = m.code then env.KILLERVAL1
  else if p.killer 0 1 = m.code then env.KILLERVAL2
  else if env.GETCAPTURE m.code ≠ env.BLANK then
    ((env.mvv (env.GETCAPTURE m.code >>> 1) ||| env.lva (env.GETPIECE m.code >>> 1) : Nat) : Int)
  else p.history (p.state &&& env.S2MMASK) (env.GETFROM m.code) (env.GETTO m.code)

/-- The insertion loop of the MultiPV table: starting at `newindex`, entries with a score
below `score` are moved one rank down together with their lines.  Returns the final
`newindex`.  The first argument bounds the number of iterations. -/
def multiPvShift {B : Type} (score : Int) : Nat → Int → Pos B → Int × Pos B
  | 0, newindex, p => (newindex, p)
  | k + 1, newindex, p =>
    if newindex > 0 ∧ score > p.bestmovescore (newindex - 1) then
      let p := { p with bestmovescore := upd p.bestmovescore newindex (p.bestmovescore (newindex - 1)) }
      let srctable := if newindex - 1 ≠ 0 then p.multipvtable (newindex - 1) else p.pvtable 0
      let p := { p with multipvtable := upd p.multipvtable newindex srctable }
      multiPvShift score k (newindex - 1) p
    else (newindex, p)

/-- Locals of `rootsearch` that change while the root move loop runs. -/
structure RootState where
  alpha : Int
  bestscore : Int
  eval_type : Bound
  lastmoveindex : Int
  quietMoves : List Nat

/-- Locals of `rootsearch` that are fixed while the root move loop runs. -/
structure RootCtx where
  RT : RootsearchType
  beta : Int
  depth : Int
  extendall : Int
  maxmoveindex : Int
  staticeval : Int

/-- The search of one root move: the score and the final value of `effectiveDepth`. -/
def rootSearchMove {B : Type} (ab : Search B) (c : RootCtx) (alpha : Int) (eval_type : Bound)
    (reduction : Int) (w : World B) : Option (Int × Int × World B) :=
  if eval_type ≠ Bound.HASHEXACT then
    -- First move ("PV-move"); do a normal search
    let effectiveDepth := c.depth + c.extendall - reduction
    match ab (-c.beta) (-alpha) (effectiveDepth - 1) w with
    | none => none
    | some (r, w) =>
      if reduction ≠ 0 ∧ -r > alpha then
        -- research without reduction
        match ab (-c.beta) (-alpha) (effectiveDepth + reduction - 1) w with
        | none => none
        | some (r, w) => some (-r, effectiveDepth + reduction, w)
      else
        some (-r, effectiveDepth, w)
  else
    -- try a PV-Search
    let effectiveDepth := c.depth + c.extendall
    match ab (-alpha - 1) (-alpha) (effectiveDepth - 1) w with
    | none => none
    | some (r, w) =>
      if -r > alpha ∧ -r < c.beta then
        -- reasearch with full window
        match ab (-c.beta) (-alpha) (effectiveDepth - 1) w with
        | none => none
        | some (r, w) => some (-r, effectiveDepth, w)
      else
        some (-r, effectiveDepth, w)

/-- The MultiPV block of the root move loop: the new score is inserted into
`bestmovescore[0 .. lastmoveindex]`, alpha is raised to the score of the last ranked line. -/
def rootMultiPv {B S : Type} (env : Env B S) (c : RootCtx) (m : chessmove) (score : Int)
    (st : RootState) (w : World B) : RootState × World B :=
  let np := multiPvShift score st.lastmoveindex.toNat st.lastmoveindex w.pos
  let newindex := np.1
  let p := env.updateMultiPvTable np.2 newindex m.code true
  let p := { p with bestmovescore := upd p.bestmovescore newindex score }
  let lastmoveindex :=
    if st.lastmoveindex < c.maxmoveindex - 1 then st.lastmoveindex + 1 else st.lastmoveindex
  let alpha :=
    if p.bestmovescore (c.maxmoveindex - 1) > st.alpha then p.bestmovescore (c.maxmoveindex - 1)
    else st.alpha
  ({ st with lastmoveindex := lastmoveindex, alpha := alpha, eval_type := Bound.HASHEXACT },
    w.setPos p)

/-- The single-PV block executed when a root move raises alpha: principal variation, best
move, ponder move, `alpha = score`. -/
def rootRaiseAlpha {B S : Type} (env : Env B S) (c : RootCtx) (m : chessmove) (score : Int)
    (st : RootState) (w : World B) : RootState × World B :=
  let p := env.updatePvTable w.pos m.code true
  let p :=
    if p.bestmove.code ≠ p.pvtable 0 0 then
      let p := { p with bestmove := { p.bestmove with code := p.pvtable 0 0 } }
      if c.RT = RootsearchType.PonderSearch then
        { p with pondermove := { p.pondermove with code := p.pvtable 0 1 } }
      else p
    else if c.RT = RootsearchType.PonderSearch ∧ p.pvtable 0 1 ≠ 0 then
      -- use new ponder move
      { p with pondermove := { p.pondermove with code := p.pvtable 0 1 } }
    else p
  let p := { p with bestmovescore := upd p.bestmovescore 0 score }
  ({ st with alpha := score, eval_type := Bound.HASHEXACT }, w.setPos p)

/-- The statistics update at a beta cutoff by the quiet root move `m`.  The selector of
`rootsearch` is a dummy whose `cmptr` entries are all `NULL` (here: the empty list). -/
def rootCutoffQuiet {B S : Type} (env : Env B S) (c : RootCtx) (m : chessmove) (st : RootState)
    (p : Pos B) : Pos B :=
  let T := updateHistory env.toMacros m.code [] (c.depth * c.depth) p.toTables
  let T := (st.quietMoves.take (st.quietMoves.length - 1)).foldl
    (fun T qm => updateHistory env.toMacros qm [] (-(c.depth * c.depth)) T) T
  let p := { p with toTables := T }
  if p.killer 0 0 ≠ m.code then
    { p with killer := upd2 (upd2 p.killer 0 1 (p.killer 0 0)) 0 0 m.code }
  else p

/-- `if (!ISTACTICAL(m->code)) quietMoves[quietsPlayed++] = m->code;` in the root move loop. -/
def rootPushQuiet {B S : Type} (env : Env B S) (m : chessmove) (st : RootState) : RootState :=
  if ¬ env.ISTACTICAL m.code then { st with quietMoves := st.quietMoves ++ [m.code] } else st

/-- The block `if (isMultiPV) { if (score > bestmovescore[lastmoveindex]) … }` of the root move
loop. -/
def rootRank {B S : Type} (env : Env B S) (c : RootCtx) (m : chessmove) (score : Int)
    (st : RootState) (w : World B) : RootState × World B :=
  if c.RT = RootsearchType.MultiPVSearch ∧ score > w.pos.bestmovescore st.lastmoveindex then
    rootMultiPv env c m score st w
  else (st, w)

/-- The block `if (score >= beta) …` of the root move loop: statistics of a quiet move, the
store, and the value returned. -/
def rootCut {B S : Type} (env : Env B S) (c : RootCtx) (m : chessmove) (effectiveDepth : Int)
    (st : RootState) (w : World B) : Int × World B :=
  let w := if ¬ env.ISTACTICAL m.code then w.setPos (rootCutoffQuiet env c m st w.pos) else w
  -- fail hard beta-cutoff
  (c.beta,
    w.addHash w.pos.hash c.beta c.staticeval Bound.HASHBETA effectiveDepth (m.code % 65536))

/-- The block "We have a new best move": `if (score > alpha) … else if (!isMultiPV) …`. -/
def rootBestMove {B S : Type} (env : Env B S) (c : RootCtx) (m : chessmove)
    (score effectiveDepth : Int) (st : RootState) (w : World B) :
    Step (RootState × World B) (Int × World B) :=
  if score > st.alpha then
    let sw := if c.RT ≠ RootsearchType.MultiPVSearch then rootRaiseAlpha env c m score st w
      else (st, w)
    if score ≥ c.beta then
      Step.ret (rootCut env c m effectiveDepth sw.1 sw.2)
    else
      Step.cont sw
  else if c.RT ≠ RootsearchType.MultiPVSearch then
    -- at fail low don't overwrite an existing move
    Step.cont (st, if w.pos.bestmove.code = 0 then w.setPos { w.pos with bestmove := m } else w)
  else
    Step.cont (st, w)

/-- The root move loop body after the stop test, for the searched move `m`. -/
def rootUpdate {B S : Type} (env : Env B S) (c : RootCtx) (m : chessmove)
    (score effectiveDepth : Int) (st : RootState) (w : World B) :
    Step (RootState × World B) (Int × World B) :=
  let st := rootPushQuiet env m st
  if (c.RT = RootsearchType.MultiPVSearch ∧ score ≤ w.pos.bestmovescore st.lastmoveindex)
      ∨ (c.RT ≠ RootsearchType.MultiPVSearch ∧ score ≤ st.bestscore) then
    Step.cont (st, w)
  else
    let sw := rootRank env c m score { st with bestscore := score }
      (w.setPos { w.pos with bestFailingLow := m.code })
    rootBestMove env c m score effectiveDepth sw.1 sw.2

/-- The late-move-reduction block of the root move loop: the value of `reduction` for the
move with code `m` at index `i`. -/
def rootReduction {B S : Type} (env : Env B S) (c : RootCtx) (i : Nat) (m : Nat) : Int :=
  if c.extendall = 0 ∧ c.depth > 2 ∧ ¬ env.ISTACTICAL m then
    env.reductiontable false c.depth (min 63 (i + 1))
  else 0

/-- One iteration of the root move loop, for the index `i`.  The `currmove` output is not
modelled. -/
def rootMove {B S : Type} (env : Env B S) (ab : Search B) (c : RootCtx) (i : Nat)
    (st : RootState) (w : World B) : Step (RootState × World B) (Int × World B) :=
  let w := w.setPos { w.pos with rootmovelist := selectBest w.pos.rootmovelist i }
  let m := w.pos.rootmovelist.getD i ⟨0, 0⟩
  let w := w.setPos (env.playMove w.pos m.code).2
  let reduction := rootReduction env c i m.code
  match rootSearchMove ab c st.alpha st.eval_type reduction w with
  | none => Step.fuel
  | some (score, effectiveDepth, w) =>
    let w := w.setPos (env.unplayMove w.pos m.code)
    let stop := env.stopLevel w.stopReads
    let w := { w with stopReads := w.stopReads + 1 }
    if stop = StopLevel.ENGINESTOPIMMEDIATELY then
      -- time over; immediate stop requested
      Step.ret (st.bestscore, w)
    else
      rootUpdate env c m score effectiveDepth st w

/-- The code of `rootsearch` after the root move loop. -/
def rootFinish {B : Type} (c : RootCtx) (st : RootState) (w : World B) : Int × World B :=
  if c.RT = RootsearchType.MultiPVSearch then
    if st.eval_type = Bound.HASHEXACT then
      (w.pos.bestmovescore (c.maxmoveindex - 1), w)
    else
      (st.alpha, w)
  else
    (st.alpha, w.addHash w.pos.hash st.alpha c.staticeval st.eval_type c.depth
      (w.pos.bestmove.code % 65536))

/-- The root move loop `for (i = 0; i < rootmovelist.length; i++) …` from index `i` on,
followed by the code after it.  The first argument bounds the number of iterations. -/
def rootLoop {B S : Type} (env : Env B S) (ab : Search B) (c : RootCtx) :
    Nat → Nat → RootState → World B → Result B
  | 0, _, _, _ => none
  | k + 1, i, st, w =>
    if i < w.pos.rootmovelist.length then
      match rootMove env ab c i st w with
      | Step.fuel => none
      | Step.ret r => some r
      | Step.cont (st, w) => rootLoop env ab c k (i + 1) st w
    else
      some (rootFinish c st w)

/-- The part of `rootsearch` after the early transposition-table return: check extension,
the reset of the move values, the static evaluation, the root move loop and the end. -/
def rootMain {B S : Type} (env : Env B S) (ab : Search B) (RT : RootsearchType) (fuel : Nat)
    (alpha beta depth maxmoveindex staticeval : Int) (hashmovecode : Nat) (w : World B) :
    Result B :=
  let extendall : Int := if w.pos.isCheckbb ≠ 0 then 1 else 0
  let w :=
    if w.pos.tbPosition = 0 then
      -- Reset move values
      let moves := w.pos.rootmovelist.map
        (fun m => { m with value := rootMoveValue env w.pos hashmovecode m })
      w.setPos { w.pos with rootmovelist := moves }
    else w
  -- get static evaluation of the position
  let staticeval :=
    if staticeval = env.NOSCORE then env.S2MSIGN (w.pos.state &&& env.S2MMASK) * env.getEval w.pos
    else staticeval
  let w := w.setPos { w.pos with
    staticevalstack := upd w.pos.staticevalstack w.pos.mstop staticeval }
  rootLoop env ab
    { RT := RT, beta := beta, depth := depth, extendall := extendall,
      maxmoveindex := maxmoveindex, staticeval := staticeval }
    fuel 0
    { alpha := alpha, bestscore := env.NOSCORE, eval_type := Bound.HASHALPHA, lastmoveindex := 0,
      quietMoves := [] }
    w

/-- The loop `for (int i = 0; i < maxmoveindex; i++) { multipvtable[i][0] = 0;
bestmovescore[i] = SHRT_MIN + 1; }` at the start of a MultiPV root search. -/
def multiPvReset {B : Type} (maxmoveindex : Nat) (w : World B) : World B :=
  (List.range maxmoveindex).foldl
    (fun w (i : Nat) => w.setPos { w.pos with
      multipvtable := upd2 w.pos.multipvtable (i : Int) 0 0,
      bestmovescore := upd w.pos.bestmovescore (i : Int) (SHRT_MIN + 1) }) w

/-- The bookkeeping at the entry of `rootsearch`: `nodes++` and the reset of the principal
variation, `pvtable[0][0] = 0`. -/
def rootEnter {B : Type} (w : World B) : World B :=
  let w := w.setPos { w.pos with nodes := w.pos.nodes + 1 }
  -- reset pv
  w.setPos { w.pos with pvtable := upd2 w.pos.pvtable 0 0 0 }

/-- `chessposition::rootsearch<RT>(alpha, beta, depth)`.  `ab` is the call of `alphabeta`;
`score0` is the indeterminate initial value of the uninitialised local `score`, which is
handed to `probeHash` by address; `fuel` bounds the number of iterations of the root move
loop. -/
def rootsearch {B S : Type} (env : Env B S) (ab : Search B) (RT : RootsearchType) (fuel : Nat)
    (score0 : Int) : Search B :=
  fun alpha beta depth w =>
    let isMultiPV : Bool := decide (RT = RootsearchType.MultiPVSearch)
    let w := rootEnter w
    let maxmoveindex : Int := min env.MultiPV w.pos.rootmovelist.length
    let w := if isMultiPV then multiPvReset maxmoveindex.toNat w else w
    if ¬ isMultiPV ∧ w.pos.useRootmoveScore = 0 then
      match w.probe env w.pos.hash score0 env.NOSCORE 0 depth alpha beta 0 with
      | ((hit, score, staticeval, hashmovecode), w) =>
        if hit = true ∧ env.testRepetiton w.pos = 0
            ∧ env.shortMove2FullMove w.pos hashmovecode ≠ 0 then
          -- Not a single repetition so we trust the hash value
          let fullhashmove := env.shortMove2FullMove w.pos hashmovecode
          let p := w.pos
          let p :=
            if p.bestmove.code ≠ fullhashmove then
              let p := { p with bestmove := { p.bestmove with code := fullhashmove } }
              if RT = RootsearchType.PonderSearch then
                { p with pondermove := { p.pondermove with code := 0 } }
              else p
            else p
          let p := env.updatePvTable p fullhashmove false
          let p := if score > alpha then { p with bestmovescore := upd p.bestmovescore 0 score } else p
          some (score, w.setPos p)
        else
          rootMain env ab RT fuel alpha beta depth maxmoveindex staticeval hashmovecode w
    else
      rootMain env ab RT fuel alpha beta depth maxmoveindex env.NOSCORE 0 w

/-! ## Time management and the search driver -/

/-- Conversion of an `int` to the unsigned 64-bit type `U64`. -/
def toU64 (x : Int) : Nat := (x % 18446744073709551616).toNat

/-- Reduction of an unsigned 64-bit result modulo `2^64`. -/
def wrapU64 (x : Nat) : Nat := x % 18446744073709551616

/-- The difference `a - b` of two `U64` values. -/
def subU64 (a b : Nat) : Nat := wrapU64 (a + 18446744073709551616 - b)

/-- The members of the global engine object `en` that the search driver reads or writes.
`stopLevel` is the flag as this thread sees it; the time stamps are `U64` values. -/
structure Engine where
  stopLevel : StopLevel
  starttime : Nat
  endtime1 : Nat
  endtime2 : Nat
  frequency : Nat
  lastReport : Int
  moveoutput : Bool
  benchdepth : Int
  -- limits set by the `go` command
  isWhite : Bool
  wtime : Int
  btime : Int
  winc : Int
  binc : Int
  movestogo : Int
  moveOverhead : Int
  Threads : Int
  mate : Int
  maxdepth : Int
  maxnodes : Nat
  terminationscore : Int
  ponder : Bool
  /-- the pondering state behind `isPondering()`, `testPonderHit()` and `resetPonder()` -/
  pondersearch : Nat

/-- The hard budget in ms of the time control with `movestogo`,
`min(max(0, timetouse - overhead * en.movestogo), f2 * timetouse / (en.movestogo + 1) / 10)`.
The operands are `int`; every sum, difference and product is reduced to 32 bits. -/
def movestogoHard (timetouse overhead movestogo f2 : Int) : Int :=
  min (max 0 (wrapInt 32 (timetouse - wrapInt 32 (overhead * movestogo))))
    (((wrapInt 32 (f2 * timetouse)).tdiv (wrapInt 32 (movestogo + 1))).tdiv 10)

/-- A budget in ms of sudden death with increment,
`max(timeinc, f * (timetouse + timeinc) / (256 - ph))`.  The operands are `int`; the sum and
the product are reduced to 32 bits. -/
def incrementBudget (timetouse timeinc f ph : Int) : Int :=
  max timeinc ((wrapInt 32 (f * wrapInt 32 (timetouse + timeinc))).tdiv (256 - ph))

/-- `resetEndTime(constantRootMoves, complete)`; `ph` is the value of
`en.sthread[0].pos.phase()`.  The `int` products and sums over the clock values (`timetouse`,
`timeinc`, `movestogo`) are reduced to 32 bits (`wrapInt 32`), the `U64` expressions modulo
`2^64`.  The factors `f1`, `f2` and `overhead` are sums of a few small option values and a
move count; they and `timetouse - overhead` are exact. -/
def resetEndTime (en : Engine) (ph : Int) (constantRootMoves : Int) (complete : Bool) : Engine :=
  let timetouse := if en.isWhite then en.wtime else en.btime
  let timeinc := if en.isWhite then en.winc else en.binc
  let overhead := en.moveOverhead + 8 * en.Threads
  if en.movestogo ≠ 0 then
    -- stop soon at 0.9...1.9 x average movetime
    -- stop immediately at 1.5...2.5 x average movetime
    let f1 := max 9 (19 - constantRootMoves * 2)
    let f2 := max 15 (25 - constantRootMoves * 2)
    let en :=
      if complete then
        { en with endtime1 := wrapU64 (en.starttime
            + wrapU64 (wrapU64 (toU64 timetouse * en.frequency) * toU64 f1)
                / toU64 (wrapInt 32 (en.movestogo + 1)) / 10000) }
      else en
    { en with endtime2 := wrapU64 (en.starttime
        + wrapU64 (toU64 (movestogoHard timetouse overhead en.movestogo f2) * en.frequency)
            / 1000) }
  else if timetouse ≠ 0 then
    if timeinc ≠ 0 then
      -- sudden death with increment; split the remaining time in (256-phase) timeslots
      let f1 := max 5 (15 - constantRootMoves * 2)
      let f2 := max 15 (25 - constantRootMoves * 2)
      let en :=
        if complete then
          { en with endtime1 := wrapU64 (en.starttime
              + wrapU64 (toU64 (incrementBudget timetouse timeinc f1 ph) * en.frequency)
                  / 1000) }
        else en
      { en with endtime2 := wrapU64 (en.starttime
          + wrapU64 (toU64 (min (max 0 (timetouse - overhead))
              (incrementBudget timetouse timeinc f2 ph)) * en.frequency)
            / 1000) }
    else
      -- sudden death without increment; play for another x;y moves
      let f1 := min 42 (32 + constantRootMoves * 2)
      let f2 := min 22 (12 + constantRootMoves * 2)
      let en :=
        if complete then
          { en with endtime1 := wrapU64 (en.starttime
              + wrapU64 (toU64 (timetouse.tdiv f1) * en.frequency) / 1000) }
        else en
      { en with endtime2 := wrapU64 (en.starttime
          + wrapU64 (toU64 (min (max 0 (timetouse - overhead)) (timetouse.tdiv f2))
              * en.frequency) / 1000) }
  else if timeinc ≠ 0 then
    -- timetouse = 0 => movetime mode: Use exactly timeinc without overhead or early stop
    let t := wrapU64 (en.starttime + wrapU64 (toU64 timeinc * en.frequency) / 1000)
    { en with endtime1 := t, endtime2 := t }
  else
    { en with endtime1 := 0, endtime2 := 0 }

/-- `startSearchTime(complete)`; `now` is the value returned by `getTime()`. -/
def startSearchTime (en : Engine) (now : Nat) (ph : Int) (complete : Bool) : Engine :=
  resetEndTime { en with starttime := now } ph 0 complete

/-- `static const int SkipSize[16]` -/
def SkipSize : List Int := [1, 1, 1, 2, 2, 2, 1, 3, 2, 2, 1, 3, 3, 2, 2, 1]

/-- `static const int SkipDepths[16]` -/
def SkipDepths : List Int := [1, 2, 2, 4, 4, 3, 2, 5, 4, 3, 2, 6, 5, 4, 3, 2]

/-- What `search.cpp` uses of the driver's surroundings and does not define: the pondering
state machine of `en` (taken to read and write only the member `pondersearch`), the clock,
the game phase and the mate test macro. -/
structure Driver (B : Type) where
  /-- `en.isPondering()`, a test on `en.pondersearch` -/
  isPondering : Nat → Bool
  /-- `en.testPonderHit()`, a test on `en.pondersearch` -/
  testPonderHit : Nat → Bool
  /-- `en.resetPonder()`: the new value of `en.pondersearch` -/
  resetPonder : Nat → Nat
  /-- the value of the `n`-th call of `getTime()` -/
  getTime : Nat → Nat
  /-- `pos.phase()` -/
  phase : Pos B → Int
  MATEDETECTED : Int → Bool
  /-- the value of the `n`-th call of `en.getTotalNodes()` -/
  getTotalNodes : Nat → Nat

/-- One `info … score …` line written by `uciScore`.  The node count, speed, hash filling and
the text of the principal variation come from collaborators and are left out. -/
structure UciInfo where
  depth : Int
  seldepth : Int
  multipv : Int
  time : Int
  /-- `score cp V` -/
  cp : Option Int
  /-- `score mate M` -/
  mate : Option Int
  /-- `inWindow`: 0 prints `upperbound`, 2 prints `lowerbound`, 1 nothing -/
  bound : Int
  deriving DecidableEq, Repr

/-- The state of one worker running `search_gen1`: its position and table (`w`), the engine
object, the members of `searchthread`, and the locals of the function that live across
iterations. -/
structure GenState (B : Type) where
  w : World B
  en : Engine
  /-- `thr->depth` -/
  depth : Int
  /-- `thr->lastCompleteDepth` -/
  lastCompleteDepth : Int
  /-- `thr->index` -/
  index : Int
  score : Int
  alpha : Int
  beta : Int
  deltaalpha : Int
  deltabeta : Int
  maxdepth : Int
  inWindow : Int
  reportedThisDepth : Bool
  lastBestMove : Nat
  constantRootMoves : Int
  /-- the lines written to `cout` so far -/
  out : List UciInfo
  /-- the number of calls of `getTime()` made so far -/
  timeReads : Nat

/-- Replaces the position of the worker. -/
def GenState.setPos {B : Type} (g : GenState B) (p : Pos B) : GenState B :=
  { g with w := g.w.setPos p }

/-- A call `pos->rootsearch<RT>(alpha, beta, depth)` made by `search_gen1`: the returned score
and the state afterwards (the other threads may have changed `en` meanwhile). -/
abbrev RootCall (B : Type) := Int → Int → Int → GenState B → Option (Int × GenState B)

/-- The block `// new aspiration window` of `search_gen1`, run on the score that `rootsearch`
returned (`g.score`). -/
def genAspiration {B S : Type} (env : Env B S) (RT : RootsearchType) (g : GenState B) :
    GenState B :=
  if g.score = g.alpha then
    -- research with lower alpha and reduced beta
    let beta := (g.alpha + g.beta).tdiv 2
    let alpha := max (SHRT_MIN + 1) (g.alpha - g.deltaalpha)
    let deltaalpha := g.deltaalpha + (g.deltaalpha.tdiv 4 + 2)
    let deltaalpha := if |alpha| > 1000 then SHRT_MAX * 2 else deltaalpha
    { g with beta := beta, alpha := alpha, deltaalpha := deltaalpha, inWindow := 0,
             reportedThisDepth := false }
  else if g.score = g.beta then
    -- research with higher beta
    let beta := min SHRT_MAX (g.beta + g.deltabeta)
    let deltabeta := g.deltabeta + (g.deltabeta.tdiv 4 + 2)
    let deltabeta := if |beta| > 1000 then SHRT_MAX * 2 else deltabeta
    { g with beta := beta, deltabeta := deltabeta, inWindow := 2, reportedThisDepth := false }
  else
    let g := { g with lastCompleteDepth := g.depth }
    if g.score ≥ g.en.terminationscore then
      -- bench mode reached needed score
      { g with en := { g.en with stopLevel := StopLevel.ENGINEWANTSTOP } }
    else if g.depth > 4 then
      -- next depth with new aspiration window
      let alpha :=
        if RT = RootsearchType.MultiPVSearch then g.w.pos.bestmovescore (env.MultiPV - 1) - 8
        else g.score - 8
      { g with deltaalpha := 8, deltabeta := 8, alpha := alpha, beta := g.score + 8 }
    else g

/-- The first two statements of the loop body: `inWindow = 1; pos->seldepth = thr->depth;`. -/
def genStart {B : Type} (g : GenState B) : GenState B :=
  { g with inWindow := 1 }.setPos { g.w.pos with seldepth := g.depth }

/-- The first part of the body of the iteration loop of `search_gen1`: the terminal root
positions, otherwise the call of `rootsearch` and the new aspiration window. -/
def genSearch {B S : Type} (env : Env B S) (root : RootCall B) (RT : RootsearchType)
    (g : GenState B) : Option (GenState B) :=
  let g := genStart g
  if g.w.pos.rootmovelist.length = 0 then
    -- mate / stalemate
    let score := if g.w.pos.isCheckbb ≠ 0 then env.SCOREBLACKWINS else env.SCOREDRAW
    let g := g.setPos { g.w.pos with
      bestmove := { g.w.pos.bestmove with code := 0 },
      bestmovescore := upd g.w.pos.bestmovescore 0 score }
    some { g with score := score, en := { g.en with stopLevel := StopLevel.ENGINESTOPPED } }
  else if env.testRepetiton g.w.pos ≥ 2 ∨ g.w.pos.halfmovescounter ≥ 100 then
    -- remis via repetition or 50 moves rule
    let p := { g.w.pos with bestmove := { g.w.pos.bestmove with code := 0 } }
    let p :=
      if RT = RootsearchType.PonderSearch then { p with pondermove := { p.pondermove with code := 0 } }
      else p
    let g := g.setPos { p with bestmovescore := upd p.bestmovescore 0 env.SCOREDRAW }
    some { g with score := env.SCOREDRAW,
                  en := { g.en with stopLevel := StopLevel.ENGINESTOPPED } }
  else
    match root g.alpha g.beta g.depth g with
    | none => none
    | some (score, g) => some (genAspiration env RT { g with score := score })

/-- The loop that copies `pvtable[0]` to `lastpv`, from index `i` on; returns the final `i`
and `bDiffers`.  The first argument bounds the number of iterations. -/
def copyPvLoop {B : Type} : Nat → Int → Bool → Pos B → Int × Bool × Pos B
  | 0, i, bDiffers, p => (i, bDiffers, p)
  | k + 1, i, bDiffers, p =>
    if p.pvtable 0 i ≠ 0 then
      let bDiffers := bDiffers || decide (p.lastpv i ≠ p.pvtable 0 i)
      copyPvLoop k (i + 1) bDiffers { p with lastpv := upd p.lastpv i (p.pvtable 0 i) }
    else (i, bDiffers, p)

/-- The block "copy new pv to lastpv; preserve identical and longer lastpv". -/
def genCopyPv {B S : Type} (env : Env B S) (g : GenState B) : GenState B :=
  match copyPvLoop env.MAXDEPTH.toNat 0 false g.w.pos with
  | (i, bDiffers, p) =>
    g.setPos (if bDiffers then { p with lastpv := upd p.lastpv i 0 } else p)

/-- `int msRun = (int)((nowtime - en.starttime) * 1000 / en.frequency);` -/
def msRunOf (en : Engine) (nowtime : Nat) : Int :=
  wrapInt 32 (wrapU64 (subU64 nowtime en.starttime * 1000) / en.frequency : Nat)

/-- `uciScore(thr, inWindow, nowtime, mpvIndex)` -/
def uciScore {B S : Type} (env : Env B S) (drv : Driver B) (g : GenState B) (inWindow : Int)
    (nowtime : Nat) (mpvIndex : Int) : GenState B :=
  let msRun : Int := msRunOf g.en nowtime
  if inWindow ≠ 1 ∧ msRun - g.en.lastReport < 200 then
    g
  else
    let g := { g with en := { g.en with lastReport := msRun } }
    let score := g.w.pos.bestmovescore mpvIndex
    if ¬ drv.MATEDETECTED score then
      { g with out := g.out ++
          [UciInfo.mk g.depth g.w.pos.seldepth (mpvIndex + 1) msRun (some score) none inWindow] }
    else
      let matein :=
        if score > 0 then (env.SCOREWHITEWINS - score + 1).tdiv 2
        else (env.SCOREBLACKWINS - score).tdiv 2
      { g with out := g.out ++
          [UciInfo.mk g.depth g.w.pos.seldepth (mpvIndex + 1) msRun none (some matein) inWindow] }

/-- The `do … while (i < maxmoveindex)` loop that reports the MultiPV lines, from index `i`
on.  The first argument bounds the number of iterations. -/
def reportMultiPv {B S : Type} (env : Env B S) (drv : Driver B) (nowtime : Nat)
    (maxmoveindex : Int) : Nat → Int → GenState B → GenState B
  | 0, _, g => g
  | k + 1, i, g =>
    let g := uciScore env drv g g.inWindow nowtime i
    if i + 1 < maxmoveindex then reportMultiPv env drv nowtime maxmoveindex k (i + 1) g else g

/-- The block `if (!pos->bestmove.code) …` of the reporting block: the best move is fetched
from the transposition table.  `dummy` is the indeterminate value of the uninitialised local
`dummystaticeval`. -/
def reportHashMove {B S : Type} (env : Env B S) (RT : RootsearchType) (dummy : Int)
    (g : GenState B) : GenState B :=
  if g.w.pos.bestmove.code = 0 then
    match g.w.probe env g.w.pos.hash g.score dummy 0 env.MAXDEPTH g.alpha g.beta 0 with
    | ((_, score, _, mc), w) =>
      let code := env.shortMove2FullMove w.pos mc
      let p := { w.pos with bestmove := { w.pos.bestmove with code := code } }
      let p :=
        if RT = RootsearchType.PonderSearch then
          { p with pondermove := { p.pondermove with code := 0 } }
        else p
      { g with w := w.setPos p, score := score }
  else g

/-- The block "still no bestmove...": the first root move is taken. -/
def reportFirstMove {B : Type} (g : GenState B) : GenState B :=
  if g.w.pos.bestmove.code = 0 ∧ g.w.pos.rootmovelist.length > 0 then
    let code := (g.w.pos.rootmovelist.getD 0 ⟨0, 0⟩).code
    g.setPos { g.w.pos with bestmove := { g.w.pos.bestmove with code := code } }
  else g

/-- The block "Don't report score of instamove; use the score of last position instead". -/
def reportInstamove {B S : Type} (env : Env B S) (drv : Driver B) (g : GenState B) :
    GenState B :=
  if g.w.pos.rootmovelist.length = 1 ∧ g.w.pos.tbPosition = 0 ∧ g.en.endtime1 ≠ 0
      ∧ ¬ drv.isPondering g.en.pondersearch ∧ g.w.pos.lastbestmovescore ≠ env.NOSCORE then
    g.setPos { g.w.pos with
      bestmovescore := upd g.w.pos.bestmovescore 0 g.w.pos.lastbestmovescore }
  else g

/-- The block "We have a tablebase score so report this". -/
def reportRootmoveScore {B : Type} (g : GenState B) : GenState B :=
  if g.w.pos.useRootmoveScore ≠ 0 then
    let value := (g.w.pos.rootmovelist.getD 0 ⟨0, 0⟩).value
    g.setPos { g.w.pos with bestmovescore := upd g.w.pos.bestmovescore 0 value }
  else g

/-- The reporting block `if (score > NOSCORE && thr->index == 0) …` of the iteration loop.
`dummy` is the indeterminate value of the uninitialised local `dummystaticeval`. -/
def genReport {B S : Type} (env : Env B S) (drv : Driver B) (RT : RootsearchType) (dummy : Int)
    (g : GenState B) : GenState B :=
  if g.score > env.NOSCORE ∧ g.index = 0 then
    let nowtime := drv.getTime g.timeReads
    let g := { g with timeReads := g.timeReads + 1 }
    -- search was successfull
    if RT = RootsearchType.MultiPVSearch then
      if g.inWindow = 1 then
        -- MultiPV output only if in aspiration window
        let maxmoveindex : Int := min env.MultiPV g.w.pos.rootmovelist.length
        reportMultiPv env drv nowtime maxmoveindex (maxmoveindex.toNat + 1) 0 g
      else g
    else
      let g := reportRootmoveScore (reportInstamove env drv (reportFirstMove
        (reportHashMove env RT dummy g)))
      uciScore env drv g g.inWindow nowtime 0
  else g

/-- The block `if (inWindow == 1) …`: depth skipping (Laser's method) and the step to the next
depth. -/
def genAdvance {B : Type} (drv : Driver B) (RT : RootsearchType) (g : GenState B) :
    GenState B :=
  if g.inWindow = 1 then
    -- Skip some depths depending on current depth and thread number using Laser's method
    let cycle := g.index.tmod 16
    let depth :=
      if g.index ≠ 0 ∧ (g.depth + cycle).tmod (SkipDepths.getD cycle.toNat 0) = 0 then
        g.depth + SkipSize.getD cycle.toNat 0
      else g.depth
    let depth := depth + 1
    -- stay on maxdepth when pondering
    let depth :=
      if RT = RootsearchType.PonderSearch ∧ drv.isPondering g.en.pondersearch ∧ depth > g.maxdepth then depth - 1
      else depth
    { g with depth := depth, reportedThisDepth := true,
             constantRootMoves := g.constantRootMoves + 1 }
  else g

/-- The block `if (lastBestMove != pos->bestmove.code) …`. -/
def genTrack {B : Type} (g : GenState B) : GenState B :=
  if g.lastBestMove ≠ g.w.pos.bestmove.code then
    -- New best move is found; reset thinking time
    { g with lastBestMove := g.w.pos.bestmove.code, constantRootMoves := 0 }
  else g

/-- The block "Reset remaining time if depth is finished or new best move is found",
executed by the thread with index 0. -/
def genTimeReset {B : Type} (drv : Driver B) (g : GenState B) : GenState B :=
  if g.index = 0 then
    let g :=
      if g.inWindow = 1 ∨ g.constantRootMoves = 0 then
        { g with en := resetEndTime g.en (drv.phase g.w.pos) g.constantRootMoves true }
      else g
    if g.constantRootMoves = 0 ∧ g.en.stopLevel = StopLevel.ENGINESTOPSOON then
      { g with en := { g.en with stopLevel := StopLevel.ENGINERUN } }
    else g
  else g

/-- The value of `bExitIteration` computed at the end of the loop body. -/
def genExit {B S : Type} (env : Env B S) (drv : Driver B) (g : GenState B) : Bool :=
  -- early exit in playing mode as there is exactly one possible move
  (decide (g.w.pos.rootmovelist.length = 1 ∧ g.en.endtime1 ≠ 0) && !drv.isPondering g.en.pondersearch)
  -- early exit in TB win/lose position
  || (decide (g.w.pos.tbPosition ≠ 0 ∧ |g.score| ≥ env.SCORETBWIN - 100) && !drv.isPondering g.en.pondersearch)
  -- exit if STOPSOON is requested and we're in aspiration window
  || decide (g.en.stopLevel = StopLevel.ENGINESTOPSOON ∧ g.inWindow = 1)
  -- exit if STOPIMMEDIATELY
  || decide (g.en.stopLevel = StopLevel.ENGINESTOPIMMEDIATELY)
  -- exit if max depth is reached
  || decide (g.depth > g.maxdepth)

/-- The body of the iteration loop `do … while (!bExitIteration)` of `search_gen1`. -/
def genIteration {B S : Type} (env : Env B S) (drv : Driver B) (root : RootCall B)
    (RT : RootsearchType) (dummy : Int) (g : GenState B) : Option (GenState B) :=
  match genSearch env root RT g with
  | none => none
  | some g =>
    some (genTimeReset drv (genTrack (genAdvance drv RT (genReport env drv RT dummy
      (genCopyPv env g)))))

/-- The iteration loop of `search_gen1`; the first argument bounds the number of
iterations. -/
def genLoop {B S : Type} (env : Env B S) (drv : Driver B) (root : RootCall B)
    (RT : RootsearchType) (dummy : Int) : Nat → GenState B → Option (GenState B)
  | 0, _ => none
  | k + 1, g =>
    match genIteration env drv root RT dummy g with
    | none => none
    | some g => if genExit env drv g then some g else genLoop env drv root RT dummy k g

/-- The initialisation of `search_gen1` before the iteration loop, for the thread with the
given members; `reported` is the indeterminate initial value of `reportedThisDepth`, and the
locals `score` and `inWindow` start with indeterminate values as well (here: those of `g`). -/
def genInit {B S : Type} (env : Env B S) (g : GenState B) : GenState B :=
  let g :=
    if g.en.mate > 0 then
      { g with depth := g.en.mate * 2, maxdepth := g.en.mate * 2 }
    else
      { g with lastCompleteDepth := 0, depth := 1,
               maxdepth := if g.en.maxdepth > 0 then g.en.maxdepth else env.MAXDEPTH }
  let g := { g with alpha := SHRT_MIN + 1, beta := SHRT_MAX, deltaalpha := 8, deltabeta := 8,
                    lastBestMove := 0, constantRootMoves := 0,
                    en := { g.en with lastReport := 0 } }
  g.setPos { g.w.pos with lastpv := upd g.w.pos.lastpv 0 0 }

/-- The call `pos->rootsearch<RT>(alpha, beta, depth)` as `search_gen1` makes it, on top of
the model of `alphabeta` with the given fuel.  While the call runs the stop flag is read
through `env.stopLevel`; the flag the worker finds afterwards is the value of the last read
made during the call (unchanged if the call never read it). -/
def rootsearchCall {B S : Type} (env : Env B S) (RT : RootsearchType) (fuel : Nat)
    (score0 : Int) : RootCall B :=
  fun alpha beta depth g =>
    match rootsearch env (alphabeta env fuel) RT fuel score0 alpha beta depth g.w with
    | none => none
    | some (score, w) =>
      let lvl :=
        if w.stopReads > g.w.stopReads then env.stopLevel (w.stopReads - 1) else g.en.stopLevel
      some (score, { g with w := w, en := { g.en with stopLevel := lvl } })

/-! ## The search guide -/

/-- The statement `if (nowtime - en.starttime > 3 * en.frequency) en.moveoutput = true;` of
the polling loop. -/
def guideMoveOutput (nowtime : Nat) (en : Engine) : Engine :=
  if subU64 nowtime en.starttime > wrapU64 (3 * en.frequency) then
    { en with moveoutput := true }
  else en

/-- The statement `if (en.stopLevel < ENGINESTOPPED) …` of the polling loop. -/
def guideStep {B : Type} (drv : Driver B) (nowtime nodes : Nat) (ph : Int) (en : Engine) :
    Engine :=
  if en.stopLevel.toNat < StopLevel.ENGINESTOPPED.toNat then
    if drv.isPondering en.pondersearch then
      en
    else if drv.testPonderHit en.pondersearch then
      let en := startSearchTime en nowtime ph false
      { en with pondersearch := drv.resetPonder en.pondersearch }
    else if en.endtime2 ≠ 0 ∧ nowtime ≥ en.endtime2
        ∧ en.stopLevel.toNat < StopLevel.ENGINESTOPIMMEDIATELY.toNat then
      { en with stopLevel := StopLevel.ENGINESTOPIMMEDIATELY }
    else if en.maxnodes ≠ 0 ∧ en.maxnodes ≤ nodes
        ∧ en.stopLevel.toNat < StopLevel.ENGINESTOPIMMEDIATELY.toNat then
      { en with stopLevel := StopLevel.ENGINESTOPIMMEDIATELY }
    else if en.endtime1 ≠ 0 ∧ nowtime ≥ en.endtime1
        ∧ en.stopLevel.toNat < StopLevel.ENGINESTOPSOON.toNat then
      { en with stopLevel := StopLevel.ENGINESTOPSOON }
    else
      en
  else en

/-- One pass through the body of the polling loop
`while (en.stopLevel != ENGINESTOPPED) …` of `searchguide`, with `nowtime` the value returned
by `getTime()`, `nodes` the value of `en.getTotalNodes()` and `ph` the game phase of thread
0's position.  `Sleep(10)` has no effect on the state. -/
def guidePoll {B : Type} (drv : Driver B) (nowtime nodes : Nat) (ph : Int) (en : Engine) :
    Engine :=
  guideStep drv nowtime nodes ph (guideMoveOutput nowtime en)

/-- The code of `searchguide` after the polling loop: "Make the other threads stop now", the
joins, and the final state. -/
def guideFinish (en : Engine) : Engine × Engine :=
  let stopping := { en with stopLevel := StopLevel.ENGINESTOPIMMEDIATELY }
  (stopping, { stopping with stopLevel := StopLevel.ENGINETERMINATEDSEARCH })

/-! ## Concrete driver states for examples -/

/-- An engine object for examples: running, no time limits, one thread, no bench score. -/
def exampleEngine : Engine where
  stopLevel := StopLevel.ENGINERUN
  starttime := 0
  endtime1 := 0
  endtime2 := 0
  frequency := 1000
  lastReport := 0
  moveoutput := false
  benchdepth := 0
  isWhite := true
  wtime := 0
  btime := 0
  winc := 0
  binc := 0
  movestogo := 0
  moveOverhead := 0
  Threads := 1
  mate := 0
  maxdepth := 0
  maxnodes := 0
  terminationscore := 32767
  ponder := false
  pondersearch := 0

/-- A driver environment for examples: never pondering, a clock that stands still. -/
def exampleDriver : Driver Unit where
  isPondering := fun _ => false
  testPonderHit := fun _ => false
  resetPonder := fun _ => 0
  getTime := fun _ => 0
  phase := fun _ => 0
  MATEDETECTED := fun s => decide (|s| > 29000)
  getTotalNodes := fun _ => 0

/-- A root position with two quiet root moves. -/
def twoMovesWorld : World Unit :=
  { exampleWorld with
      pos := { examplePos with rootmovelist := [⟨0x10000314, 0⟩, ⟨0x10000355, 0⟩] } }

/-- Worker 0 about to start the iteration at depth 5 with the full window, depth 4 being the
last complete one. -/
def depth5State : GenState Unit where
  w := twoMovesWorld
  en := exampleEngine
  depth := 5
  lastCompleteDepth := 4
  index := 0
  score := 0
  alpha := SHRT_MIN + 1
  beta := SHRT_MAX
  deltaalpha := 8
  deltabeta := 8
  maxdepth := 256
  inWindow := 1
  reportedThisDepth := true
  lastBestMove := 0
  constantRootMoves := 0
  out := []
  timeReads := 0

/-- The example environment with a stop flag that turns to `ENGINESTOPIMMEDIATELY` at its
`n`-th read. -/
def stopAtEnv (n : Nat) : Env Unit Unit :=
  { exampleEnv with
      stopLevel := fun k => if k < n then StopLevel.ENGINERUN
                            else StopLevel.ENGINESTOPIMMEDIATELY }

/-- The result of the `rootsearch` call of worker 0 at depth 5 that is interrupted by the stop
flag during the search of the second root move (`stopAtEnv 5`). -/
def interruptedResult : Int × GenState Unit :=
  (rootsearchCall (stopAtEnv 5) RootsearchType.SinglePVSearch 6 0 depth5State.alpha
    depth5State.beta depth5State.depth (genStart depth5State)).getD (0, depth5State)

/-- An environment in which every read of the stop flag finds `ENGINESTOPSOON`. -/
def soonEnv : Env Unit Unit :=
  { exampleEnv with stopLevel := fun _ => StopLevel.ENGINESTOPSOON }

/-- Worker 0 of a fresh search right after the initialisation of `search_gen1`: depth 1, full
window, flag `ENGINERUN`. -/
def firstIterationState : GenState Unit := genInit exampleEnv depth5State

/-- An environment with tablebases that respect the 50-move rule: positions of up to 32 pieces
are probed and every probe succeeds with the value 1 (a cursed win). -/
def cursedWinEnv : Env Unit Unit :=
  { exampleEnv with
      useTb := 32
      Syzygy50MoveRule := true
      probe_wdl := fun _ => (1, 1) }

/-- Locals of a non-PV `alphabeta` node at depth 3 with the window `(49, 50)`, whose probe of
the transposition table gave the score 0 without a cutoff, and the static evaluation 100. -/
def exampleLocals : Locals where
  alpha := 49
  beta := 50
  depth := 3
  PVNode := false
  rep := 0
  excludeMove := 0
  newhash := 0x1234
  hashscore := 0
  staticeval := 100
  hashmovecode := 0
  extendall := 0
  positionImproved := false
  futility := false

/-- A stand-in for a recursive search that returns its lower bound `alpha` and leaves the
state alone; the value returned shows with which window a call was made. -/
def echoAlpha : Search Unit := fun alpha _ _ w => some (alpha, w)

/-- A stand-in for the recursive search of a node with `beta = 5000`: a call with a negative
`alpha` (the null-move search `(-beta, -beta + 1)`) returns -6000, every other call (the
verification search `(beta - 1, beta)`) returns 0. -/
def refutedNullMove : Search Unit := fun alpha _ _ w => some (if alpha < 0 then -6000 else 0, w)

/-- An environment whose reduction table has, for not improving positions at depth 3 and move
number 20, the entry 4 that `searchinit` computes,
`1 + round(log(3 * 1.5) * log(20) * 0.60) = 1 + round(2.70…)`. -/
def reductionEnv : Env Unit Unit :=
  { exampleEnv with reductiontable := fun _ d m => if d = 3 ∧ m = 20 then 4 else 1 }

/-- An environment whose transposition table answers every probe with a hit: score 40, static
evaluation 0, move `0x0314`. -/
def singularEnv : Env Unit Unit :=
  { exampleEnv with probeHash := fun _ _ _ _ _ _ _ _ _ => (true, 40, 0, 0x0314) }

/-- The fixed locals of a PV node at depth 8 with `beta = 100` and no exclusion move. -/
def singularCtx : NodeCtx where
  beta := 100
  depth := 8
  PVNode := true
  excludeMove := 0
  newhash := 0x1234
  extendall := 0
  positionImproved := false
  futility := false
  bestknownscore := 40
  lastmove := 0

/-- The loop locals of that node before its first move, the hash move being `0x0314`. -/
def singularState : LoopState Unit where
  alpha := 0
  bestscore := -32001
  bestcode := 0
  eval_type := Bound.HASHALPHA
  LegalMoves := 0
  quietMoves := []
  ms := { state := 0, cmptr := [], rest := () }
  hashscore := 40
  staticeval := 0
  hashmovecode := 0x0314

/-- A driver environment in which the engine is pondering all the time. -/
def ponderingDriver : Driver Unit := { exampleDriver with isPondering := fun _ => true }

/-- An environment whose transposition table answers every probe without a cutoff but with the
score `s` and the static evaluation `e` of an entry of insufficient depth. -/
def hashScoreEnv (s e : Int) : Env Unit Unit :=
  { exampleEnv with probeHash := fun _ _ _ _ _ _ _ _ _ => (false, s, e, 0) }

/-- An engine object with a time control: white to move with 60 s on the clock, 40 moves to
go, a move overhead of 50 ms, one thread, and a clock that ticks in milliseconds. -/
def clockEngine : Engine :=
  { exampleEngine with wtime := 60000, movestogo := 40, moveOverhead := 50 }

/-- Whether a call `resetEndTime(constantRootMoves, complete)` with game phase `ph` divides by
non-zero values only.  The divisors of the function are `movestogo + 1` (branch with
`movestogo`), `256 - ph` (sudden death with increment) and `f1`, `f2` (sudden death without
increment, `f1` only if `complete`); the other divisors are constants. -/
def resetEndTimeDefined (en : Engine) (ph : Int) (constantRootMoves : Int) (complete : Bool) :
    Bool :=
  let timetouse := if en.isWhite then en.wtime else en.btime
  let timeinc := if en.isWhite then en.winc else en.binc
  if en.movestogo ≠ 0 then
    decide (wrapInt 32 (en.movestogo + 1) ≠ 0)
  else if timetouse ≠ 0 then
    if timeinc ≠ 0 then
      decide (256 - ph ≠ 0)
    else
      (!complete || decide (min 42 (32 + constantRootMoves * 2) ≠ 0))
        && decide (min 22 (12 + constantRootMoves * 2) ≠ 0)
  else
    true

/-- The time control of `clockEngine` as sudden death with an increment of one second. -/
def incrementEngine : Engine := { clockEngine with movestogo := 0, winc := 1000 }

/-- The worker `depth5State` whose best line has the score `s`. -/
def scoredState (s : Int) : GenState Unit :=
  depth5State.setPos { twoMovesWorld.pos with bestmovescore := fun _ => s }

/-! ## The end of `search_gen1`: the final answer -/

/-- The loop "search for a better score in the other threads" that worker 0 runs after its
iteration loop: `thr` is worker 0, `others` are `en.sthread[1 .. Threads - 1]` in order.
Returns `bestthr` and `bestscore`. -/
def bestThread {B : Type} (thr : GenState B) (others : List (GenState B)) : GenState B × Int :=
  others.foldl
    (fun acc hthr =>
      if hthr.lastCompleteDepth ≥ acc.1.lastCompleteDepth
          ∧ hthr.w.pos.bestmovescore 0 > acc.2 then
        (hthr, hthr.w.pos.bestmovescore 0)
      else acc)
    (thr, thr.w.pos.bestmovescore 0)

/-- The loop `while (bestthr->pos.lastpv[i]) { pos->lastpv[i] = bestthr->pos.lastpv[i]; i++; }`
with `src` the line of the best thread; returns the final `i`.  The first argument bounds the
number of iterations. -/
def adoptPvLoop {B : Type} (src : Int → Nat) : Nat → Int → Pos B → Int × Pos B
  | 0, i, p => (i, p)
  | k + 1, i, p =>
    if src i ≠ 0 then adoptPvLoop src k (i + 1) { p with lastpv := upd p.lastpv i (src i) }
    else (i, p)

/-- The block "copy best moves and score from best thread to thread 0". -/
def genAdopt {B S : Type} (env : Env B S) (RT : RootsearchType) (g bestthr : GenState B) :
    GenState B :=
  if g.w.pos.bestmove.code ≠ bestthr.w.pos.bestmove.code then
    match adoptPvLoop bestthr.w.pos.lastpv env.MAXDEPTH.toNat 0 g.w.pos with
    | (i, p) =>
      let p := { p with lastpv := upd p.lastpv i 0 }
      let p := { p with bestmove := bestthr.w.pos.bestmove }
      let p := if RT = RootsearchType.PonderSearch then
        { p with pondermove := bestthr.w.pos.pondermove } else p
      let p := { p with bestmovescore := upd p.bestmovescore 0 (bestthr.w.pos.bestmovescore 0) }
      { g.setPos p with inWindow := 1 }
  else g

/-- What worker 0 hands over at the end of `search_gen1`: the line
`bestmove <m> [ponder <m>]` (as move codes) and the score remembered in
`en.rootposition.lastbestmovescore`. -/
structure FinalAnswer where
  bestmove : Nat
  ponder : Option Nat
  lastbestmovescore : Int
  deriving DecidableEq, Repr

/-- The block `if (!pos->bestmove.code) …`: "Not enough time to get any bestmove? Fall back to
default move". -/
def answerDefault {B : Type} (RT : RootsearchType) (p : Pos B) : Pos B :=
  if p.bestmove.code = 0 then
    let p := { p with bestmove := p.defaultmove }
    if RT = RootsearchType.PonderSearch then
      { p with pondermove := { p.pondermove with code := 0 } }
    else p
  else p

/-- The block `if (doPonder) …` that determines the ponder move, fetching it from the
transposition table if the search gave none. -/
def answerPonder {B S : Type} (env : Env B S) (RT : RootsearchType) (w : World B) :
    World B × Option Nat :=
  if RT = RootsearchType.PonderSearch then
    let w :=
      if w.pos.pondermove.code = 0 then
        -- Get the ponder move from TT
        let p := (env.playMove w.pos w.pos.bestmove.code).2
        let pondershort := env.getMoveCode w.tt p.hash
        let w := { w with tt := w.tt ++ [TTOp.getMove p.hash] }
        let p := { p with pondermove :=
          { p.pondermove with code := env.shortMove2FullMove p pondershort } }
        w.setPos (env.unplayMove p p.bestmove.code)
      else w
    (w, if w.pos.pondermove.code ≠ 0 then some w.pos.pondermove.code else none)
  else (w, none)

/-- The code of `search_gen1` after the iteration loop, for worker 0 (`thr->index == 0`) with
the other workers `others`: the choice of the best thread, the last `info` line, the
`bestmove` line, `en.stopLevel = ENGINESTOPPED` and `en.benchdepth = thr->depth - 1`. -/
def genFinish {B S : Type} (env : Env B S) (drv : Driver B) (RT : RootsearchType)
    (g : GenState B) (others : List (GenState B)) : GenState B × FinalAnswer :=
  -- Output of best move
  let bestthr := (bestThread g others).1
  let g := genAdopt env RT g bestthr
  -- remember score for next search in case of an instamove
  let lastbestmovescore := g.w.pos.bestmovescore 0
  let g :=
    if ¬ g.reportedThisDepth ∨ bestthr.index ≠ 0 then
      uciScore env drv { g with timeReads := g.timeReads + 1 } g.inWindow
        (drv.getTime g.timeReads) 0
    else g
  let g := g.setPos (answerDefault RT g.w.pos)
  let bestmove := g.w.pos.bestmove.code
  let wp := answerPonder env RT g.w
  let g := { g with w := wp.1 }
  ({ g with en := { g.en with stopLevel := StopLevel.ENGINESTOPPED,
                              benchdepth := g.depth - 1 } },
    FinalAnswer.mk bestmove wp.2 lastbestmovescore)

/-- Worker `i` of a search with several threads: last complete depth `d`, best score `s`,
best move `m`. -/
def workerState (i d s : Int) (m : Nat) : GenState Unit :=
  { depth5State with index := i, lastCompleteDepth := d }.setPos
    { twoMovesWorld.pos with bestmovescore := fun _ => s, bestmove := ⟨m, 0⟩ }

/-- The loop locals of the node of `singularCtx` after one legal move, `0x10000314`, that
raised alpha to 12. -/
def finishedState : LoopState Unit :=
  { singularState with
      LegalMoves := 1, bestscore := 12, bestcode := 0x10000314, eval_type := Bound.HASHEXACT }

/-- The example environment with the option `MultiPV = 2`. -/
def multiPvEnv : Env Unit Unit := { exampleEnv with MultiPV := 2 }

/-- A stand-in for the search of a root move: every move gets the score 150 (`alphabeta`
returns -150). -/
def strongMove : Search Unit := fun _ _ _ w => some (-150, w)

/-- The fixed locals of a MultiPV root search at depth 5 for two lines with `beta = 100`. -/
def multiPvCtx : RootCtx where
  RT := RootsearchType.MultiPVSearch
  beta := 100
  depth := 5
  extendall := 0
  maxmoveindex := 2
  staticeval := 0

/-- The locals of that root search before the first root move, with `alpha = -100`. -/
def multiPvStart : RootState where
  alpha := -100
  bestscore := -32001
  eval_type := Bound.HASHALPHA
  lastmoveindex := 0
  quietMoves := []

/-- The root position with two moves after the reset of the MultiPV scores. -/
def multiPvWorld : World Unit :=
  twoMovesWorld.setPos { twoMovesWorld.pos with bestmovescore := fun _ => SHRT_MIN + 1 }

/-- A stand-in for the search of a root move: every move gets the score 70 (`alphabeta`
returns -70). -/
def betterMove : Search Unit := fun _ _ _ w => some (-70, w)

/-- The two killer slots of a ply never hold the same non-zero move. -/
def KillersDistinct {B : Type} (p : Pos B) : Prop :=
  ∀ q : Int, p.killer q 0 = p.killer q 1 → p.killer q 0 = 0

/-- The root locals of a single-PV search at depth 5 with `beta = 100`. -/
def singlePvCtx : RootCtx :=
  { multiPvCtx with RT := RootsearchType.SinglePVSearch, maxmoveindex := 1 }

/-- An environment whose move generator offers one move in every position, the quiet move
`0x10000314`; the member `state` of the selector counts the moves handed out. -/
def oneMoveEnv : Env Unit Unit :=
  { exampleEnv with
      next := fun ms _ =>
        if ms.state = 0 then (some 0x10000314, { ms with state := 1 }) else (none, ms) }

/-- The one-move environment with a transposition table that holds, for the position, an entry
of depth 5: score 40, static evaluation 0, move `0x0314`.  A probe that asks for a depth up
to 5 hits; a probe that asks for more misses, and the static evaluation it reports then is
100, the move `0x0314`. -/
def shallowEntryEnv : Env Unit Unit :=
  { oneMoveEnv with
      probeHash := fun _ _ val _ _ depth _ _ _ =>
        if depth ≤ 5 then (true, 40, 0, 0x0314) else (false, val, 100, 0x0314) }

/-- A stand-in for the recursive searches of the example node: the singular search, called
with `alpha = 23`, returns 30; the search of the move returns -12. -/
def notSingular : Search Unit := fun alpha _ _ w => some (if alpha = 23 then 30 else -12, w)

/-- The loop locals of a node whose first probe missed: no hash score, static evaluation 100,
hash move `0x0314`. -/
def missedState : LoopState Unit :=
  { singularState with hashscore := -32001, staticeval := 100 }

/-- An environment whose move generator offers the quiet move `0x10000314` and whose selector
has both continuation-history pointers set, to the plane of piece 1 on square 20. -/
def prunedEnv : Env Unit Unit :=
  { oneMoveEnv with
      SetPreferredMoves := fun _ _ _ _ _ _ =>
        { state := 0, cmptr := [some (1, 20), some (1, 20)], rest := () } }

/-- The example position with a continuation history that is negative everywhere. -/
def prunedWorld : World Unit :=
  exampleWorld.setPos { examplePos with counterhistory := fun _ _ _ => -1 }

/-- The same position with the side to move in check. -/
def prunedCheckWorld : World Unit :=
  exampleWorld.setPos { examplePos with counterhistory := fun _ _ _ => -1, isCheckbb := 1 }

/-- A table operation of an `alphabeta` node that was called with the window `(alpha0, beta)`
and returns the value `r` at ply `ply`, with a bound tag that agrees with the window.  A store
carries the returned value, either as `FIXMATESCOREADD(r, ply)` (the stores of the move loop
and of the end of the node) or as `r` itself with depth `MAXDEPTH` and no move (the tablebase
store); with the tag `HASHBETA` the value is `>= beta`, with the tag `HASHALPHA` it is
`<= alpha0`, and with the tag `HASHEXACT` it lies strictly inside the window unless the store
is the tablebase store.  Probes and move lookups carry no tag. -/
def WindowOp {B S : Type} (env : Env B S) (alpha0 beta r ply : Int) (op : TTOp) : Prop :=
  match op with
  | TTOp.store _ score _ bound depth movecode =>
    (score = env.FIXMATESCOREADD r ply ∨ (score = r ∧ depth = env.MAXDEPTH ∧ movecode = 0))
    ∧ (bound = Bound.HASHBETA → r ≥ beta)
    ∧ (bound = Bound.HASHEXACT →
      (alpha0 < r ∧ r < beta) ∨ (score = r ∧ depth = env.MAXDEPTH ∧ movecode = 0))
    ∧ (bound = Bound.HASHALPHA → r ≤ alpha0)
  | _ => True

/-- An operation of a recursive call (`Q`), or a probe or move lookup. -/
@[reducible] def PlainOp (Q : TTOp → Prop) (op : TTOp) : Prop :=
  Q op ∨ op.isStore = false

/-- An operation of a recursive call (`Q`), or an operation of the node itself that agrees
with its window and its returned value. -/
@[reducible] def TaggedOp {B S : Type} (env : Env B S) (Q : TTOp → Prop)
    (alpha0 beta r ply : Int) (op : TTOp) : Prop :=
  Q op ∨ WindowOp env alpha0 beta r ply op

/-- The relation between the loop locals of an `alphabeta` node and the value `alpha0` of
`alpha` at the start of the move loop: while `eval_type` is `HASHALPHA`, `alpha` is still
`alpha0` and a best move has a score `<= alpha0`; once it is `HASHEXACT`, the best score lies
strictly inside the window; at a futility node (`depth <= 6`) the static evaluation is
`<= alpha0`. -/
def LoopInv {S : Type} (alpha0 : Int) (c : NodeCtx) (st : LoopState S) : Prop :=
  (c.futility = true → c.depth ≤ 6 ∧ st.staticeval ≤ alpha0)
  ∧ (st.eval_type = Bound.HASHALPHA →
      st.alpha = alpha0 ∧ (st.bestcode ≠ 0 → st.bestscore ≤ alpha0))
  ∧ (st.eval_type = Bound.HASHEXACT → alpha0 < st.bestscore ∧ st.bestscore < c.beta)
  ∧ (st.eval_type = Bound.HASHALPHA ∨ st.eval_type = Bound.HASHEXACT)

/-- `R` holds of the value and the state a step returns with, `C` of the value it continues
with. -/
def StepBoth {B σ : Type} (R : Int → World B → Prop) (C : σ → Prop) :
    Step σ (Int × World B) → Prop
  | Step.fuel => True
  | Step.ret (r, w') => R r w'
  | Step.cont s => C s

/-- `R` holds of the value and the state returned by a search call, if it returned. -/
def ResultBoth {B : Type} (R : Int → World B → Prop) : Result B → Prop
  | none => True
  | some (r, w') => R r w'

/-- Frame condition for the root move loop: the recursive search always returns, and neither
it nor `playMove`, `unplayMove` and `updatePvTable` change the number of root moves. -/
def RootFrame {B S : Type} (env : Env B S) (ab : Search B) : Prop :=
  (∀ (p : Pos B) (m : Nat), (env.playMove p m).2.rootmovelist.length = p.rootmovelist.length)
  ∧ (∀ (p : Pos B) (m : Nat), (env.unplayMove p m).rootmovelist.length = p.rootmovelist.length)
  ∧ (∀ (p : Pos B) (m : Nat) (b : Bool),
      (env.updatePvTable p m b).rootmovelist.length = p.rootmovelist.length)
  ∧ (∀ (a b d : Int) (w : World B), ∃ r w', ab a b d w = some (r, w')
      ∧ w'.pos.rootmovelist.length = w.pos.rootmovelist.length)

/-- The example environment with the option `MultiPV = 3`. -/
def threeLinesEnv : Env Unit Unit := { exampleEnv with MultiPV := 3 }

/-- A stand-in for the search of a root move: every move gets the score -600 (`alphabeta`
returns 600). -/
def losingMove : Search Unit := fun _ _ _ w => some (600, w)

/-- The call `pos->rootsearch<RT>(alpha, beta, depth)` of `search_gen1` on top of the search
function `ab`; the stop flag of the worker is left as it is. -/
def rootCallWith {B S : Type} (env : Env B S) (ab : Search B) (RT : RootsearchType)
    (fuel : Nat) (score0 : Int) : RootCall B :=
  fun alpha beta depth g =>
    match rootsearch env ab RT fuel score0 alpha beta depth g.w with
    | none => none
    | some (score, w) => some (score, { g with w := w })

/-- An engine with 100 000 s on White's clock for the next 40 moves (move overhead 50 ms, one
thread, a clock that ticks in milliseconds). -/
def longClockEngine : Engine := { clockEngine with wtime := 100000000 }

/-- The time control of `incrementEngine` with 200 000 s on the clock. -/
def longIncrementEngine : Engine := { incrementEngine with wtime := 200000000 }

/-- Modelled from the spec: `chessposition::phase()` is defined outside `search.cpp`; the spec
gives the game phase as a value of the range `[0, 256]`. -/
def phaseRange (ph : Int) : Prop := 0 ≤ ph ∧ ph ≤ 256

/-- The environment `oneMoveEnv` with an evaluator that returns 30 for every position. -/
def quietEnv : Env Unit Unit := { oneMoveEnv with getEval := fun _ => 30 }

/-- An environment with tablebases that do not know the position (every `probe_wdl` fails),
whose move generator offers one move, the quiet move `0x10000355`. -/
def excludedEnv : Env Unit Unit :=
  { exampleEnv with
      useTb := 32
      next := fun ms _ =>
        if ms.state = 0 then (some 0x10000355, { ms with state := 1 }) else (none, ms) }

/-- The first `n` moves of the root move list are in non-increasing order of value and none
of the moves after them has a greater value than any of them. -/
def RootOrdered (n : Nat) (l : List chessmove) : Prop :=
  ∀ a b : Nat, a < n → a ≤ b → b < l.length →
    (l.getD b ⟨0, 0⟩).value ≤ (l.getD a ⟨0, 0⟩).value

/-- Frame condition for the root move list: `playMove`, `unplayMove`, `updatePvTable`,
`updateMultiPvTable` and the recursive search do not write `rootmovelist`. -/
def RootListFrame {B S : Type} (env : Env B S) (ab : Search B) : Prop :=
  (∀ (p : Pos B) (m : Nat), (env.playMove p m).2.rootmovelist = p.rootmovelist)
  ∧ (∀ (p : Pos B) (m : Nat), (env.unplayMove p m).rootmovelist = p.rootmovelist)
  ∧ (∀ (p : Pos B) (m : Nat) (b : Bool), (env.updatePvTable p m b).rootmovelist = p.rootmovelist)
  ∧ (∀ (p : Pos B) (i : Int) (m : Nat) (b : Bool),
      (env.updateMultiPvTable p i m b).rootmovelist = p.rootmovelist)
  ∧ (∀ (a b d : Int) (w : World B) (r : Int × World B),
      ab a b d w = some r → r.2.pos.rootmovelist = w.pos.rootmovelist)

/-- A recording environment: `playMove` pushes the move code on the move stack and
`unplayMove` leaves it there, so that after a search `movestack[1], movestack[2], …` are the
moves played at the root, in the order in which they were searched. -/
def recordingEnv : Env Unit Unit :=
  { exampleEnv with
      playMove := fun p m =>
        (true, { p with movestack := upd p.movestack p.mstop m, mstop := p.mstop + 1 }) }

/-- A root position with four moves whose values were set by the tablebase ranking
(`tbPosition != 0`, so `rootsearch` keeps them): 10, 30, 20 and 40. -/
def fourMovesWorld : World Unit :=
  exampleWorld.setPos { examplePos with
    tbPosition := 1
    rootmovelist := [⟨0x10000301, 10⟩, ⟨0x10000302, 30⟩, ⟨0x10000303, 20⟩, ⟨0x10000304, 40⟩] }

/-- The environment `oneMoveEnv` with a mate-score encoding that shifts by the ply: scores
above 29000 are stored `ply` higher, scores below -29000 `ply` lower. -/
def mateEnv : Env Unit Unit :=
  { oneMoveEnv with
      FIXMATESCOREADD := fun s p => if s > 29000 then s + p else if s < -29000 then s - p else s }

/-- A stand-in for the recursive searches: every move leads to a position in which the
opponent mates soon (`alphabeta` returns 29989, the move gets the score -29989). -/
def matedSoon : Search Unit := fun _ _ _ w => some (29989, w)

/-- The example position at ply 3 with the side to move in check. -/
def checkedWorld : World Unit :=
  exampleWorld.setPos { examplePos with ply := 3, isCheckbb := 1 }

/-! # Properties -/

/-! ### Arithmetic of one history update -/

theorem wrapInt_eq_self (bits : Nat) (x : Int) (hb : 1 ≤ bits)
    (h1 : -(2 : Int) ^ (bits - 1) ≤ x) (h2 : x < (2 : Int) ^ (bits - 1)) :
    wrapInt bits x = x := by
  unfold wrapInt
  have hpow : (2 : Int) ^ bits = 2 * 2 ^ (bits - 1) := by
    obtain ⟨k, rfl⟩ : ∃ k, bits = k + 1 := ⟨bits - 1, by omega⟩
    simp [pow_succ, mul_comm]
  rw [hpow]
  generalize (2 : Int) ^ (bits - 1) = m at *
  rw [Int.emod_eq_of_lt (by omega) (by omega)]
  omega

theorem wrapInt16_eq_self (x : Int) (h1 : -32768 ≤ x) (h2 : x ≤ 32767) : wrapInt 16 x = x := by
  apply wrapInt_eq_self 16 x (by norm_num) <;> norm_num <;> omega

theorem two_pow_pred_ge (bits : Nat) (hb : 16 ≤ bits) : (32768 : Int) ≤ 2 ^ (bits - 1) := by
  have h : (2 : Int) ^ 15 ≤ 2 ^ (bits - 1) :=
    pow_le_pow_right₀ (by norm_num) (by omega)
  norm_num at h
  exact h

theorem historyStep_nonneg (b h M : Int) (hb1 : -256 ≤ b) (hb2 : b ≤ 256) (h0 : 0 ≤ h)
    (hM : h ≤ M) (h8 : 8192 ≤ M) :
    -8192 ≤ h + historyDelta b h ∧ h + historyDelta b h ≤ M := by
  unfold historyDelta
  have ha0 : 0 ≤ abs b := abs_nonneg b
  have ha1 : abs b ≤ 256 := abs_le.mpr ⟨hb1, hb2⟩
  have hba : b = abs b ∨ b = -abs b := by
    rcases abs_choice b with h | h <;> omega
  generalize abs b = a at *
  have hp0 : 0 ≤ h * a := mul_nonneg h0 ha0
  rw [Int.tdiv_eq_ediv hp0 (by norm_num)]
  have hp1 : h * a ≤ h * 256 := mul_le_mul_of_nonneg_left ha1 h0
  have hp2 : 0 ≤ (8192 - h) * (256 - a) ∨ 8192 * a ≤ h * a := by
    by_cases hh : h ≤ 8192
    · left; exact mul_nonneg (by omega) (by omega)
    · right; exact mul_le_mul_of_nonneg_right (by omega) ha0
  have hp3 : (8192 - h) * (256 - a) = 8192 * 256 - 8192 * a - 256 * h + h * a := by ring
  rw [hp3] at hp2
  generalize h * a = p at *
  omega

theorem historyStep_neg (b h : Int) :
    (-h) + historyDelta (-b) (-h) = -(h + historyDelta b h) := by
  unfold historyDelta
  rw [abs_neg, neg_mul, Int.neg_tdiv]; ring

/-- One update keeps an entry inside any interval that contains `[-8192, 8192]`. -/
theorem historyStep_bounds (b h lo hi : Int) (hb1 : -256 ≤ b) (hb2 : b ≤ 256)
    (hlo : lo ≤ -8192) (hhi : 8192 ≤ hi) (h1 : lo ≤ h) (h2 : h ≤ hi) :
    lo ≤ h + historyDelta b h ∧ h + historyDelta b h ≤ hi := by
  by_cases h0 : 0 ≤ h
  · have := historyStep_nonneg b h hi hb1 hb2 h0 h2 hhi
    omega
  · have := historyStep_nonneg (-b) (-h) (-lo) (by omega) (by omega) (by omega) (by omega)
      (by omega)
    rw [historyStep_neg] at this
    omega

theorem clamp_bounds (value : Int) :
    -256 ≤ max (-256) (min 256 value) ∧ max (-256) (min 256 value) ≤ 256 := by
  constructor
  · exact le_max_left _ _
  · exact max_le (by norm_num) (min_le_left _ _)

/-! ### History clamp (invariant of `updateHistory`) -/

theorem updateHistoryPlane_bounded (B value : Int) (idx : Nat) (T : Tables) (c : PlanePtr)
    (hB1 : 8192 ≤ B) (hB2 : B ≤ 32767) (hv1 : -256 ≤ value) (hv2 : value ≤ 256)
    (hT : T.Bounded B) : (updateHistoryPlane value idx T c).Bounded B := by
  cases c with
  | none => exact hT
  | some p =>
    refine ⟨hT.1, ?_⟩
    intro a b i
    simp only [updateHistoryPlane, Tables.setCounter]
    split
    · have hb := historyStep_bounds value (T.counterhistory p.1 p.2 idx) (-B) B hv1 hv2
        (by omega) hB1 (hT.2 _ _ _).1 (hT.2 _ _ _).2
      rw [wrapInt16_eq_self _ (by omega) (by omega)]
      exact hb
    · exact hT.2 a b i

theorem foldl_updateHistoryPlane_bounded (B value : Int) (idx : Nat) (cmptr : List PlanePtr)
    (hB1 : 8192 ≤ B) (hB2 : B ≤ 32767) (hv1 : -256 ≤ value) (hv2 : value ≤ 256) :
    ∀ T : Tables, T.Bounded B → (cmptr.foldl (updateHistoryPlane value idx) T).Bounded B := by
  induction cmptr with
  | nil => intro T hT; exact hT
  | cons c cs ih =>
    intro T hT
    exact ih _ (updateHistoryPlane_bounded B value idx T c hB1 hB2 hv1 hv2 hT)

theorem updateHistory_bounded (P : Macros) (hbits : 16 ≤ P.historyBits) (B : Int)
    (hB1 : 8192 ≤ B) (hB2 : B ≤ 32767) (code : Nat) (cmptr : List PlanePtr) (value : Int)
    (T : Tables) (hT : T.Bounded B) : (updateHistory P code cmptr value T).Bounded B := by
  unfold updateHistory
  have hc := clamp_bounds value
  apply foldl_updateHistoryPlane_bounded B _ _ cmptr hB1 hB2 hc.1 hc.2
  refine ⟨?_, hT.2⟩
  intro s f t
  simp only [Tables.setHistory]
  split
  · have hb := historyStep_bounds (max (-256) (min 256 value)) (T.history
      (P.GETPIECE code &&& P.S2MMASK) (P.GETFROM code) (P.GETTO code)) (-B) B hc.1 hc.2
      (by omega) hB1 (hT.1 _ _ _).1 (hT.1 _ _ _).2
    have hp := two_pow_pred_ge P.historyBits hbits
    rw [wrapInt_eq_self _ _ (by omega) (by omega) (by omega)]
    exact hb
  · exact hT.1 s f t

theorem runUpdates_bounded (P : Macros) (hbits : 16 ≤ P.historyBits) (B : Int)
    (hB1 : 8192 ≤ B) (hB2 : B ≤ 32767) (calls : List HistoryCall) :
    ∀ T : Tables, T.Bounded B → (runUpdates P calls T).Bounded B := by
  induction calls with
  | nil => intro T hT; exact hT
  | cons c cs ih =>
    intro T hT
    exact ih _ (updateHistory_bounded P hbits B hB1 hB2 c.code c.cmptr c.value T hT)

/-- C1 (history clamp).  Starting from all-zero tables, after any finite sequence of
`updateHistory` calls (arbitrary move codes, arbitrary `cmptr` arrays, arbitrary `int` bonus
values, truncating division), every `history[s][f][t]` entry and every continuation-history
entry has absolute value at most 16384, and hence is representable as an `int16_t`.
The element type of `history` is assumed to have at least 16 bits. -/
theorem history_clamp (P : Macros) (hbits : 16 ≤ P.historyBits) (calls : List HistoryCall) :
    (∀ s f t, |(runUpdates P calls Tables.zero).history s f t| ≤ 16384 ∧
        -32768 ≤ (runUpdates P calls Tables.zero).history s f t ∧
        (runUpdates P calls Tables.zero).history s f t ≤ 32767) ∧
    (∀ p q i, |(runUpdates P calls Tables.zero).counterhistory p q i| ≤ 16384 ∧
        -32768 ≤ (runUpdates P calls Tables.zero).counterhistory p q i ∧
        (runUpdates P calls Tables.zero).counterhistory p q i ≤ 32767) := by
  have hz : Tables.zero.Bounded 16384 := by
    constructor <;> intros <;> simp [Tables.zero]
  have h := runUpdates_bounded P hbits 16384 (by norm_num) (by norm_num) calls _ hz
  constructor
  · intro s f t
    have := h.1 s f t
    refine ⟨abs_le.mpr this, ?_, ?_⟩ <;> omega
  · intro p q i
    have := h.2 p q i
    refine ⟨abs_le.mpr this, ?_, ?_⟩ <;> omega

theorem updateHistoryPlane_int16 (value : Int) (idx : Nat) (T : Tables)
    (c : PlanePtr) (hv1 : -256 ≤ value) (hv2 : value ≤ 256)
    (hT : ∀ p q i, -32768 ≤ T.counterhistory p q i ∧ T.counterhistory p q i ≤ 32767) :
    ∀ p q i, -32768 ≤ (updateHistoryPlane value idx T c).counterhistory p q i ∧
      (updateHistoryPlane value idx T c).counterhistory p q i ≤ 32767 := by
  cases c with
  | none => exact hT
  | some p =>
    intro a b i
    simp only [updateHistoryPlane, Tables.setCounter]
    split
    · have hb := historyStep_bounds value (T.counterhistory p.1 p.2 idx) (-32768) 32767 hv1 hv2
        (by omega) (by omega) (hT _ _ _).1 (hT _ _ _).2
      rw [wrapInt16_eq_self _ (by omega) (by omega)]
      exact hb
    · exact hT a b i

theorem updateHistoryPlane_history (value : Int) (idx : Nat) (T : Tables) (c : PlanePtr) :
    (updateHistoryPlane value idx T c).history = T.history := by
  cases c <;> rfl

theorem foldl_updateHistoryPlane_history (value : Int) (idx : Nat) (cmptr : List PlanePtr) :
    ∀ T : Tables, (cmptr.foldl (updateHistoryPlane value idx) T).history = T.history := by
  induction cmptr with
  | nil => intro T; rfl
  | cons c cs ih => intro T; rw [List.foldl_cons, ih, updateHistoryPlane_history]

/-- The effect of the `cmptr` loop on one continuation-history entry: the update
`e ↦ e + (32 * value - e * |value| / 256)` is applied once for every `i` with `cmptr[i]`
pointing to the entry's plane, each time to the entry as it then stands. -/
theorem foldl_updateHistoryPlane_entry (value : Int) (idx : Nat)
    (hv1 : -256 ≤ value) (hv2 : value ≤ 256) (cmptr : List PlanePtr) :
    ∀ T : Tables, (∀ p q i, -32768 ≤ T.counterhistory p q i ∧ T.counterhistory p q i ≤ 32767) →
      ∀ p q i,
      (cmptr.foldl (updateHistoryPlane value idx) T).counterhistory p q i =
        if i = idx then
          (fun e => e + (32 * value - (e * |value|).tdiv 256))^[cmptr.count (some (p, q))]
            (T.counterhistory p q i)
        else T.counterhistory p q i := by
  induction cmptr with
  | nil => intro T _ p q i; simp
  | cons c cs ih =>
    intro T hT p q i
    rw [List.foldl_cons, ih _ (updateHistoryPlane_int16 value idx T c hv1 hv2 hT) p q i]
    by_cases hi : i = idx
    · subst hi
      simp only [if_true]
      cases c with
      | none => simp [updateHistoryPlane]
      | some r =>
        by_cases hr : r = (p, q)
        · subst hr
          have hb := historyStep_bounds value (T.counterhistory p q i) (-32768) 32767 hv1 hv2
            (by omega) (by omega) (hT _ _ _).1 (hT _ _ _).2
          simp only [List.count_cons_self, Function.iterate_succ, Function.comp]
          simp only [updateHistoryPlane, Tables.setCounter, and_self, if_true]
          rw [wrapInt16_eq_self _ (by omega) (by omega)]
          rfl
        · have hne : ¬ (p = r.1 ∧ q = r.2) := by
            rintro ⟨h1, h2⟩; exact hr (by subst h1; subst h2; rfl)
          have hne2 : (some r : PlanePtr) ≠ some (p, q) := by
            intro h; exact hr (Option.some.inj h)
          simp only [updateHistoryPlane, Tables.setCounter]
          rw [List.count_cons_of_ne hne2.symm]
          simp [hne]
    · simp only [if_neg hi]
      cases c with
      | none => rfl
      | some r => simp [updateHistoryPlane, Tables.setCounter, hi]

/-- C2 (update formula).  For every move code, `cmptr` array and `int` value, on tables whose
entries are representable in their element types, `updateHistory` clamps the value to
`b = max(-256, min(256, value))` and then
* replaces `history[stm][from][to]` by `old + (32*b - old*|b|/256)` (truncating division) and
  leaves every other `history` entry unchanged;
* for every non-null `cmptr[i]` replaces the entry `cmptr[i][piece*64+to]` by
  `old + (32*b - old*|b|/256)` computed from that entry's own value (when several `cmptr[i]`
  point to the same plane the step is applied once per pointer, in sequence), and leaves every
  other continuation-history entry unchanged. -/
theorem updateHistory_formula (P : Macros) (hbits : 16 ≤ P.historyBits) (code : Nat)
    (cmptr : List PlanePtr) (value : Int) (T : Tables) (hT : T.Typed P.historyBits) :
    (∀ s f t, (updateHistory P code cmptr value T).history s f t =
        if s = P.GETPIECE code &&& P.S2MMASK ∧ f = P.GETFROM code ∧ t = P.GETTO code then
          T.history s f t + (32 * max (-256) (min 256 value)
            - (T.history s f t * |max (-256) (min 256 value)|).tdiv 256)
        else T.history s f t) ∧
    (∀ p q i, (updateHistory P code cmptr value T).counterhistory p q i =
        if i = P.GETPIECE code * 64 + P.GETTO code then
          (fun e => e + (32 * max (-256) (min 256 value)
            - (e * |max (-256) (min 256 value)|).tdiv 256))^[cmptr.count (some (p, q))]
            (T.counterhistory p q i)
        else T.counterhistory p q i) := by
  have hc := clamp_bounds value
  have hp := two_pow_pred_ge P.historyBits hbits
  constructor
  · intro s f t
    unfold updateHistory
    simp only [foldl_updateHistoryPlane_history, Tables.setHistory]
    split
    · rename_i h
      obtain ⟨rfl, rfl, rfl⟩ := h
      have hlt := (hT.1 (P.GETPIECE code &&& P.S2MMASK) (P.GETFROM code) (P.GETTO code)).2
      have hb := historyStep_bounds (max (-256) (min 256 value)) (T.history
        (P.GETPIECE code &&& P.S2MMASK) (P.GETFROM code) (P.GETTO code))
        (-(2 : Int) ^ (P.historyBits - 1)) (2 ^ (P.historyBits - 1) - 1) hc.1 hc.2
        (by omega) (by omega) (hT.1 _ _ _).1 (by omega)
      rw [wrapInt_eq_self _ _ (by omega) hb.1 (by omega)]
      rfl
    · rfl
  · intro p q i
    unfold updateHistory
    exact foldl_updateHistoryPlane_entry _ _ hc.1 hc.2 cmptr
      (T.setHistory (P.GETPIECE code &&& P.S2MMASK) (P.GETFROM code) (P.GETTO code) _)
      (fun a b j => hT.2 a b j) p q i

theorem history_clamp_witness :
    16 ≤ exampleMacros.historyBits ∧
    |(runUpdates exampleMacros
        [⟨0x10000314, [some (1, 20), none], 1000⟩, ⟨0x10000314, [some (1, 20), some (1, 20)], 77⟩]
        Tables.zero).history 1 12 20| ≤ 16384 :=
  ⟨by decide, ((history_clamp exampleMacros (by decide)
      [⟨0x10000314, [some (1, 20), none], 1000⟩,
        ⟨0x10000314, [some (1, 20), some (1, 20)], 77⟩]).1 1 12 20).1⟩

theorem tables_zero_typed (bits : Nat) : Tables.zero.Typed bits := by
  constructor
  · intro s f t
    simp only [Tables.zero]
    constructor
    · have : (0 : Int) < 2 ^ (bits - 1) := by positivity
      omega
    · positivity
  · intro p q i
    simp [Tables.zero]

theorem updateHistory_formula_witness :
    16 ≤ exampleMacros.historyBits ∧ Tables.zero.Typed exampleMacros.historyBits ∧
    (updateHistory exampleMacros 0x10000314 [some (1, 20), none] 1000 Tables.zero).history 1 12 20
      = if 1 = exampleMacros.GETPIECE 0x10000314 &&& exampleMacros.S2MMASK
            ∧ 12 = exampleMacros.GETFROM 0x10000314 ∧ 20 = exampleMacros.GETTO 0x10000314 then
          Tables.zero.history 1 12 20 + (32 * max (-256) (min 256 1000)
            - (Tables.zero.history 1 12 20 * |max (-256) (min 256 (1000 : Int))|).tdiv 256)
        else Tables.zero.history 1 12 20 :=
  ⟨by decide, tables_zero_typed _,
    (updateHistory_formula exampleMacros (by decide) 0x10000314 [some (1, 20), none] 1000
      Tables.zero (tables_zero_typed _)).1 1 12 20⟩

theorem foldl_getHistory (f : Nat × Nat → Int) (cmptr : List PlanePtr) :
    ∀ v : Int, cmptr.foldl (fun value c =>
        match c with
        | none => value
        | some p => value + f p) v = v + ((cmptr.filterMap id).map f).sum := by
  induction cmptr with
  | nil => intro v; simp
  | cons c cs ih =>
    intro v
    cases c with
    | none => simpa using ih v
    | some p =>
      rw [List.foldl_cons, ih]
      simp [add_assoc]

/-- C3 (`getHistory`).  For every move code and `cmptr` array, `getHistory` returns
`history[stm][from][to]` plus the sum of `cmptr[i][piece*64+to]` over all non-null
`cmptr[i]`, and leaves the tables as they were. -/
theorem getHistory_sum (P : Macros) (code : Nat) (cmptr : List PlanePtr) (T : Tables) :
    (getHistory P code cmptr T).1 =
      T.history (P.GETPIECE code &&& P.S2MMASK) (P.GETFROM code) (P.GETTO code)
        + ((cmptr.filterMap id).map
            (fun p => T.counterhistory p.1 p.2 (P.GETPIECE code * 64 + P.GETTO code))).sum ∧
    (getHistory P code cmptr T).2 = T := by
  constructor
  · exact foldl_getHistory _ cmptr _
  · rfl

/-! ### Pre-checks of `alphabeta` -/

/-- C4 (pre-checks of `alphabeta`).  For every `alpha`, `beta`, `depth` (and every value of
the stop flag): if the repetition count is at least 2 the call returns `SCOREDRAW`; otherwise,
if `halfmovescounter >= 100`, it returns `SCOREBLACKWINS + ply` when the side to move is in
check and the evasion generator yields no move, and `SCOREDRAW` in every other case.  In both
cases the state returned is the one right after the entry bookkeeping: the stop flag has not
been read, the quiescence search has not been entered and the transposition table has not
been probed. -/
theorem alphabeta_prechecks {B S : Type} (env : Env B S) (fuel : Nat) (alpha beta depth : Int)
    (w : World B) :
    (env.testRepetiton (abEnter w).pos ≥ 2 →
      alphabeta env (fuel + 1) alpha beta depth w = some (env.SCOREDRAW, abEnter w)) ∧
    (env.testRepetiton (abEnter w).pos < 2 → w.pos.halfmovescounter ≥ 100 →
      alphabeta env (fuel + 1) alpha beta depth w =
        some (if w.pos.isCheckbb ≠ 0 ∧ ¬ env.CreateMovelistEvasion (abEnter w).pos > 0 then
                env.SCOREBLACKWINS + w.pos.ply
              else env.SCOREDRAW, abEnter w)) ∧
    (abEnter w).tt = w.tt ∧ (abEnter w).stopReads = w.stopReads := by
  refine ⟨?_, ?_, rfl, rfl⟩
  · intro hrep
    simp only [alphabeta, abNode, if_pos hrep]
  · intro hrep h50
    have hrep' : ¬ env.testRepetiton (abEnter w).pos ≥ 2 := by omega
    have h50' : (abEnter w).pos.halfmovescounter ≥ 100 := h50
    have hchk : (abEnter w).pos.isCheckbb = w.pos.isCheckbb := rfl
    have hply : (abEnter w).pos.ply = w.pos.ply := rfl
    simp only [alphabeta, abNode, if_neg hrep', if_pos h50', hchk, hply]
    by_cases hc : w.pos.isCheckbb = 0
    · simp [hc]
    · by_cases he : env.CreateMovelistEvasion (abEnter w).pos > 0
      · simp [hc, he]
      · simp [hc, he]

theorem alphabeta_prechecks_witness :
    repetitionEnv.testRepetiton (abEnter exampleWorld).pos ≥ 2 ∧
    alphabeta repetitionEnv 1 (-100) 100 5 exampleWorld
      = some (repetitionEnv.SCOREDRAW, abEnter exampleWorld) :=
  ⟨by decide, (alphabeta_prechecks repetitionEnv 0 (-100) 100 5 exampleWorld).1 (by decide)⟩

/-- C5 as stated fails: with the stop flag at `ENGINESTOPIMMEDIATELY` throughout, a call
`alphabeta(-5, 7, 3)` on a twice-repeated position returns `SCOREDRAW = 0`, not `beta = 7`. -/
theorem alphabeta_stop_counterexample :
    stoppedRepetitionEnv.stopLevel = (fun _ => StopLevel.ENGINESTOPIMMEDIATELY) ∧
    (alphabeta stoppedRepetitionEnv 1 (-5) 7 3 exampleWorld).map Prod.fst = some 0 ∧
    (alphabeta stoppedRepetitionEnv 1 (-5) 7 3 exampleWorld).map Prod.fst ≠ some 7 :=
  ⟨rfl, by decide, by decide⟩

/-- C5, amended.  Whenever the stop flag reads `ENGINESTOPIMMEDIATELY` for the whole duration
of a call `alphabeta(alpha, beta, depth)` and neither pre-check fires (the repetition count is
below 2 and `halfmovescounter < 100`), the call returns exactly `beta`, after a single read
of the flag and without touching the transposition table. -/
theorem alphabeta_stop_returns_beta {B S : Type} (env : Env B S) (fuel : Nat)
    (alpha beta depth : Int) (w : World B)
    (hstop : ∀ n, env.stopLevel n = StopLevel.ENGINESTOPIMMEDIATELY)
    (hrep : env.testRepetiton (abEnter w).pos < 2) (h50 : w.pos.halfmovescounter < 100) :
    alphabeta env (fuel + 1) alpha beta depth w =
      some (beta, { abEnter w with stopReads := w.stopReads + 1 }) := by
  have hrep' : ¬ env.testRepetiton (abEnter w).pos ≥ 2 := by omega
  have h50' : ¬ (abEnter w).pos.halfmovescounter ≥ 100 := by
    have : (abEnter w).pos.halfmovescounter = w.pos.halfmovescounter := rfl
    omega
  simp only [alphabeta, abNode, if_neg hrep', if_neg h50', hstop, if_true]
  rfl

theorem alphabeta_stop_returns_beta_witness :
    alphabeta stoppedEnv 1 (-5) 7 3 exampleWorld =
      some (7, { abEnter exampleWorld with stopReads := exampleWorld.stopReads + 1 }) :=
  alphabeta_stop_returns_beta stoppedEnv 0 (-5) 7 3 exampleWorld (fun _ => rfl) (by decide)
    (by decide)

/-! ### Terminal check of `alphabeta` -/

/-- C8 (terminal check).  When the move loop of `alphabeta` ends (the selector returns no
further move) with `LegalMoves == 0`, the call returns the current `alpha` if an exclusion move
is active, otherwise `SCOREBLACKWINS + ply` if the side to move is in check, otherwise
`SCOREDRAW`; in all three cases the state is returned as it is, so nothing is stored in the
transposition table. -/
theorem alphabeta_terminal {B S : Type} (env : Env B S) (ab : Search B) (c : NodeCtx)
    (n : Nat) (st : LoopState S) (w : World B)
    (hend : (env.next st.ms w.pos).1 = none) (hlegal : st.LegalMoves = 0) :
    abLoop env ab c (n + 1) st w =
      some (if c.excludeMove ≠ 0 then st.alpha
            else if w.pos.isCheckbb ≠ 0 then env.SCOREBLACKWINS + w.pos.ply
            else env.SCOREDRAW, w) := by
  rcases hnext : env.next st.ms w.pos with ⟨o, ms⟩
  rw [hnext] at hend
  simp only at hend
  subst hend
  simp only [abLoop, hnext, abFinish, hlegal, if_true]
  by_cases he : c.excludeMove = 0
  · by_cases hc : w.pos.isCheckbb = 0
    · simp [he, hc]
    · simp [he, hc]
  · simp [he]

/-! ### Quiescence search -/

theorem qsLoop_inCheck {B S : Type} (env : Env B S) (qs : Search B) (staticeval beta depth : Int) :
    ∀ (n : Nat) (alpha bestscore legalmovenum : Int) (ms : MoveSelector S) (w : World B),
      qsLoop env qs true staticeval beta depth n alpha bestscore legalmovenum ms w =
        qsLoopInCheck env qs beta depth n alpha bestscore legalmovenum ms w := by
  intro n
  induction n with
  | zero => intros; rfl
  | succ n ih =>
    intro alpha bestscore legalmovenum ms w
    simp only [qsLoop, qsLoopInCheck]
    rcases env.next ms w.pos with ⟨_ | m, ms'⟩
    · simp
    · simp only [Bool.not_true, Bool.false_eq_true, false_and, if_false, not_true_eq_false]
      rcases env.playMove w.pos m with ⟨_ | _, p⟩
      · simp only [ih]
      · simp only [ih]

theorem qsLoop_noLegalMove {B S : Type} (env : Env B S) (qs : Search B)
    (staticeval beta depth : Int) :
    ∀ (n : Nat) (alpha bestscore : Int) (ms : MoveSelector S) (w : World B) (p' : Pos B),
      noLegalMove env n ms w.pos = some p' →
      qsLoop env qs true staticeval beta depth n alpha bestscore 0 ms w =
        some (env.SCOREBLACKWINS + p'.ply, w.setPos p') := by
  intro n
  induction n with
  | zero => intro _ _ _ _ _ h; simp [noLegalMove] at h
  | succ n ih =>
    intro alpha bestscore ms w p'
    simp only [noLegalMove, qsLoop]
    rcases env.next ms w.pos with ⟨_ | m, ms'⟩
    · intro h
      simp only [Option.some.injEq] at h
      subst h
      simp [World.setPos]
    · simp only [Bool.not_true, Bool.false_eq_true, false_and, if_false, not_true_eq_false]
      rcases env.playMove w.pos m with ⟨_ | _, p⟩
      · intro h
        have := ih alpha bestscore ms' (w.setPos p) p' h
        simpa [World.setPos] using this
      · intro h
        simp at h

/-- C9 (quiescence without a transposition-table cutoff).  Let the probe at the entry of
`getQuiescence(alpha, beta, depth)` miss: `w1` is the state after it (the principal variation
of the ply reset, the probe recorded) and `se` the static evaluation it reported.
* Not in check, the stand-pat score `sp` is `se` if the table had one and otherwise the value
  computed at lines 151-157: `-staticevalstack[mstop - 1] + tempo` after a null move,
  `S2MSIGN(state & S2MMASK) * getEval()` otherwise.  The call returns `sp` if `sp >= beta`;
  otherwise alpha is raised to `max(alpha, sp)`, the call returns `sp` if
  `sp + 100 + bestPossibleCapture < alpha` for the raised alpha, and otherwise it enters the
  move loop with the raised alpha and `bestscore = sp`.
* In check: the call goes to the move loop with alpha unchanged (no stand-pat, no global delta
  pruning), and if the selector runs out of moves with none of them legal the call returns
  `SCOREBLACKWINS + ply`.
* In check the move loop is the loop without the per-move delta-pruning test: delta pruning
  never skips a move. -/
theorem getQuiescence_contract {B S : Type} (env : Env B S) (fuel : Nat)
    (alpha beta depth : Int) (w : World B) (hs se : Int) (mc : Nat) (w1 : World B) (sp : Int)
    (hprobe : qsProbe env alpha beta depth w = ((false, hs, se, mc), w1))
    (hsp : sp =
      if se = env.NOSCORE then
        if w1.pos.movestack (w1.pos.mstop - 1) = 0 then
          -(w1.pos.staticevalstack (w1.pos.mstop - 1)) + env.tempo
        else env.S2MSIGN (w1.pos.state &&& env.S2MMASK) * env.getEval w1.pos
      else se) :
    (env.probeHash w.tt w.pos.hash env.NOSCORE env.NOSCORE 0 depth alpha beta w.pos.ply
        = (false, hs, se, mc) ∧
      w1 = { w with
              pos := { w.pos with pvtable := upd2 w.pos.pvtable w.pos.ply 0 0 }
              tt := w.tt ++ [TTOp.probe w.pos.hash depth alpha beta w.pos.ply] }) ∧
    (w.pos.isCheckbb = 0 →
      (sp ≥ beta → getQuiescence env (fuel + 1) alpha beta depth w = some (sp, w1)) ∧
      (sp < beta → sp + 100 + env.getBestPossibleCapture w1.pos < max alpha sp →
        getQuiescence env (fuel + 1) alpha beta depth w = some (sp, w1)) ∧
      (sp < beta → ¬ sp + 100 + env.getBestPossibleCapture w1.pos < max alpha sp →
        getQuiescence env (fuel + 1) alpha beta depth w =
          qsMoves env (getQuiescence env fuel) fuel false sp (max alpha sp) beta depth sp w1)) ∧
    (w.pos.isCheckbb ≠ 0 →
      getQuiescence env (fuel + 1) alpha beta depth w =
        qsMoves env (getQuiescence env fuel) fuel true se alpha beta depth SHRT_MIN w1 ∧
      ∀ p' : Pos B,
        noLegalMove env fuel (env.SetPreferredMovesQs (env.prepareStack w1.pos))
          (env.prepareStack w1.pos) = some p' →
        getQuiescence env (fuel + 1) alpha beta depth w =
          some (env.SCOREBLACKWINS + p'.ply, w1.setPos p')) ∧
    (∀ (qs : Search B) (staticeval : Int) (n : Nat) (a bestscore legalmovenum : Int)
        (ms : MoveSelector S) (v : World B),
      qsLoop env qs true staticeval beta depth n a bestscore legalmovenum ms v =
        qsLoopInCheck env qs beta depth n a bestscore legalmovenum ms v) := by
  have hmax : ∀ x : Int, (if x > alpha then x else alpha) = max alpha x := by
    intro x
    by_cases h : x > alpha
    · rw [if_pos h, max_eq_right (le_of_lt h)]
    · rw [if_neg h, max_eq_left (by omega)]
  have hstand : standPat env se w1.pos = sp := by
    rw [hsp]
    unfold standPat computeStaticeval
    rfl
  refine ⟨?_, ?_, ?_, ?_⟩
  · unfold qsProbe World.probe World.setPos at hprobe
    simp only [Prod.mk.injEq] at hprobe
    exact ⟨hprobe.1, hprobe.2.symm⟩
  · intro hc
    refine ⟨?_, ?_, ?_⟩
    · intro h1
      simp only [getQuiescence, qsNode, hprobe, hc, hstand]
      simp [h1]
    · intro h1 h2
      have h1' : ¬ sp ≥ beta := by omega
      simp only [getQuiescence, qsNode, hprobe, hc, hmax, deltapruningmargin, hstand]
      simp [h1', h2]
    · intro h1 h2
      have h1' : ¬ sp ≥ beta := by omega
      simp only [getQuiescence, qsNode, hprobe, hc, hmax, deltapruningmargin, hstand]
      simp [h1', h2]
  · intro hc
    have hq : getQuiescence env (fuel + 1) alpha beta depth w =
        qsMoves env (getQuiescence env fuel) fuel true se alpha beta depth SHRT_MIN w1 := by
      simp only [getQuiescence, qsNode, hprobe]
      simp [hc]
    refine ⟨hq, ?_⟩
    intro p' hp
    rw [hq]
    simp only [qsMoves]
    have := qsLoop_noLegalMove env (getQuiescence env fuel) se beta depth fuel alpha SHRT_MIN
      (env.SetPreferredMovesQs (env.prepareStack w1.pos)) (w1.setPos (env.prepareStack w1.pos))
      p' hp
    simpa [World.setPos] using this
  · intro qs staticeval n a bestscore legalmovenum ms v
    exact qsLoop_inCheck env qs staticeval beta depth n a bestscore legalmovenum ms v

/-- Runs of `getQuiescence` on a position that is not in check, with evaluation 30 and one
capture on offer: a stand-pat return at `beta = 20`, a return by delta pruning for the window
`(200, 300)`, a run through the move loop with alpha raised from -100 to 30; and the mate
score for a position in check without a legal move. -/
theorem getQuiescence_contract_witness :
    (exampleWorld.pos.isCheckbb = 0 ∧
      getQuiescence quietEnv 3 (-100) 20 0 exampleWorld
        = some (30, (qsProbe quietEnv (-100) 20 0 exampleWorld).2) ∧
      getQuiescence quietEnv 3 200 300 0 exampleWorld
        = some (30, (qsProbe quietEnv 200 300 0 exampleWorld).2) ∧
      getQuiescence quietEnv 3 (-100) 100 0 exampleWorld
        = qsMoves quietEnv (getQuiescence quietEnv 2) 2 false 30 (max (-100) 30) 100 0 30
            (qsProbe quietEnv (-100) 100 0 exampleWorld).2 ∧
      (getQuiescence quietEnv 3 (-100) 100 0 exampleWorld).map Prod.fst = some 30) ∧
    (checkWorld.pos.isCheckbb ≠ 0 ∧
      getQuiescence exampleEnv 2 (-100) 100 0 checkWorld =
        some (exampleEnv.SCOREBLACKWINS + checkWorld.pos.ply,
          (qsProbe exampleEnv (-100) 100 0 checkWorld).2.setPos
            (exampleEnv.prepareStack (qsProbe exampleEnv (-100) 100 0 checkWorld).2.pos))) :=
  ⟨⟨by decide,
      ((getQuiescence_contract quietEnv 2 (-100) 20 0 exampleWorld (-32001) (-32001) 0
        (qsProbe quietEnv (-100) 20 0 exampleWorld).2 30 rfl (by decide)).2.1 (by decide)).1
        (by decide),
      ((getQuiescence_contract quietEnv 2 200 300 0 exampleWorld (-32001) (-32001) 0
        (qsProbe quietEnv 200 300 0 exampleWorld).2 30 rfl (by decide)).2.1 (by decide)).2.1
        (by decide) (by decide),
      ((getQuiescence_contract quietEnv 2 (-100) 100 0 exampleWorld (-32001) (-32001) 0
        (qsProbe quietEnv (-100) 100 0 exampleWorld).2 30 rfl (by decide)).2.1 (by decide)).2.2
        (by decide) (by decide),
      by decide⟩,
    ⟨by decide,
      ((getQuiescence_contract exampleEnv 1 (-100) 100 0 checkWorld (-32001) (-32001) 0
        (qsProbe exampleEnv (-100) 100 0 checkWorld).2 0 rfl (by decide)).2.2.1
        (by decide)).2 _ rfl⟩⟩

theorem alphabeta_terminal_witness :
    (exampleEnv.next (exampleEnv.SetPreferredMoves examplePos 0 0 0 0 0) exampleWorld.pos).1 = none ∧
    abLoop exampleEnv (alphabeta exampleEnv 0)
      { beta := 100, depth := 2, PVNode := true, excludeMove := 0, newhash := 0x1234,
        extendall := 0, positionImproved := false, futility := false, bestknownscore := 0,
        lastmove := 0 }
      1
      { alpha := -100, bestscore := -32001, bestcode := 0, eval_type := Bound.HASHALPHA,
        LegalMoves := 0, quietMoves := [],
        ms := exampleEnv.SetPreferredMoves examplePos 0 0 0 0 0,
        hashscore := -32001, staticeval := 0, hashmovecode := 0 }
      exampleWorld = some (exampleEnv.SCOREDRAW, exampleWorld) :=
  ⟨rfl, alphabeta_terminal exampleEnv (alphabeta exampleEnv 0) _ 0 _ exampleWorld rfl rfl⟩

/-! ### Transposition-table keys under an exclusion move -/

theorem TTExtends.refl {B : Type} (P : TTOp → Prop) (w : World B) : TTExtends P w w :=
  ⟨[], by simp, by simp⟩

theorem TTExtends.of_eq {B : Type} (P : TTOp → Prop) {w w' : World B} (h : w'.tt = w.tt) :
    TTExtends P w w' :=
  ⟨[], by simp [h], by simp⟩

theorem TTExtends.trans {B : Type} {P : TTOp → Prop} {w w' w'' : World B}
    (h1 : TTExtends P w w') (h2 : TTExtends P w' w'') : TTExtends P w w'' := by
  obtain ⟨l1, e1, p1⟩ := h1
  obtain ⟨l2, e2, p2⟩ := h2
  refine ⟨l1 ++ l2, by rw [e2, e1, List.append_assoc], ?_⟩
  intro op hop
  rcases List.mem_append.mp hop with h | h
  · exact p1 op h
  · exact p2 op h

theorem TTExtends.mono {B : Type} {P Q : TTOp → Prop} {w w' : World B}
    (h : TTExtends P w w') (hPQ : ∀ op, P op → Q op) : TTExtends Q w w' := by
  obtain ⟨l, e, p⟩ := h
  exact ⟨l, e, fun op hop => hPQ op (p op hop)⟩

theorem TTExtends.single {B : Type} {P : TTOp → Prop} {w w' : World B} (op : TTOp)
    (h : w'.tt = w.tt ++ [op]) (hop : P op) : TTExtends P w w' :=
  ⟨[op], h, by simpa using hop⟩

theorem TTExtends.from_eq {B : Type} {P : TTOp → Prop} {w v w' : World B}
    (h2 : TTExtends P v w') (h : v.tt = w.tt) : TTExtends P w w' := by
  obtain ⟨l, e, p⟩ := h2
  exact ⟨l, by rw [e, h], p⟩

theorem AppendsOnly.resultAll {B : Type} {P : TTOp → Prop} {f : Search B}
    (hf : AppendsOnly P f) (alpha beta depth : Int) (w : World B) :
    ResultAll (TTExtends P w) (f alpha beta depth w) := by
  rcases h : f alpha beta depth w with _ | ⟨r, w'⟩
  · trivial
  · exact hf alpha beta depth w r w' h

theorem stepAll_imp {B σ : Type} {proj : σ → World B} {P P' : World B → Prop}
    {s : Step σ (Int × World B)} (h : ∀ w', P w' → P' w') (hs : StepAll proj P s) :
    StepAll proj P' s := by
  cases s with
  | fuel => trivial
  | ret r => exact h _ hs
  | cont s => exact h _ hs

theorem resultAll_imp {B : Type} {P P' : World B → Prop} {r : Result B}
    (h : ∀ w', P w' → P' w') (hr : ResultAll P r) : ResultAll P' r := by
  cases r with
  | none => trivial
  | some x => exact h _ hr

theorem abFinish_exclusion {B S : Type} (env : Env B S) (c : NodeCtx) (st : LoopState S)
    (w : World B) (he : c.excludeMove ≠ 0) : (abFinish env c st w).2 = w := by
  unfold abFinish
  split_ifs <;> first | rfl | simp_all

theorem abUpdate_exclusion {B S : Type} (env : Env B S) (c : NodeCtx) (m : Nat)
    (st : LoopState S) (w : World B) (score effectiveDepth : Int) (he : c.excludeMove ≠ 0) :
    StepAll (fun s : LoopState S × World B => s.2) (fun w' => w'.tt = w.tt)
      (abUpdate env c m st w score effectiveDepth) := by
  unfold abUpdate
  simp only [if_neg he]
  split_ifs <;> simp [StepAll, World.setPos]

theorem abSearchMove_appends {B : Type} {Q : TTOp → Prop} {ab : Search B}
    (hab : AppendsOnly Q ab) (beta alpha : Int) (eval_type : Bound)
    (effectiveDepth reduction : Int) (w : World B) :
    ∀ (s ed : Int) (w' : World B),
      abSearchMove ab beta alpha eval_type effectiveDepth reduction w = some (s, ed, w') →
      TTExtends Q w w' := by
  intro s ed w' h
  unfold abSearchMove at h
  split_ifs at h with h1
  · rcases h2 : ab (-beta) (-alpha) (effectiveDepth - 1) w with _ | ⟨r1, w1⟩
    · simp [h2] at h
    · have e1 := hab _ _ _ _ _ _ h2
      simp only [h2] at h
      split_ifs at h with h3
      · rcases h4 : ab (-beta) (-alpha) (effectiveDepth + reduction - 1) w1 with _ | ⟨r2, w2⟩
        · simp [h4] at h
        · have e2 := hab _ _ _ _ _ _ h4
          simp only [h4, Option.some.injEq, Prod.mk.injEq] at h
          obtain ⟨_, _, rfl⟩ := h
          exact e1.trans e2
      · simp only [Option.some.injEq, Prod.mk.injEq] at h
        obtain ⟨_, _, rfl⟩ := h
        exact e1
  · rcases h2 : ab (-alpha - 1) (-alpha) (effectiveDepth - 1) w with _ | ⟨r1, w1⟩
    · simp [h2] at h
    · have e1 := hab _ _ _ _ _ _ h2
      simp only [h2] at h
      split_ifs at h with h3
      · rcases h4 : ab (-beta) (-alpha) (effectiveDepth - 1) w1 with _ | ⟨r2, w2⟩
        · simp [h4] at h
        · have e2 := hab _ _ _ _ _ _ h4
          simp only [h4, Option.some.injEq, Prod.mk.injEq] at h
          obtain ⟨_, _, rfl⟩ := h
          exact e1.trans e2
      · simp only [Option.some.injEq, Prod.mk.injEq] at h
        obtain ⟨_, _, rfl⟩ := h
        exact e1

theorem abSingular_exclusion {B S : Type} (env : Env B S) (ab : Search B) (c : NodeCtx)
    (m : Nat) (st : LoopState S) (w : World B) (he : c.excludeMove ≠ 0) :
    abSingular env ab c m st w = Step.cont (0, st, w) := by
  unfold abSingular
  rw [if_neg]
  intro h
  exact he h.2.2

theorem abMoveSearch_exclusion {B S : Type} (env : Env B S) {Q : TTOp → Prop} {ab : Search B}
    (hab : AppendsOnly Q ab) (c : NodeCtx) (m : Nat) (futilityPrune : Bool)
    (effectiveDepth reduction : Int) (st : LoopState S) (w : World B)
    (he : c.excludeMove ≠ 0) :
    StepAll (fun s : LoopState S × World B => s.2) (TTExtends Q w)
      (abMoveSearch env ab c m futilityPrune effectiveDepth reduction st w) := by
  unfold abMoveSearch
  simp only
  split_ifs
  · exact TTExtends.of_eq Q rfl
  · split
    · trivial
    · rename_i score ed w1 hs
      have e1 : TTExtends Q w w1 := abSearchMove_appends hab _ _ _ _ _ _ _ _ _ hs
      split_ifs
      · exact e1.trans (TTExtends.of_eq Q rfl)
      · exact stepAll_imp (fun w' hw' => e1.trans (TTExtends.of_eq Q hw'))
          (abUpdate_exclusion env c m _ _ score ed he)

theorem abMovePlay_exclusion {B S : Type} (env : Env B S) {Q : TTOp → Prop} {ab : Search B}
    (hab : AppendsOnly Q ab) (c : NodeCtx) (m : Nat) (futilityPrune : Bool)
    (stats extendMove : Int) (st : LoopState S) (w : World B) (he : c.excludeMove ≠ 0) :
    StepAll (fun s : LoopState S × World B => s.2) (TTExtends Q w)
      (abMovePlay env ab c m futilityPrune stats extendMove st w) := by
  unfold abMovePlay
  simp only
  split_ifs
  · exact TTExtends.refl Q w
  · rcases env.playMove w.pos m with ⟨_ | _, p⟩
    · exact TTExtends.of_eq Q rfl
    · exact abMoveSearch_exclusion env hab c m futilityPrune _ _ st (w.setPos p) he

theorem abMove_exclusion {B S : Type} (env : Env B S) {Q : TTOp → Prop} {ab : Search B}
    (hab : AppendsOnly Q ab) (c : NodeCtx) (m : Nat) (st : LoopState S) (w : World B)
    (he : c.excludeMove ≠ 0) :
    StepAll (fun s : LoopState S × World B => s.2) (TTExtends Q w) (abMove env ab c m st w) := by
  unfold abMove
  simp only [abSingular_exclusion env ab c m _ w he]
  split_ifs
  all_goals first
    | exact TTExtends.refl Q w
    | exact abMovePlay_exclusion env hab c m _ _ _ _ w he

theorem abLoop_exclusion {B S : Type} (env : Env B S) {Q : TTOp → Prop} {ab : Search B}
    (hab : AppendsOnly Q ab) (c : NodeCtx) (he : c.excludeMove ≠ 0) :
    ∀ (n : Nat) (st : LoopState S) (w : World B),
      ResultAll (TTExtends Q w) (abLoop env ab c n st w) := by
  intro n
  induction n with
  | zero => intro st w; trivial
  | succ n ih =>
    intro st w
    simp only [abLoop]
    rcases env.next st.ms w.pos with ⟨_ | m, ms⟩
    · simp only [ResultAll]
      rw [abFinish_exclusion env c _ w he]
      exact TTExtends.refl Q w
    · simp only
      have hm := abMove_exclusion env hab c m { st with ms := ms } w he
      revert hm
      cases abMove env ab c m { st with ms := ms } w with
      | fuel => intro _; trivial
      | ret r => intro hm; exact hm
      | cont s =>
        obtain ⟨st', w'⟩ := s
        intro hm
        simp only
        exact resultAll_imp (fun w'' hw'' => TTExtends.trans hm hw'') (ih st' w')

theorem resultAll_chain {B : Type} {P : TTOp → Prop} {w w1 : World B} {r : Result B}
    (h1 : TTExtends P w w1) (h2 : ResultAll (TTExtends P w1) r) : ResultAll (TTExtends P w) r :=
  resultAll_imp (fun _ hw => h1.trans hw) h2

theorem abMovesPhase_exclusion {B S : Type} (env : Env B S) {Q : TTOp → Prop} {ab : Search B}
    (hab : AppendsOnly Q ab) (fuel : Nat) (L : Locals) (bestknownscore : Int) (w : World B)
    (he : L.excludeMove ≠ 0) :
    ResultAll (TTExtends Q w) (abMovesPhase env ab fuel L bestknownscore w) := by
  unfold abMovesPhase
  exact resultAll_chain (TTExtends.of_eq Q rfl) (abLoop_exclusion env hab _ he fuel _ _)

theorem abIID_exclusion {B S : Type} (env : Env B S) {Q : TTOp → Prop} {ab : Search B}
    (hab : AppendsOnly Q ab) (fuel : Nat) (L : Locals) (bestknownscore : Int) (w : World B)
    (h e : Nat) (he : L.excludeMove ≠ 0) (hkey : L.newhash = h ^^^ e) :
    ResultAll (TTExtends (fun op => Q op ∨ ExclusionOp h e op) w)
      (abIID env ab fuel L bestknownscore w) := by
  have hmono : ∀ {v v' : World B}, TTExtends Q v v' →
      TTExtends (fun op => Q op ∨ ExclusionOp h e op) v v' :=
    fun hv => hv.mono (fun _ hq => Or.inl hq)
  unfold abIID
  split_ifs
  · split
    · trivial
    · rename_i r w1 hc
      have e1 := hmono (hab _ _ _ _ _ _ hc)
      have e2 : TTExtends (fun op => Q op ∨ ExclusionOp h e op) w1
          { w1 with tt := w1.tt ++ [TTOp.getMove L.newhash] } :=
        TTExtends.single (TTOp.getMove L.newhash) rfl (Or.inr ⟨rfl, hkey⟩)
      exact resultAll_chain (e1.trans e2)
        (resultAll_imp (fun _ hw => hmono hw) (abMovesPhase_exclusion env hab fuel _ _ _ he))
  · exact resultAll_imp (fun _ hw => hmono hw) (abMovesPhase_exclusion env hab fuel _ _ _ he)

theorem probCutLoop_appends {B S : Type} (env : Env B S) {Q : TTOp → Prop} {ab : Search B}
    (hab : AppendsOnly Q ab) (staticeval depth rbeta : Int) :
    ∀ (moves : List Nat) (w : World B),
      StepAll (fun v : World B => v) (TTExtends Q w)
        (probCutLoop env ab staticeval depth rbeta moves w) := by
  intro moves
  induction moves with
  | nil => intro w; exact TTExtends.refl Q w
  | cons m rest ih =>
    intro w
    simp only [probCutLoop]
    by_cases hsee : env.see w.pos m (rbeta - staticeval) = true
    · simp only [hsee, not_true_eq_false, if_false]
      rcases env.playMove w.pos m with ⟨_ | _, p⟩
      · exact stepAll_imp (fun _ hw => TTExtends.from_eq hw rfl) (ih (w.setPos p))
      · simp only
        split
        · trivial
        · rename_i r w1 hc
          have e1 : TTExtends Q w w1 := TTExtends.from_eq (hab _ _ _ _ _ _ hc) rfl
          split_ifs
          · exact e1.trans (TTExtends.of_eq Q rfl)
          · exact stepAll_imp (fun _ hw => e1.trans (TTExtends.from_eq hw rfl))
              (ih (w1.setPos (env.unplayMove w1.pos m)))
    · simp only [hsee, not_false_eq_true, if_true]
      exact ih w

theorem abProbCut_exclusion {B S : Type} (env : Env B S) {Q : TTOp → Prop} {ab : Search B}
    (hab : AppendsOnly Q ab) (fuel : Nat) (L : Locals) (bestknownscore : Int) (w : World B)
    (h e : Nat) (he : L.excludeMove ≠ 0) (hkey : L.newhash = h ^^^ e) :
    ResultAll (TTExtends (fun op => Q op ∨ ExclusionOp h e op) w)
      (abProbCut env ab fuel L bestknownscore w) := by
  unfold abProbCut
  split_ifs
  · have hp := probCutLoop_appends env hab L.staticeval L.depth
      (min env.SCOREWHITEWINS (L.beta + 100)) (env.getMovesTactical w.pos) w
    simp only
    revert hp
    cases probCutLoop env ab L.staticeval L.depth (min env.SCOREWHITEWINS (L.beta + 100))
        (env.getMovesTactical w.pos) w with
    | fuel => intro _; trivial
    | ret r => intro hp; exact hp.mono (fun _ hq => Or.inl hq)
    | cont v =>
      intro hp
      exact resultAll_chain (hp.mono (fun _ hq => Or.inl hq))
        (abIID_exclusion env hab fuel L bestknownscore v h e he hkey)
  · exact abIID_exclusion env hab fuel L bestknownscore w h e he hkey

theorem abNullMoveVerify_exclusion {B S : Type} (env : Env B S) {Q : TTOp → Prop}
    {ab : Search B} (hab : AppendsOnly Q ab) (fuel : Nat) (L : Locals)
    (bestknownscore R score : Int) (w : World B)
    (h e : Nat) (he : L.excludeMove ≠ 0) (hkey : L.newhash = h ^^^ e) :
    ResultAll (TTExtends (fun op => Q op ∨ ExclusionOp h e op) w)
      (abNullMoveVerify env ab fuel L bestknownscore R score w) := by
  unfold abNullMoveVerify
  simp only
  split
  · exact TTExtends.refl _ w
  · split
    · trivial
    · rename_i v w2 hc
      have e2 : TTExtends (fun op => Q op ∨ ExclusionOp h e op) w w2 :=
        (TTExtends.from_eq (hab _ _ _ _ _ _ hc) rfl).mono (fun _ hq => Or.inl hq)
      split
      · exact e2.trans (TTExtends.of_eq _ rfl)
      · exact resultAll_chain (e2.trans (TTExtends.of_eq _ rfl))
          (abProbCut_exclusion env hab fuel L _ _ h e he hkey)

theorem abNullMove_exclusion {B S : Type} (env : Env B S) {Q : TTOp → Prop} {ab : Search B}
    (hab : AppendsOnly Q ab) (fuel : Nat) (L : Locals) (w : World B)
    (h e : Nat) (he : L.excludeMove ≠ 0) (hkey : L.newhash = h ^^^ e) :
    ResultAll (TTExtends (fun op => Q op ∨ ExclusionOp h e op) w)
      (abNullMove env ab fuel L w) := by
  unfold abNullMove
  simp only
  split
  · split
    · trivial
    · rename_i r w1 hc
      have e1 : TTExtends (fun op => Q op ∨ ExclusionOp h e op) w w1 :=
        (TTExtends.from_eq (hab _ _ _ _ _ _ hc) rfl).mono (fun _ hq => Or.inl hq)
      split
      · exact resultAll_chain (e1.trans (TTExtends.of_eq _ rfl))
          (abNullMoveVerify_exclusion env hab fuel L _ _ _ _ h e he hkey)
      · exact resultAll_chain (e1.trans (TTExtends.of_eq _ rfl))
          (abProbCut_exclusion env hab fuel L _ _ h e he hkey)
  · exact abProbCut_exclusion env hab fuel L _ w h e he hkey

theorem abFutility_exclusion {B S : Type} (env : Env B S) {Q : TTOp → Prop} {ab : Search B}
    (hab : AppendsOnly Q ab) (fuel : Nat) (L : Locals) (w : World B)
    (h e : Nat) (he : L.excludeMove ≠ 0) (hkey : L.newhash = h ^^^ e) :
    ResultAll (TTExtends (fun op => Q op ∨ ExclusionOp h e op) w)
      (abFutility env ab fuel L w) := by
  unfold abFutility
  split
  · split
    · exact TTExtends.refl _ w
    · exact abNullMove_exclusion env hab fuel _ w h e he hkey
  · exact abNullMove_exclusion env hab fuel _ w h e he hkey

theorem abRazor_exclusion {B S : Type} (env : Env B S) {Q : TTOp → Prop} {ab qs : Search B}
    (hab : AppendsOnly Q ab) (hqs : AppendsOnly Q qs) (fuel : Nat) (L : Locals) (w : World B)
    (h e : Nat) (he : L.excludeMove ≠ 0) (hkey : L.newhash = h ^^^ e) :
    ResultAll (TTExtends (fun op => Q op ∨ ExclusionOp h e op) w)
      (abRazor env ab qs fuel L w) := by
  unfold abRazor
  simp only
  split
  · split
    · split
      · exact resultAll_imp (fun _ hw => hw.mono (fun _ hq => Or.inl hq))
          (hqs.resultAll L.alpha L.beta L.depth w)
      · split
        · trivial
        · rename_i value w1 hc
          have e1 : TTExtends (fun op => Q op ∨ ExclusionOp h e op) w w1 :=
            (hqs _ _ _ _ _ _ hc).mono (fun _ hq => Or.inl hq)
          split
          · exact e1
          · exact resultAll_chain e1 (abFutility_exclusion env hab fuel L w1 h e he hkey)
    · exact abFutility_exclusion env hab fuel L w h e he hkey
  · exact abFutility_exclusion env hab fuel L w h e he hkey

theorem abStaticEval_exclusion {B S : Type} (env : Env B S) {Q : TTOp → Prop}
    {ab qs : Search B} (hab : AppendsOnly Q ab) (hqs : AppendsOnly Q qs) (fuel : Nat)
    (L : Locals) (w : World B) (h e : Nat) (he : L.excludeMove ≠ 0)
    (hkey : L.newhash = h ^^^ e) :
    ResultAll (TTExtends (fun op => Q op ∨ ExclusionOp h e op) w)
      (abStaticEval env ab qs fuel L w) := by
  unfold abStaticEval
  exact resultAll_chain (TTExtends.of_eq _ rfl)
    (abRazor_exclusion env hab hqs fuel _ _ h e he hkey)

theorem abTB_exclusion {B S : Type} (env : Env B S) {Q : TTOp → Prop}
    {ab qs : Search B} (hab : AppendsOnly Q ab) (hqs : AppendsOnly Q qs) (fuel : Nat)
    (L : Locals) (w : World B) (h e : Nat) (he : L.excludeMove ≠ 0)
    (hkey : L.newhash = h ^^^ e) (htb : ¬ TbSuccess env w.pos) :
    ResultAll (TTExtends (fun op => Q op ∨ ExclusionOp h e op) w)
      (abTB env ab qs fuel L w) := by
  unfold abTB
  simp only
  split
  · rename_i hcond
    split
    · rename_i hsucc
      exact absurd ⟨hcond.1, hcond.2, hsucc⟩ htb
    · exact abStaticEval_exclusion env hab hqs fuel L w h e he hkey
  · exact abStaticEval_exclusion env hab hqs fuel L w h e he hkey

theorem abProbe_exclusion {B S : Type} (env : Env B S) {Q : TTOp → Prop}
    {ab qs : Search B} (hab : AppendsOnly Q ab) (hqs : AppendsOnly Q qs) (fuel : Nat)
    (alpha beta depth : Int) (PVNode : Bool) (rep : Int) (w : World B)
    (he : w.pos.excludemovestack (w.pos.mstop - 1) % 65536 ≠ 0)
    (htb : ¬ TbSuccess env
      { w.pos with excludemovestack := upd w.pos.excludemovestack w.pos.mstop 0 }) :
    ResultAll (TTExtends (fun op => Q op ∨ ExclusionOp w.pos.hash
        (w.pos.excludemovestack (w.pos.mstop - 1) % 65536) op) w)
      (abProbe env ab qs fuel alpha beta depth PVNode rep w) := by
  unfold abProbe
  simp only [World.probe]
  have e1 : TTExtends (fun op => Q op ∨ ExclusionOp w.pos.hash
      (w.pos.excludemovestack (w.pos.mstop - 1) % 65536) op) w
      { (w.setPos { w.pos with
            excludemovestack := upd w.pos.excludemovestack w.pos.mstop 0 }) with
        tt := w.tt ++ [TTOp.probe (w.pos.hash ^^^ (w.pos.excludemovestack (w.pos.mstop - 1) % 65536))
          depth alpha beta w.pos.ply] } :=
    TTExtends.single _ rfl (Or.inr ⟨rfl, rfl⟩)
  split
  · split
    · exact e1.trans (TTExtends.of_eq _ rfl)
    · exact e1.trans (TTExtends.of_eq _ rfl)
  · exact resultAll_chain e1 (abTB_exclusion env hab hqs fuel _ _ _ _ he rfl htb)

/-- C10.  Let an `alphabeta` node run on a position with hash `h` while the exclusion move
`e = excludemovestack[mstop - 1]` is non-zero, and let its recursive calls append to the
transposition table only operations satisfying `Q`.  The exclusion move is set only by the
singular-extension block in the move loop of a node on the same position (line 593), and a
node whose tablebase probe of lines 368-395 succeeds returns there and does not reach its move
loop (second part); accordingly the tablebase probe is taken not to succeed on the board of
the node.  Then every operation the call appends satisfies `Q` (it stems from a recursive
call) or is one of the node's own operations, and each of these is a probe or a move lookup
with the key `h XOR e`: the node makes no store, neither with the plain hash `h` nor with any
other key. -/
theorem alphabeta_exclusion_keys {B S : Type} (env : Env B S) (Q : TTOp → Prop)
    (ab qs : Search B) (hab : AppendsOnly Q ab) (hqs : AppendsOnly Q qs) (fuel : Nat)
    (alpha beta depth : Int) (w : World B)
    (he : w.pos.excludemovestack (w.pos.mstop - 1) % 65536 ≠ 0)
    (htb : ∀ p : Pos B, p.board = w.pos.board → p.halfmovescounter = w.pos.halfmovescounter →
      ¬ TbSuccess env p) :
    ResultAll (TTExtends (fun op => Q op ∨ ExclusionOp w.pos.hash
        (w.pos.excludemovestack (w.pos.mstop - 1) % 65536) op) w)
      (abNode env ab qs fuel alpha beta depth w)
    ∧ (∀ (L : Locals) (v : World B), TbSuccess env v.pos →
        ∃ r, abTB env ab qs fuel L v = some r
          ∧ r.1 = (tbBoundScore env (env.probe_wdl v.pos).2 v.pos.ply).2) := by
  refine ⟨?_, fun L v hv => ?_⟩
  · unfold abNode
    simp only
    split
    · exact TTExtends.of_eq _ rfl
    · split
      · split
        · exact TTExtends.of_eq _ rfl
        · split
          · exact TTExtends.of_eq _ rfl
          · exact TTExtends.of_eq _ rfl
      · split
        · exact TTExtends.of_eq _ rfl
        · split
          · refine resultAll_imp (fun _ hw => ?_) (hqs.resultAll alpha beta depth _)
            exact (TTExtends.from_eq hw (by split <;> rfl)).mono (fun _ hq => Or.inl hq)
          · exact resultAll_chain (TTExtends.of_eq _ rfl)
              (abProbe_exclusion env hab hqs fuel alpha beta depth _ _
                { abEnter w with stopReads := (abEnter w).stopReads + 1 } he (htb _ rfl rfl))
  · unfold abTB
    rw [if_pos ⟨hv.1, hv.2.1⟩, if_pos hv.2.2]
    simp only
    split
    · exact ⟨_, rfl, rfl⟩
    · exact ⟨_, rfl, rfl⟩

theorem appendsOnly_of_no_fuel {B S : Type} (env : Env B S) (Q : TTOp → Prop) :
    AppendsOnly Q (alphabeta env 0) ∧ AppendsOnly Q (getQuiescence env 0) := by
  constructor <;> intro _ _ _ _ _ _ h <;> simp [alphabeta, getQuiescence] at h

theorem appendsOnly_betterMove (Q : TTOp → Prop) : AppendsOnly Q betterMove := by
  intro _ _ _ w r w' h
  simp only [betterMove, Option.some.injEq, Prod.mk.injEq] at h
  exact TTExtends.of_eq Q (by rw [← h.2])

/-- A node with hash `0x1234` and exclusion move `0x0314` whose tablebase probe fails: it
probes and looks up the hash move with the key `0x1120` and, after the search of its one
move, returns without a store. -/
theorem alphabeta_exclusion_keys_witness :
    (exclusionWorld.pos.excludemovestack (exclusionWorld.pos.mstop - 1) % 65536 = 0x0314 ∧
      exclusionWorld.pos.hash = 0x1234 ∧ (0x1234 : Nat) ^^^ 0x0314 = 0x1120) ∧
    (excludedEnv.pieceCount exclusionWorld.pos ≤ excludedEnv.useTb ∧
      exclusionWorld.pos.halfmovescounter = 0 ∧
      excludedEnv.probe_wdl exclusionWorld.pos = (0, 0)) ∧
    ResultAll (TTExtends (fun op => False ∨ ExclusionOp exclusionWorld.pos.hash
        (exclusionWorld.pos.excludemovestack (exclusionWorld.pos.mstop - 1) % 65536) op)
        exclusionWorld)
      (abNode excludedEnv betterMove betterMove 2 (-100) 100 5 exclusionWorld) ∧
    (abNode excludedEnv betterMove betterMove 2 (-100) 100 5 exclusionWorld).map
        (fun r => (r.1, r.2.tt))
      = some (70, [TTOp.probe 0x1120 5 (-100) 100 0, TTOp.getMove 0x1120]) :=
  ⟨by decide, by decide,
    (alphabeta_exclusion_keys excludedEnv (fun _ => False) betterMove betterMove
      (appendsOnly_betterMove _) (appendsOnly_betterMove _) 2 (-100) 100 5 exclusionWorld
      (by decide) (fun _ _ _ h => h.2.2 rfl)).1,
    by decide⟩

theorem option_eq_some_getD {α β : Type} (o : Option (α × β)) (d : α × β)
    (h : o.isSome = true) : o = some ((o.getD d).1, (o.getD d).2) := by
  cases o with
  | none => simp at h
  | some x => rfl

/-! ### The iteration loop of `search_gen1` and the stop flag -/

theorem GenState.en_mk {B : Type} (w : World B) (en : Engine) (depth lastCompleteDepth index
    score alpha beta deltaalpha deltabeta maxdepth inWindow : Int) (reportedThisDepth : Bool)
    (lastBestMove : Nat) (constantRootMoves : Int) (out : List UciInfo) (timeReads : Nat) :
    (GenState.mk w en depth lastCompleteDepth index score alpha beta deltaalpha deltabeta
      maxdepth inWindow reportedThisDepth lastBestMove constantRootMoves out timeReads).en = en :=
  rfl

theorem Engine.stopLevel_lastReport (en : Engine) (x : Int) :
    ({ en with lastReport := x } : Engine).stopLevel = en.stopLevel := rfl

theorem resetEndTime_stopLevel (en : Engine) (ph c : Int) (complete : Bool) :
    (resetEndTime en ph c complete).stopLevel = en.stopLevel := by
  unfold resetEndTime
  cases complete <;> simp only [Bool.false_eq_true, if_false, if_true] <;> split_ifs <;> rfl

theorem genAspiration_stopLevel {B S : Type} (env : Env B S) (RT : RootsearchType)
    (g : GenState B) (hbench : g.score < g.en.terminationscore) :
    (genAspiration env RT g).en.stopLevel = g.en.stopLevel := by
  unfold genAspiration
  simp only
  split
  · rfl
  · split
    · rfl
    · rw [if_neg (by omega)]
      split <;> rfl

theorem genCopyPv_en {B S : Type} (env : Env B S) (g : GenState B) :
    (genCopyPv env g).en = g.en := by
  unfold genCopyPv
  rfl

theorem uciScore_stopLevel {B S : Type} (env : Env B S) (drv : Driver B) (g : GenState B)
    (inWindow : Int) (nowtime : Nat) (mpvIndex : Int) :
    (uciScore env drv g inWindow nowtime mpvIndex).en.stopLevel = g.en.stopLevel := by
  unfold uciScore
  simp only
  split
  · rfl
  · split
    · rw [GenState.en_mk, Engine.stopLevel_lastReport]
    · rw [GenState.en_mk, Engine.stopLevel_lastReport]

theorem reportMultiPv_stopLevel {B S : Type} (env : Env B S) (drv : Driver B) (nowtime : Nat)
    (maxmoveindex : Int) :
    ∀ (k : Nat) (i : Int) (g : GenState B),
      (reportMultiPv env drv nowtime maxmoveindex k i g).en.stopLevel = g.en.stopLevel := by
  intro k
  induction k with
  | zero => intro i g; rfl
  | succ k ih =>
    intro i g
    simp only [reportMultiPv]
    split
    · rw [ih, uciScore_stopLevel]
    · rw [uciScore_stopLevel]

theorem reportHashMove_en {B S : Type} (env : Env B S) (RT : RootsearchType) (dummy : Int)
    (g : GenState B) : (reportHashMove env RT dummy g).en = g.en := by
  unfold reportHashMove
  split
  · rfl
  · rfl

theorem reportFirstMove_en {B : Type} (g : GenState B) : (reportFirstMove g).en = g.en := by
  unfold reportFirstMove
  split <;> rfl

theorem reportInstamove_en {B S : Type} (env : Env B S) (drv : Driver B) (g : GenState B) :
    (reportInstamove env drv g).en = g.en := by
  unfold reportInstamove
  split <;> rfl

theorem reportRootmoveScore_en {B : Type} (g : GenState B) :
    (reportRootmoveScore g).en = g.en := by
  unfold reportRootmoveScore
  split <;> rfl

theorem genReport_stopLevel {B S : Type} (env : Env B S) (drv : Driver B)
    (RT : RootsearchType) (dummy : Int) (g : GenState B) :
    (genReport env drv RT dummy g).en.stopLevel = g.en.stopLevel := by
  unfold genReport
  split
  · simp only
    split
    · split
      · rw [reportMultiPv_stopLevel]
      · rfl
    · rw [uciScore_stopLevel, reportRootmoveScore_en, reportInstamove_en, reportFirstMove_en,
        reportHashMove_en]
  · rfl

theorem genAdvance_en {B : Type} (drv : Driver B) (RT : RootsearchType) (g : GenState B) :
    (genAdvance drv RT g).en = g.en := by
  unfold genAdvance
  split <;> rfl

theorem genTrack_en {B : Type} (g : GenState B) : (genTrack g).en = g.en := by
  unfold genTrack
  split <;> rfl

theorem genTimeReset_stopped {B : Type} (drv : Driver B) (g : GenState B)
    (h : g.en.stopLevel = StopLevel.ENGINESTOPIMMEDIATELY) :
    (genTimeReset drv g).en.stopLevel = StopLevel.ENGINESTOPIMMEDIATELY := by
  unfold genTimeReset
  split
  · split
    · rw [if_neg]
      · simp only [resetEndTime_stopLevel, h]
      · simp only [resetEndTime_stopLevel, h]
        intro hc
        exact absurd hc.2 (by decide)
    · rw [if_neg]
      · exact h
      · rw [h]
        intro hc
        exact absurd hc.2 (by decide)
  · exact h

theorem genExit_stopped {B S : Type} (env : Env B S) (drv : Driver B) (g : GenState B)
    (h : g.en.stopLevel = StopLevel.ENGINESTOPIMMEDIATELY) : genExit env drv g = true := by
  unfold genExit
  simp [h]

theorem rootMove_stopped {B S : Type} (env : Env B S) (ab : Search B) (c : RootCtx) (i : Nat)
    (st : RootState) (w : World B)
    (hstop : ∀ n, env.stopLevel n = StopLevel.ENGINESTOPIMMEDIATELY) :
    rootMove env ab c i st w = Step.fuel ∨
      ∃ w', rootMove env ab c i st w = Step.ret (st.bestscore, w') := by
  unfold rootMove
  simp only [hstop, if_true]
  split
  · exact Or.inl rfl
  · exact Or.inr ⟨_, rfl⟩

/-- C6, amended.  Let `rootsearch` be called in an iteration of `search_gen1` (the root
position has a move and is no draw) and let the stop flag be `ENGINESTOPIMMEDIATELY` when the
call returns `score`, with `score` below the bench termination score.  Then the returned value
is processed like that of any iteration (`genAspiration` sets `lastCompleteDepth` and the new
window from it, `genAdvance` steps the depth), the flag is still `ENGINESTOPIMMEDIATELY` at the
end of the loop body, and the iteration loop ends there: no further `rootsearch` call is made.
Moreover, inside `rootsearch` a root move whose search ends with the flag set makes
`rootsearch` return the best score of the moves finished before. -/
theorem search_gen1_stop_ends_loop {B S : Type} (env : Env B S) (drv : Driver B)
    (root : RootCall B) (RT : RootsearchType) (dummy : Int) (k : Nat) (g g1 : GenState B)
    (score : Int)
    (hmoves : g.w.pos.rootmovelist.length ≠ 0)
    (hdraw : ¬ (env.testRepetiton (genStart g).w.pos ≥ 2 ∨ g.w.pos.halfmovescounter ≥ 100))
    (hroot : root g.alpha g.beta g.depth (genStart g) = some (score, g1))
    (hstop : g1.en.stopLevel = StopLevel.ENGINESTOPIMMEDIATELY)
    (hbench : score < g1.en.terminationscore) :
    genLoop env drv root RT dummy (k + 1) g =
      some (genTimeReset drv (genTrack (genAdvance drv RT (genReport env drv RT dummy
        (genCopyPv env (genAspiration env RT { g1 with score := score })))))) ∧
    (genTimeReset drv (genTrack (genAdvance drv RT (genReport env drv RT dummy
        (genCopyPv env (genAspiration env RT { g1 with score := score })))))).en.stopLevel
      = StopLevel.ENGINESTOPIMMEDIATELY ∧
    (∀ (ab : Search B) (c : RootCtx) (i : Nat) (st : RootState) (w : World B),
      (∀ n, env.stopLevel n = StopLevel.ENGINESTOPIMMEDIATELY) →
      rootMove env ab c i st w = Step.fuel ∨
        ∃ w', rootMove env ab c i st w = Step.ret (st.bestscore, w')) := by
  have hs : (genTimeReset drv (genTrack (genAdvance drv RT (genReport env drv RT dummy
      (genCopyPv env (genAspiration env RT { g1 with score := score })))))).en.stopLevel
      = StopLevel.ENGINESTOPIMMEDIATELY := by
    apply genTimeReset_stopped
    rw [genTrack_en, genAdvance_en, genReport_stopLevel, genCopyPv_en,
      genAspiration_stopLevel env RT _ hbench]
    exact hstop
  refine ⟨?_, hs, fun ab c i st w h => rootMove_stopped env ab c i st w h⟩
  have hsearch : genSearch env root RT g
      = some (genAspiration env RT { g1 with score := score }) := by
    unfold genSearch
    have h1 : ¬ (genStart g).w.pos.rootmovelist.length = 0 := hmoves
    have h2 : ¬ (env.testRepetiton (genStart g).w.pos ≥ 2
        ∨ (genStart g).w.pos.halfmovescounter ≥ 100) := hdraw
    have h3 : root (genStart g).alpha (genStart g).beta (genStart g).depth (genStart g)
        = some (score, g1) := hroot
    simp only [if_neg h1, if_neg h2, h3]
  simp only [genLoop, genIteration, hsearch, genExit_stopped env drv _ hs, if_true]
theorem search_gen1_stop_ends_loop_witness :
    (genLoop (stopAtEnv 5) exampleDriver
        (rootsearchCall (stopAtEnv 5) RootsearchType.SinglePVSearch 6 0)
        RootsearchType.SinglePVSearch 0 1 depth5State).map
        (fun g => (g.en.stopLevel, g.lastCompleteDepth, g.depth))
      = some (StopLevel.ENGINESTOPIMMEDIATELY, 5, 6) := by
  have hroot : rootsearchCall (stopAtEnv 5) RootsearchType.SinglePVSearch 6 0
      depth5State.alpha depth5State.beta depth5State.depth (genStart depth5State)
      = some (interruptedResult.1, interruptedResult.2) := by
    unfold interruptedResult
    exact option_eq_some_getD _ _ (by decide!)
  rw [(search_gen1_stop_ends_loop (stopAtEnv 5) exampleDriver
    (rootsearchCall (stopAtEnv 5) RootsearchType.SinglePVSearch 6 0)
    RootsearchType.SinglePVSearch 0 0 depth5State interruptedResult.2 interruptedResult.1
    (by decide!) (by decide!) hroot (by decide!) (by decide!)).1]
  decide!

/-- C6 as stated fails.  Worker 0 runs the iteration at depth 5 with the full window; the first
of two root moves is searched completely (score 0), the flag turns to
`ENGINESTOPIMMEDIATELY` while the second one is searched, and `rootsearch` returns 0.
`search_gen1` then advances `lastCompleteDepth` from 4 to 5, computes the new aspiration
window `[-8, 8]` from the returned value and increases `thr->depth` to 6. -/
theorem search_gen1_stop_counterexample :
    (depth5State.lastCompleteDepth, depth5State.alpha, depth5State.beta, depth5State.depth)
      = (4, -32767, 32767, 5) ∧
    (rootsearchCall (stopAtEnv 5) RootsearchType.SinglePVSearch 6 0 (-32767) 32767 5
        (genStart depth5State)).map (fun r => (r.1, r.2.en.stopLevel))
      = some (0, StopLevel.ENGINESTOPIMMEDIATELY) ∧
    (genIteration (stopAtEnv 5) exampleDriver
        (rootsearchCall (stopAtEnv 5) RootsearchType.SinglePVSearch 6 0)
        RootsearchType.SinglePVSearch 0 depth5State).map
        (fun g => (g.en.stopLevel, g.lastCompleteDepth, g.alpha, g.beta, g.depth))
      = some (StopLevel.ENGINESTOPIMMEDIATELY, 5, -8, 8, 6) :=
  ⟨by decide, by decide!, by decide!⟩

/-! ### Writes of the stop flag -/

theorem Engine.stopLevel_pondersearch (en : Engine) (x : Nat) :
    ({ en with pondersearch := x } : Engine).stopLevel = en.stopLevel := rfl

theorem Engine.stopLevel_starttime (en : Engine) (x : Nat) :
    ({ en with starttime := x } : Engine).stopLevel = en.stopLevel := rfl

theorem guideMoveOutput_stopLevel (nowtime : Nat) (en : Engine) :
    (guideMoveOutput nowtime en).stopLevel = en.stopLevel := by
  unfold guideMoveOutput
  split <;> rfl

theorem guideStep_monotone {B : Type} (drv : Driver B) (nowtime nodes : Nat) (ph : Int)
    (en : Engine) :
    en.stopLevel.toNat ≤ (guideStep drv nowtime nodes ph en).stopLevel.toNat := by
  unfold guideStep
  split
  · split
    · exact Nat.le_refl _
    · split
      · simp only
        rw [Engine.stopLevel_pondersearch]
        unfold startSearchTime
        rw [resetEndTime_stopLevel, Engine.stopLevel_starttime]
      · split
        · rename_i h
          exact Nat.le_of_lt h.2.2
        · split
          · rename_i h
            exact Nat.le_of_lt h.2.2
          · split
            · rename_i h
              exact Nat.le_of_lt h.2.2
            · exact Nat.le_refl _
  · exact Nat.le_refl _

theorem genAspiration_writes {B S : Type} (env : Env B S) (RT : RootsearchType)
    (g : GenState B) :
    (genAspiration env RT g).en.stopLevel = g.en.stopLevel ∨
      (genAspiration env RT g).en.stopLevel = StopLevel.ENGINEWANTSTOP := by
  unfold genAspiration
  simp only
  split
  · exact Or.inl rfl
  · split
    · exact Or.inl rfl
    · split
      · exact Or.inr rfl
      · split
        · exact Or.inl rfl
        · exact Or.inl rfl

theorem genTimeReset_writes {B : Type} (drv : Driver B) (g : GenState B) :
    (genTimeReset drv g).en.stopLevel = g.en.stopLevel ∨
      (g.en.stopLevel = StopLevel.ENGINESTOPSOON ∧
        (genTimeReset drv g).en.stopLevel = StopLevel.ENGINERUN) := by
  unfold genTimeReset
  split
  · split
    · simp only [resetEndTime_stopLevel]
      split
      · rename_i h
        exact Or.inr ⟨h.2, rfl⟩
      · exact Or.inl (resetEndTime_stopLevel _ _ _ _)
    · simp only
      split
      · rename_i h
        exact Or.inr ⟨h.2, rfl⟩
      · exact Or.inl rfl
  · exact Or.inl rfl

/-- C7, amended.  In the polling loop of `searchguide` the stop level never decreases (every
assignment there is guarded by `en.stopLevel < …` and moves to `ENGINESTOPSOON` or
`ENGINESTOPIMMEDIATELY`); after the loop `searchguide` sets `ENGINESTOPIMMEDIATELY` and, once
the workers are joined, `ENGINETERMINATEDSEARCH`.  The workers write the flag as well: the
aspiration block of `search_gen1` leaves it unchanged or sets `ENGINEWANTSTOP`, and the
time-reset block leaves it unchanged or takes it from `ENGINESTOPSOON` back to `ENGINERUN`. -/
theorem stopLevel_writes {B S : Type} (env : Env B S) (drv : Driver B) (RT : RootsearchType)
    (nowtime nodes : Nat) (ph : Int) (en : Engine) (g : GenState B) :
    en.stopLevel.toNat ≤ (guidePoll drv nowtime nodes ph en).stopLevel.toNat ∧
    (guideFinish en).1.stopLevel = StopLevel.ENGINESTOPIMMEDIATELY ∧
    (guideFinish en).2.stopLevel = StopLevel.ENGINETERMINATEDSEARCH ∧
    ((genAspiration env RT g).en.stopLevel = g.en.stopLevel ∨
      (genAspiration env RT g).en.stopLevel = StopLevel.ENGINEWANTSTOP) ∧
    ((genTimeReset drv g).en.stopLevel = g.en.stopLevel ∨
      (g.en.stopLevel = StopLevel.ENGINESTOPSOON ∧
        (genTimeReset drv g).en.stopLevel = StopLevel.ENGINERUN)) := by
  refine ⟨?_, rfl, rfl, genAspiration_writes env RT g, genTimeReset_writes drv g⟩
  unfold guidePoll
  calc en.stopLevel.toNat
      = (guideMoveOutput nowtime en).stopLevel.toNat := by rw [guideMoveOutput_stopLevel]
    _ ≤ _ := guideStep_monotone drv nowtime nodes ph _

/-- C7 as stated fails.  Worker 0 starts its first iteration with the flag at `ENGINERUN`;
while `rootsearch` runs the flag becomes `ENGINESTOPSOON`.  The iteration finds a best move,
which differs from the initial `lastBestMove`, so the worker itself writes the flag and takes
it back to `ENGINERUN`, a smaller state.  The guide lowers the flag too: it leaves the polling
loop at `ENGINESTOPPED` and then assigns `ENGINESTOPIMMEDIATELY`. -/
theorem stopLevel_worker_counterexample :
    (firstIterationState.en.stopLevel, firstIterationState.depth, firstIterationState.index)
      = (StopLevel.ENGINERUN, 1, 0) ∧
    (rootsearchCall soonEnv RootsearchType.SinglePVSearch 6 0 firstIterationState.alpha
        firstIterationState.beta 1 (genStart firstIterationState)).map
        (fun r => r.2.en.stopLevel)
      = some StopLevel.ENGINESTOPSOON ∧
    (genIteration soonEnv exampleDriver
        (rootsearchCall soonEnv RootsearchType.SinglePVSearch 6 0)
        RootsearchType.SinglePVSearch 0 firstIterationState).map (fun g => g.en.stopLevel)
      = some StopLevel.ENGINERUN ∧
    StopLevel.ENGINERUN.toNat < StopLevel.ENGINESTOPSOON.toNat ∧
    (guideFinish { exampleEngine with stopLevel := StopLevel.ENGINESTOPPED }).1.stopLevel
      = StopLevel.ENGINESTOPIMMEDIATELY ∧
    StopLevel.ENGINESTOPIMMEDIATELY.toNat < StopLevel.ENGINESTOPPED.toNat :=
  ⟨by decide!, by decide!, by decide!, by decide, by decide, by decide⟩

/-! ### Tablebase probe of `alphabeta` -/

/-- C11, amended.  On every successful WDL probe in `alphabeta` (piece count `<= useTb`,
`halfmovescounter == 0`, `success != 0`) with value `v` the node counts a tablebase hit and
returns `-SCORETBWIN + ply` if `v <= -1 - Syzygy50MoveRule`, `SCORETBWIN - ply` if
`v >= 1 + Syzygy50MoveRule`, and `SCOREDRAW + v` otherwise.  The score is stored in the
transposition table (key `hash`, depth `MAXDEPTH`, no move, bound `HASHALPHA`, `HASHBETA`,
`HASHEXACT` respectively) before returning exactly when the bound is exact, the loss score is
`<= alpha`, or the win score is `>= beta`; otherwise nothing is stored. -/
theorem alphabeta_tablebase {B S : Type} (env : Env B S) (ab qs : Search B) (fuel : Nat)
    (L : Locals) (w : World B)
    (hcount : env.pieceCount w.pos ≤ env.useTb) (h50 : w.pos.halfmovescounter = 0)
    (hsucc : (env.probe_wdl w.pos).1 ≠ 0) :
    ∃ score tt,
      abTB env ab qs fuel L w = some (score, { w with tbhits := w.tbhits + 1, tt := tt }) ∧
      (score =
        if (env.probe_wdl w.pos).2 ≤ -1 - b2i env.Syzygy50MoveRule then
          -env.SCORETBWIN + w.pos.ply
        else if (env.probe_wdl w.pos).2 ≥ 1 + b2i env.Syzygy50MoveRule then
          env.SCORETBWIN - w.pos.ply
        else env.SCOREDRAW + (env.probe_wdl w.pos).2) ∧
      (tt =
        if (env.probe_wdl w.pos).2 ≤ -1 - b2i env.Syzygy50MoveRule then
          if score ≤ L.alpha then
            w.tt ++ [TTOp.store w.pos.hash score L.staticeval Bound.HASHALPHA env.MAXDEPTH 0]
          else w.tt
        else if (env.probe_wdl w.pos).2 ≥ 1 + b2i env.Syzygy50MoveRule then
          if score ≥ L.beta then
            w.tt ++ [TTOp.store w.pos.hash score L.staticeval Bound.HASHBETA env.MAXDEPTH 0]
          else w.tt
        else
          w.tt ++ [TTOp.store w.pos.hash score L.staticeval Bound.HASHEXACT env.MAXDEPTH 0]) := by
  unfold abTB
  rw [if_pos ⟨hcount, h50⟩, if_pos hsucc]
  simp only [tbBoundScore, tbStoreTest, World.addHash]
  by_cases h1 : (env.probe_wdl w.pos).2 ≤ -1 - b2i env.Syzygy50MoveRule
  · simp only [if_pos h1]
    by_cases h2 : -env.SCORETBWIN + w.pos.ply ≤ L.alpha
    · refine ⟨-env.SCORETBWIN + w.pos.ply, w.tt ++ [TTOp.store w.pos.hash
        (-env.SCORETBWIN + w.pos.ply) L.staticeval Bound.HASHALPHA env.MAXDEPTH 0], ?_, rfl, ?_⟩
      · simp [h2]
      · simp [h2]
    · refine ⟨-env.SCORETBWIN + w.pos.ply, w.tt, ?_, rfl, ?_⟩
      · simp [h2]
      · simp [h2]
  · simp only [if_neg h1]
    by_cases h3 : (env.probe_wdl w.pos).2 ≥ 1 + b2i env.Syzygy50MoveRule
    · simp only [if_pos h3]
      by_cases h4 : env.SCORETBWIN - w.pos.ply ≥ L.beta
      · refine ⟨env.SCORETBWIN - w.pos.ply, w.tt ++ [TTOp.store w.pos.hash
          (env.SCORETBWIN - w.pos.ply) L.staticeval Bound.HASHBETA env.MAXDEPTH 0], ?_, rfl, ?_⟩
        · simp [h4]
        · simp [h4]
      · refine ⟨env.SCORETBWIN - w.pos.ply, w.tt, ?_, rfl, ?_⟩
        · simp [h4]
        · simp [h4]
    · simp only [if_neg h3]
      refine ⟨env.SCOREDRAW + (env.probe_wdl w.pos).2, w.tt ++ [TTOp.store w.pos.hash
        (env.SCOREDRAW + (env.probe_wdl w.pos).2) L.staticeval Bound.HASHEXACT env.MAXDEPTH 0],
        ?_, rfl, ?_⟩
      · simp
      · simp

theorem alphabeta_tablebase_witness :
    tablebaseEnv.pieceCount exampleWorld.pos ≤ tablebaseEnv.useTb ∧
    exampleWorld.pos.halfmovescounter = 0 ∧
    (tablebaseEnv.probe_wdl exampleWorld.pos).1 ≠ 0 ∧
    ∃ tt, abTB tablebaseEnv (alphabeta tablebaseEnv 0) (getQuiescence tablebaseEnv 0) 0
        exampleLocals exampleWorld
      = some (29900, { exampleWorld with tbhits := exampleWorld.tbhits + 1, tt := tt }) ∧
      tt = [TTOp.store 0x1234 29900 100 Bound.HASHBETA 256 0] := by
  refine ⟨by decide, by decide, by decide, ?_⟩
  obtain ⟨score, tt, h, hs, ht⟩ := alphabeta_tablebase tablebaseEnv (alphabeta tablebaseEnv 0)
    (getQuiescence tablebaseEnv 0) 0 exampleLocals exampleWorld (by decide) (by decide)
    (by decide)
  have hs' : score = 29900 := by rw [hs]; decide
  subst hs'
  exact ⟨tt, h, by rw [ht]; decide⟩

/-- C11 as stated fails.  A node with the window `(-100, 30000)` whose probe reports a win
(`v = 2`) returns `SCORETBWIN - ply = 29900` and stores nothing: the only operation on the
transposition table is the node's probe.  And with `Syzygy50MoveRule` set a probe value
`v = 1` (a cursed win) gives `SCOREDRAW + 1`, stored as exact, neither a win score nor
`SCOREDRAW`. -/
theorem alphabeta_tablebase_counterexample :
    (tablebaseEnv.pieceCount exampleWorld.pos ≤ tablebaseEnv.useTb ∧
      exampleWorld.pos.halfmovescounter = 0 ∧
      tablebaseEnv.probe_wdl exampleWorld.pos = (1, 2)) ∧
    (alphabeta tablebaseEnv 1 (-100) 30000 5 exampleWorld).map (fun r => (r.1, r.2.tt))
      = some (29900, [TTOp.probe 0x1234 5 (-100) 30000 0]) ∧
    (cursedWinEnv.probe_wdl exampleWorld.pos = (1, 1) ∧ cursedWinEnv.SCOREDRAW = 0) ∧
    (alphabeta cursedWinEnv 1 (-100) 100 5 exampleWorld).map (fun r => (r.1, r.2.tt))
      = some (1, [TTOp.probe 0x1234 5 (-100) 100 0,
                  TTOp.store 0x1234 1 (-32001) Bound.HASHEXACT 256 0]) :=
  ⟨by decide, by decide, by decide, by decide⟩

/-! ### Null-move pruning -/

/-- C12, amended.  With `bestknownscore` the score of the transposition table if the probe
gave one (`hashscore != NOSCORE`) and the static evaluation otherwise, `alphabeta` attempts
the null move exactly when the node is not in check, `depth >= 2`, `bestknownscore >= beta`
and (`ply >= nullmoveply` or `ply % 2 != nullmoveside`): then the null move is played and the
search `alphabeta(-beta, -beta + 1, depth - R)` is made with
`R = 4 + depth / 6 + (bestknownscore - beta) / 150 + (non-PV ? 2 : 0)`, its negated value
deciding how the node goes on; otherwise the node goes on with ProbCut on the unchanged
state.  `bestknownscore` is `max(staticeval, hashscore)` whenever the table gave no score
(`NOSCORE` being the least score) or a score not below the static evaluation. -/
theorem alphabeta_nullmove {B S : Type} (env : Env B S) (ab : Search B) (fuel : Nat)
    (L : Locals) (w : World B) (bks R : Int)
    (hbks : bks = if L.hashscore ≠ env.NOSCORE then L.hashscore else L.staticeval)
    (hR : R = 4 + L.depth.tdiv 6 + (bks - L.beta).tdiv 150 + (if L.PVNode then 0 else 2)) :
    ((w.pos.isCheckbb = 0 ∧ L.depth ≥ 2 ∧ bks ≥ L.beta
        ∧ (w.pos.ply ≥ w.pos.nullmoveply ∨ w.pos.ply.tmod 2 ≠ w.pos.nullmoveside)) →
      abNullMove env ab fuel L w =
        match ab (-L.beta) (-L.beta + 1) (L.depth - R) (w.setPos (env.playNullMove w.pos)) with
        | none => none
        | some (r, w1) =>
          if -r ≥ L.beta then
            abNullMoveVerify env ab fuel L bks R (if env.MATEFORME (-r) then L.beta else -r)
              (w1.setPos (env.unplayNullMove w1.pos))
          else
            abProbCut env ab fuel L bks (w1.setPos (env.unplayNullMove w1.pos))) ∧
    (¬ (w.pos.isCheckbb = 0 ∧ L.depth ≥ 2 ∧ bks ≥ L.beta
        ∧ (w.pos.ply ≥ w.pos.nullmoveply ∨ w.pos.ply.tmod 2 ≠ w.pos.nullmoveside)) →
      abNullMove env ab fuel L w = abProbCut env ab fuel L bks w) ∧
    ((L.hashscore = env.NOSCORE ∧ env.NOSCORE ≤ L.staticeval)
        ∨ (L.hashscore ≠ env.NOSCORE ∧ L.staticeval ≤ L.hashscore) →
      bks = max L.staticeval L.hashscore) := by
  have hbks' : bks = bestKnownScore env L := hbks
  have hR' : R = nullMoveR L bks := by
    rw [hR]
    unfold nullMoveR b2i
    cases L.PVNode <;> simp
  subst hbks' hR'
  refine ⟨fun h => ?_, fun h => ?_, fun h => ?_⟩
  · unfold abNullMove
    simp only [if_pos h]
  · unfold abNullMove
    simp only [if_neg h]
  · unfold bestKnownScore
    rcases h with ⟨h1, h2⟩ | ⟨h1, h2⟩
    · rw [if_neg (by simpa using h1), h1]
      exact (max_eq_left h2).symm
    · rw [if_pos h1]
      exact (max_eq_right h2).symm

theorem alphabeta_nullmove_witness :
    (exampleWorld.pos.isCheckbb = 0 ∧ (3 : Int) ≥ 2 ∧ (60 : Int) ≥ 50
      ∧ (exampleWorld.pos.ply ≥ exampleWorld.pos.nullmoveply
        ∨ exampleWorld.pos.ply.tmod 2 ≠ exampleWorld.pos.nullmoveside)) ∧
    (abNullMove exampleEnv echoAlpha 1 { exampleLocals with hashscore := 60 }
      exampleWorld).map Prod.fst = some 50 := by
  refine ⟨by decide, ?_⟩
  rw [(alphabeta_nullmove exampleEnv echoAlpha 1 { exampleLocals with hashscore := 60 }
    exampleWorld 60 6 (by decide) (by decide)).1 (by decide)]
  decide

/-- C12 as stated fails.  At a non-PV node at depth 3 with `beta = 50`, not in check, with
static evaluation 100 and a table score 0, `max(staticeval, hashscore) = 100 >= beta`, but no
null move is attempted: the node reaches the stalemate test of its (empty) move loop although
every recursive call would run out of fuel.  With a table score 60 and static evaluation 400
the null-move search is made with `R = 4 + 0 + (60 - 50) / 150 + 2 = 6`, not with
`4 + 0 + (400 - 50) / 150 + 2 = 8`: a search stand-in that answers only calls with depth
`3 - 6` (by -50) lets the node return 50.  In whole calls `alphabeta(49, 50, 3)` the
operations on the transposition table show the same: with a table score 0 and static
evaluation 100 the node's probe is the only one, no child is searched; with a table score 60
the null-move child is searched, with depth `3 - 6` and the window `(-50, -49)`. -/
theorem alphabeta_nullmove_counterexample :
    (exampleWorld.pos.isCheckbb = 0 ∧ exampleLocals.depth ≥ 2
      ∧ max exampleLocals.staticeval exampleLocals.hashscore ≥ exampleLocals.beta
      ∧ exampleWorld.pos.ply ≥ exampleWorld.pos.nullmoveply) ∧
    (abNullMove exampleEnv (alphabeta exampleEnv 0) 1 exampleLocals exampleWorld).map Prod.fst
      = some exampleEnv.SCOREDRAW ∧
    (abNullMove exampleEnv (fun _ _ d w => if d = 3 - 6 then some (-50, w) else none) 1
        { exampleLocals with hashscore := 60, staticeval := 400 } exampleWorld).map Prod.fst
      = some 50 ∧
    (4 + (3 : Int).tdiv 6 + (max 400 60 - 50 : Int).tdiv 150 + 2 = 8) ∧
    (alphabeta (hashScoreEnv 0 100) 3 49 50 3 exampleWorld).map (fun r => (r.1, r.2.tt))
      = some (0, [TTOp.probe 0x1234 3 49 50 0]) ∧
    (alphabeta (hashScoreEnv 60 100) 3 49 50 3 exampleWorld).map (fun r => (r.1, r.2.tt))
      = some (0, [TTOp.probe 0x1234 3 49 50 0, TTOp.probe 0x1234 (3 - 6) (-50) (-49) 0]) :=
  ⟨by decide, by decide, by decide, by decide, by decide, by decide!⟩

/-- C13, amended.  After a null-move search with `score >= beta` (a mate score replaced by
`beta`), `alphabeta` returns `score` immediately, without a verification search, whenever
`|beta| < 5000` and (`depth < 12` or a verification is already active, `nullmoveply != 0`).
Otherwise, so also for every `|beta| >= 5000`, it sets
`nullmoveply = ply + 3 * (depth - R) / 4` and `nullmoveside = ply % 2`, searches
`(beta - 1, beta, depth - R)`, resets both guards to 0 and returns `score` if that search
gave at least `beta`; if not, the node goes on with ProbCut. -/
theorem alphabeta_nullmove_verification {B S : Type} (env : Env B S) (ab : Search B)
    (fuel : Nat) (L : Locals) (bks R score : Int) (w : World B) :
    (|L.beta| < 5000 ∧ (L.depth < 12 ∨ w.pos.nullmoveply ≠ 0) →
      abNullMoveVerify env ab fuel L bks R score w = some (score, w)) ∧
    (¬ (|L.beta| < 5000 ∧ (L.depth < 12 ∨ w.pos.nullmoveply ≠ 0)) →
      abNullMoveVerify env ab fuel L bks R score w =
        match ab (L.beta - 1) L.beta (L.depth - R)
            (w.setPos { w.pos with nullmoveply := w.pos.ply + (3 * (L.depth - R)).tdiv 4,
                                   nullmoveside := w.pos.ply.tmod 2 }) with
        | none => none
        | some (verificationscore, w1) =>
          if verificationscore ≥ L.beta then
            some (score, w1.setPos { w1.pos with nullmoveside := 0, nullmoveply := 0 })
          else
            abProbCut env ab fuel L bks
              (w1.setPos { w1.pos with nullmoveside := 0, nullmoveply := 0 })) := by
  refine ⟨fun h => ?_, fun h => ?_⟩
  · unfold abNullMoveVerify
    rw [if_pos h]
  · unfold abNullMoveVerify
    rw [if_neg h]

theorem alphabeta_nullmove_verification_witness :
    (|exampleLocals.beta| < 5000
      ∧ (exampleLocals.depth < 12 ∨ exampleWorld.pos.nullmoveply ≠ 0)) ∧
    (abNullMoveVerify exampleEnv (alphabeta exampleEnv 0) 1 exampleLocals 60 6 60
      exampleWorld).map Prod.fst = some 60 := by
  refine ⟨by decide, ?_⟩
  rw [(alphabeta_nullmove_verification exampleEnv (alphabeta exampleEnv 0) 1 exampleLocals 60 6
    60 exampleWorld).1 (by decide)]
  rfl

/-- C13 as stated fails.  At depth 3 with `beta = 5000` and no verification active, the
null-move search gives 6000 `>= beta`.  The node does not return 6000: it makes the
verification search, which gives 0 `< beta`, and goes on to its move loop, where it finds no
move and returns the stalemate score. -/
theorem alphabeta_nullmove_verification_counterexample :
    ((3 : Int) < 12 ∧ exampleWorld.pos.nullmoveply = 0
      ∧ (refutedNullMove (-5000) (-4999) (3 - 6) exampleWorld).map Prod.fst = some (-6000)
      ∧ (refutedNullMove 4999 5000 (3 - 6) exampleWorld).map Prod.fst = some 0) ∧
    (abNullMove exampleEnv refutedNullMove 1
        { exampleLocals with alpha := 4999, beta := 5000, hashscore := 5010, staticeval := 5010 }
        exampleWorld).map Prod.fst = some exampleEnv.SCOREDRAW ∧
    exampleEnv.SCOREDRAW ≠ 6000 :=
  ⟨by decide, by decide, by decide⟩

/-! ### Razoring and futility -/

/-- C14, amended.  At a non-PV node of `alphabeta` that is not in check, with `depth <= 2` and
`staticeval < ralpha`, where `ralpha = alpha - 250 - 50 * depth`: at depth 1 the node returns
the value of `getQuiescence(alpha, beta, depth)`, whatever it is; at any other depth (depth 2)
it runs `getQuiescence(ralpha, ralpha + 1, depth)` and returns that value if and only if it is
`<= ralpha`, otherwise the search goes on with the futility stage. -/
theorem alphabeta_razoring {B S : Type} (env : Env B S) (ab qs : Search B) (fuel : Nat)
    (L : Locals) (w : World B)
    (hpv : L.PVNode = false) (hcheck : w.pos.isCheckbb = 0) (hdepth : L.depth ≤ 2)
    (hlow : L.staticeval < L.alpha - 250 - 50 * L.depth) :
    (L.depth = 1 → abRazor env ab qs fuel L w = qs L.alpha L.beta L.depth w) ∧
    (L.depth ≠ 1 →
      abRazor env ab qs fuel L w =
        match qs (L.alpha - 250 - 50 * L.depth) (L.alpha - 250 - 50 * L.depth + 1) L.depth w with
        | none => none
        | some (value, w1) =>
          if value ≤ L.alpha - 250 - 50 * L.depth then some (value, w1)
          else abFutility env ab fuel L w1) := by
  have hmul : L.depth * 50 = 50 * L.depth := Int.mul_comm _ _
  have hcond : ¬ L.PVNode = true ∧ w.pos.isCheckbb = 0 ∧ L.depth ≤ 2 :=
    ⟨by simp [hpv], hcheck, hdepth⟩
  have hlow' : L.staticeval < L.alpha - 250 - L.depth * 50 := by rw [hmul]; exact hlow
  refine ⟨fun h1 => ?_, fun h1 => ?_⟩
  · unfold abRazor
    simp only [if_pos hcond, if_pos hlow']
    rw [if_pos ⟨h1, by omega⟩]
  · unfold abRazor
    simp only [if_pos hcond, if_pos hlow']
    rw [if_neg (fun h => h1 h.1), hmul]

theorem alphabeta_razoring_witness :
    (abRazor exampleEnv (alphabeta exampleEnv 0) echoAlpha 1
        { exampleLocals with alpha := 1000, beta := 1001, depth := 2 } exampleWorld).map Prod.fst
      = some 650 := by
  rw [(alphabeta_razoring exampleEnv (alphabeta exampleEnv 0) echoAlpha 1
    { exampleLocals with alpha := 1000, beta := 1001, depth := 2 } exampleWorld rfl rfl
    (by decide) (by decide)).2 (by decide)]
  decide

/-- C14 as stated fails at depth 1.  A non-PV node with the window `(1000, 1001)`, not in
check, with static evaluation 100 `< ralpha = 700`, calls the quiescence search with the
window `(alpha, beta)`, not with `(ralpha, ralpha + 1)`, and returns its value although it
is above `ralpha`: with a quiescence stand-in that returns its `alpha` the node returns
1000.  In a whole call `alphabeta(1000, 1001, 1)` the probe made by the quiescence search
shows the window `(1000, 1001)`, where the call at depth 2 shows `(650, 651)`. -/
theorem alphabeta_razoring_counterexample :
    ((1000 : Int) - 250 - 50 * 1 = 700 ∧ exampleLocals.staticeval < 700
      ∧ exampleLocals.PVNode = false ∧ exampleWorld.pos.isCheckbb = 0) ∧
    (abRazor exampleEnv (alphabeta exampleEnv 0) echoAlpha 1
        { exampleLocals with alpha := 1000, beta := 1001, depth := 1 } exampleWorld).map Prod.fst
      = some 1000 ∧
    ¬ ((1000 : Int) ≤ 700) ∧
    (alphabeta exampleEnv 2 1000 1001 1 exampleWorld).map (fun r => (r.1, r.2.tt))
      = some (0, [TTOp.probe 0x1234 1 1000 1001 0, TTOp.probe 0x1234 1 1000 1001 0]) ∧
    (alphabeta exampleEnv 2 1000 1001 2 exampleWorld).map (fun r => (r.1, r.2.tt))
      = some (0, [TTOp.probe 0x1234 2 1000 1001 0, TTOp.probe 0x1234 2 650 651 0]) :=
  ⟨by decide, by decide, by decide, by decide, by decide⟩

/-- C15 (reverse futility and the futility flag).  At a node of `alphabeta` that reaches the
futility stage with `depth <= 6`: if the node is not in check and
`staticeval - depth * (72 - 20 * improving) > beta`, the node returns `staticeval` with the
state unchanged; otherwise the node goes on with the futility flag set to
`staticeval < alpha - (100 + 80 * depth)`.  With `depth > 6` the node goes on with the flag
`false`, whatever the static evaluation is, and no reverse-futility return happens. -/
theorem alphabeta_futility {B S : Type} (env : Env B S) (ab : Search B) (fuel : Nat)
    (L : Locals) (w : World B) (improving : Int)
    (himp : improving = if L.positionImproved then 1 else 0) :
    (L.depth ≤ 6 → w.pos.isCheckbb = 0
        ∧ L.staticeval - L.depth * (72 - 20 * improving) > L.beta →
      abFutility env ab fuel L w = some (L.staticeval, w)) ∧
    (L.depth ≤ 6 → ¬ (w.pos.isCheckbb = 0
        ∧ L.staticeval - L.depth * (72 - 20 * improving) > L.beta) →
      abFutility env ab fuel L w =
        abNullMove env ab fuel
          { L with futility := decide (L.staticeval < L.alpha - (100 + 80 * L.depth)) } w) ∧
    (L.depth > 6 →
      abFutility env ab fuel L w = abNullMove env ab fuel { L with futility := false } w) := by
  have himp' : improving = b2i L.positionImproved := himp
  subst himp'
  refine ⟨fun hd h => ?_, fun hd h => ?_, fun hd => ?_⟩
  · unfold abFutility
    rw [if_pos hd, if_pos h]
  · unfold abFutility
    rw [if_pos hd, if_neg h]
  · unfold abFutility
    rw [if_neg (by omega)]

theorem alphabeta_futility_witness :
    (exampleLocals.depth ≤ 6 ∧ exampleWorld.pos.isCheckbb = 0
      ∧ (400 : Int) - exampleLocals.depth * (72 - 20 * 0) > exampleLocals.beta) ∧
    (abFutility exampleEnv (alphabeta exampleEnv 0) 1 { exampleLocals with staticeval := 400 }
      exampleWorld).map Prod.fst = some 400 := by
  refine ⟨by decide, ?_⟩
  rw [(alphabeta_futility exampleEnv (alphabeta exampleEnv 0) 1
    { exampleLocals with staticeval := 400 } exampleWorld 0 rfl).1 (by decide) (by decide)]
  rfl

/-! ### Late move reduction -/

theorem abReduction_bounds {B S : Type} (env : Env B S) (c : NodeCtx) (m : Nat)
    (LegalMoves stats : Int) (hdepth : 0 ≤ c.depth) :
    0 ≤ abReduction env c m LegalMoves stats ∧ abReduction env c m LegalMoves stats ≤ c.depth := by
  unfold abReduction
  split
  · simp only
    omega
  · omega

/-- C16 (late move reduction in `alphabeta`).  For every move, at a node with `depth >= 0`
and non-negative extensions, for any contents of the reduction table and any history value
`stats`: `reduction` is 0 for a tactical move or `depth <= 2`, and otherwise it is
`reductiontable[improving][depth][min(63, LegalMoves + 1)] - stats / 4096 - (PV node ? 1 : 0)`
clamped to `[0, depth]`.  Hence `0 <= reduction <= depth` and
`effectiveDepth = depth + extendall - reduction + extendMove >= 0`. -/
theorem alphabeta_lmr {B S : Type} (env : Env B S) (c : NodeCtx) (m : Nat)
    (LegalMoves stats extendMove : Int)
    (hdepth : 0 ≤ c.depth) (hall : 0 ≤ c.extendall) (hext : 0 ≤ extendMove) :
    (env.ISTACTICAL m = true ∨ c.depth ≤ 2 → abReduction env c m LegalMoves stats = 0) ∧
    (env.ISTACTICAL m = false ∧ c.depth > 2 →
      abReduction env c m LegalMoves stats =
        max 0 (min c.depth
          (env.reductiontable c.positionImproved c.depth (min 63 (LegalMoves + 1))
            - stats.tdiv 4096 - (if c.PVNode then 1 else 0)))) ∧
    0 ≤ abReduction env c m LegalMoves stats ∧
    abReduction env c m LegalMoves stats ≤ c.depth ∧
    abEffectiveDepth env c m LegalMoves stats extendMove
      = c.depth + c.extendall - abReduction env c m LegalMoves stats + extendMove ∧
    0 ≤ abEffectiveDepth env c m LegalMoves stats extendMove := by
  have hb := abReduction_bounds env c m LegalMoves stats hdepth
  refine ⟨fun h => ?_, fun h => ?_, hb.1, hb.2, rfl, ?_⟩
  · unfold abReduction
    rw [if_neg]
    rintro ⟨h1, h2⟩
    rcases h with h | h
    · exact h2 h
    · omega
  · unfold abReduction
    rw [if_pos ⟨h.2, by simp [h.1]⟩]
    simp only [b2i]
    omega
  · unfold abEffectiveDepth
    omega

theorem alphabeta_lmr_witness :
    abReduction exampleEnv
        { beta := 100, depth := 5, PVNode := true, excludeMove := 0, newhash := 0x1234,
          extendall := 0, positionImproved := false, futility := false, bestknownscore := 0,
          lastmove := 0 }
        0x10000314 3 (-20000) = 4 ∧
    abEffectiveDepth exampleEnv
        { beta := 100, depth := 5, PVNode := true, excludeMove := 0, newhash := 0x1234,
          extendall := 0, positionImproved := false, futility := false, bestknownscore := 0,
          lastmove := 0 }
        0x10000314 3 (-20000) 1 = 2 ∧
    0 ≤ abEffectiveDepth exampleEnv
        { beta := 100, depth := 5, PVNode := true, excludeMove := 0, newhash := 0x1234,
          extendall := 0, positionImproved := false, futility := false, bestknownscore := 0,
          lastmove := 0 }
        0x10000314 3 (-20000) 1 :=
  ⟨by decide, by decide,
    (alphabeta_lmr exampleEnv
      { beta := 100, depth := 5, PVNode := true, excludeMove := 0, newhash := 0x1234,
        extendall := 0, positionImproved := false, futility := false, bestknownscore := 0,
        lastmove := 0 }
      0x10000314 3 (-20000) 1 (by decide) (by decide) (by decide)).2.2.2.2.2⟩

theorem nullMoveR_ge {B S : Type} (env : Env B S) (L : Locals) (hdepth : 0 ≤ L.depth)
    (hbks : bestKnownScore env L ≥ L.beta) : 4 ≤ nullMoveR L (bestKnownScore env L) := by
  unfold nullMoveR
  have h1 : 0 ≤ L.depth.tdiv 6 := Int.tdiv_nonneg hdepth (by decide)
  have h2 : 0 ≤ (bestKnownScore env L - L.beta).tdiv 150 :=
    Int.tdiv_nonneg (by omega) (by decide)
  have h3 : 0 ≤ b2i (!L.PVNode) := by
    unfold b2i
    split <;> decide
  omega

/-- C17, amended.  The late-move reduction applied by `alphabeta` lies in `[0, depth]` at
every node with `depth >= 0`.  The other reductions of the search core are not clamped: the
late-move reduction of a root move in `rootsearch` is the table entry
`reductiontable[0][depth][min(63, i + 1)]` as it is (and 0 in check, at `depth <= 2` or for a
tactical move), so it is in `[0, depth]` only as far as the table entry is; the null-move
reduction `R` is at least 4 wherever a null move is tried, so it exceeds the depth at depth 2
and 3. -/
theorem search_reductions {B S : Type} (env : Env B S) (c : NodeCtx) (m : Nat)
    (LegalMoves stats : Int) (rc : RootCtx) (i : Nat) (L : Locals) :
    (0 ≤ c.depth →
      0 ≤ abReduction env c m LegalMoves stats ∧ abReduction env c m LegalMoves stats ≤ c.depth) ∧
    (rc.extendall = 0 ∧ rc.depth > 2 ∧ env.ISTACTICAL m = false →
      rootReduction env rc i m = env.reductiontable false rc.depth (min 63 (i + 1))) ∧
    (¬ (rc.extendall = 0 ∧ rc.depth > 2 ∧ env.ISTACTICAL m = false) →
      rootReduction env rc i m = 0) ∧
    (0 ≤ L.depth → bestKnownScore env L ≥ L.beta → 4 ≤ nullMoveR L (bestKnownScore env L)) ∧
    (0 ≤ L.depth → L.depth ≤ 3 → bestKnownScore env L ≥ L.beta →
      L.depth < nullMoveR L (bestKnownScore env L)) := by
  refine ⟨abReduction_bounds env c m LegalMoves stats, fun h => ?_, fun h => ?_,
    nullMoveR_ge env L, fun h0 h3 hb => ?_⟩
  · unfold rootReduction
    rw [if_pos ⟨h.1, h.2.1, by simp [h.2.2]⟩]
  · unfold rootReduction
    rw [if_neg]
    rintro ⟨h1, h2, h3⟩
    exact h ⟨h1, h2, by simpa using h3⟩
  · have := nullMoveR_ge env L h0 hb
    omega

/-- C17 as stated fails.  In `rootsearch` at depth 3 the 20th root move, a quiet one, gets the
reduction 4, the table entry, which is above the depth: its search is called with depth
`3 - 4 - 1` (a search stand-in that answers only calls with that depth gives the move its
score).  In `alphabeta` a null move at depth 2 of a non-PV node is searched with
`R = 4 + 0 + 0 + 2 = 6`. -/
theorem search_reductions_counterexample :
    (reductionEnv.ISTACTICAL 0x10000314 = false ∧
      reductionEnv.reductiontable false 3 (min 63 ((19 : Nat) + 1)) = 4) ∧
    rootReduction reductionEnv
        { RT := RootsearchType.SinglePVSearch, beta := 100, depth := 3, extendall := 0,
          maxmoveindex := 1, staticeval := 0 } 19 0x10000314 = 4 ∧
    ¬ ((4 : Int) ≤ 3) ∧
    (rootSearchMove (fun _ _ d w => if d = 3 - 4 - 1 then some (200, w) else none)
        { RT := RootsearchType.SinglePVSearch, beta := 100, depth := 3, extendall := 0,
          maxmoveindex := 1, staticeval := 0 } (-100) Bound.HASHALPHA 4 exampleWorld).map
        (fun r => (r.1, r.2.1)) = some (-200, 3 - 4) ∧
    nullMoveR { exampleLocals with depth := 2, hashscore := 50 }
        (bestKnownScore exampleEnv { exampleLocals with depth := 2, hashscore := 50 }) = 6 ∧
    ¬ ((6 : Int) ≤ 2) :=
  ⟨by decide, by decide, by decide, by decide, by decide, by decide⟩

theorem search_reductions_witness :
    (0 : Int) ≤ 5 ∧
    0 ≤ abReduction exampleEnv
        { beta := 100, depth := 5, PVNode := false, excludeMove := 0, newhash := 0x1234,
          extendall := 0, positionImproved := false, futility := false, bestknownscore := 0,
          lastmove := 0 }
        0x10000314 3 (-40000) ∧
    abReduction exampleEnv
        { beta := 100, depth := 5, PVNode := false, excludeMove := 0, newhash := 0x1234,
          extendall := 0, positionImproved := false, futility := false, bestknownscore := 0,
          lastmove := 0 }
        0x10000314 3 (-40000) ≤ 5 :=
  ⟨by decide,
    (search_reductions exampleEnv
      { beta := 100, depth := 5, PVNode := false, excludeMove := 0, newhash := 0x1234,
        extendall := 0, positionImproved := false, futility := false, bestknownscore := 0,
        lastmove := 0 }
      0x10000314 3 (-40000)
      { RT := RootsearchType.SinglePVSearch, beta := 100, depth := 3, extendall := 0,
        maxmoveindex := 1, staticeval := 0 } 19 exampleLocals).1 (by decide)⟩

/-! ### Singular extension -/

/-- C18 (singular extension).  Let the singular-extension test of `alphabeta` trigger for the
move `m`: `m` is the hash move, `depth > 7`, no exclusion move is active, and the probe with
depth `depth - 3` hits with a score `hashscore > alpha`.  Then `excludemovestack[mstop - 1]` is
set to the hash move (as the probe reports it) and the search
`alphabeta(sBeta - 1, sBeta, depth / 2)` is made, with
`sBeta = max(hashscore - 2 * depth, SCOREBLACKWINS)`.  Afterwards `excludemovestack[mstop - 1]`
is 0 again, the value the node read from it at its entry.  If `redScore < sBeta` the move gets
`extendMove = 1`; else if `bestknownscore >= beta` and `sBeta >= beta` the node returns
`sBeta`; else the move goes on with `extendMove = 0`. -/
theorem alphabeta_singular {B S : Type} (env : Env B S) (ab : Search B) (c : NodeCtx) (m : Nat)
    (st : LoopState S) (w w1 : World B) (hashscore staticeval : Int) (hashmovecode : Nat)
    (hmove : m &&& 0xffff = st.hashmovecode) (hdepth : c.depth > 7)
    (hexcl : c.excludeMove = 0)
    (hprobe : w.probe env c.newhash st.hashscore st.staticeval st.hashmovecode (c.depth - 3)
      st.alpha c.beta w.pos.ply = ((true, hashscore, staticeval, hashmovecode), w1))
    (hscore : hashscore > st.alpha) :
    w1.pos = w.pos ∧
    (ab (max (hashscore - 2 * c.depth) env.SCOREBLACKWINS - 1)
        (max (hashscore - 2 * c.depth) env.SCOREBLACKWINS) (c.depth.tdiv 2)
        (w1.setPos { w1.pos with
          excludemovestack := upd w1.pos.excludemovestack (w1.pos.mstop - 1) hashmovecode })
        = none →
      abSingular env ab c m st w = Step.fuel) ∧
    (∀ redScore w2,
      ab (max (hashscore - 2 * c.depth) env.SCOREBLACKWINS - 1)
        (max (hashscore - 2 * c.depth) env.SCOREBLACKWINS) (c.depth.tdiv 2)
        (w1.setPos { w1.pos with
          excludemovestack := upd w1.pos.excludemovestack (w1.pos.mstop - 1) hashmovecode })
        = some (redScore, w2) →
      abSingular env ab c m st w =
        (if redScore < max (hashscore - 2 * c.depth) env.SCOREBLACKWINS then
          Step.cont (1, { st with hashscore := hashscore, staticeval := staticeval,
                                  hashmovecode := hashmovecode },
            w2.setPos { w2.pos with
              excludemovestack := upd w2.pos.excludemovestack (w2.pos.mstop - 1) 0 })
        else if c.bestknownscore ≥ c.beta
            ∧ max (hashscore - 2 * c.depth) env.SCOREBLACKWINS ≥ c.beta then
          Step.ret (max (hashscore - 2 * c.depth) env.SCOREBLACKWINS,
            w2.setPos { w2.pos with
              excludemovestack := upd w2.pos.excludemovestack (w2.pos.mstop - 1) 0 })
        else
          Step.cont (0, { st with hashscore := hashscore, staticeval := staticeval,
                                  hashmovecode := hashmovecode },
            w2.setPos { w2.pos with
              excludemovestack := upd w2.pos.excludemovestack (w2.pos.mstop - 1) 0 })) ∧
      (w2.setPos { w2.pos with
          excludemovestack := upd w2.pos.excludemovestack (w2.pos.mstop - 1) 0 }).pos.excludemovestack
        (w2.pos.mstop - 1) = c.excludeMove) ∧
    (w1.setPos { w1.pos with
        excludemovestack := upd w1.pos.excludemovestack (w1.pos.mstop - 1) hashmovecode
      }).pos.excludemovestack (w.pos.mstop - 1) = hashmovecode := by
  have hpos : w1.pos = w.pos := by
    have := congrArg (fun r => r.2.pos) hprobe
    exact this.symm
  refine ⟨hpos, fun hnone => ?_, fun redScore w2 hsome => ⟨?_, ?_⟩, ?_⟩
  · unfold abSingular
    rw [if_pos ⟨hmove, hdepth, hexcl⟩]
    simp only [hprobe, hscore, and_self, if_true, hnone]
  · unfold abSingular
    rw [if_pos ⟨hmove, hdepth, hexcl⟩]
    simp only [hprobe, hscore, and_self, if_true, hsome]
  · rw [hexcl]
    simp [World.setPos, upd]
  · rw [hpos]
    simp [World.setPos, upd]

theorem alphabeta_singular_witness :
    (0x10000314 &&& 0xffff = singularState.hashmovecode ∧ singularCtx.depth > 7
      ∧ singularCtx.excludeMove = 0 ∧ (40 : Int) > singularState.alpha) ∧
    max ((40 : Int) - 2 * singularCtx.depth) singularEnv.SCOREBLACKWINS = 24 ∧
    ∃ w3, abSingular singularEnv echoAlpha singularCtx 0x10000314 singularState exampleWorld
        = Step.cont (1, singularState, w3) ∧
      w3.pos.excludemovestack (w3.pos.mstop - 1) = 0 ∧
      w3.tt = [TTOp.probe 0x1234 5 0 100 0] := by
  refine ⟨by decide, by decide, ?_⟩
  have h := (alphabeta_singular singularEnv echoAlpha singularCtx 0x10000314 singularState
    exampleWorld { exampleWorld with tt := [TTOp.probe 0x1234 5 0 100 0] } 40 0 0x0314
    (by decide) (by decide) rfl rfl (by decide)).2.2.1 23 _ rfl
  have hs : (23 : Int) < max (40 - 2 * singularCtx.depth) singularEnv.SCOREBLACKWINS := by
    decide
  rw [h.1, if_pos hs]
  exact ⟨_, rfl, by decide, rfl⟩

/-! ### Depth skipping and the aspiration window -/

theorem skip_tables (k : Nat) (hk : k < 16) :
    SkipDepths.getD k 0 ≠ 0 ∧ 0 ≤ SkipSize.getD k 0 ∧ SkipSize.getD k 0 ≤ 3 := by
  revert k
  decide

theorem cycle_lt (i : Int) (hi : 0 ≤ i) : (i.tmod 16).toNat < 16 := by
  have h1 : 0 ≤ i.tmod 16 := Int.tmod_nonneg 16 hi
  have h2 : i.tmod 16 < 16 := Int.tmod_lt_of_pos i (by decide)
  omega

/-- C19, amended.  After an in-window iteration at depth `d` a worker with index `i >= 0`
advances to `d + 1 + skip`, where `skip` is `SkipSize[i mod 16]` if `i > 0` and
`(d + i mod 16) mod SkipDepths[i mod 16] == 0`, and 0 otherwise (so worker 0 advances to
`d + 1`); the modulus is never zero, and the new depth is strictly greater than `d`, by at
most 4.  The exception is a ponder search that is still pondering with `d + 1 + skip` above
`maxdepth`: there the new depth is `d + skip`, one less. -/
theorem depth_skipping {B : Type} (drv : Driver B) (RT : RootsearchType) (g : GenState B)
    (skip : Int) (hwin : g.inWindow = 1) (hidx : 0 ≤ g.index)
    (hskip : skip =
      if g.index ≠ 0
          ∧ (g.depth + g.index.tmod 16).tmod (SkipDepths.getD (g.index.tmod 16).toNat 0) = 0 then
        SkipSize.getD (g.index.tmod 16).toNat 0
      else 0) :
    SkipDepths.getD (g.index.tmod 16).toNat 0 ≠ 0 ∧
    (g.index = 0 → skip = 0) ∧ 0 ≤ skip ∧ skip ≤ 3 ∧
    (¬ (RT = RootsearchType.PonderSearch ∧ drv.isPondering g.en.pondersearch = true
          ∧ g.depth + skip + 1 > g.maxdepth) →
      (genAdvance drv RT g).depth = g.depth + 1 + skip ∧
      g.depth < (genAdvance drv RT g).depth ∧ (genAdvance drv RT g).depth ≤ g.depth + 4) ∧
    (RT = RootsearchType.PonderSearch ∧ drv.isPondering g.en.pondersearch = true
          ∧ g.depth + skip + 1 > g.maxdepth →
      (genAdvance drv RT g).depth = g.depth + skip) := by
  have ht := skip_tables (g.index.tmod 16).toNat (cycle_lt g.index hidx)
  have h0 : g.index = 0 → skip = 0 := by
    intro h
    rw [hskip, if_neg (fun hc => hc.1 h)]
  have hb : 0 ≤ skip ∧ skip ≤ 3 := by
    rw [hskip]
    split
    · exact ht.2
    · exact ⟨by decide, by decide⟩
  have hd : (if g.index ≠ 0
      ∧ (g.depth + g.index.tmod 16).tmod (SkipDepths.getD (g.index.tmod 16).toNat 0) = 0 then
        g.depth + SkipSize.getD (g.index.tmod 16).toNat 0
      else g.depth) = g.depth + skip := by
    rw [hskip]
    split
    · rfl
    · omega
  refine ⟨ht.1, h0, hb.1, hb.2, fun h => ?_, fun h => ?_⟩
  · have hdep : (genAdvance drv RT g).depth = g.depth + 1 + skip := by
      unfold genAdvance
      rw [if_pos hwin]
      simp only [hd]
      rw [if_neg h]
      omega
    rw [hdep]
    omega
  · unfold genAdvance
    rw [if_pos hwin]
    simp only [hd]
    rw [if_pos h]
    omega

theorem depth_skipping_witness :
    ({ depth5State with index := 3, depth := 9 } : GenState Unit).inWindow = 1 ∧
    (genAdvance exampleDriver RootsearchType.SinglePVSearch
        { depth5State with index := 3, depth := 9 }).depth = 9 + 1 + 2 :=
  ⟨rfl,
    ((depth_skipping exampleDriver RootsearchType.SinglePVSearch
      { depth5State with index := 3, depth := 9 } 2 rfl (by decide) (by decide)).2.2.2.2.1
      (by decide)).1⟩

/-- C19 as stated fails.  In a ponder search that is still pondering, worker 0 finishes an
in-window iteration at depth 5 with `maxdepth = 5`; its depth stays 5. -/
theorem depth_skipping_counterexample :
    (({ depth5State with maxdepth := 5 } : GenState Unit).inWindow = 1
      ∧ ({ depth5State with maxdepth := 5 } : GenState Unit).index = 0
      ∧ ({ depth5State with maxdepth := 5 } : GenState Unit).depth = 5) ∧
    (genAdvance ponderingDriver RootsearchType.PonderSearch
        { depth5State with maxdepth := 5 }).depth = 5 :=
  ⟨by decide, by decide⟩

theorem tdiv_two_between (a b : Int) (h : a ≤ b) :
    a ≤ (a + b).tdiv 2 ∧ (a + b).tdiv 2 ≤ b := by
  by_cases hs : 0 ≤ a + b
  · rw [Int.tdiv_eq_ediv hs (by decide)]
    omega
  · have hn : (a + b).tdiv 2 = -((-(a + b)) / 2) := by
      rw [← Int.tdiv_eq_ediv (by omega) (by decide), Int.neg_tdiv, Int.neg_neg]
    rw [hn]
    omega

/-- C20, amended.  For a re-search at a fixed depth in `search_gen1`, with a window
`SHRT_MIN + 1 <= alpha <= beta <= SHRT_MAX` and non-negative deltas: after a fail-high
(`score == beta`) alpha is kept and the new beta, `min(SHRT_MAX, beta + deltabeta)`, is not
below the old one; after a fail-low (`score == alpha`) the new alpha,
`max(SHRT_MIN + 1, alpha - deltaalpha)`, is not above the old one, and beta is reduced to
`(alpha + beta) / 2`, which lies between the old alpha and the old beta.  So the window never
shrinks on the side that failed, and a fail-low moves the other side inwards. -/
theorem aspiration_window {B S : Type} (env : Env B S) (RT : RootsearchType) (g : GenState B)
    (hlo : SHRT_MIN + 1 ≤ g.alpha) (hab : g.alpha ≤ g.beta) (hhi : g.beta ≤ SHRT_MAX)
    (hda : 0 ≤ g.deltaalpha) (hdb : 0 ≤ g.deltabeta) :
    (g.score = g.alpha →
      (genAspiration env RT g).alpha = max (SHRT_MIN + 1) (g.alpha - g.deltaalpha) ∧
      (genAspiration env RT g).beta = (g.alpha + g.beta).tdiv 2 ∧
      (genAspiration env RT g).alpha ≤ g.alpha ∧
      g.alpha ≤ (genAspiration env RT g).beta ∧ (genAspiration env RT g).beta ≤ g.beta ∧
      (genAspiration env RT g).depth = g.depth) ∧
    (g.score ≠ g.alpha → g.score = g.beta →
      (genAspiration env RT g).alpha = g.alpha ∧
      (genAspiration env RT g).beta = min SHRT_MAX (g.beta + g.deltabeta) ∧
      g.beta ≤ (genAspiration env RT g).beta ∧
      (genAspiration env RT g).depth = g.depth) := by
  refine ⟨fun h => ?_, fun h1 h2 => ?_⟩
  · have ha : (genAspiration env RT g).alpha = max (SHRT_MIN + 1) (g.alpha - g.deltaalpha) := by
      unfold genAspiration
      rw [if_pos h]
    have hb : (genAspiration env RT g).beta = (g.alpha + g.beta).tdiv 2 := by
      unfold genAspiration
      rw [if_pos h]
    have hd : (genAspiration env RT g).depth = g.depth := by
      unfold genAspiration
      rw [if_pos h]
    have hm := tdiv_two_between g.alpha g.beta hab
    refine ⟨ha, hb, ?_, ?_, ?_, hd⟩
    · rw [ha]
      omega
    · rw [hb]
      exact hm.1
    · rw [hb]
      exact hm.2
  · have ha : (genAspiration env RT g).alpha = g.alpha := by
      unfold genAspiration
      rw [if_neg h1, if_pos h2]
    have hb : (genAspiration env RT g).beta = min SHRT_MAX (g.beta + g.deltabeta) := by
      unfold genAspiration
      rw [if_neg h1, if_pos h2]
    have hd : (genAspiration env RT g).depth = g.depth := by
      unfold genAspiration
      rw [if_neg h1, if_pos h2]
    refine ⟨ha, hb, ?_, hd⟩
    rw [hb]
    omega

theorem aspiration_window_witness :
    (SHRT_MIN + 1 ≤ (-8 : Int) ∧ (-8 : Int) ≤ 8 ∧ (8 : Int) ≤ SHRT_MAX) ∧
    (genAspiration exampleEnv RootsearchType.SinglePVSearch
        { depth5State with alpha := -8, beta := 8, score := 8 }).alpha = -8 ∧
    (8 : Int) ≤ (genAspiration exampleEnv RootsearchType.SinglePVSearch
        { depth5State with alpha := -8, beta := 8, score := 8 }).beta :=
  ⟨by decide,
    ((aspiration_window exampleEnv RootsearchType.SinglePVSearch
      { depth5State with alpha := -8, beta := 8, score := 8 } (by decide) (by decide)
      (by decide) (by decide) (by decide)).2 (by decide) rfl).1,
    ((aspiration_window exampleEnv RootsearchType.SinglePVSearch
      { depth5State with alpha := -8, beta := 8, score := 8 } (by decide) (by decide)
      (by decide) (by decide) (by decide)).2 (by decide) rfl).2.2.1⟩

/-- C20 as stated fails.  With the window `(-8, 8)` at depth 5 a fail-low (`score == alpha`)
leads to the re-search window `(-16, 0)` at the same depth: beta goes down from 8 to 0. -/
theorem aspiration_window_counterexample :
    (genAspiration exampleEnv RootsearchType.SinglePVSearch
        { depth5State with alpha := -8, beta := 8, score := -8 }).alpha = -16 ∧
    (genAspiration exampleEnv RootsearchType.SinglePVSearch
        { depth5State with alpha := -8, beta := 8, score := -8 }).beta = 0 ∧
    (genAspiration exampleEnv RootsearchType.SinglePVSearch
        { depth5State with alpha := -8, beta := 8, score := -8 }).depth = 5 ∧
    (genAspiration exampleEnv RootsearchType.SinglePVSearch
        { depth5State with alpha := -8, beta := 8, score := -8 }).inWindow = 0 ∧
    ¬ ((0 : Int) ≥ 8) :=
  ⟨by decide, by decide, by decide, by decide, by decide⟩

/-! ### Time management -/

theorem toU64_of_nonneg (x : Int) (h0 : 0 ≤ x) (h1 : x < 18446744073709551616) :
    toU64 x = x.toNat := by
  unfold toU64
  rw [Int.emod_eq_of_lt h0 h1]

theorem wrapU64_of_lt (n : Nat) (h : n < 18446744073709551616) : wrapU64 n = n := by
  unfold wrapU64
  exact Nat.mod_eq_of_lt h

theorem ediv_ediv_nonneg (a b c : Int) (ha : 0 ≤ a) (hb : 0 ≤ b) (hc : 0 ≤ c) :
    a / b / c = a / (b * c) := by
  obtain ⟨x, rfl⟩ := Int.eq_ofNat_of_zero_le ha
  obtain ⟨y, rfl⟩ := Int.eq_ofNat_of_zero_le hb
  obtain ⟨z, rfl⟩ := Int.eq_ofNat_of_zero_le hc
  norm_cast
  exact Nat.div_div_eq_div_mul x y z

theorem tdiv_tdiv_nonneg (a b c : Int) (ha : 0 ≤ a) (hb : 0 ≤ b) (hc : 0 ≤ c) :
    (a.tdiv b).tdiv c = a / (b * c) := by
  rw [Int.tdiv_eq_ediv ha hb, Int.tdiv_eq_ediv (Int.ediv_nonneg ha hb) hc,
    ediv_ediv_nonneg a b c ha hb hc]

theorem wrapInt32_eq_self (x : Int) (h1 : -2147483648 ≤ x) (h2 : x ≤ 2147483647) :
    wrapInt 32 x = x := by
  apply wrapInt_eq_self 32 x (by norm_num) <;> norm_num <;> omega

theorem resetEndTime_movestogo_endtime1 (en : Engine) (ph c : Int) (h : en.movestogo ≠ 0) :
    (resetEndTime en ph c true).endtime1 =
      wrapU64 (en.starttime
        + wrapU64 (wrapU64 (toU64 (if en.isWhite then en.wtime else en.btime) * en.frequency)
            * toU64 (max 9 (19 - c * 2))) / toU64 (wrapInt 32 (en.movestogo + 1)) / 10000) := by
  unfold resetEndTime
  simp only [if_pos h, if_true]

theorem resetEndTime_movestogo_endtime2 (en : Engine) (ph c : Int) (complete : Bool)
    (h : en.movestogo ≠ 0) :
    (resetEndTime en ph c complete).endtime2 =
      wrapU64 (en.starttime
        + wrapU64 (toU64 (movestogoHard (if en.isWhite then en.wtime else en.btime)
            (en.moveOverhead + 8 * en.Threads) en.movestogo (max 15 (25 - c * 2)))
          * en.frequency) / 1000) := by
  unfold resetEndTime
  cases complete <;> simp only [if_pos h, Bool.false_eq_true, if_false, if_true]

/-- The time control with `movestogo > 0` as long as no `int` operation leaves the range of
`int`.  With `t` the remaining time of the side to move (`0 <= t`), `f1 = max(9, 19 - 2c)`,
`f2 = max(15, 25 - 2c)` for a count `c >= 0`, `overhead = moveOverhead + 8 * Threads >= 0`
and `overhead * movestogo`, `f2 * t` at most `INT_MAX`: `resetEndTime(c, true)` sets the soft
deadline to `starttime` plus `t * frequency * f1 / ((movestogo + 1) * 10000)` ticks, which is
`t * f1 / ((movestogo + 1) * 10)` when a tick is a millisecond, and the hard deadline to
`starttime` plus `hard * frequency / 1000` ticks with
`hard = min(max(0, t - overhead * movestogo), f2 * t / ((movestogo + 1) * 10))`; `hard` is
`>= 0` and does not exceed `t - overhead * movestogo` when that is non-negative. -/
theorem resetEndTime_movestogo_inrange (en : Engine) (ph c t overhead f1 f2 hard : Int)
    (ht : t = if en.isWhite then en.wtime else en.btime)
    (hover : overhead = en.moveOverhead + 8 * en.Threads)
    (hf1 : f1 = max 9 (19 - 2 * c)) (hf2 : f2 = max 15 (25 - 2 * c))
    (hhard : hard
      = min (max 0 (t - overhead * en.movestogo)) (f2 * t / ((en.movestogo + 1) * 10)))
    (hmtg : 0 < en.movestogo) (hmtgmax : en.movestogo < 2147483647)
    (ht0 : 0 ≤ t) (htmax : t ≤ 2147483647) (hc : 0 ≤ c)
    (hov0 : 0 ≤ overhead) (hovmax : overhead * en.movestogo ≤ 2147483647)
    (hprod : f2 * t ≤ 2147483647)
    (hfit : t.toNat * en.frequency * f1.toNat < 18446744073709551616) :
    (resetEndTime en ph c true).endtime1
      = wrapU64 (en.starttime
          + t.toNat * en.frequency * f1.toNat / ((en.movestogo + 1).toNat * 10000)) ∧
    (en.frequency = 1000 →
      t.toNat * en.frequency * f1.toNat / ((en.movestogo + 1).toNat * 10000)
        = (t * f1 / ((en.movestogo + 1) * 10)).toNat) ∧
    (resetEndTime en ph c true).endtime2
      = wrapU64 (en.starttime + wrapU64 (hard.toNat * en.frequency) / 1000) ∧
    0 ≤ hard ∧ (0 ≤ t - overhead * en.movestogo → hard ≤ t - overhead * en.movestogo) := by
  have hne : en.movestogo ≠ 0 := by omega
  have hf1' : max 9 (19 - c * 2) = f1 := by rw [hf1]; congr 1; omega
  have hf2' : max 15 (25 - c * 2) = f2 := by rw [hf2]; congr 1; omega
  have hf1pos : 9 ≤ f1 ∧ f1 ≤ 19 := by rw [hf1]; omega
  have hf2pos : 15 ≤ f2 ∧ f2 ≤ 25 := by rw [hf2]; omega
  have hq : 0 ≤ f2 * t / ((en.movestogo + 1) * 10) :=
    Int.ediv_nonneg (Int.mul_nonneg (by omega) ht0) (by omega)
  have hq2 : f2 * t / ((en.movestogo + 1) * 10) ≤ f2 * t :=
    Int.ediv_le_self _ (Int.mul_nonneg (by omega) ht0)
  have hp0 : 0 ≤ overhead * en.movestogo := Int.mul_nonneg hov0 (by omega)
  have hft0 : 0 ≤ f2 * t := Int.mul_nonneg (by omega) ht0
  have hhard0 : 0 ≤ hard := by rw [hhard]; omega
  have hhardmax : hard < 18446744073709551616 := by rw [hhard]; omega
  have hw1 : wrapInt 32 (en.movestogo + 1) = en.movestogo + 1 :=
    wrapInt32_eq_self _ (by omega) (by omega)
  refine ⟨?_, fun hfreq => ?_, ?_, hhard0, fun h => by rw [hhard]; omega⟩
  · rw [resetEndTime_movestogo_endtime1 en ph c hne, hf1', ← ht, hw1,
      toU64_of_nonneg t ht0 (by omega), toU64_of_nonneg f1 (by omega) (by omega),
      toU64_of_nonneg (en.movestogo + 1) (by omega) (by omega)]
    have h9 : 1 ≤ f1.toNat := by omega
    have hle : t.toNat * en.frequency ≤ t.toNat * en.frequency * f1.toNat :=
      Nat.le_mul_of_pos_right _ h9
    rw [wrapU64_of_lt (t.toNat * en.frequency) (by omega),
      wrapU64_of_lt (t.toNat * en.frequency * f1.toNat) hfit, Nat.div_div_eq_div_mul]
  · rw [hfreq]
    have h1 : t.toNat * 1000 * f1.toNat = 1000 * (t.toNat * f1.toNat) := by
      rw [Nat.mul_comm t.toNat 1000, Nat.mul_assoc]
    have h2 : (en.movestogo + 1).toNat * 10000 = 1000 * ((en.movestogo + 1).toNat * 10) := by
      omega
    rw [h1, h2, Nat.mul_div_mul_left _ _ (by decide)]
    have h3 : (t * f1 / ((en.movestogo + 1) * 10))
        = ((t.toNat * f1.toNat / ((en.movestogo + 1).toNat * 10) : Nat) : Int) := by
      push_cast
      rw [Int.toNat_of_nonneg ht0, Int.toNat_of_nonneg (by omega : 0 ≤ f1),
        Int.toNat_of_nonneg (by omega : 0 ≤ en.movestogo + 1)]
    rw [h3, Int.toNat_ofNat]
  · rw [resetEndTime_movestogo_endtime2 en ph c true hne, hf2', ← ht, ← hover]
    unfold movestogoHard
    rw [wrapInt32_eq_self (overhead * en.movestogo) (by omega) hovmax,
      wrapInt32_eq_self (t - overhead * en.movestogo) (by omega) (by omega),
      wrapInt32_eq_self (f2 * t) (by omega) hprod, hw1,
      tdiv_tdiv_nonneg _ _ _ hft0 (by omega) (by decide), ← hhard,
      toU64_of_nonneg hard hhard0 hhardmax]

/-- C21 fails at `wtime = 100000000`, `movestogo = 40`, `constantRootMoves = 0` (so `f2 = 25`,
`overhead = 58`).  The claimed hard budget
`min(max(0, wtime - overhead * movestogo), f2 * wtime / ((movestogo + 1) * 10))` is
`6097560` ms; in the code the `int` product `f2 * timetouse = 2500000000` wraps to
`-1794967296`, the hard budget is `-4377969` ms, which is negative, and the hard deadline,
its conversion to `U64` ticks, lies `18446744069331582` ticks after `starttime`.  The soft
deadline of the line before is computed in `U64` and is the claimed `4634146` ms.  With
`wtime = 200000000` the product wraps to a positive value and the hard budget is `1719591` ms
where the claim gives `12195121` ms. -/
theorem resetEndTime_movestogo_overflow :
    (longClockEngine.isWhite = true ∧ longClockEngine.wtime = 100000000
      ∧ longClockEngine.movestogo = 40 ∧ longClockEngine.moveOverhead + 8 * longClockEngine.Threads = 58
      ∧ longClockEngine.frequency = 1000 ∧ longClockEngine.starttime = 0) ∧
    min (max 0 ((100000000 : Int) - 58 * 40)) (25 * 100000000 / ((40 + 1) * 10)) = 6097560 ∧
    wrapInt 32 (25 * 100000000) = -1794967296 ∧
    movestogoHard 100000000 58 40 25 = -4377969 ∧
    (resetEndTime longClockEngine 0 0 true).endtime2 = 18446744069331582 ∧
    (resetEndTime longClockEngine 0 0 true).endtime1 = 4634146 ∧
    (100000000 : Int) * 19 / ((40 + 1) * 10) = 4634146 ∧
    (resetEndTime { clockEngine with wtime := 200000000 } 0 0 true).endtime2 = 1719591 ∧
    min (max 0 ((200000000 : Int) - 58 * 40)) (25 * 200000000 / ((40 + 1) * 10)) = 12195121 :=
  ⟨by decide, by decide, by decide, by decide, by decide, by decide, by decide, by decide,
    by decide⟩

theorem resetEndTime_sudden_endtime1 (en : Engine) (ph c : Int) (h : en.movestogo = 0)
    (ht : (if en.isWhite then en.wtime else en.btime) ≠ 0)
    (hi : (if en.isWhite then en.winc else en.binc) = 0) :
    (resetEndTime en ph c true).endtime1 =
      wrapU64 (en.starttime
        + wrapU64 (toU64 ((if en.isWhite then en.wtime else en.btime).tdiv
            (min 42 (32 + c * 2))) * en.frequency) / 1000) := by
  unfold resetEndTime
  simp only [h, ne_eq, not_true_eq_false, if_false, hi, if_pos ht, if_true]

theorem resetEndTime_sudden_endtime2 (en : Engine) (ph c : Int) (complete : Bool)
    (h : en.movestogo = 0) (ht : (if en.isWhite then en.wtime else en.btime) ≠ 0)
    (hi : (if en.isWhite then en.winc else en.binc) = 0) :
    (resetEndTime en ph c complete).endtime2 =
      wrapU64 (en.starttime
        + wrapU64 (toU64 (min (max 0 ((if en.isWhite then en.wtime else en.btime)
              - (en.moveOverhead + 8 * en.Threads)))
            ((if en.isWhite then en.wtime else en.btime).tdiv (min 22 (12 + c * 2))))
          * en.frequency) / 1000) := by
  unfold resetEndTime
  cases complete <;>
    simp only [h, ne_eq, not_true_eq_false, if_false, hi, if_pos ht, if_true,
      Bool.false_eq_true]

theorem ediv_antitone (t a b : Int) (ht : 0 ≤ t) (hb : 0 < b) (hab : b ≤ a) :
    t / a ≤ t / b := by
  apply Int.le_ediv_of_mul_le hb
  have h1 : t / a * a ≤ t := Int.ediv_mul_le t (by omega)
  have h2 : 0 ≤ t / a := Int.ediv_nonneg ht (by omega)
  have h3 : t / a * b ≤ t / a * a := Int.mul_le_mul_of_nonneg_left hab h2
  omega

/-- C22 (sudden death without increment).  With `movestogo == 0`, a remaining time `t > 0` of
the side to move and no increment, for every `constantRootMoves = c >= 0`: the soft divisor
`f1 = min(42, 32 + 2c)` lies in `[32, 42]`, the hard divisor `f2 = min(22, 12 + 2c)` in
`[12, 22]`; `resetEndTime` sets the soft deadline (if `complete`) to `starttime` plus the
budget `t / f1` ms and the hard deadline to `starttime` plus
`min(max(0, t - overhead), t / f2)` ms, both converted to ticks by `* frequency / 1000`; and
`t / f1 <= t / f2`. -/
theorem resetEndTime_suddenDeath (en : Engine) (ph c t overhead f1 f2 soft hard : Int)
    (complete : Bool)
    (ht : t = if en.isWhite then en.wtime else en.btime)
    (hinc : (if en.isWhite then en.winc else en.binc) = 0)
    (hover : overhead = en.moveOverhead + 8 * en.Threads)
    (hf1 : f1 = min 42 (32 + 2 * c)) (hf2 : f2 = min 22 (12 + 2 * c))
    (hsoft : soft = t / f1) (hhard : hard = min (max 0 (t - overhead)) (t / f2))
    (hmtg : en.movestogo = 0) (ht0 : 0 < t) (htmax : t ≤ 2147483647) (hc : 0 ≤ c) :
    (32 ≤ f1 ∧ f1 ≤ 42) ∧ (12 ≤ f2 ∧ f2 ≤ 22) ∧
    (resetEndTime en ph c true).endtime1
      = wrapU64 (en.starttime + wrapU64 (soft.toNat * en.frequency) / 1000) ∧
    (resetEndTime en ph c complete).endtime2
      = wrapU64 (en.starttime + wrapU64 (hard.toNat * en.frequency) / 1000) ∧
    (0 ≤ soft ∧ soft ≤ t / f2) ∧ 0 ≤ hard := by
  have hf1' : min 42 (32 + c * 2) = f1 := by rw [hf1]; congr 1; omega
  have hf2' : min 22 (12 + c * 2) = f2 := by rw [hf2]; congr 1; omega
  have hf1b : 32 ≤ f1 ∧ f1 ≤ 42 := by rw [hf1]; omega
  have hf2b : 12 ≤ f2 ∧ f2 ≤ 22 := by rw [hf2]; omega
  have htne : (if en.isWhite then en.wtime else en.btime) ≠ 0 := by rw [← ht]; omega
  have hs0 : 0 ≤ soft := by rw [hsoft]; exact Int.ediv_nonneg (by omega) (by omega)
  have hsle : soft ≤ t := by rw [hsoft]; exact Int.ediv_le_self _ (by omega)
  have hq0 : 0 ≤ t / f2 := Int.ediv_nonneg (by omega) (by omega)
  have hqle : t / f2 ≤ t := Int.ediv_le_self _ (by omega)
  have hh0 : 0 ≤ hard := by rw [hhard]; omega
  have hhle : hard ≤ t := by rw [hhard]; omega
  refine ⟨hf1b, hf2b, ?_, ?_, ⟨hs0, ?_⟩, hh0⟩
  · rw [resetEndTime_sudden_endtime1 en ph c hmtg htne hinc, hf1', ← ht,
      Int.tdiv_eq_ediv (by omega) (by omega), ← hsoft,
      toU64_of_nonneg soft hs0 (by omega)]
  · rw [resetEndTime_sudden_endtime2 en ph c complete hmtg htne hinc, hf2', ← ht, ← hover,
      Int.tdiv_eq_ediv (by omega) (by omega), ← hhard,
      toU64_of_nonneg hard hh0 (by omega)]
  · rw [hsoft]
    exact ediv_antitone t f1 f2 (by omega) (by omega) (by omega)

theorem resetEndTime_suddenDeath_witness :
    (resetEndTime { clockEngine with movestogo := 0 } 0 3 true).endtime1 = 1578 ∧
    (resetEndTime { clockEngine with movestogo := 0 } 0 3 true).endtime2 = 3333 := by
  have h := resetEndTime_suddenDeath { clockEngine with movestogo := 0 } 0 3 60000 58 38 18
    1578 3333 true (by decide) (by decide) (by decide) (by decide) (by decide) (by decide)
    (by decide) (by decide) (by decide) (by decide) (by decide)
  exact ⟨h.2.2.1.trans (by decide), h.2.2.2.1.trans (by decide)⟩

theorem resetEndTime_increment_endtime1 (en : Engine) (ph c : Int) (h : en.movestogo = 0)
    (ht : (if en.isWhite then en.wtime else en.btime) ≠ 0)
    (hi : (if en.isWhite then en.winc else en.binc) ≠ 0) :
    (resetEndTime en ph c true).endtime1 =
      wrapU64 (en.starttime
        + wrapU64 (toU64 (incrementBudget (if en.isWhite then en.wtime else en.btime)
            (if en.isWhite then en.winc else en.binc) (max 5 (15 - c * 2)) ph)
          * en.frequency) / 1000) := by
  unfold resetEndTime
  simp only [h, ne_eq, not_true_eq_false, if_false, if_pos hi, if_pos ht, if_true]

theorem resetEndTime_increment_endtime2 (en : Engine) (ph c : Int) (complete : Bool)
    (h : en.movestogo = 0) (ht : (if en.isWhite then en.wtime else en.btime) ≠ 0)
    (hi : (if en.isWhite then en.winc else en.binc) ≠ 0) :
    (resetEndTime en ph c complete).endtime2 =
      wrapU64 (en.starttime
        + wrapU64 (toU64 (min (max 0 ((if en.isWhite then en.wtime else en.btime)
              - (en.moveOverhead + 8 * en.Threads)))
            (incrementBudget (if en.isWhite then en.wtime else en.btime)
              (if en.isWhite then en.winc else en.binc) (max 15 (25 - c * 2)) ph))
          * en.frequency) / 1000) := by
  unfold resetEndTime
  cases complete <;>
    simp only [h, ne_eq, not_true_eq_false, if_false, if_pos hi, if_pos ht, if_true,
      Bool.false_eq_true]

/-- C23, amended.  Sudden death with increment (`movestogo == 0`, remaining time `t != 0`,
increment `inc != 0`): the call divides by `256 - ph`, so it is well defined exactly for
`ph != 256`, in particular for every game phase in `[0, 255]`.  The soft deadline is
`starttime` plus the soft budget and the hard deadline `starttime` plus
`min(max(0, t - overhead), hard budget)` ms, converted to ticks by `* frequency / 1000`,
where the budget for the factor `f` (`f1 = max(5, 15 - 2c)` soft, `f2 = max(15, 25 - 2c)`
hard) is `max(inc, f * (t + inc) / (256 - ph))` computed in `int`: it is the claimed value
whenever `t + inc` and `f * (t + inc)` are in the range of `int`.  The soft budget is at least
`inc` in every case. -/
theorem resetEndTime_increment (en : Engine) (ph c t inc overhead soft hard : Int)
    (complete : Bool)
    (ht : t = if en.isWhite then en.wtime else en.btime)
    (hinc : inc = if en.isWhite then en.winc else en.binc)
    (hover : overhead = en.moveOverhead + 8 * en.Threads)
    (hsoft : soft = incrementBudget t inc (max 5 (15 - 2 * c)) ph)
    (hhard : hard = min (max 0 (t - overhead)) (incrementBudget t inc (max 15 (25 - 2 * c)) ph))
    (hmtg : en.movestogo = 0) (ht0 : t ≠ 0) (hi0 : inc ≠ 0) :
    (resetEndTimeDefined en ph c complete = true ↔ ph ≠ 256) ∧
    (0 ≤ ph ∧ ph ≤ 255 → resetEndTimeDefined en ph c complete = true) ∧
    (resetEndTime en ph c true).endtime1
      = wrapU64 (en.starttime + wrapU64 (toU64 soft * en.frequency) / 1000) ∧
    (resetEndTime en ph c complete).endtime2
      = wrapU64 (en.starttime + wrapU64 (toU64 hard * en.frequency) / 1000) ∧
    inc ≤ soft ∧
    (∀ f : Int, -2147483648 ≤ t + inc → t + inc ≤ 2147483647 →
      -2147483648 ≤ f * (t + inc) → f * (t + inc) ≤ 2147483647 →
      incrementBudget t inc f ph = max inc ((f * (t + inc)).tdiv (256 - ph))) := by
  have htne : (if en.isWhite then en.wtime else en.btime) ≠ 0 := by rw [← ht]; exact ht0
  have hine : (if en.isWhite then en.winc else en.binc) ≠ 0 := by rw [← hinc]; exact hi0
  have hdef : resetEndTimeDefined en ph c complete = decide (256 - ph ≠ 0) := by
    unfold resetEndTimeDefined
    simp only [hmtg, ne_eq, not_true_eq_false, if_false, if_pos hine, if_pos htne]
  have h1 : max 5 (15 - c * 2) = max 5 (15 - 2 * c) := by congr 1; omega
  have h2 : max 15 (25 - c * 2) = max 15 (25 - 2 * c) := by congr 1; omega
  refine ⟨?_, fun h => ?_, ?_, ?_, ?_, ?_⟩
  · rw [hdef, decide_eq_true_iff]
    omega
  · rw [hdef, decide_eq_true_iff]
    omega
  · rw [resetEndTime_increment_endtime1 en ph c hmtg htne hine, h1, ← ht, ← hinc, ← hsoft]
  · rw [resetEndTime_increment_endtime2 en ph c complete hmtg htne hine, h2, ← ht, ← hinc,
      ← hover, ← hhard]
  · rw [hsoft]
    exact Int.le_max_left _ _
  · intro f hs1 hs2 hp1 hp2
    unfold incrementBudget
    rw [wrapInt32_eq_self (t + inc) hs1 hs2, wrapInt32_eq_self (f * (t + inc)) hp1 hp2]

theorem resetEndTime_increment_witness :
    resetEndTimeDefined incrementEngine 100 0 true = true ∧
    (resetEndTime incrementEngine 100 0 true).endtime1 = 5865 ∧
    (resetEndTime incrementEngine 100 0 true).endtime2 = 9775 ∧
    incrementBudget 60000 1000 15 100 = max 1000 ((15 * (60000 + 1000 : Int)).tdiv (256 - 100)) := by
  have h := resetEndTime_increment incrementEngine 100 0 60000 1000 58 5865 9775 true
    (by decide) (by decide) (by decide) (by decide) (by decide) (by decide) (by decide)
    (by decide)
  exact ⟨h.2.1 (by decide), h.2.2.1.trans (by decide), h.2.2.2.1.trans (by decide),
    h.2.2.2.2.2 15 (by decide) (by decide) (by decide) (by decide)⟩

/-- C23 as stated fails in two ways.  At `ph = 256`, a value of the range the spec gives for
the game phase, the divisor `256 - ph` of both budgets is zero.  And with 200 000 s on the
clock, an increment of 1 s and `ph = 0` the `int` product `f1 * (wtime + inc) = 3000015000`
wraps to `-1294952296`: the soft budget of the code is `1000` ms (the soft deadline lies
`1000` ticks after `starttime`), not the claimed `max(inc, f1 * (wtime + inc) / 256)`, which is
`11718808` ms. -/
theorem resetEndTime_increment_counterexample :
    (phaseRange 256 ∧ incrementEngine.movestogo = 0 ∧ incrementEngine.wtime = 60000
      ∧ incrementEngine.winc = 1000 ∧ (256 : Int) - 256 = 0
      ∧ resetEndTimeDefined incrementEngine 256 0 true = false) ∧
    (phaseRange 0 ∧ longIncrementEngine.movestogo = 0 ∧ longIncrementEngine.wtime = 200000000
      ∧ longIncrementEngine.winc = 1000 ∧ longIncrementEngine.frequency = 1000
      ∧ longIncrementEngine.starttime = 0
      ∧ resetEndTimeDefined longIncrementEngine 0 0 true = true
      ∧ wrapInt 32 (15 * (200000000 + 1000)) = -1294952296
      ∧ incrementBudget 200000000 1000 15 0 = 1000
      ∧ (resetEndTime longIncrementEngine 0 0 true).endtime1 = 1000
      ∧ max (1000 : Int) ((15 * (200000000 + 1000 : Int)).tdiv (256 - 0)) = 11718808) :=
  ⟨⟨⟨by decide, by decide⟩, by decide, by decide, by decide, by decide, by decide⟩,
    ⟨⟨by decide, by decide⟩, by decide, by decide, by decide, by decide, by decide, by decide,
      by decide, by decide, by decide, by decide⟩⟩

/-- C24 (movetime mode).  With `movestogo == 0` and no remaining time for the side to move:
if the increment `inc` (the movetime) is non-zero, `resetEndTime` sets both deadlines to
`starttime + inc * frequency / 1000`, for every `constantRootMoves`, every game phase and both
values of `complete`; if it is zero, both deadlines are 0 (no deadline). -/
theorem resetEndTime_movetime (en : Engine) (ph c inc : Int) (complete : Bool)
    (hinc : inc = if en.isWhite then en.winc else en.binc)
    (hmtg : en.movestogo = 0) (ht : (if en.isWhite then en.wtime else en.btime) = 0) :
    (inc ≠ 0 →
      (resetEndTime en ph c complete).endtime1
        = wrapU64 (en.starttime + wrapU64 (toU64 inc * en.frequency) / 1000) ∧
      (resetEndTime en ph c complete).endtime2
        = wrapU64 (en.starttime + wrapU64 (toU64 inc * en.frequency) / 1000)) ∧
    (0 < inc → inc ≤ 2147483647 → inc.toNat * en.frequency < 18446744073709551616 →
      wrapU64 (toU64 inc * en.frequency) / 1000 = inc.toNat * en.frequency / 1000) ∧
    (inc = 0 →
      (resetEndTime en ph c complete).endtime1 = 0 ∧
      (resetEndTime en ph c complete).endtime2 = 0) := by
  refine ⟨fun h => ?_, fun h0 hmax hfit => ?_, fun h => ?_⟩
  · have hi : (if en.isWhite then en.winc else en.binc) ≠ 0 := by rw [← hinc]; exact h
    unfold resetEndTime
    simp only [hmtg, ne_eq, not_true_eq_false, if_false, ht, if_pos hi]
    rw [← hinc]
    exact ⟨rfl, rfl⟩
  · rw [toU64_of_nonneg inc (by omega) (by omega), wrapU64_of_lt _ hfit]
  · have hi : (if en.isWhite then en.winc else en.binc) = 0 := by rw [← hinc]; exact h
    unfold resetEndTime
    simp only [hmtg, ne_eq, not_true_eq_false, if_false, ht, hi, and_self]

theorem resetEndTime_movetime_witness :
    (resetEndTime { exampleEngine with winc := 5000, starttime := 777 } 0 3 false).endtime1
      = 777 + 5000 ∧
    (resetEndTime { exampleEngine with winc := 5000, starttime := 777 } 0 3 false).endtime2
      = 777 + 5000 := by
  have h := (resetEndTime_movetime { exampleEngine with winc := 5000, starttime := 777 } 0 3
    5000 false (by decide) (by decide) (by decide)).1 (by decide)
  exact ⟨h.1.trans (by decide), h.2.trans (by decide)⟩

/-! ### Score output -/

theorem uciScore_mate {B S : Type} (env : Env B S) (drv : Driver B) (g : GenState B)
    (inWindow : Int) (nowtime : Nat) (mpvIndex : Int)
    (hshow : ¬ (inWindow ≠ 1 ∧ msRunOf g.en nowtime - g.en.lastReport < 200))
    (hmate : drv.MATEDETECTED (g.w.pos.bestmovescore mpvIndex) = true) :
    (uciScore env drv g inWindow nowtime mpvIndex).out =
      g.out ++ [UciInfo.mk g.depth g.w.pos.seldepth (mpvIndex + 1) (msRunOf g.en nowtime) none
        (some (if g.w.pos.bestmovescore mpvIndex > 0 then
            (env.SCOREWHITEWINS - g.w.pos.bestmovescore mpvIndex + 1).tdiv 2
          else (env.SCOREBLACKWINS - g.w.pos.bestmovescore mpvIndex).tdiv 2)) inWindow] := by
  unfold uciScore
  simp only
  rw [if_neg hshow, if_neg (by simp [hmate])]

/-- C27 (number printed after `score mate`).  When `uciScore` reports a detected mate score:
for a positive score `SCOREWHITEWINS - k` with `k >= 1` it prints `(k + 1) / 2`, that is
`k / 2` rounded up, so `score mate 1` for `SCOREWHITEWINS - 1`; for a score
`SCOREBLACKWINS + k <= 0` with `k >= 0` it prints `-(k / 2)`, the division truncating. -/
theorem uciScore_mate_number {B S : Type} (env : Env B S) (drv : Driver B) (g : GenState B)
    (inWindow : Int) (nowtime : Nat) (mpvIndex k : Int)
    (hshow : inWindow = 1 ∨ msRunOf g.en nowtime - g.en.lastReport ≥ 200)
    (hmate : drv.MATEDETECTED (g.w.pos.bestmovescore mpvIndex) = true) (hk : 0 ≤ k) :
    (g.w.pos.bestmovescore mpvIndex = env.SCOREWHITEWINS - k →
        g.w.pos.bestmovescore mpvIndex > 0 → 1 ≤ k →
      (uciScore env drv g inWindow nowtime mpvIndex).out =
        g.out ++ [UciInfo.mk g.depth g.w.pos.seldepth (mpvIndex + 1) (msRunOf g.en nowtime)
          none (some ((k + 1) / 2)) inWindow] ∧
      (k = 1 → (k + 1) / 2 = 1) ∧ 2 * ((k + 1) / 2) - 1 ≤ k ∧ k ≤ 2 * ((k + 1) / 2)) ∧
    (g.w.pos.bestmovescore mpvIndex = env.SCOREBLACKWINS + k →
        g.w.pos.bestmovescore mpvIndex ≤ 0 →
      (uciScore env drv g inWindow nowtime mpvIndex).out =
        g.out ++ [UciInfo.mk g.depth g.w.pos.seldepth (mpvIndex + 1) (msRunOf g.en nowtime)
          none (some (-(k / 2))) inWindow]) := by
  have hshow' : ¬ (inWindow ≠ 1 ∧ msRunOf g.en nowtime - g.en.lastReport < 200) := by
    rintro ⟨h1, h2⟩
    rcases hshow with h | h
    · exact h1 h
    · omega
  have hline := uciScore_mate env drv g inWindow nowtime mpvIndex hshow' hmate
  refine ⟨fun hs hpos hk1 => ⟨?_, fun h => by rw [h]; decide, by omega, by omega⟩,
    fun hs hneg => ?_⟩
  · rw [hline, if_pos hpos]
    have : env.SCOREWHITEWINS - g.w.pos.bestmovescore mpvIndex + 1 = k + 1 := by
      rw [hs]; omega
    rw [this, Int.tdiv_eq_ediv (by omega) (by decide)]
  · rw [hline, if_neg (by omega)]
    have : env.SCOREBLACKWINS - g.w.pos.bestmovescore mpvIndex = -k := by
      rw [hs]; omega
    rw [this, Int.neg_tdiv, Int.tdiv_eq_ediv hk (by decide)]

theorem uciScore_mate_number_witness :
    (exampleDriver.MATEDETECTED ((scoredState 29999).w.pos.bestmovescore 0) = true
      ∧ (scoredState 29999).w.pos.bestmovescore 0 = exampleEnv.SCOREWHITEWINS - 1) ∧
    (uciScore exampleEnv exampleDriver (scoredState 29999) 1 0 0).out
      = [UciInfo.mk 5 0 1 0 none (some 1) 1] := by
  refine ⟨by decide, ?_⟩
  rw [((uciScore_mate_number exampleEnv exampleDriver (scoredState 29999) 1 0 0 1
    (Or.inl rfl) (by decide) (by decide)).1 (by decide) (by decide) (by decide)).1]
  decide

/-- C26, amended.  When `uciScore` reports a detected mate score, the number `M` after
`score mate` is the mate distance in moves, not in half-moves: for a positive score
`SCOREWHITEWINS - k` with `k >= 1` plies to mate it satisfies `2M - 1 <= k <= 2M`, so it is
`> 0` and equals `k` only for `k = 1`; for a score `SCOREBLACKWINS + k <= 0` it satisfies
`-2M <= k <= -2M + 1`, so it is `<= 0`, negative from `k = 2` on, and `-k` only for
`k = 0`. -/
theorem uciScore_mate_distance {B S : Type} (env : Env B S) (drv : Driver B) (g : GenState B)
    (inWindow : Int) (nowtime : Nat) (mpvIndex k : Int)
    (hshow : inWindow = 1 ∨ msRunOf g.en nowtime - g.en.lastReport ≥ 200)
    (hmate : drv.MATEDETECTED (g.w.pos.bestmovescore mpvIndex) = true) (hk : 0 ≤ k) :
    (g.w.pos.bestmovescore mpvIndex = env.SCOREWHITEWINS - k →
        g.w.pos.bestmovescore mpvIndex > 0 → 1 ≤ k →
      ∃ M, (uciScore env drv g inWindow nowtime mpvIndex).out =
          g.out ++ [UciInfo.mk g.depth g.w.pos.seldepth (mpvIndex + 1) (msRunOf g.en nowtime)
            none (some M) inWindow] ∧
        0 < M ∧ 2 * M - 1 ≤ k ∧ k ≤ 2 * M ∧ (M = k ↔ k = 1)) ∧
    (g.w.pos.bestmovescore mpvIndex = env.SCOREBLACKWINS + k →
        g.w.pos.bestmovescore mpvIndex ≤ 0 →
      ∃ M, (uciScore env drv g inWindow nowtime mpvIndex).out =
          g.out ++ [UciInfo.mk g.depth g.w.pos.seldepth (mpvIndex + 1) (msRunOf g.en nowtime)
            none (some M) inWindow] ∧
        M ≤ 0 ∧ -2 * M ≤ k ∧ k ≤ -2 * M + 1 ∧ (M < 0 ↔ 2 ≤ k) ∧ (M = -k ↔ k = 0)) := by
  have hshow' : ¬ (inWindow ≠ 1 ∧ msRunOf g.en nowtime - g.en.lastReport < 200) := by
    rintro ⟨h1, h2⟩
    rcases hshow with h | h
    · exact h1 h
    · omega
  have hline := uciScore_mate env drv g inWindow nowtime mpvIndex hshow' hmate
  refine ⟨fun hs hpos hk1 => ⟨(k + 1) / 2, ?_, by omega, by omega, by omega, by omega⟩,
    fun hs hneg => ⟨-(k / 2), ?_, by omega, by omega, by omega, by omega, by omega⟩⟩
  · rw [hline, if_pos hpos]
    have : env.SCOREWHITEWINS - g.w.pos.bestmovescore mpvIndex + 1 = k + 1 := by
      rw [hs]; omega
    rw [this, Int.tdiv_eq_ediv (by omega) (by decide)]
  · rw [hline, if_neg (by omega)]
    have : env.SCOREBLACKWINS - g.w.pos.bestmovescore mpvIndex = -k := by
      rw [hs]; omega
    rw [this, Int.neg_tdiv, Int.tdiv_eq_ediv hk (by decide)]

theorem uciScore_mate_distance_witness :
    (exampleDriver.MATEDETECTED ((scoredState (-29996)).w.pos.bestmovescore 0) = true
      ∧ (scoredState (-29996)).w.pos.bestmovescore 0 = exampleEnv.SCOREBLACKWINS + 4) ∧
    ∃ M, (uciScore exampleEnv exampleDriver (scoredState (-29996)) 1 0 0).out
        = [UciInfo.mk 5 0 1 0 none (some M) 1] ∧ M < 0 := by
  refine ⟨by decide, ?_⟩
  obtain ⟨M, h1, _, _, _, h5, _⟩ :=
    (uciScore_mate_distance exampleEnv exampleDriver (scoredState (-29996)) 1 0 0 4
      (Or.inl rfl) (by decide) (by decide)).2 (by decide) (by decide)
  exact ⟨M, h1, h5.2 (by decide)⟩

/-- C26 as stated fails.  For the score `SCOREWHITEWINS - 3`, a mate in 3 plies, `uciScore`
prints `score mate 2`; for `SCOREBLACKWINS + 4` it prints `score mate -2`, not -4; and for
`SCOREBLACKWINS + 1` it prints `score mate 0`, which is not negative. -/
theorem uciScore_mate_distance_counterexample :
    (exampleEnv.SCOREWHITEWINS - 3 = 29997 ∧ exampleEnv.SCOREBLACKWINS + 4 = -29996
      ∧ exampleEnv.SCOREBLACKWINS + 1 = -29999) ∧
    (uciScore exampleEnv exampleDriver (scoredState 29997) 1 0 0).out
      = [UciInfo.mk 5 0 1 0 none (some 2) 1] ∧
    (uciScore exampleEnv exampleDriver (scoredState (-29996)) 1 0 0).out
      = [UciInfo.mk 5 0 1 0 none (some (-2)) 1] ∧
    (uciScore exampleEnv exampleDriver (scoredState (-29999)) 1 0 0).out
      = [UciInfo.mk 5 0 1 0 none (some 0) 1] :=
  ⟨by decide, by decide, by decide, by decide⟩

/-! ### The final answer of `search_gen1` -/

theorem bestThread_fold {B : Type} (others : List (GenState B)) :
    ∀ (acc : GenState B × Int) (seen : List (GenState B)),
      acc.2 = acc.1.w.pos.bestmovescore 0 → acc.1 ∈ seen →
      (∀ h ∈ seen, h.lastCompleteDepth ≥ acc.1.lastCompleteDepth →
        h.w.pos.bestmovescore 0 ≤ acc.2) →
      (others.foldl
          (fun acc hthr =>
            if hthr.lastCompleteDepth ≥ acc.1.lastCompleteDepth
                ∧ hthr.w.pos.bestmovescore 0 > acc.2 then
              (hthr, hthr.w.pos.bestmovescore 0)
            else acc) acc).2
        = (others.foldl
          (fun acc hthr =>
            if hthr.lastCompleteDepth ≥ acc.1.lastCompleteDepth
                ∧ hthr.w.pos.bestmovescore 0 > acc.2 then
              (hthr, hthr.w.pos.bestmovescore 0)
            else acc) acc).1.w.pos.bestmovescore 0 ∧
      (others.foldl
          (fun acc hthr =>
            if hthr.lastCompleteDepth ≥ acc.1.lastCompleteDepth
                ∧ hthr.w.pos.bestmovescore 0 > acc.2 then
              (hthr, hthr.w.pos.bestmovescore 0)
            else acc) acc).1 ∈ seen ++ others ∧
      (∀ h ∈ seen ++ others,
        h.lastCompleteDepth ≥ (others.foldl
          (fun acc hthr =>
            if hthr.lastCompleteDepth ≥ acc.1.lastCompleteDepth
                ∧ hthr.w.pos.bestmovescore 0 > acc.2 then
              (hthr, hthr.w.pos.bestmovescore 0)
            else acc) acc).1.lastCompleteDepth →
        h.w.pos.bestmovescore 0 ≤ (others.foldl
          (fun acc hthr =>
            if hthr.lastCompleteDepth ≥ acc.1.lastCompleteDepth
                ∧ hthr.w.pos.bestmovescore 0 > acc.2 then
              (hthr, hthr.w.pos.bestmovescore 0)
            else acc) acc).2) ∧
      acc.1.lastCompleteDepth ≤ (others.foldl
          (fun acc hthr =>
            if hthr.lastCompleteDepth ≥ acc.1.lastCompleteDepth
                ∧ hthr.w.pos.bestmovescore 0 > acc.2 then
              (hthr, hthr.w.pos.bestmovescore 0)
            else acc) acc).1.lastCompleteDepth ∧
      acc.2 ≤ (others.foldl
          (fun acc hthr =>
            if hthr.lastCompleteDepth ≥ acc.1.lastCompleteDepth
                ∧ hthr.w.pos.bestmovescore 0 > acc.2 then
              (hthr, hthr.w.pos.bestmovescore 0)
            else acc) acc).2 := by
  induction others with
  | nil =>
    intro acc seen h1 h2 h3
    simp only [List.foldl_nil, List.append_nil]
    exact ⟨h1, h2, h3, Int.le_refl _, Int.le_refl _⟩
  | cons x rest ih =>
    intro acc seen h1 h2 h3
    simp only [List.foldl_cons]
    by_cases hx : x.lastCompleteDepth ≥ acc.1.lastCompleteDepth
        ∧ x.w.pos.bestmovescore 0 > acc.2
    · rw [if_pos hx]
      have hstep := ih (x, x.w.pos.bestmovescore 0) (seen ++ [x]) rfl (by simp)
        (by
          intro h hmem hd
          rcases List.mem_append.mp hmem with hm | hm
          · have := h3 h hm (by simp only at hd; omega)
            simp only
            omega
          · rw [List.mem_singleton.mp hm])
      rw [List.append_assoc] at hstep
      refine ⟨hstep.1, hstep.2.1, hstep.2.2.1, ?_, ?_⟩
      · have := hstep.2.2.2.1
        simp only at this
        omega
      · have := hstep.2.2.2.2
        simp only at this
        omega
    · rw [if_neg hx]
      have hstep := ih acc (seen ++ [x]) h1 (by simp [h2])
        (by
          intro h hmem hd
          rcases List.mem_append.mp hmem with hm | hm
          · exact h3 h hm hd
          · rw [List.mem_singleton.mp hm] at hd ⊢
            by_cases hs : x.w.pos.bestmovescore 0 > acc.2
            · exact absurd ⟨hd, hs⟩ hx
            · omega)
      rw [List.append_assoc] at hstep
      exact hstep

/-- C25, amended.  Worker 0 scans the other workers in order and switches to a worker when
that one's `lastCompleteDepth` is at least the one of the current choice and its
`bestmovescore[0]` is higher.  The worker chosen (worker 0 or one of the others) has the
maximal `bestmovescore[0]` among the workers whose `lastCompleteDepth` is at least its own;
its `lastCompleteDepth` and score are at least those of worker 0; and its best move is the
best move of worker 0 afterwards, the one reported.  The worker chosen need not have reached
the highest `lastCompleteDepth`. -/
theorem final_answer_selection {B S : Type} (env : Env B S) (RT : RootsearchType)
    (thr : GenState B) (others : List (GenState B)) :
    ((bestThread thr others).1 = thr ∨ (bestThread thr others).1 ∈ others) ∧
    (bestThread thr others).2 = (bestThread thr others).1.w.pos.bestmovescore 0 ∧
    (∀ h, h = thr ∨ h ∈ others →
      h.lastCompleteDepth ≥ (bestThread thr others).1.lastCompleteDepth →
      h.w.pos.bestmovescore 0 ≤ (bestThread thr others).1.w.pos.bestmovescore 0) ∧
    thr.lastCompleteDepth ≤ (bestThread thr others).1.lastCompleteDepth ∧
    thr.w.pos.bestmovescore 0 ≤ (bestThread thr others).1.w.pos.bestmovescore 0 ∧
    (genAdopt env RT thr (bestThread thr others).1).w.pos.bestmove.code
      = (bestThread thr others).1.w.pos.bestmove.code := by
  have h := bestThread_fold others (thr, thr.w.pos.bestmovescore 0) [thr] rfl (by simp)
    (by
      intro h hm _
      rw [List.mem_singleton.mp hm])
  have hdef : bestThread thr others = others.foldl
      (fun acc hthr =>
        if hthr.lastCompleteDepth ≥ acc.1.lastCompleteDepth
            ∧ hthr.w.pos.bestmovescore 0 > acc.2 then
          (hthr, hthr.w.pos.bestmovescore 0)
        else acc) (thr, thr.w.pos.bestmovescore 0) := rfl
  rw [← hdef] at h
  obtain ⟨h1, h2, h3, h4, h5⟩ := h
  refine ⟨?_, h1, ?_, h4, ?_, ?_⟩
  · simpa using h2
  · intro g hg hd
    rw [← h1]
    exact h3 g (by simpa using hg) hd
  · rw [← h1]
    exact h5
  · unfold genAdopt
    split
    · generalize adoptPvLoop (bestThread thr others).1.w.pos.lastpv env.MAXDEPTH.toNat 0
        thr.w.pos = q
      obtain ⟨i, p⟩ := q
      simp only [GenState.setPos, World.setPos]
      split <;> rfl
    · rename_i hne
      simpa using hne

/-- C25 as stated fails.  Worker 0 has completed depth 10 with the score 50 and the best move
`0x10000314`, worker 1 has completed depth 12 with the score 40 and the best move
`0x10000355`.  The highest completed depth is 12, reached by worker 1 only, but worker 0
stays the choice, and its move is the one in the `bestmove` line. -/
theorem final_answer_selection_counterexample :
    ((workerState 0 10 50 0x10000314).lastCompleteDepth = 10
      ∧ (workerState 1 12 40 0x10000355).lastCompleteDepth = 12) ∧
    ((bestThread (workerState 0 10 50 0x10000314) [workerState 1 12 40 0x10000355]).1.index,
      (bestThread (workerState 0 10 50 0x10000314) [workerState 1 12 40 0x10000355]).2)
      = (0, 50) ∧
    (genFinish exampleEnv exampleDriver RootsearchType.SinglePVSearch
        (workerState 0 10 50 0x10000314) [workerState 1 12 40 0x10000355]).2
      = FinalAnswer.mk 0x10000314 none 50 :=
  ⟨by decide, by decide, by decide!⟩

theorem final_answer_selection_witness :
    (workerState 0 10 40 0x10000314).lastCompleteDepth
      ≤ (bestThread (workerState 0 10 40 0x10000314)
          [workerState 1 10 50 0x10000355]).1.lastCompleteDepth ∧
    (genFinish exampleEnv exampleDriver RootsearchType.SinglePVSearch
        (workerState 0 10 40 0x10000314) [workerState 1 10 50 0x10000355]).2
      = FinalAnswer.mk 0x10000355 none 50 :=
  ⟨(final_answer_selection exampleEnv RootsearchType.SinglePVSearch
      (workerState 0 10 40 0x10000314) [workerState 1 10 50 0x10000355]).2.2.2.1,
    by decide!⟩

/-! ### Transposition-table stores of `alphabeta` -/

theorem abCutoffQuiet_ply {B S : Type} (env : Env B S) (c : NodeCtx) (m : Nat)
    (st : LoopState S) (p : Pos B) : (abCutoffQuiet env c m st p).ply = p.ply := by
  unfold abCutoffQuiet
  simp only
  split <;> split <;> rfl

/-- C30 (stores of `alphabeta`).  When the move loop finishes (the selector returns no further
move) with at least one legal move, the node returns `bestscore` and stores
`(newhash, FIXMATESCOREADD(bestscore, ply), staticeval, eval_type, depth, bestcode)`, the move
as its 16-bit short code, if and only if `bestcode != 0` and no exclusion move is active;
nothing else is written to the table.  On a beta cutoff (`score > bestscore`,
`score >= beta`) the node returns `score` and stores
`(newhash, FIXMATESCOREADD(score, ply), staticeval, HASHBETA, effectiveDepth, move)` if and
only if no exclusion move is active. -/
theorem alphabeta_store {B S : Type} (env : Env B S) (ab : Search B) (c : NodeCtx) (n : Nat)
    (m : Nat) (st : LoopState S) (w : World B) (score effectiveDepth : Int) :
    ((env.next st.ms w.pos).1 = none → st.LegalMoves ≠ 0 →
      abLoop env ab c (n + 1) st w =
        some (st.bestscore,
          { w with tt :=
            if st.bestcode ≠ 0 ∧ c.excludeMove = 0 then
              w.tt ++ [TTOp.store c.newhash (env.FIXMATESCOREADD st.bestscore w.pos.ply)
                st.staticeval st.eval_type c.depth (st.bestcode % 65536)]
            else w.tt })) ∧
    (score > st.bestscore → score ≥ c.beta →
      ∃ w', abUpdate env c m st w score effectiveDepth = Step.ret (score, w') ∧
        w'.tt =
          if c.excludeMove = 0 then
            w.tt ++ [TTOp.store c.newhash (env.FIXMATESCOREADD score w.pos.ply) st.staticeval
              Bound.HASHBETA effectiveDepth (m % 65536)]
          else w.tt) := by
  refine ⟨fun hend hlegal => ?_, fun hbest hbeta => ?_⟩
  · rcases hnext : env.next st.ms w.pos with ⟨o, ms⟩
    rw [hnext] at hend
    simp only at hend
    subst hend
    simp only [abLoop, hnext, abFinish, if_neg hlegal]
    by_cases hc : st.bestcode ≠ 0 ∧ c.excludeMove = 0
    · rw [if_pos hc, if_pos hc]
      rfl
    · rw [if_neg hc, if_neg hc]
  · unfold abUpdate
    rw [if_pos hbest]
    simp only [if_pos hbeta]
    refine ⟨_, rfl, ?_⟩
    by_cases he : c.excludeMove = 0
    · simp only [if_pos he, World.addHash]
      by_cases ht : env.ISTACTICAL m = true
      · simp [ht]
      · have hf : env.ISTACTICAL m = false := by simpa using ht
        simp only [hf, Bool.false_eq_true, not_false_eq_true, if_true, World.setPos,
          abCutoffQuiet_ply]
    · simp only [if_neg he]
      split <;> rfl

theorem alphabeta_store_witness :
    ((exampleEnv.next finishedState.ms exampleWorld.pos).1 = none
      ∧ finishedState.LegalMoves ≠ 0) ∧
    (abLoop exampleEnv (alphabeta exampleEnv 0) singularCtx 1 finishedState
        exampleWorld).map (fun r => (r.1, r.2.tt))
      = some (12, [TTOp.store 0x1234 12 0 Bound.HASHEXACT 8 0x0314]) := by
  refine ⟨by decide, ?_⟩
  rw [(alphabeta_store exampleEnv (alphabeta exampleEnv 0) singularCtx 0 0 finishedState
    exampleWorld 0 0).1 rfl (by decide)]
  decide

/-! ### The root move loop -/

theorem rootPushQuiet_fields {B S : Type} (env : Env B S) (m : chessmove) (st : RootState) :
    (rootPushQuiet env m st).alpha = st.alpha ∧
    (rootPushQuiet env m st).bestscore = st.bestscore ∧
    (rootPushQuiet env m st).lastmoveindex = st.lastmoveindex ∧
    (rootPushQuiet env m st).eval_type = st.eval_type := by
  unfold rootPushQuiet
  split <;> exact ⟨rfl, rfl, rfl, rfl⟩

theorem rootMultiPv_congr {B S : Type} (env : Env B S) (c : RootCtx) (m : chessmove)
    (score : Int) (st1 st2 : RootState) (w : World B) (ha : st1.alpha = st2.alpha)
    (hl : st1.lastmoveindex = st2.lastmoveindex) :
    (rootMultiPv env c m score st1 w).1.alpha = (rootMultiPv env c m score st2 w).1.alpha ∧
    (rootMultiPv env c m score st1 w).1.lastmoveindex
      = (rootMultiPv env c m score st2 w).1.lastmoveindex ∧
    (rootMultiPv env c m score st1 w).2 = (rootMultiPv env c m score st2 w).2 := by
  unfold rootMultiPv
  simp only [ha, hl, and_self]

theorem rootBestMove_ret {B S : Type} (env : Env B S) (c : RootCtx) (m : chessmove)
    (score effectiveDepth : Int) (st : RootState) (w : World B) :
    (∀ r, rootBestMove env c m score effectiveDepth st w = Step.ret r →
      r.1 = c.beta ∧ score ≥ c.beta ∧ score > st.alpha) ∧
    (score > st.alpha → score ≥ c.beta →
      ∃ w', rootBestMove env c m score effectiveDepth st w = Step.ret (c.beta, w')) := by
  refine ⟨fun r hr => ?_, fun h1 h2 => ?_⟩
  · unfold rootBestMove at hr
    split at hr
    · rename_i ha
      simp only at hr
      split at hr
      · rename_i hb
        injection hr with hr
        rw [← hr]
        exact ⟨rfl, hb, ha⟩
      · exact absurd hr (by simp)
    · split at hr
      · exact absurd hr (by simp)
      · exact absurd hr (by simp)
  · unfold rootBestMove
    rw [if_pos h1]
    simp only [if_pos h2]
    exact ⟨_, rfl⟩

/-- C29, amended.  `rootsearch` leaves the root move loop with the value `beta` only on a
root move with `score >= beta`, and it does so in every mode.  In single-PV and ponder mode
this happens when the score is above the best score so far and above alpha.  In MultiPV mode
it happens when the score is above `bestmovescore[lastmoveindex]` and, after the score has been
inserted into the table and alpha has been raised to `bestmovescore[maxmoveindex - 1]`, still
above alpha. -/
theorem rootsearch_beta_cut {B S : Type} (env : Env B S) (c : RootCtx) (m : chessmove)
    (score effectiveDepth alpha1 : Int) (st : RootState) (w : World B)
    (halpha : alpha1
      = (rootMultiPv env c m score st (w.setPos { w.pos with bestFailingLow := m.code })).1.alpha) :
    (∀ r, rootUpdate env c m score effectiveDepth st w = Step.ret r →
      r.1 = c.beta ∧ score ≥ c.beta) ∧
    (c.RT ≠ RootsearchType.MultiPVSearch → score > st.bestscore → score > st.alpha →
        score ≥ c.beta →
      ∃ w', rootUpdate env c m score effectiveDepth st w = Step.ret (c.beta, w')) ∧
    (c.RT = RootsearchType.MultiPVSearch → score > w.pos.bestmovescore st.lastmoveindex →
        score > alpha1 → score ≥ c.beta →
      ∃ w', rootUpdate env c m score effectiveDepth st w = Step.ret (c.beta, w')) := by
  have hq := rootPushQuiet_fields env m st
  refine ⟨fun r hr => ?_, fun hrt hbest halp hbeta => ?_, fun hrt hbest halp hbeta => ?_⟩
  · unfold rootUpdate at hr
    simp only at hr
    split at hr
    · exact absurd hr (by simp)
    · have := (rootBestMove_ret env c m score effectiveDepth _ _).1 r hr
      exact ⟨this.1, this.2.1⟩
  · unfold rootUpdate
    simp only
    rw [if_neg]
    · apply (rootBestMove_ret env c m score effectiveDepth _ _).2 _ hbeta
      unfold rootRank
      rw [if_neg (fun h => hrt h.1)]
      simp only
      rw [hq.1]
      exact halp
    · rintro (⟨h1, _⟩ | ⟨_, h2⟩)
      · exact hrt h1
      · rw [hq.2.1] at h2
        omega
  · unfold rootUpdate
    simp only
    rw [if_neg]
    · apply (rootBestMove_ret env c m score effectiveDepth _ _).2 _ hbeta
      unfold rootRank
      rw [if_pos ⟨hrt, by simp only [World.setPos]; rw [hq.2.2.1]; exact hbest⟩]
      have hc := rootMultiPv_congr env c m score
        { rootPushQuiet env m st with bestscore := score } st
        (w.setPos { w.pos with bestFailingLow := m.code }) hq.1 hq.2.2.1
      rw [hc.1, ← halpha]
      exact halp
    · rintro (⟨_, h2⟩ | ⟨h1, _⟩)
      · rw [hq.2.2.1] at h2
        omega
      · exact h1 hrt

theorem rootsearch_beta_cut_witness :
    (multiPvCtx.RT = RootsearchType.MultiPVSearch
      ∧ (150 : Int) > multiPvWorld.pos.bestmovescore multiPvStart.lastmoveindex
      ∧ (150 : Int) > -100 ∧ (150 : Int) ≥ multiPvCtx.beta) ∧
    ∃ w', rootUpdate multiPvEnv multiPvCtx ⟨0x10000314, 0⟩ 150 5 multiPvStart multiPvWorld
      = Step.ret (100, w') :=
  ⟨by decide,
    (rootsearch_beta_cut multiPvEnv multiPvCtx ⟨0x10000314, 0⟩ 150 5 (-100) multiPvStart
      multiPvWorld (by decide)).2.2 (by decide) (by decide) (by decide) (by decide)⟩

/-- C29 as stated fails.  In a MultiPV search for two lines with the window `(-100, 100)` the
first of two root moves scores 150.  It becomes the first line, alpha stays at -100 because
the second line is still empty, and `rootsearch` returns `beta = 100` at once: the second
root move is never searched (the stop flag is read once, after the first move), and the
beta bound is stored. -/
theorem rootsearch_beta_cut_counterexample :
    (multiPvEnv.MultiPV = 2 ∧ twoMovesWorld.pos.rootmovelist.length = 2) ∧
    (rootsearch multiPvEnv strongMove RootsearchType.MultiPVSearch 3 0 (-100) 100 5
        twoMovesWorld).map
        (fun r => (r.1, r.2.stopReads, r.2.tt, r.2.pos.bestmovescore 0, r.2.pos.bestmovescore 1))
      = some (100, 1, [TTOp.store 0x1234 100 0 Bound.HASHBETA 5 0x0314], 150, -32767) :=
  ⟨by decide, by decide!⟩

theorem swapMoves_length (l : List chessmove) (i j : Nat) :
    (swapMoves l i j).length = l.length := by
  simp only [swapMoves, List.length_set]

/-- The entries of the list after `swap(move[i], move[j])`. -/
theorem swapMoves_getD (l : List chessmove) (i j k : Nat) (d : chessmove)
    (hi : i < l.length) (hj : j < l.length) :
    (swapMoves l i j).getD k d
      = if k = j then l.getD i d else if k = i then l.getD j d else l.getD k d := by
  have e1 : ∀ x : chessmove, l.getD i x = l[i] := fun x => List.getD_eq_getElem l x hi
  have e2 : ∀ x : chessmove, l.getD j x = l[j] := fun x => List.getD_eq_getElem l x hj
  simp only [swapMoves, List.getD_eq_getElem?_getD, List.getElem?_set, List.length_set]
  by_cases h1 : k = j
  · subst h1
    simp [hj, hi]
  · by_cases h2 : k = i
    · subst h2
      have h3 : ¬ j = k := fun h => h1 h.symm
      simp [h1, h3, hi, hj]
    · have h3 : ¬ j = k := fun h => h1 h.symm
      have h4 : ¬ i = k := fun h => h2 h.symm
      simp [h1, h2, h3, h4]

theorem swap_head_perm (x d : chessmove) :
    ∀ (t : List chessmove) (k : Nat), k < t.length →
      (t.getD k d :: t.set k x).Perm (x :: t) := by
  intro t
  induction t with
  | nil => intro k hk; simp at hk
  | cons y t ih =>
    intro k hk
    cases k with
    | zero =>
      simp only [List.getD_cons_zero, List.set_cons_zero]
      exact List.Perm.swap x y t
    | succ k =>
      simp only [List.getD_cons_succ, List.set_cons_succ]
      have hk2 : k < t.length := by simpa using hk
      have h1 := ih k hk2
      exact ((List.Perm.swap y (t.getD k d) (t.set k x)).trans (h1.cons y)).trans
        (List.Perm.swap x y t)

/-- Swapping two entries permutes the list. -/
theorem swapMoves_perm :
    ∀ (i : Nat) (l : List chessmove) (j : Nat), i < j → j < l.length →
      (swapMoves l i j).Perm l := by
  intro i
  induction i with
  | zero =>
    intro l j hij hj
    cases l with
    | nil => simp at hj
    | cons x t =>
      cases j with
      | zero => omega
      | succ k =>
        have hk : k < t.length := by simpa using hj
        simp only [swapMoves, List.getD_cons_zero, List.getD_cons_succ, List.set_cons_zero,
          List.set_cons_succ]
        exact swap_head_perm x _ t k hk
  | succ i ih =>
    intro l j hij hj
    cases l with
    | nil => simp at hj
    | cons x t =>
      cases j with
      | zero => omega
      | succ k =>
        have hk : k < t.length := by simpa using hj
        have h1 := ih t k (by omega) hk
        simp only [swapMoves, List.getD_cons_succ, List.set_cons_succ] at h1 ⊢
        exact h1.cons x

/-- The inner loop of the selection: the state after the indices `i+1 .. i+c` have been
compared with index `i`. -/
theorem selectBest_loop (l : List chessmove) (i : Nat) (d : chessmove) (hi : i < l.length) :
    ∀ c : Nat, c ≤ l.length - (i + 1) →
      ((List.range' (i + 1) c).foldl
          (fun l j => if (l.getD i ⟨0, 0⟩).value < (l.getD j ⟨0, 0⟩).value
            then swapMoves l i j else l) l).length = l.length
      ∧ ((List.range' (i + 1) c).foldl
          (fun l j => if (l.getD i ⟨0, 0⟩).value < (l.getD j ⟨0, 0⟩).value
            then swapMoves l i j else l) l).Perm l
      ∧ (∀ k, k < i → ((List.range' (i + 1) c).foldl
          (fun l j => if (l.getD i ⟨0, 0⟩).value < (l.getD j ⟨0, 0⟩).value
            then swapMoves l i j else l) l).getD k d = l.getD k d)
      ∧ (∀ k, i < k → k < i + 1 + c → (((List.range' (i + 1) c).foldl
          (fun l j => if (l.getD i ⟨0, 0⟩).value < (l.getD j ⟨0, 0⟩).value
            then swapMoves l i j else l) l).getD k ⟨0, 0⟩).value
          ≤ (((List.range' (i + 1) c).foldl
          (fun l j => if (l.getD i ⟨0, 0⟩).value < (l.getD j ⟨0, 0⟩).value
            then swapMoves l i j else l) l).getD i ⟨0, 0⟩).value)
      ∧ (∀ k, i ≤ k → k < l.length → ∃ k', i ≤ k' ∧ k' < l.length
          ∧ ((List.range' (i + 1) c).foldl
          (fun l j => if (l.getD i ⟨0, 0⟩).value < (l.getD j ⟨0, 0⟩).value
            then swapMoves l i j else l) l).getD k d = l.getD k' d) := by
  intro c
  induction c with
  | zero =>
    intro _
    exact ⟨rfl, List.Perm.refl l, fun _ _ => rfl, fun k h1 h2 => by omega,
      fun k h1 h2 => ⟨k, h1, h2, rfl⟩⟩
  | succ c ih =>
    intro hc
    obtain ⟨a1, a2, a3, a4, a5⟩ := ih (by omega)
    rw [List.range'_1_concat, List.foldl_append]
    simp only [List.foldl_cons, List.foldl_nil]
    generalize (List.range' (i + 1) c).foldl
      (fun l j => if (l.getD i ⟨0, 0⟩).value < (l.getD j ⟨0, 0⟩).value
        then swapMoves l i j else l) l = lc at a1 a2 a3 a4 a5 ⊢
    have hj : i + 1 + c < lc.length := by omega
    have hi2 : i < lc.length := by omega
    by_cases hlt : (lc.getD i ⟨0, 0⟩).value < (lc.getD (i + 1 + c) ⟨0, 0⟩).value
    · rw [if_pos hlt]
      refine ⟨by rw [swapMoves_length]; exact a1,
        (swapMoves_perm i lc (i + 1 + c) (by omega) hj).trans a2, ?_, ?_, ?_⟩
      · intro k hk
        rw [swapMoves_getD lc i (i + 1 + c) k d hi2 hj,
          if_neg (show ¬ k = i + 1 + c by omega), if_neg (show ¬ k = i by omega)]
        exact a3 k hk
      · intro k h1 h2
        have hI : (swapMoves lc i (i + 1 + c)).getD i ⟨0, 0⟩ = lc.getD (i + 1 + c) ⟨0, 0⟩ := by
          rw [swapMoves_getD lc i (i + 1 + c) i _ hi2 hj,
            if_neg (show ¬ i = i + 1 + c by omega), if_pos rfl]
        rw [hI, swapMoves_getD lc i (i + 1 + c) k _ hi2 hj]
        by_cases hk : k = i + 1 + c
        · rw [if_pos hk]
          exact le_of_lt hlt
        · rw [if_neg hk, if_neg (show ¬ k = i by omega)]
          exact le_trans (a4 k h1 (by omega)) (le_of_lt hlt)
      · intro k h1 h2
        rw [swapMoves_getD lc i (i + 1 + c) k d hi2 hj]
        by_cases hk : k = i + 1 + c
        · rw [if_pos hk]
          exact a5 i (le_refl _) hi
        · rw [if_neg hk]
          by_cases hk2 : k = i
          · rw [if_pos hk2]
            exact a5 (i + 1 + c) (by omega) (by omega)
          · rw [if_neg hk2]
            exact a5 k h1 h2
    · rw [if_neg hlt]
      refine ⟨a1, a2, a3, ?_, a5⟩
      intro k h1 h2
      by_cases hk : k = i + 1 + c
      · rw [hk]
        exact not_lt.mp hlt
      · exact a4 k h1 (by omega)

/-- What one selection step does to the root move list. -/
theorem selectBest_spec (l : List chessmove) (i : Nat) (d : chessmove) :
    (selectBest l i).length = l.length
    ∧ (selectBest l i).Perm l
    ∧ (∀ k, k < i → (selectBest l i).getD k d = l.getD k d)
    ∧ (∀ k, i ≤ k → k < l.length →
        ((selectBest l i).getD k ⟨0, 0⟩).value ≤ ((selectBest l i).getD i ⟨0, 0⟩).value)
    ∧ (∀ k, i ≤ k → k < l.length → ∃ k', i ≤ k' ∧ k' < l.length
        ∧ (selectBest l i).getD k d = l.getD k' d) := by
  by_cases hi : i < l.length
  · obtain ⟨a1, a2, a3, a4, a5⟩ := selectBest_loop l i d hi (l.length - (i + 1)) (le_refl _)
    refine ⟨a1, a2, a3, ?_, a5⟩
    intro k h1 h2
    by_cases hk : k = i
    · rw [hk]
    · exact a4 k (by omega) (by omega)
  · have h0 : l.length - (i + 1) = 0 := by omega
    have hs : selectBest l i = l := by
      simp only [selectBest, h0, List.range'_zero, List.foldl_nil]
    rw [hs]
    exact ⟨rfl, List.Perm.refl l, fun _ _ => rfl, fun k h1 h2 => by omega,
      fun k h1 h2 => by omega⟩

theorem multiPvShift_rootmovelist {B : Type} (score : Int) :
    ∀ (k : Nat) (i : Int) (p : Pos B),
      (multiPvShift score k i p).2.rootmovelist = p.rootmovelist := by
  intro k
  induction k with
  | zero => intro i p; rfl
  | succ k ih =>
    intro i p
    simp only [multiPvShift]
    split
    · rw [ih]
    · rfl

theorem rootSearchMove_rootmovelist {B : Type} (ab : Search B) (c : RootCtx) (alpha : Int)
    (eval_type : Bound) (reduction : Int) (w : World B)
    (hab : ∀ (a b d : Int) (w : World B) (r : Int × World B),
      ab a b d w = some r → r.2.pos.rootmovelist = w.pos.rootmovelist)
    (r : Int × Int × World B) (hr : rootSearchMove ab c alpha eval_type reduction w = some r) :
    r.2.2.pos.rootmovelist = w.pos.rootmovelist := by
  unfold rootSearchMove at hr
  split at hr
  · simp only at hr
    split at hr
    · cases hr
    · rename_i r1 w1 h1
      have e1 := hab _ _ _ _ _ h1
      split at hr
      · split at hr
        · cases hr
        · rename_i r2 w2 h2
          have e2 := hab _ _ _ _ _ h2
          cases hr
          exact e2.trans e1
      · cases hr
        exact e1
  · simp only at hr
    split at hr
    · cases hr
    · rename_i r1 w1 h1
      have e1 := hab _ _ _ _ _ h1
      split at hr
      · split at hr
        · cases hr
        · rename_i r2 w2 h2
          have e2 := hab _ _ _ _ _ h2
          cases hr
          exact e2.trans e1
      · cases hr
        exact e1

theorem rootMultiPv_rootmovelist {B S : Type} (env : Env B S) (c : RootCtx) (m : chessmove)
    (score : Int) (st : RootState) (w : World B)
    (hmpv : ∀ (p : Pos B) (i : Int) (m : Nat) (b : Bool),
      (env.updateMultiPvTable p i m b).rootmovelist = p.rootmovelist) :
    (rootMultiPv env c m score st w).2.pos.rootmovelist = w.pos.rootmovelist := by
  unfold rootMultiPv
  simp only [World.setPos]
  rw [hmpv, multiPvShift_rootmovelist]

theorem rootRank_rootmovelist {B S : Type} (env : Env B S) (c : RootCtx) (m : chessmove)
    (score : Int) (st : RootState) (w : World B)
    (hmpv : ∀ (p : Pos B) (i : Int) (m : Nat) (b : Bool),
      (env.updateMultiPvTable p i m b).rootmovelist = p.rootmovelist) :
    (rootRank env c m score st w).2.pos.rootmovelist = w.pos.rootmovelist := by
  unfold rootRank
  split
  · exact rootMultiPv_rootmovelist env c m score st w hmpv
  · rfl

theorem rootRaiseAlpha_rootmovelist {B S : Type} (env : Env B S) (c : RootCtx) (m : chessmove)
    (score : Int) (st : RootState) (w : World B)
    (hpv : ∀ (p : Pos B) (m : Nat) (b : Bool),
      (env.updatePvTable p m b).rootmovelist = p.rootmovelist) :
    (rootRaiseAlpha env c m score st w).2.pos.rootmovelist = w.pos.rootmovelist := by
  unfold rootRaiseAlpha
  simp only [World.setPos]
  split_ifs <;> exact hpv _ _ _

theorem rootCut_rootmovelist {B S : Type} (env : Env B S) (c : RootCtx) (m : chessmove)
    (effectiveDepth : Int) (st : RootState) (w : World B) :
    (rootCut env c m effectiveDepth st w).2.pos.rootmovelist = w.pos.rootmovelist := by
  unfold rootCut rootCutoffQuiet
  simp only [World.setPos, World.addHash]
  split_ifs <;> rfl

theorem rootBestMove_rootmovelist {B S : Type} (env : Env B S) (c : RootCtx) (m : chessmove)
    (score effectiveDepth : Int) (st : RootState) (w : World B)
    (hpv : ∀ (p : Pos B) (m : Nat) (b : Bool),
      (env.updatePvTable p m b).rootmovelist = p.rootmovelist) :
    StepAll (fun s : RootState × World B => s.2)
      (fun w' => w'.pos.rootmovelist = w.pos.rootmovelist)
      (rootBestMove env c m score effectiveDepth st w) := by
  have hsw : (if c.RT ≠ RootsearchType.MultiPVSearch then rootRaiseAlpha env c m score st w
      else (st, w)).2.pos.rootmovelist = w.pos.rootmovelist := by
    split
    · exact rootRaiseAlpha_rootmovelist env c m score st w hpv
    · rfl
  unfold rootBestMove
  simp only
  split
  · split
    · show (rootCut env c m effectiveDepth _ _).2.pos.rootmovelist = w.pos.rootmovelist
      rw [rootCut_rootmovelist]
      exact hsw
    · exact hsw
  · split
    · show (if w.pos.bestmove.code = 0 then w.setPos { w.pos with bestmove := m } else w).pos.rootmovelist
        = w.pos.rootmovelist
      split <;> rfl
    · rfl

theorem rootUpdate_rootmovelist {B S : Type} (env : Env B S) (c : RootCtx) (m : chessmove)
    (score effectiveDepth : Int) (st : RootState) (w : World B)
    (hpv : ∀ (p : Pos B) (m : Nat) (b : Bool),
      (env.updatePvTable p m b).rootmovelist = p.rootmovelist)
    (hmpv : ∀ (p : Pos B) (i : Int) (m : Nat) (b : Bool),
      (env.updateMultiPvTable p i m b).rootmovelist = p.rootmovelist) :
    StepAll (fun s : RootState × World B => s.2)
      (fun w' => w'.pos.rootmovelist = w.pos.rootmovelist)
      (rootUpdate env c m score effectiveDepth st w) := by
  unfold rootUpdate
  simp only
  split
  · rfl
  · refine stepAll_imp (fun w' hw' => ?_) (rootBestMove_rootmovelist env c m score effectiveDepth
      _ _ hpv)
    rw [hw', rootRank_rootmovelist env c m score _ _ hmpv]
    rfl

theorem rootMove_rootmovelist {B S : Type} (env : Env B S) (ab : Search B) (c : RootCtx)
    (i : Nat) (st : RootState) (w : World B) (hframe : RootListFrame env ab) :
    StepAll (fun s : RootState × World B => s.2)
      (fun w' => w'.pos.rootmovelist = selectBest w.pos.rootmovelist i)
      (rootMove env ab c i st w) := by
  obtain ⟨hplay, hunplay, hpv, hmpv, hab⟩ := hframe
  unfold rootMove
  simp only
  split
  · trivial
  · rename_i score effectiveDepth w1 h1
    have e1 : w1.pos.rootmovelist = selectBest w.pos.rootmovelist i := by
      have := rootSearchMove_rootmovelist ab c _ _ _ _ hab _ h1
      rw [this]
      exact hplay _ _
    split
    · show (env.unplayMove w1.pos _).rootmovelist = selectBest w.pos.rootmovelist i
      rw [hunplay, e1]
    · refine stepAll_imp (fun w' hw' => ?_) (rootUpdate_rootmovelist env c _ score
        effectiveDepth st _ hpv hmpv)
      rw [hw']
      show (env.unplayMove w1.pos _).rootmovelist = selectBest w.pos.rootmovelist i
      rw [hunplay, e1]

theorem rootMove_searched {B S : Type} (env : Env B S) (ab : Search B) (c : RootCtx)
    (i : Nat) (st : RootState) (w : World B) (h : rootMove env ab c i st w ≠ Step.fuel) :
    (rootSearchMove ab c st.alpha st.eval_type
      (rootReduction env c i ((selectBest w.pos.rootmovelist i).getD i ⟨0, 0⟩).code)
      ((w.setPos { w.pos with rootmovelist := selectBest w.pos.rootmovelist i }).setPos
        (env.playMove { w.pos with rootmovelist := selectBest w.pos.rootmovelist i }
          ((selectBest w.pos.rootmovelist i).getD i ⟨0, 0⟩).code).2)).isSome = true := by
  unfold rootMove at h
  simp only at h
  split at h
  · exact absurd rfl h
  · rename_i score effectiveDepth w1 h1
    simp only [World.setPos] at h1 ⊢
    rw [h1]
    rfl

theorem rootOrdered_select (l : List chessmove) (i : Nat) (h : RootOrdered i l) :
    RootOrdered (i + 1) (selectBest l i) := by
  obtain ⟨a1, _, a3, a4, a5⟩ := selectBest_spec l i ⟨0, 0⟩
  intro a b ha hab hb
  rw [a1] at hb
  by_cases hai : a < i
  · rw [a3 a hai]
    by_cases hbi : b < i
    · rw [a3 b hbi]
      exact h a b hai hab hb
    · obtain ⟨k', h1, h2, h3⟩ := a5 b (by omega) hb
      rw [h3]
      exact h a k' hai (by omega) h2
  · have hi : a = i := by omega
    rw [hi]
    exact a4 b (by omega) hb

theorem rootOrdered_mono (l : List chessmove) (n m : Nat) (hnm : m ≤ n) (h : RootOrdered n l) :
    RootOrdered m l :=
  fun a b ha hab hb => h a b (by omega) hab hb

theorem rootLoop_order {B S : Type} (env : Env B S) (ab : Search B) (c : RootCtx)
    (hframe : RootListFrame env ab) :
    ∀ (k i : Nat) (st : RootState) (w : World B) (r : Int) (w' : World B),
      RootOrdered i w.pos.rootmovelist →
      rootLoop env ab c k i st w = some (r, w') →
      w'.pos.rootmovelist.Perm w.pos.rootmovelist
      ∧ ∃ n, i ≤ n ∧ RootOrdered n w'.pos.rootmovelist
        ∧ (w'.pos.rootmovelist.length ≤ n
          ∨ ∃ st0 w0, rootMove env ab c (n - 1) st0 w0 = Step.ret (r, w')) := by
  intro k
  induction k with
  | zero => intro i st w r w' _ h; cases h
  | succ k ih =>
    intro i st w r w' hord h
    simp only [rootLoop] at h
    split at h
    · have hm := rootMove_rootmovelist env ab c i st w hframe
      split at h
      · cases h
      · rename_i r0 hr
        cases h
        rw [hr] at hm
        have hl : w'.pos.rootmovelist = selectBest w.pos.rootmovelist i := hm
        rw [hl]
        refine ⟨(selectBest_spec _ i ⟨0, 0⟩).2.1, i + 1, by omega,
          rootOrdered_select _ i hord, Or.inr ⟨st, w, ?_⟩⟩
        rw [Nat.add_sub_cancel]
        exact hr
      · rename_i st1 w1 hc
        rw [hc] at hm
        have hl : w1.pos.rootmovelist = selectBest w.pos.rootmovelist i := hm
        have hord1 : RootOrdered (i + 1) w1.pos.rootmovelist := by
          rw [hl]
          exact rootOrdered_select _ i hord
        obtain ⟨hp, n, hn, ho, hx⟩ := ih (i + 1) st1 w1 r w' hord1 h
        refine ⟨?_, n, by omega, ho, hx⟩
        rw [hl] at hp
        exact hp.trans (selectBest_spec _ i ⟨0, 0⟩).2.1
    · rename_i hlen
      simp only [Option.some.injEq] at h
      have hw : w'.pos.rootmovelist = w.pos.rootmovelist := by
        have h2 : w' = (rootFinish c st w).2 := by rw [h]
        rw [h2]
        unfold rootFinish
        split_ifs <;> rfl
      rw [hw]
      exact ⟨List.Perm.refl _, i, le_refl _, hord, Or.inl (by omega)⟩

/-- C31 (root move ordering).  `playMove`, `unplayMove`, `updatePvTable`,
`updateMultiPvTable` and the searches called are taken not to write the root move list.
* One pass of the root move loop, for the index `i` and the list `l` it finds: the selection
  step turns `l` into `selectBest l i`, a permutation of `l` whose entry at `i` has the
  maximal value among the entries at `i` and above (the moves not yet searched); the move
  that is played and searched is that entry; the pass ends, by `return` or at the end of the
  body, with the list `selectBest l i`, nothing else in the body writes it; and the move that
  the next pass selects from the list handed over has a value that is at most the value of
  the move of this pass.
* The whole loop, started at index `i` on a list whose first `i` entries are ordered (trivial
  for `i = 0`): when it returns, the list is a permutation of the list it started with, and
  with `n` the number of passes begun (all moves, or one more than the index of the pass that
  returned) the first `n` entries, the moves searched in the order in which they were
  searched, are in non-increasing order of value, and no other move has a greater value than
  any of them. -/
theorem rootsearch_move_order {B S : Type} (env : Env B S) (ab : Search B) (c : RootCtx)
    (hframe : RootListFrame env ab) :
    (∀ (i : Nat) (st : RootState) (w : World B),
      (selectBest w.pos.rootmovelist i).Perm w.pos.rootmovelist
      ∧ (∀ k, i ≤ k → k < w.pos.rootmovelist.length →
          ((selectBest w.pos.rootmovelist i).getD k ⟨0, 0⟩).value
            ≤ ((selectBest w.pos.rootmovelist i).getD i ⟨0, 0⟩).value)
      ∧ (rootMove env ab c i st w ≠ Step.fuel →
          (rootSearchMove ab c st.alpha st.eval_type
            (rootReduction env c i ((selectBest w.pos.rootmovelist i).getD i ⟨0, 0⟩).code)
            ((w.setPos { w.pos with rootmovelist := selectBest w.pos.rootmovelist i }).setPos
              (env.playMove { w.pos with rootmovelist := selectBest w.pos.rootmovelist i }
                ((selectBest w.pos.rootmovelist i).getD i ⟨0, 0⟩).code).2)).isSome = true)
      ∧ StepAll (fun s : RootState × World B => s.2)
          (fun w' => w'.pos.rootmovelist = selectBest w.pos.rootmovelist i)
          (rootMove env ab c i st w)
      ∧ (∀ st' w', rootMove env ab c i st w = Step.cont (st', w') →
          i + 1 < w.pos.rootmovelist.length →
          ((selectBest w'.pos.rootmovelist (i + 1)).getD (i + 1) ⟨0, 0⟩).value
            ≤ ((selectBest w.pos.rootmovelist i).getD i ⟨0, 0⟩).value))
    ∧ (∀ (k i : Nat) (st : RootState) (w : World B) (r : Int) (w' : World B),
        RootOrdered i w.pos.rootmovelist →
        rootLoop env ab c k i st w = some (r, w') →
        w'.pos.rootmovelist.Perm w.pos.rootmovelist
        ∧ ∃ n, i ≤ n ∧ RootOrdered n w'.pos.rootmovelist
          ∧ (w'.pos.rootmovelist.length ≤ n
            ∨ ∃ st0 w0, rootMove env ab c (n - 1) st0 w0 = Step.ret (r, w')))
    ∧ (∀ l : List chessmove, RootOrdered 0 l) := by
  refine ⟨?_, rootLoop_order env ab c hframe, fun l a b ha => absurd ha (Nat.not_lt_zero a)⟩
  intro i st w
  obtain ⟨a1, a2, _, a4, _⟩ := selectBest_spec w.pos.rootmovelist i ⟨0, 0⟩
  have hm := rootMove_rootmovelist env ab c i st w hframe
  refine ⟨a2, a4, rootMove_searched env ab c i st w, hm, ?_⟩
  intro st' w' hc hi
  rw [hc] at hm
  have hl : w'.pos.rootmovelist = selectBest w.pos.rootmovelist i := hm
  rw [hl]
  obtain ⟨_, _, _, _, b5⟩ := selectBest_spec (selectBest w.pos.rootmovelist i) (i + 1) ⟨0, 0⟩
  obtain ⟨k', h1, h2, h3⟩ := b5 (i + 1) (le_refl _) (by omega)
  rw [h3]
  exact a4 k' (by omega) (by omega)

theorem rootListFrame_recording : RootListFrame recordingEnv betterMove :=
  ⟨fun _ _ => rfl, fun _ _ => rfl, fun _ _ _ => rfl, fun _ _ _ _ => rfl,
    fun _ _ _ _ _ h => by cases h; rfl⟩

/-- A single-PV root search over four moves with the values 10, 30, 20, 40 (every move gets
the score 70): the moves are played in the order of the values 40, 30, 20, 10, and the list
ends up in that order. -/
theorem rootsearch_move_order_witness :
    RootListFrame recordingEnv betterMove ∧
    (∃ r w', rootLoop recordingEnv betterMove singlePvCtx 5 0 multiPvStart fourMovesWorld
        = some (r, w')
      ∧ (w'.pos.rootmovelist.Perm fourMovesWorld.pos.rootmovelist
        ∧ ∃ n, 0 ≤ n ∧ RootOrdered n w'.pos.rootmovelist
          ∧ (w'.pos.rootmovelist.length ≤ n
            ∨ ∃ st0 w0, rootMove recordingEnv betterMove singlePvCtx (n - 1) st0 w0
                = Step.ret (r, w')))
      ∧ w'.pos.rootmovelist
          = [⟨0x10000304, 40⟩, ⟨0x10000302, 30⟩, ⟨0x10000303, 20⟩, ⟨0x10000301, 10⟩]
      ∧ [1, 2, 3, 4].map w'.pos.movestack
          = [0x10000304, 0x10000302, 0x10000303, 0x10000301]) ∧
    (rootsearch recordingEnv betterMove RootsearchType.SinglePVSearch 5 0 (-100) 100 5
        fourMovesWorld).map (fun r => (r.1, r.2.pos.rootmovelist, [1, 2, 3, 4].map r.2.pos.movestack))
      = some (70, [⟨0x10000304, 40⟩, ⟨0x10000302, 30⟩, ⟨0x10000303, 20⟩, ⟨0x10000301, 10⟩],
          [0x10000304, 0x10000302, 0x10000303, 0x10000301]) :=
  ⟨rootListFrame_recording,
    ⟨_, _, rfl,
      (rootsearch_move_order recordingEnv betterMove singlePvCtx rootListFrame_recording).2.1
        5 0 multiPvStart fourMovesWorld _ _
        ((rootsearch_move_order recordingEnv betterMove singlePvCtx
          rootListFrame_recording).2.2 _) rfl,
      by decide, by decide⟩,
    by decide⟩

/-! ### Killer moves and history at a beta cutoff -/

/-- The killer update `if (killer[q][0] != m) { killer[q][1] = killer[q][0]; killer[q][0] = m; }`
on the array `k`. -/
theorem killer_shift (k : Int → Int → Nat) (q : Int) (m : Nat) :
    (if k q 0 ≠ m then upd2 (upd2 k q 1 (k q 0)) q 0 m else k) q 0 = m
    ∧ (k q 0 ≠ m → (if k q 0 ≠ m then upd2 (upd2 k q 1 (k q 0)) q 0 m else k) q 1 = k q 0)
    ∧ (k q 0 = m → (if k q 0 ≠ m then upd2 (upd2 k q 1 (k q 0)) q 0 m else k) = k)
    ∧ (∀ r, r ≠ q → (if k q 0 ≠ m then upd2 (upd2 k q 1 (k q 0)) q 0 m else k) r = k r)
    ∧ ((∀ r, k r 0 = k r 1 → k r 0 = 0) →
        ∀ r, (if k q 0 ≠ m then upd2 (upd2 k q 1 (k q 0)) q 0 m else k) r 0
            = (if k q 0 ≠ m then upd2 (upd2 k q 1 (k q 0)) q 0 m else k) r 1 →
          (if k q 0 ≠ m then upd2 (upd2 k q 1 (k q 0)) q 0 m else k) r 0 = 0) := by
  by_cases h : k q 0 = m
  · have hn : ¬ (k q 0 ≠ m) := fun h2 => h2 h
    simp only [if_neg hn]
    exact ⟨h, fun h2 => absurd h h2, fun _ => trivial, fun _ _ => trivial, fun hd => hd⟩
  · have hp : k q 0 ≠ m := h
    simp only [if_pos hp]
    have e0 : upd2 (upd2 k q 1 (k q 0)) q 0 m q 0 = m := by simp [upd2]
    have e1 : upd2 (upd2 k q 1 (k q 0)) q 0 m q 1 = k q 0 := by simp [upd2]
    have e2 : ∀ r, r ≠ q → upd2 (upd2 k q 1 (k q 0)) q 0 m r = k r := by
      intro r hr
      funext j
      simp [upd2, hr]
    refine ⟨e0, fun _ => e1, fun h2 => absurd h2 h, e2, ?_⟩
    intro hd r hr
    by_cases hq : r = q
    · subst hq
      rw [e0, e1] at hr
      exact absurd hr.symm h
    · rw [e2 r hq] at hr ⊢
      exact hd r hr

theorem abCutoffQuiet_killer {B S : Type} (env : Env B S) (c : NodeCtx) (m : Nat)
    (st : LoopState S) (p : Pos B) :
    (abCutoffQuiet env c m st p).killer
      = if p.killer p.ply 0 ≠ m then upd2 (upd2 p.killer p.ply 1 (p.killer p.ply 0)) p.ply 0 m
        else p.killer := by
  unfold abCutoffQuiet
  simp only
  split <;> split <;> rfl

theorem rootCutoffQuiet_killer {B S : Type} (env : Env B S) (c : RootCtx) (m : chessmove)
    (st : RootState) (p : Pos B) :
    (rootCutoffQuiet env c m st p).killer
      = if p.killer 0 0 ≠ m.code then upd2 (upd2 p.killer 0 1 (p.killer 0 0)) 0 0 m.code
        else p.killer := by
  unfold rootCutoffQuiet
  simp only
  split <;> rfl

/-- The world after a beta cutoff of `alphabeta` by a quiet move. -/
theorem abUpdate_cutoff_quiet {B S : Type} (env : Env B S) (c : NodeCtx) (m : Nat)
    (st : LoopState S) (w : World B) (score effectiveDepth : Int)
    (hbest : score > st.bestscore) (hbeta : score ≥ c.beta) (hq : env.ISTACTICAL m = false) :
    ∃ w', abUpdate env c m st w score effectiveDepth = Step.ret (score, w')
      ∧ w'.pos = abCutoffQuiet env c m { st with bestscore := score, bestcode := m } w.pos := by
  have h : abUpdate env c m st w score effectiveDepth
      = Step.ret (score,
          if c.excludeMove = 0 then
            (w.setPos (abCutoffQuiet env c m { st with bestscore := score, bestcode := m }
              w.pos)).addHash c.newhash
              (env.FIXMATESCOREADD score
                (w.setPos (abCutoffQuiet env c m { st with bestscore := score, bestcode := m }
                  w.pos)).pos.ply)
              st.staticeval Bound.HASHBETA effectiveDepth (m % 65536)
          else w.setPos (abCutoffQuiet env c m { st with bestscore := score, bestcode := m }
            w.pos)) := by
    unfold abUpdate
    rw [if_pos hbest]
    simp only
    rw [if_pos hbeta]
    simp only [hq, Bool.false_eq_true, not_false_eq_true, if_true]
  refine ⟨_, h, ?_⟩
  split <;> rfl

theorem rootCut_quiet {B S : Type} (env : Env B S) (c : RootCtx) (m : chessmove)
    (effectiveDepth : Int) (st : RootState) (w : World B) (hq : env.ISTACTICAL m.code = false) :
    (rootCut env c m effectiveDepth st w).1 = c.beta
    ∧ (rootCut env c m effectiveDepth st w).2.pos = rootCutoffQuiet env c m st w.pos := by
  unfold rootCut
  refine ⟨rfl, ?_⟩
  simp only [hq, Bool.false_eq_true, not_false_eq_true, if_true]
  rfl

/-- C32 (killer update).  After a quiet move `m` has caused a beta cutoff in `alphabeta` at
ply `p`, `killer[p][0] == m`; `killer[p][1]` holds the previous `killer[p][0]` unless that
was `m` already, and then the whole array is unchanged; the killers of the other plies are
unchanged.  The same holds for a beta cutoff by a quiet root move in `rootsearch`, with the
index 0.  Consequently the property that the two killers of a ply are never the same
non-zero move, which holds when all slots are empty, is kept by both updates and by the
reset of the killers of the child ply, the only writes of `killer`. -/
theorem killer_update {B S : Type} (env : Env B S) (c : NodeCtx) (rc : RootCtx) (m : Nat)
    (rm : chessmove) (st : LoopState S) (rst : RootState) (w : World B)
    (score effectiveDepth : Int) :
    (score > st.bestscore → score ≥ c.beta → env.ISTACTICAL m = false →
      ∃ w', abUpdate env c m st w score effectiveDepth = Step.ret (score, w')
        ∧ w'.pos.killer w.pos.ply 0 = m
        ∧ (w.pos.killer w.pos.ply 0 ≠ m →
            w'.pos.killer w.pos.ply 1 = w.pos.killer w.pos.ply 0)
        ∧ (w.pos.killer w.pos.ply 0 = m → w'.pos.killer = w.pos.killer)
        ∧ (∀ q, q ≠ w.pos.ply → w'.pos.killer q = w.pos.killer q)
        ∧ (KillersDistinct w.pos → KillersDistinct w'.pos))
    ∧ (env.ISTACTICAL rm.code = false →
        (rootCut env rc rm effectiveDepth rst w).1 = rc.beta
        ∧ (rootCut env rc rm effectiveDepth rst w).2.pos.killer 0 0 = rm.code
        ∧ (w.pos.killer 0 0 ≠ rm.code →
            (rootCut env rc rm effectiveDepth rst w).2.pos.killer 0 1 = w.pos.killer 0 0)
        ∧ (w.pos.killer 0 0 = rm.code →
            (rootCut env rc rm effectiveDepth rst w).2.pos.killer = w.pos.killer)
        ∧ (∀ q, q ≠ 0 →
            (rootCut env rc rm effectiveDepth rst w).2.pos.killer q = w.pos.killer q)
        ∧ (KillersDistinct w.pos →
            KillersDistinct (rootCut env rc rm effectiveDepth rst w).2.pos))
    ∧ ((resetChildKillers w.pos).killer (w.pos.ply + 1) 0 = 0
        ∧ (resetChildKillers w.pos).killer (w.pos.ply + 1) 1 = 0
        ∧ (∀ q, q ≠ w.pos.ply + 1 → (resetChildKillers w.pos).killer q = w.pos.killer q)
        ∧ (KillersDistinct w.pos → KillersDistinct (resetChildKillers w.pos)))
    ∧ ((∀ q i, w.pos.killer q i = 0) → KillersDistinct w.pos) := by
  refine ⟨fun hbest hbeta hq => ?_, fun hq => ?_, ?_, fun h q _ => h q 0⟩
  · obtain ⟨w', h1, h2⟩ := abUpdate_cutoff_quiet env c m st w score effectiveDepth hbest hbeta hq
    obtain ⟨k0, k1, k2, k3, k4⟩ := killer_shift w.pos.killer w.pos.ply m
    have hk := abCutoffQuiet_killer env c m { st with bestscore := score, bestcode := m } w.pos
    refine ⟨w', h1, ?_, ?_, ?_, ?_, ?_⟩
    · rw [h2, hk]; exact k0
    · rw [h2, hk]; exact k1
    · rw [h2, hk]; exact k2
    · rw [h2, hk]; exact k3
    · intro hd
      unfold KillersDistinct
      rw [h2, hk]
      exact k4 hd
  · obtain ⟨h1, h2⟩ := rootCut_quiet env rc rm effectiveDepth rst w hq
    obtain ⟨k0, k1, k2, k3, k4⟩ := killer_shift w.pos.killer 0 rm.code
    have hk := rootCutoffQuiet_killer env rc rm rst w.pos
    refine ⟨h1, ?_, ?_, ?_, ?_, ?_⟩
    · rw [h2, hk]; exact k0
    · rw [h2, hk]; exact k1
    · rw [h2, hk]; exact k2
    · rw [h2, hk]; exact k3
    · intro hd
      unfold KillersDistinct
      rw [h2, hk]
      exact k4 hd
  · have e0 : (resetChildKillers w.pos).killer (w.pos.ply + 1) 0 = 0 := by
      simp [resetChildKillers, upd2]
    have e1 : (resetChildKillers w.pos).killer (w.pos.ply + 1) 1 = 0 := by
      simp [resetChildKillers, upd2]
    have e2 : ∀ q, q ≠ w.pos.ply + 1 → (resetChildKillers w.pos).killer q = w.pos.killer q := by
      intro q hq
      funext j
      simp [resetChildKillers, upd2, hq]
    refine ⟨e0, e1, e2, ?_⟩
    intro hd q hq
    by_cases h : q = w.pos.ply + 1
    · rw [h]; exact e0
    · rw [e2 q h] at hq ⊢
      exact hd q hq

theorem killer_update_witness :
    ((150 : Int) > singularState.bestscore ∧ (150 : Int) ≥ singularCtx.beta
      ∧ exampleEnv.ISTACTICAL 0x10000314 = false)
    ∧ ∃ w', abUpdate exampleEnv singularCtx 0x10000314 singularState
          (exampleWorld.setPos { examplePos with killer := fun _ i => if i = 0 then 0x10000355 else 0 })
          150 8 = Step.ret (150, w')
      ∧ w'.pos.killer 0 0 = 0x10000314 ∧ w'.pos.killer 0 1 = 0x10000355 :=
  ⟨by decide, by
    obtain ⟨w', h1, h2, h3, _⟩ := (killer_update exampleEnv singularCtx singlePvCtx 0x10000314
      ⟨0, 0⟩ singularState multiPvStart
      (exampleWorld.setPos { examplePos with killer := fun _ i => if i = 0 then 0x10000355 else 0 })
      150 8).1 (by decide) (by decide) (by decide)
    exact ⟨w', h1, h2, h3 (by decide)⟩⟩

/-- C34, amended.  The singular-extension probe of `alphabeta` is made with the node's own
`hashscore`, `staticeval` and `hashmovecode` as output variables.  When the probe is not
made (the move is not the hash move, `depth <= 7`, or an exclusion move is active) the three
variables keep their values and the move goes on without extension.  When it is made and the
move loop goes on, the three variables hold what `probeHash` delivered, in particular the
probed score, from which `sBeta` is computed; they have the values from before exactly when
the probe delivers those again; nothing else of the loop locals changes.  The static
evaluation written by the store at the end of the node is the value of the variable
`staticeval` at that time. -/
theorem singular_probe_outputs {B S : Type} (env : Env B S) (ab : Search B) (c : NodeCtx)
    (m : Nat) (st : LoopState S) (w : World B) (out : Bool × Int × Int × Nat)
    (hout : out = env.probeHash w.tt c.newhash st.hashscore st.staticeval st.hashmovecode
      (c.depth - 3) st.alpha c.beta w.pos.ply) :
    (¬ (m &&& 0xffff = st.hashmovecode ∧ c.depth > 7 ∧ c.excludeMove = 0) →
      abSingular env ab c m st w = Step.cont (0, st, w))
    ∧ (m &&& 0xffff = st.hashmovecode → c.depth > 7 → c.excludeMove = 0 →
      ∀ (e : Int) (st' : LoopState S) (w' : World B),
        abSingular env ab c m st w = Step.cont (e, st', w') →
        st' = { st with hashscore := out.2.1, staticeval := out.2.2.1,
                        hashmovecode := out.2.2.2 }
        ∧ ((st'.hashscore = st.hashscore ∧ st'.staticeval = st.staticeval
            ∧ st'.hashmovecode = st.hashmovecode)
          ↔ (out.2.1 = st.hashscore ∧ out.2.2.1 = st.staticeval
            ∧ out.2.2.2 = st.hashmovecode)))
    ∧ (st.LegalMoves ≠ 0 → st.bestcode ≠ 0 → c.excludeMove = 0 →
        (abFinish env c st w).2.tt
          = w.tt ++ [TTOp.store c.newhash (env.FIXMATESCOREADD st.bestscore w.pos.ply)
              st.staticeval st.eval_type c.depth (st.bestcode % 65536)]) := by
  refine ⟨fun hno => ?_, fun hmove hdepth hexcl e st' w' hcont => ?_, fun hl hb he => ?_⟩
  · unfold abSingular
    rw [if_neg hno]
  · have hst : st' = { st with hashscore := out.2.1, staticeval := out.2.2.1,
                                hashmovecode := out.2.2.2 } := by
      unfold abSingular at hcont
      rw [if_pos ⟨hmove, hdepth, hexcl⟩] at hcont
      simp only [World.probe, ← hout] at hcont
      split at hcont
      · split at hcont
        · cases hcont
        · split at hcont
          · injection hcont with h
            exact (congrArg (fun x => x.2.1) h).symm
          · split at hcont
            · cases hcont
            · injection hcont with h
              exact (congrArg (fun x => x.2.1) h).symm
      · injection hcont with h
        exact (congrArg (fun x => x.2.1) h).symm
    refine ⟨hst, ?_⟩
    rw [hst]
  · unfold abFinish
    rw [if_neg hl, if_pos ⟨hb, he⟩]
    rfl

theorem singular_probe_outputs_witness :
    (0x10000314 &&& 0xffff = missedState.hashmovecode ∧ singularCtx.depth > 7
      ∧ singularCtx.excludeMove = 0)
    ∧ ∃ st' w', abSingular shallowEntryEnv notSingular singularCtx 0x10000314 missedState
          exampleWorld = Step.cont (0, st', w')
      ∧ st' = { missedState with
          hashscore := (shallowEntryEnv.probeHash [] 0x1234 (-32001) 100 0x0314 5 0 100 0).2.1,
          staticeval := (shallowEntryEnv.probeHash [] 0x1234 (-32001) 100 0x0314 5 0 100 0).2.2.1,
          hashmovecode :=
            (shallowEntryEnv.probeHash [] 0x1234 (-32001) 100 0x0314 5 0 100 0).2.2.2 } :=
  ⟨by decide, _, _, rfl,
    ((singular_probe_outputs shallowEntryEnv notSingular singularCtx 0x10000314 missedState
      exampleWorld _ rfl).2.1 (by decide) (by decide) rfl 0 _ _ rfl).1⟩

/-- C34 as stated fails.  A PV node at depth 8 with the window `(0, 200)` finds in the table an
entry of depth 5 for its position.  Its first probe misses and reports the static evaluation
100, which the node pushes on `staticevalstack[mstop]`; `hashscore` stays `NOSCORE`.  The
singular-extension probe at depth 5 hits and writes the score 40 and the static evaluation 0
of the entry into the same variables.  The store at the end of the node carries the static
evaluation 0, not the 100 on the stack. -/
theorem singular_probe_counterexample :
    (missedState.hashscore = -32001 ∧ missedState.staticeval = 100
      ∧ missedState.hashmovecode = 0x0314)
    ∧ (∃ st' w', abSingular shallowEntryEnv notSingular singularCtx 0x10000314 missedState
          exampleWorld = Step.cont (0, st', w')
        ∧ st'.hashscore = 40 ∧ st'.staticeval = 0 ∧ st'.hashmovecode = 0x0314)
    ∧ (abNode shallowEntryEnv notSingular notSingular 2 0 200 8 exampleWorld).map
        (fun r => (r.1, r.2.tt, r.2.pos.staticevalstack r.2.pos.mstop))
      = some (12,
          [TTOp.probe 0x1234 8 0 200 0, TTOp.probe 0x1234 5 0 200 0,
            TTOp.store 0x1234 12 0 Bound.HASHEXACT 8 0x0314],
          100) :=
  ⟨by decide, ⟨_, _, rfl, by decide, by decide, by decide⟩, by decide!⟩

/-! ### The terminal check and pruning before `playMove` -/

/-- C35, the code at a failing input.  A non-PV node at depth 1 with the window `(49, 50)`,
not in check, static evaluation 0, no table entry.  The move generator offers one move, the
quiet move `0x10000314`, and `playMove` accepts it as legal.  Both continuation-history
entries of the move are negative and `effectiveDepth = 1 < 4`, so the move is skipped by the
counter-move-history pruning before `playMove`: `LegalMoves` stays 0, no move is searched
(the run needs no recursive call), and `alphabeta` returns `SCOREDRAW` through the stalemate
branch.  With the side to move in check it returns `SCOREBLACKWINS + ply` through the mate
branch. -/
theorem terminal_check_pruned :
    ((prunedEnv.next (prunedEnv.SetPreferredMoves prunedWorld.pos 0 0 0 0 0) prunedWorld.pos).1
        = some 0x10000314
      ∧ (prunedEnv.playMove prunedWorld.pos 0x10000314).1 = true
      ∧ prunedEnv.ISTACTICAL 0x10000314 = false
      ∧ cmptrNegative prunedWorld.pos.toTables
          (prunedEnv.SetPreferredMoves prunedWorld.pos 0 0 0 0 0).cmptr 0
          (prunedEnv.GETPIECE 0x10000314 * 64 + prunedEnv.GETTO 0x10000314) = true
      ∧ cmptrNegative prunedWorld.pos.toTables
          (prunedEnv.SetPreferredMoves prunedWorld.pos 0 0 0 0 0).cmptr 1
          (prunedEnv.GETPIECE 0x10000314 * 64 + prunedEnv.GETTO 0x10000314) = true)
    ∧ (prunedWorld.pos.isCheckbb = 0
      ∧ (alphabeta prunedEnv 3 49 50 1 prunedWorld).map (fun r => (r.1, r.2.tt))
        = some (prunedEnv.SCOREDRAW, [TTOp.probe 0x1234 1 49 50 0])
      ∧ (abNode prunedEnv (alphabeta prunedEnv 0) (getQuiescence prunedEnv 0) 2 49 50 1
          prunedWorld).map (fun r => (r.1, r.2.tt))
        = some (prunedEnv.SCOREDRAW, [TTOp.probe 0x1234 1 49 50 0]))
    ∧ (prunedCheckWorld.pos.isCheckbb ≠ 0
      ∧ (alphabeta prunedEnv 3 49 50 1 prunedCheckWorld).map (fun r => (r.1, r.2.tt))
        = some (prunedEnv.SCOREBLACKWINS + prunedCheckWorld.pos.ply,
            [TTOp.probe 0x1234 1 49 50 0])) :=
  ⟨by decide, ⟨by decide, by decide!, by decide!⟩, by decide, by decide!⟩

/-! ### Direction of the pruning returns -/

theorem probCutLoop_ret {B S : Type} (env : Env B S) (ab : Search B)
    (staticeval depth rbeta : Int) :
    ∀ (moves : List Nat) (w : World B) (r : Int × World B),
      probCutLoop env ab staticeval depth rbeta moves w = Step.ret r → r.1 ≥ rbeta := by
  intro moves
  induction moves with
  | nil => intro w r h; simp [probCutLoop] at h
  | cons m rest ih =>
    intro w r h
    unfold probCutLoop at h
    split at h
    · exact ih _ _ h
    · split at h
      · exact ih _ _ h
      · split at h
        · cases h
        · simp only at h
          split at h
          · injection h with h
            rw [← h]
            assumption
          · exact ih _ _ h

theorem abSingular_ret {B S : Type} (env : Env B S) (ab : Search B) (c : NodeCtx) (m : Nat)
    (st : LoopState S) (w : World B) (r : Int × World B)
    (h : abSingular env ab c m st w = Step.ret r) : r.1 ≥ c.beta := by
  unfold abSingular at h
  split at h
  · simp only [World.probe] at h
    split at h
    · split at h
      · cases h
      · split at h
        · cases h
        · split at h
          · rename_i hc
            injection h with h
            rw [← h]
            exact hc.2
          · cases h
    · cases h
  · cases h

theorem abUpdate_ret {B S : Type} (env : Env B S) (c : NodeCtx) (m : Nat) (st : LoopState S)
    (w : World B) (score effectiveDepth : Int) (r : Int × World B)
    (h : abUpdate env c m st w score effectiveDepth = Step.ret r) :
    r.1 = score ∧ score ≥ c.beta ∧ score > st.bestscore := by
  unfold abUpdate at h
  split at h
  · rename_i h1
    simp only at h
    split at h
    · rename_i h2
      injection h with h
      rw [← h]
      exact ⟨rfl, h2, h1⟩
    · split at h <;> cases h
  · cases h

/-- C37 (direction of the pruning returns of `alphabeta`).  At a node with `depth > 0`: the
value returned by reverse futility pruning (`staticeval`), by the null-move cutoff (the
null-move score, or `beta` for a mate score; at low depth or after the verification search),
by ProbCut (`probcutscore >= rbeta`), by multicut (`sBeta`) and by a beta cutoff in the move
loop (`score`) is `>= beta`.  The value returned by the null-window quiescence search of
razoring is `<= alpha - 250 - 50 * depth`, which is below `alpha`. -/
theorem pruning_return_direction {B S : Type} (env : Env B S) (ab qs : Search B) (fuel : Nat)
    (L : Locals) (w : World B) (c : NodeCtx) (m : Nat) (st : LoopState S)
    (score effectiveDepth : Int) (hdepth : 0 < L.depth) :
    -- reverse futility pruning
    (L.depth ≤ 6 → w.pos.isCheckbb = 0 →
        L.staticeval - L.depth * (72 - 20 * b2i L.positionImproved) > L.beta →
      abFutility env ab fuel L w = some (L.staticeval, w) ∧ L.staticeval ≥ L.beta)
    -- null move: the value handed on after a null-move search that fails high
    ∧ (∀ (r : Int) (w1 : World B),
        (w.pos.isCheckbb = 0 ∧ L.depth ≥ 2 ∧ bestKnownScore env L ≥ L.beta
          ∧ (w.pos.ply ≥ w.pos.nullmoveply ∨ w.pos.ply.tmod 2 ≠ w.pos.nullmoveside)) →
        ab (-L.beta) (-L.beta + 1) (L.depth - nullMoveR L (bestKnownScore env L))
          (w.setPos (env.playNullMove w.pos)) = some (r, w1) →
        -r ≥ L.beta →
        abNullMove env ab fuel L w
          = abNullMoveVerify env ab fuel L (bestKnownScore env L)
              (nullMoveR L (bestKnownScore env L))
              (if env.MATEFORME (-r) then L.beta else -r)
              (w1.setPos (env.unplayNullMove w1.pos))
        ∧ (if env.MATEFORME (-r) then L.beta else -r) ≥ L.beta)
    -- null move: the two returns
    ∧ (∀ (bks R v : Int) (w1 : World B),
        (|L.beta| < 5000 ∧ (L.depth < 12 ∨ w1.pos.nullmoveply ≠ 0) →
          abNullMoveVerify env ab fuel L bks R v w1 = some (v, w1))
        ∧ (∀ (vs : Int) (w2 : World B),
            ¬ (|L.beta| < 5000 ∧ (L.depth < 12 ∨ w1.pos.nullmoveply ≠ 0)) →
            ab (L.beta - 1) L.beta (L.depth - R)
              (w1.setPos { w1.pos with
                nullmoveply := w1.pos.ply + (3 * (L.depth - R)).tdiv 4,
                nullmoveside := w1.pos.ply.tmod 2 }) = some (vs, w2) →
            vs ≥ L.beta →
            abNullMoveVerify env ab fuel L bks R v w1
              = some (v, w2.setPos { w2.pos with nullmoveside := 0, nullmoveply := 0 })))
    -- ProbCut
    ∧ (∀ (bks : Int) (r : Int × World B),
        (¬ L.PVNode ∧ L.depth ≥ 5 ∧ |L.beta| < env.SCOREWHITEWINS) →
        probCutLoop env ab L.staticeval L.depth (min env.SCOREWHITEWINS (L.beta + 100))
          (env.getMovesTactical w.pos) w = Step.ret r →
        abProbCut env ab fuel L bks w = some r ∧ r.1 ≥ L.beta)
    -- multicut
    ∧ (∀ r, abSingular env ab c m st w = Step.ret r → r.1 ≥ c.beta)
    -- beta cutoff in the move loop
    ∧ (∀ r, abUpdate env c m st w score effectiveDepth = Step.ret r → r.1 ≥ c.beta)
    -- razoring
    ∧ (∀ (value : Int) (w1 : World B),
        (¬ L.PVNode ∧ w.pos.isCheckbb = 0 ∧ L.depth ≤ 2) →
        L.staticeval < L.alpha - 250 - L.depth * 50 →
        ¬ (L.depth = 1 ∧ L.alpha - 250 - L.depth * 50 < L.alpha) →
        qs (L.alpha - 250 - L.depth * 50) (L.alpha - 250 - L.depth * 50 + 1) L.depth w
          = some (value, w1) →
        value ≤ L.alpha - 250 - L.depth * 50 →
        abRazor env ab qs fuel L w = some (value, w1)
        ∧ value ≤ L.alpha - 250 - 50 * L.depth ∧ value < L.alpha) := by
  refine ⟨fun h6 hc hrf => ?_, fun r w1 hcond hab hr => ?_, fun bks R v w1 => ⟨fun hlow => ?_,
    fun vs w2 hlow hab hvs => ?_⟩, fun bks r hcond hloop => ?_,
    fun r h => abSingular_ret env ab c m st w r h,
    fun r h => ?_, fun value w1 hcond hlow hd1 hqs hv => ?_⟩
  · refine ⟨?_, ?_⟩
    · unfold abFutility
      rw [if_pos h6, if_pos ⟨hc, hrf⟩]
    · have hb : b2i L.positionImproved = 0 ∨ b2i L.positionImproved = 1 := by
        unfold b2i
        cases L.positionImproved <;> simp
      have hm : 0 ≤ L.depth * (72 - 20 * b2i L.positionImproved) := by
        apply Int.mul_nonneg (by omega)
        rcases hb with h | h <;> rw [h] <;> omega
      omega
  · refine ⟨?_, ?_⟩
    · unfold abNullMove
      simp only
      rw [if_pos hcond]
      simp only [hab]
      rw [if_pos hr]
    · split
      · exact le_refl _
      · exact hr
  · unfold abNullMoveVerify
    rw [if_pos hlow]
  · unfold abNullMoveVerify
    rw [if_neg hlow]
    simp only [hab]
    rw [if_pos hvs]
  · refine ⟨?_, ?_⟩
    · unfold abProbCut
      rw [if_pos hcond]
      simp only [hloop]
    · have h1 := probCutLoop_ret env ab _ _ _ _ _ _ hloop
      have h2 : L.beta < env.SCOREWHITEWINS := lt_of_le_of_lt (le_abs_self _) hcond.2.2
      have h3 : min env.SCOREWHITEWINS (L.beta + 100) ≥ L.beta := by
        apply le_min <;> omega
      omega
  · exact (abUpdate_ret env c m st w score effectiveDepth r h).1 ▸
      (abUpdate_ret env c m st w score effectiveDepth r h).2.1
  · refine ⟨?_, by omega, by omega⟩
    unfold abRazor
    rw [if_pos hcond]
    simp only
    rw [if_pos hlow, if_neg hd1]
    simp only [hqs]
    rw [if_pos hv]

theorem pruning_return_direction_witness :
    ((0 : Int) < ({ exampleLocals with depth := 2, staticeval := 200 } : Locals).depth
      ∧ ({ exampleLocals with depth := 2, staticeval := 200 } : Locals).staticeval
          - ({ exampleLocals with depth := 2, staticeval := 200 } : Locals).depth
            * (72 - 20 * b2i ({ exampleLocals with depth := 2, staticeval := 200 } : Locals).positionImproved)
          > ({ exampleLocals with depth := 2, staticeval := 200 } : Locals).beta)
    ∧ (abFutility exampleEnv (alphabeta exampleEnv 0) 0
          { exampleLocals with depth := 2, staticeval := 200 } exampleWorld
        = some (200, exampleWorld)
      ∧ (200 : Int) ≥ 50) :=
  ⟨by decide,
    (pruning_return_direction exampleEnv (alphabeta exampleEnv 0) (getQuiescence exampleEnv 0) 0
      { exampleLocals with depth := 2, staticeval := 200 } exampleWorld singularCtx 0x10000314
      singularState 0 0 (by decide)).1 (by decide) rfl (by decide)⟩

/-! ### Bound tags of the stores of `alphabeta` -/

theorem LoopInv.transfer {S : Type} {a : Int} {c : NodeCtx} {st st' : LoopState S}
    (h : LoopInv a c st) (h1 : st'.staticeval = st.staticeval)
    (h2 : st'.eval_type = st.eval_type) (h3 : st'.alpha = st.alpha)
    (h4 : st'.bestcode = st.bestcode) (h5 : st'.bestscore = st.bestscore) :
    LoopInv a c st' := by
  unfold LoopInv at *
  rw [h1, h2, h3, h4, h5]
  exact h

theorem pushQuiet_inv {B S : Type} (env : Env B S) (m : Nat) {a : Int} {c : NodeCtx}
    {st : LoopState S} (h : LoopInv a c st) : LoopInv a c (pushQuiet (B := B) env m st) := by
  unfold pushQuiet
  split
  · exact h.transfer rfl rfl rfl rfl rfl
  · exact h

theorem stepBoth_imp {B σ : Type} {R R' : Int → World B → Prop} {C C' : σ → Prop}
    {s : Step σ (Int × World B)} (hR : ∀ r w', R r w' → R' r w') (hC : ∀ x, C x → C' x)
    (hs : StepBoth R C s) : StepBoth R' C' s := by
  cases s with
  | fuel => trivial
  | ret r => exact hR _ _ hs
  | cont x => exact hC _ hs

theorem resultBoth_imp {B : Type} {R R' : Int → World B → Prop} {res : Result B}
    (hR : ∀ r w', R r w' → R' r w') (hs : ResultBoth R res) : ResultBoth R' res := by
  cases res with
  | none => trivial
  | some x => exact hR _ _ hs

theorem plain_tagged {B S : Type} (env : Env B S) {Q : TTOp → Prop} (a b r ply : Int)
    {w w' : World B} (h : TTExtends (PlainOp Q) w w') :
    TTExtends (TaggedOp env Q a b r ply) w w' := by
  refine h.mono (fun op hop => ?_)
  rcases hop with hq | hs
  · exact Or.inl hq
  · refine Or.inr ?_
    cases op with
    | probe => trivial
    | store => cases hs
    | getMove => trivial

theorem plain_child {B : Type} {Q : TTOp → Prop} {w w' : World B} (h : TTExtends Q w w') :
    TTExtends (PlainOp Q) w w' :=
  h.mono (fun _ hq => Or.inl hq)

/-- Operations without a store of the node, followed by a tagged return. -/
theorem stepBoth_after {B S σ : Type} (env : Env B S) {Q : TTOp → Prop} (a b : Int)
    {C : σ → Prop} (proj : σ → World B) {w w1 : World B} {s : Step σ (Int × World B)}
    (h1 : TTExtends (PlainOp Q) w w1)
    (hs : StepBoth (fun r w' => TTExtends (TaggedOp env Q a b r w'.pos.ply) w1 w')
      (fun x => C x ∧ TTExtends (PlainOp Q) w1 (proj x)) s) :
    StepBoth (fun r w' => TTExtends (TaggedOp env Q a b r w'.pos.ply) w w')
      (fun x => C x ∧ TTExtends (PlainOp Q) w (proj x)) s :=
  stepBoth_imp (fun _ _ hw => (plain_tagged env a b _ _ h1).trans hw)
    (fun _ hx => ⟨hx.1, h1.trans hx.2⟩) hs

theorem resultBoth_after {B S : Type} (env : Env B S) {Q : TTOp → Prop} (a b : Int)
    {w w1 : World B} {res : Result B} (h1 : TTExtends (PlainOp Q) w w1)
    (hs : ResultBoth (fun r w' => TTExtends (TaggedOp env Q a b r w'.pos.ply) w1 w') res) :
    ResultBoth (fun r w' => TTExtends (TaggedOp env Q a b r w'.pos.ply) w w') res :=
  resultBoth_imp (fun _ _ hw => (plain_tagged env a b _ _ h1).trans hw) hs

/-- The store at the end of the node carries the returned best score and agrees with the
window. -/
theorem abFinish_window {B S : Type} (env : Env B S) (Q : TTOp → Prop) (a b : Int)
    (c : NodeCtx) (st : LoopState S) (w : World B) (hb : c.beta = b) (hinv : LoopInv a c st)
    (r : Int) (w' : World B) (h : abFinish env c st w = (r, w')) :
    TTExtends (TaggedOp env Q a b r w'.pos.ply) w w' := by
  obtain ⟨_, i2, i3, i4⟩ := hinv
  unfold abFinish at h
  split at h
  · split at h
    · cases h
      exact TTExtends.refl _ w
    · split at h
      · cases h
        exact TTExtends.refl _ w
      · cases h
        exact TTExtends.refl _ w
  · split at h
    · rename_i hcode
      cases h
      refine TTExtends.single _ rfl (Or.inr ?_)
      refine ⟨Or.inl rfl, fun h => ?_, fun h => ?_, fun h => ?_⟩
      · rcases i4 with h4 | h4 <;> rw [h4] at h <;> cases h
      · have := i3 h
        exact Or.inl ⟨this.1, by rw [← hb]; exact this.2⟩
      · exact (i2 h).2 hcode.1
    · cases h
      exact TTExtends.refl _ w

/-- The end of the loop body keeps the relation; when it returns, it returns a score
`>= beta`, and its store, if any, carries that score with the tag `HASHBETA`. -/
theorem abUpdate_window {B S : Type} (env : Env B S) (Q : TTOp → Prop) (a b : Int)
    (c : NodeCtx) (m : Nat) (st : LoopState S) (w : World B) (score effectiveDepth : Int)
    (hb : c.beta = b) (hinv : LoopInv a c st) :
    StepBoth (fun r w' => TTExtends (TaggedOp env Q a b r w'.pos.ply) w w')
      (fun s : LoopState S × World B => LoopInv a c s.1 ∧ TTExtends (PlainOp Q) w s.2)
      (abUpdate env c m st w score effectiveDepth) := by
  obtain ⟨i1, i2, i3, i4⟩ := hinv
  unfold abUpdate
  by_cases h1 : score > st.bestscore
  · rw [if_pos h1]
    simp only
    by_cases h2 : score ≥ c.beta
    · rw [if_pos h2]
      have hsb : score ≥ b := by rw [← hb]; exact h2
      show TTExtends _ w _
      by_cases he : c.excludeMove = 0
      · rw [if_pos he]
        cases hq : env.ISTACTICAL m
        · simp only [Bool.false_eq_true, not_false_eq_true, if_true]
          exact TTExtends.single _ rfl
            (Or.inr ⟨Or.inl rfl, fun _ => hsb, fun h => (by cases h), fun h => (by cases h)⟩)
        · simp only [not_true_eq_false, if_false]
          exact TTExtends.single _ rfl
            (Or.inr ⟨Or.inl rfl, fun _ => hsb, fun h => (by cases h), fun h => (by cases h)⟩)
      · rw [if_neg he]
        cases hq : env.ISTACTICAL m
        · simp only [Bool.false_eq_true, not_false_eq_true, if_true]
          exact TTExtends.of_eq _ rfl
        · simp only [not_true_eq_false, if_false]
          exact TTExtends.refl _ w
    · rw [if_neg h2]
      by_cases h3 : score > st.alpha
      · rw [if_pos h3]
        refine ⟨pushQuiet_inv env m ?_, TTExtends.of_eq _ rfl⟩
        refine ⟨i1, fun h => (by cases h), fun _ => ⟨?_, by show score < c.beta; omega⟩, Or.inr rfl⟩
        show a < score
        rcases i4 with h4 | h4
        · have := (i2 h4).1
          omega
        · have := (i3 h4).1
          omega
      · rw [if_neg h3]
        refine ⟨pushQuiet_inv env m ?_, TTExtends.refl _ w⟩
        refine ⟨i1, fun h => ?_, fun h => ?_, i4⟩
        · have := (i2 h).1
          exact ⟨this, fun _ => by show score ≤ a; omega⟩
        · have := i3 h
          exact ⟨by show a < score; omega, by show score < c.beta; omega⟩
  · rw [if_neg h1]
    exact ⟨pushQuiet_inv env m ⟨i1, i2, i3, i4⟩, TTExtends.refl _ w⟩

theorem abSingular_window {B S : Type} (env : Env B S) {Q : TTOp → Prop} {ab : Search B}
    (hab : AppendsOnly Q ab) (a b : Int) (c : NodeCtx) (m : Nat) (st : LoopState S)
    (w : World B) (hinv : LoopInv a c st) :
    StepBoth (fun r w' => TTExtends (TaggedOp env Q a b r w'.pos.ply) w w')
      (fun s : Int × LoopState S × World B =>
        LoopInv a c s.2.1 ∧ TTExtends (PlainOp Q) w s.2.2)
      (abSingular env ab c m st w) := by
  unfold abSingular
  by_cases ht : m &&& 0xffff = st.hashmovecode ∧ c.depth > 7 ∧ c.excludeMove = 0
  · rw [if_pos ht]
    have hnf : ¬ c.futility = true := by
      intro hf
      have := (hinv.1 hf).1
      omega
    have hinv' : ∀ (hs se : Int) (hm : Nat),
        LoopInv a c { st with hashscore := hs, staticeval := se, hashmovecode := hm } := by
      intro hs se hm
      obtain ⟨_, i2, i3, i4⟩ := hinv
      exact ⟨fun hf => absurd hf hnf, i2, i3, i4⟩
    have e1 : TTExtends (PlainOp Q) w
        { w with tt := w.tt ++ [TTOp.probe c.newhash (c.depth - 3) st.alpha c.beta w.pos.ply] } :=
      TTExtends.single _ rfl (Or.inr rfl)
    simp only [World.probe]
    split
    · split
      · trivial
      · rename_i redScore w2 hc
        have e2 : TTExtends (PlainOp Q) w w2 :=
          e1.trans (plain_child (TTExtends.from_eq (hab _ _ _ _ _ _ hc) rfl))
        split
        · exact ⟨hinv' _ _ _, e2.trans (TTExtends.of_eq _ rfl)⟩
        · split
          · exact plain_tagged env a b _ _ (e2.trans (TTExtends.of_eq _ rfl))
          · exact ⟨hinv' _ _ _, e2.trans (TTExtends.of_eq _ rfl)⟩
    · exact ⟨hinv' _ _ _, e1⟩
  · rw [if_neg ht]
    exact ⟨hinv, TTExtends.refl _ w⟩

theorem abMoveSearch_window {B S : Type} (env : Env B S) {Q : TTOp → Prop} {ab : Search B}
    (hab : AppendsOnly Q ab) (a b : Int) (c : NodeCtx) (m : Nat) (futilityPrune : Bool)
    (effectiveDepth reduction : Int) (st : LoopState S) (w : World B)
    (hb : c.beta = b) (hinv : LoopInv a c st) :
    StepBoth (fun r w' => TTExtends (TaggedOp env Q a b r w'.pos.ply) w w')
      (fun s : LoopState S × World B => LoopInv a c s.1 ∧ TTExtends (PlainOp Q) w s.2)
      (abMoveSearch env ab c m futilityPrune effectiveDepth reduction st w) := by
  have hinv1 : LoopInv a c { st with LegalMoves := st.LegalMoves + 1 } :=
    hinv.transfer rfl rfl rfl rfl rfl
  unfold abMoveSearch
  simp only
  split
  · exact ⟨hinv1, TTExtends.of_eq _ rfl⟩
  · split
    · trivial
    · rename_i score ed w1 hs
      have e1 : TTExtends (PlainOp Q) w w1 :=
        plain_child (abSearchMove_appends hab _ _ _ _ _ _ _ _ _ hs)
      split
      · exact plain_tagged env a b _ _ (e1.trans (TTExtends.of_eq _ rfl))
      · have e2 : TTExtends (PlainOp Q) w
            { w1.setPos (env.unplayMove w1.pos m) with
              stopReads := (w1.setPos (env.unplayMove w1.pos m)).stopReads + 1 } :=
          e1.trans (TTExtends.of_eq _ rfl)
        exact stepBoth_after env a b (fun s : LoopState S × World B => s.2) e2
          (abUpdate_window env Q a b c m _ _ score ed hb hinv1)

theorem abMovePlay_window {B S : Type} (env : Env B S) {Q : TTOp → Prop} {ab : Search B}
    (hab : AppendsOnly Q ab) (a b : Int) (c : NodeCtx) (m : Nat) (futilityPrune : Bool)
    (stats extendMove : Int) (st : LoopState S) (w : World B)
    (hb : c.beta = b) (hinv : LoopInv a c st) :
    StepBoth (fun r w' => TTExtends (TaggedOp env Q a b r w'.pos.ply) w w')
      (fun s : LoopState S × World B => LoopInv a c s.1 ∧ TTExtends (PlainOp Q) w s.2)
      (abMovePlay env ab c m futilityPrune stats extendMove st w) := by
  unfold abMovePlay
  simp only
  split
  · exact ⟨hinv, TTExtends.refl _ w⟩
  · split
    · exact ⟨hinv, TTExtends.of_eq _ rfl⟩
    · rename_i p hp
      have e0 : TTExtends (PlainOp Q) w (w.setPos p) := TTExtends.of_eq _ rfl
      exact stepBoth_after env a b (fun s : LoopState S × World B => s.2) e0
        (abMoveSearch_window env hab a b c m futilityPrune _ _ st _ hb hinv)

theorem futilityStart_inv {S : Type} (a : Int) (c : NodeCtx) ( futilityPrune : Bool)
    (st : LoopState S) (hf : futilityPrune = true → c.futility = true)
    (hinv : LoopInv a c st) : LoopInv a c (futilityStart futilityPrune st) := by
  unfold futilityStart
  split
  · rename_i h
    obtain ⟨i1, i2, i3, i4⟩ := hinv
    have hse := (i1 (hf h.1)).2
    refine ⟨i1, fun h2 => ⟨(i2 h2).1, fun _ => hse⟩, fun h2 => ?_, i4⟩
    have h3 := i3 h2
    have h5 := h.2
    exfalso
    omega
  · exact hinv

theorem abMove_window {B S : Type} (env : Env B S) {Q : TTOp → Prop} {ab : Search B}
    (hab : AppendsOnly Q ab) (a b : Int) (c : NodeCtx) (m : Nat) (st : LoopState S)
    (w : World B) (hb : c.beta = b) (hinv : LoopInv a c st) :
    StepBoth (fun r w' => TTExtends (TaggedOp env Q a b r w'.pos.ply) w w')
      (fun s : LoopState S × World B => LoopInv a c s.1 ∧ TTExtends (PlainOp Q) w s.2)
      (abMove env ab c m st w) := by
  unfold abMove
  split
  · exact ⟨hinv, TTExtends.refl _ w⟩
  · split
    · exact ⟨hinv.transfer rfl rfl rfl rfl rfl, TTExtends.refl _ w⟩
    · simp only
      split
      · exact ⟨hinv, TTExtends.refl _ w⟩
      · have hinv1 := futilityStart_inv a c
          (decide (c.futility = true ∧ ¬ env.ISTACTICAL m = true ∧ w.pos.isCheckbb = 0
            ∧ st.alpha ≤ 900 ∧ ¬ env.moveGivesCheck w.pos m = true)) st
          (fun h => (of_decide_eq_true h).1) hinv
        generalize futilityStart
          (decide (c.futility = true ∧ ¬ env.ISTACTICAL m = true ∧ w.pos.isCheckbb = 0
            ∧ st.alpha ≤ 900 ∧ ¬ env.moveGivesCheck w.pos m = true)) st = st1 at hinv1 ⊢
        split
        · exact ⟨hinv1, TTExtends.refl _ w⟩
        · have hs := abSingular_window env hab a b c m st1 w hinv1
          revert hs
          cases abSingular env ab c m st1 w with
          | fuel => intro _; trivial
          | ret r => intro hs; exact hs
          | cont x =>
            obtain ⟨e, st2, w2⟩ := x
            intro hs
            exact stepBoth_after env a b (fun s : LoopState S × World B => s.2) hs.2
              (abMovePlay_window env hab a b c m _ _ e st2 w2 hb hs.1)

theorem abLoop_window {B S : Type} (env : Env B S) {Q : TTOp → Prop} {ab : Search B}
    (hab : AppendsOnly Q ab) (a b : Int) (c : NodeCtx) (hb : c.beta = b) :
    ∀ (n : Nat) (st : LoopState S) (w : World B), LoopInv a c st →
      ResultBoth (fun r w' => TTExtends (TaggedOp env Q a b r w'.pos.ply) w w')
        (abLoop env ab c n st w) := by
  intro n
  induction n with
  | zero => intro st w _; trivial
  | succ n ih =>
    intro st w hinv
    simp only [abLoop]
    rcases env.next st.ms w.pos with ⟨_ | m, ms⟩
    · exact abFinish_window env Q a b c _ w hb (hinv.transfer rfl rfl rfl rfl rfl) _ _ rfl
    · simp only
      have hm := abMove_window env hab a b c m { st with ms := ms } w hb
        (hinv.transfer rfl rfl rfl rfl rfl)
      revert hm
      cases abMove env ab c m { st with ms := ms } w with
      | fuel => intro _; trivial
      | ret r => intro hm; exact hm
      | cont s =>
        obtain ⟨st', w'⟩ := s
        intro hm
        simp only
        exact resultBoth_after env a b hm.2 (ih st' w' hm.1)

theorem abMovesPhase_window {B S : Type} (env : Env B S) {Q : TTOp → Prop} {ab : Search B}
    (hab : AppendsOnly Q ab) (fuel : Nat) (L : Locals) (bestknownscore : Int) (w : World B)
    (hfut : L.futility = true → L.depth ≤ 6 ∧ L.staticeval ≤ L.alpha) :
    ResultBoth (fun r w' => TTExtends (TaggedOp env Q L.alpha L.beta r w'.pos.ply) w w')
      (abMovesPhase env ab fuel L bestknownscore w) := by
  unfold abMovesPhase
  refine resultBoth_after env L.alpha L.beta (TTExtends.of_eq _ rfl)
    (abLoop_window env hab L.alpha L.beta _ rfl fuel _ _ ?_)
  exact ⟨hfut, fun _ => ⟨rfl, fun h => absurd rfl h⟩, fun h => (by cases h), Or.inl rfl⟩

theorem abIID_window {B S : Type} (env : Env B S) {Q : TTOp → Prop} {ab : Search B}
    (hab : AppendsOnly Q ab) (fuel : Nat) (L : Locals) (bestknownscore : Int) (w : World B)
    (hfut : L.futility = true → L.depth ≤ 6 ∧ L.staticeval ≤ L.alpha) :
    ResultBoth (fun r w' => TTExtends (TaggedOp env Q L.alpha L.beta r w'.pos.ply) w w')
      (abIID env ab fuel L bestknownscore w) := by
  unfold abIID
  split
  · split
    · trivial
    · rename_i r w1 hc
      have e1 : TTExtends (PlainOp Q) w w1 := plain_child (hab _ _ _ _ _ _ hc)
      have e2 : TTExtends (PlainOp Q) w1
          { w1 with tt := w1.tt ++ [TTOp.getMove L.newhash] } :=
        TTExtends.single (TTOp.getMove L.newhash) rfl (Or.inr rfl)
      exact resultBoth_after env L.alpha L.beta (e1.trans e2)
        (abMovesPhase_window env hab fuel
          { L with hashmovecode := env.getMoveCode w1.tt L.newhash } _ _ hfut)
  · exact abMovesPhase_window env hab fuel L _ _ hfut

theorem abProbCut_window {B S : Type} (env : Env B S) {Q : TTOp → Prop} {ab : Search B}
    (hab : AppendsOnly Q ab) (fuel : Nat) (L : Locals) (bestknownscore : Int) (w : World B)
    (hfut : L.futility = true → L.depth ≤ 6 ∧ L.staticeval ≤ L.alpha) :
    ResultBoth (fun r w' => TTExtends (TaggedOp env Q L.alpha L.beta r w'.pos.ply) w w')
      (abProbCut env ab fuel L bestknownscore w) := by
  unfold abProbCut
  split
  · have hp := probCutLoop_appends env hab L.staticeval L.depth
      (min env.SCOREWHITEWINS (L.beta + 100)) (env.getMovesTactical w.pos) w
    simp only
    revert hp
    cases probCutLoop env ab L.staticeval L.depth (min env.SCOREWHITEWINS (L.beta + 100))
        (env.getMovesTactical w.pos) w with
    | fuel => intro _; trivial
    | ret r => intro hp; exact plain_tagged env _ _ _ _ (plain_child hp)
    | cont v =>
      intro hp
      exact resultBoth_after env L.alpha L.beta (plain_child hp)
        (abIID_window env hab fuel L bestknownscore v hfut)
  · exact abIID_window env hab fuel L bestknownscore w hfut

theorem abNullMoveVerify_window {B S : Type} (env : Env B S) {Q : TTOp → Prop}
    {ab : Search B} (hab : AppendsOnly Q ab) (fuel : Nat) (L : Locals)
    (bestknownscore R score : Int) (w : World B)
    (hfut : L.futility = true → L.depth ≤ 6 ∧ L.staticeval ≤ L.alpha) :
    ResultBoth (fun r w' => TTExtends (TaggedOp env Q L.alpha L.beta r w'.pos.ply) w w')
      (abNullMoveVerify env ab fuel L bestknownscore R score w) := by
  unfold abNullMoveVerify
  simp only
  split
  · exact TTExtends.refl _ w
  · split
    · trivial
    · rename_i v w2 hc
      have e2 : TTExtends (PlainOp Q) w w2 :=
        plain_child (TTExtends.from_eq (hab _ _ _ _ _ _ hc) rfl)
      split
      · exact plain_tagged env _ _ _ _ (e2.trans (TTExtends.of_eq _ rfl))
      · exact resultBoth_after env L.alpha L.beta (e2.trans (TTExtends.of_eq _ rfl))
          (abProbCut_window env hab fuel L _ _ hfut)

theorem abNullMove_window {B S : Type} (env : Env B S) {Q : TTOp → Prop} {ab : Search B}
    (hab : AppendsOnly Q ab) (fuel : Nat) (L : Locals) (w : World B)
    (hfut : L.futility = true → L.depth ≤ 6 ∧ L.staticeval ≤ L.alpha) :
    ResultBoth (fun r w' => TTExtends (TaggedOp env Q L.alpha L.beta r w'.pos.ply) w w')
      (abNullMove env ab fuel L w) := by
  unfold abNullMove
  simp only
  split
  · split
    · trivial
    · rename_i r w1 hc
      have e1 : TTExtends (PlainOp Q) w w1 :=
        plain_child (TTExtends.from_eq (hab _ _ _ _ _ _ hc) rfl)
      split
      · exact resultBoth_after env L.alpha L.beta (e1.trans (TTExtends.of_eq _ rfl))
          (abNullMoveVerify_window env hab fuel L _ _ _ _ hfut)
      · exact resultBoth_after env L.alpha L.beta (e1.trans (TTExtends.of_eq _ rfl))
          (abProbCut_window env hab fuel L _ _ hfut)
  · exact abProbCut_window env hab fuel L _ w hfut

theorem abFutility_window {B S : Type} (env : Env B S) {Q : TTOp → Prop} {ab : Search B}
    (hab : AppendsOnly Q ab) (fuel : Nat) (L : Locals) (w : World B) (hd : 0 < L.depth) :
    ResultBoth (fun r w' => TTExtends (TaggedOp env Q L.alpha L.beta r w'.pos.ply) w w')
      (abFutility env ab fuel L w) := by
  unfold abFutility
  split
  · rename_i h6
    split
    · exact TTExtends.refl _ w
    · refine abNullMove_window env hab fuel
        { L with futility := decide (L.staticeval < L.alpha - (100 + 80 * L.depth)) } w ?_
      intro hf
      have h1 : L.staticeval < L.alpha - (100 + 80 * L.depth) := of_decide_eq_true hf
      exact ⟨h6, by show L.staticeval ≤ L.alpha; omega⟩
  · exact abNullMove_window env hab fuel { L with futility := false } w
      (fun hf => by cases hf)

theorem abRazor_window {B S : Type} (env : Env B S) {Q : TTOp → Prop} {ab qs : Search B}
    (hab : AppendsOnly Q ab) (hqs : AppendsOnly Q qs) (fuel : Nat) (L : Locals) (w : World B)
    (hd : 0 < L.depth) :
    ResultBoth (fun r w' => TTExtends (TaggedOp env Q L.alpha L.beta r w'.pos.ply) w w')
      (abRazor env ab qs fuel L w) := by
  unfold abRazor
  simp only
  split
  · split
    · split
      · rcases hc : qs L.alpha L.beta L.depth w with _ | ⟨r, w1⟩
        · trivial
        · exact plain_tagged env _ _ _ _ (plain_child (hqs _ _ _ _ _ _ hc))
      · split
        · trivial
        · rename_i value w1 hc
          have e1 : TTExtends (PlainOp Q) w w1 := plain_child (hqs _ _ _ _ _ _ hc)
          split
          · exact plain_tagged env _ _ _ _ e1
          · exact resultBoth_after env L.alpha L.beta e1
              (abFutility_window env hab fuel L w1 hd)
    · exact abFutility_window env hab fuel L w hd
  · exact abFutility_window env hab fuel L w hd

theorem abStaticEval_window {B S : Type} (env : Env B S) {Q : TTOp → Prop}
    {ab qs : Search B} (hab : AppendsOnly Q ab) (hqs : AppendsOnly Q qs) (fuel : Nat)
    (L : Locals) (w : World B) (hd : 0 < L.depth) :
    ResultBoth (fun r w' => TTExtends (TaggedOp env Q L.alpha L.beta r w'.pos.ply) w w')
      (abStaticEval env ab qs fuel L w) := by
  unfold abStaticEval
  exact resultBoth_after env L.alpha L.beta (TTExtends.of_eq _ rfl)
    (abRazor_window env hab hqs fuel
      { L with
        extendall := if w.pos.isCheckbb ≠ 0 then 1 else 0,
        staticeval :=
          if L.staticeval = env.NOSCORE then computeStaticeval env (env.prepareStack w.pos)
          else L.staticeval,
        positionImproved := _ } _ hd)

/-- The tablebase store carries the returned score itself and agrees with the window. -/
theorem tbStore_window {B S : Type} (env : Env B S) (a b ply : Int) (key : Nat)
    (bound : Bound) (score staticeval : Int) (h : tbStoreTest bound score a b = true) :
    WindowOp env a b score ply (TTOp.store key score staticeval bound env.MAXDEPTH 0) := by
  unfold tbStoreTest at h
  cases bound with
  | HASHALPHA =>
    have h1 : score ≤ a := by simpa using h
    exact ⟨Or.inr ⟨rfl, rfl, rfl⟩, fun h2 => (by cases h2), fun h2 => (by cases h2), fun _ => h1⟩
  | HASHBETA =>
    have h1 : score ≥ b := by simpa using h
    exact ⟨Or.inr ⟨rfl, rfl, rfl⟩, fun _ => h1, fun h2 => (by cases h2), fun h2 => (by cases h2)⟩
  | HASHEXACT =>
    exact ⟨Or.inr ⟨rfl, rfl, rfl⟩, fun h2 => (by cases h2), fun _ => Or.inr ⟨rfl, rfl, rfl⟩,
      fun h2 => (by cases h2)⟩

theorem abTB_window {B S : Type} (env : Env B S) {Q : TTOp → Prop}
    {ab qs : Search B} (hab : AppendsOnly Q ab) (hqs : AppendsOnly Q qs) (fuel : Nat)
    (L : Locals) (w : World B) (hd : 0 < L.depth) :
    ResultBoth (fun r w' => TTExtends (TaggedOp env Q L.alpha L.beta r w'.pos.ply) w w')
      (abTB env ab qs fuel L w) := by
  unfold abTB
  simp only
  split
  · split
    · split
      · rename_i ht
        exact TTExtends.single _ rfl (Or.inr (tbStore_window env _ _ _ _ _ _ _ ht))
      · exact TTExtends.of_eq _ rfl
    · exact abStaticEval_window env hab hqs fuel L w hd
  · exact abStaticEval_window env hab hqs fuel L w hd

theorem abProbe_window {B S : Type} (env : Env B S) {Q : TTOp → Prop}
    {ab qs : Search B} (hab : AppendsOnly Q ab) (hqs : AppendsOnly Q qs) (fuel : Nat)
    (alpha beta depth : Int) (PVNode : Bool) (rep : Int) (w : World B) (hd : 0 < depth) :
    ResultBoth (fun r w' => TTExtends (TaggedOp env Q alpha beta r w'.pos.ply) w w')
      (abProbe env ab qs fuel alpha beta depth PVNode rep w) := by
  unfold abProbe
  simp only [World.probe]
  have e1 : TTExtends (PlainOp Q) w
      { (w.setPos { w.pos with
            excludemovestack := upd w.pos.excludemovestack w.pos.mstop 0 }) with
        tt := w.tt ++ [TTOp.probe (w.pos.hash ^^^ (w.pos.excludemovestack (w.pos.mstop - 1) % 65536))
          depth alpha beta w.pos.ply] } :=
    TTExtends.single _ rfl (Or.inr rfl)
  split
  · split
    · exact plain_tagged env _ _ _ _ (e1.trans (TTExtends.of_eq _ rfl))
    · exact plain_tagged env _ _ _ _ (e1.trans (TTExtends.of_eq _ rfl))
  · exact resultBoth_after env alpha beta e1 (abTB_window env hab hqs fuel _ _ hd)

/-- C36 (bound tags of the stores of `alphabeta`).  Let an `alphabeta` node be called with the
window `(alpha0, beta)`, let its recursive calls append to the transposition table only
operations satisfying `Q`, and let it return the value `r` in the state `w'`.  Then every
operation the call appended stems from a recursive call (it satisfies `Q`) or is an operation
of the node itself, and every store of the node itself carries the returned value `r`,
handed to the table as `FIXMATESCOREADD(r, ply)` with the ply of the node (as `r` itself by
the tablebase store), with a bound tag that agrees with the window: with the tag `HASHBETA`
(beta cutoff in the move loop, tablebase win) `r >= beta`; with the tag `HASHEXACT` at the
end of the node `alpha0 < r < beta`, `r` being the best score; with the tag `HASHALPHA` (end
of node, tablebase loss) `r <= alpha0`. -/
theorem alphabeta_bound_tags {B S : Type} (env : Env B S) (Q : TTOp → Prop)
    (ab qs : Search B) (hab : AppendsOnly Q ab) (hqs : AppendsOnly Q qs) (fuel : Nat)
    (alpha0 beta depth : Int) (w : World B) :
    ResultBoth
      (fun r w' => TTExtends (fun op => Q op ∨ WindowOp env alpha0 beta r w'.pos.ply op) w w')
      (abNode env ab qs fuel alpha0 beta depth w) := by
  show ResultBoth (fun r w' => TTExtends (TaggedOp env Q alpha0 beta r w'.pos.ply) w w') _
  unfold abNode
  simp only
  split
  · exact TTExtends.of_eq _ rfl
  · split
    · split
      · exact TTExtends.of_eq _ rfl
      · split
        · exact TTExtends.of_eq _ rfl
        · exact TTExtends.of_eq _ rfl
    · split
      · exact TTExtends.of_eq _ rfl
      · split
        · generalize hw0 : (if (abEnter w).pos.seldepth < (abEnter w).pos.ply + 1 then
              ({ abEnter w with stopReads := (abEnter w).stopReads + 1 } : World B).setPos
                { (abEnter w).pos with seldepth := (abEnter w).pos.ply + 1 }
            else { abEnter w with stopReads := (abEnter w).stopReads + 1 }) = w0
          have e0 : w0.tt = w.tt := by rw [← hw0]; split <;> rfl
          rcases hc : qs alpha0 beta depth w0 with _ | ⟨r, w1⟩
          · trivial
          · exact plain_tagged env _ _ _ _
              (plain_child (TTExtends.from_eq (hqs _ _ _ _ _ _ hc) e0))
        · rename_i hdepth
          exact resultBoth_after env alpha0 beta (TTExtends.of_eq _ rfl)
            (abProbe_window env hab hqs fuel alpha0 beta depth _ _
              { abEnter w with stopReads := (abEnter w).stopReads + 1 } (by omega))

theorem appendsOnly_matedSoon (Q : TTOp → Prop) : AppendsOnly Q matedSoon := by
  intro _ _ _ w r w' h
  simp only [matedSoon, Option.some.injEq, Prod.mk.injEq] at h
  exact TTExtends.of_eq Q (by rw [← h.2])

/-- A node at ply 3 whose one move gets the score -29989, with a mate-score encoding that
shifts by the ply (`FIXMATESCOREADD(-29989, 3) = -29992`).  With the window
`(-29995, -29990)` the node returns -29989 by a beta cutoff and stores -29992 with the tag
`HASHBETA`: the returned value is `>= beta`, the stored encoding is not.  With the window
`(-29995, -29000)` it stores the same value with the tag `HASHEXACT`, with the window
`(-29985, -29000)` with the tag `HASHALPHA`. -/
theorem alphabeta_bound_tags_witness :
    mateEnv.FIXMATESCOREADD (-29989) 3 = -29992
    ∧ (abNode mateEnv matedSoon matedSoon 2 (-29995) (-29990) 5 checkedWorld).map
        (fun r => (r.1, r.2.pos.ply, r.2.tt))
      = some (-29989, 3, [TTOp.probe 0x1234 5 (-29995) (-29990) 3, TTOp.getMove 0x1234,
          TTOp.store 0x1234 (-29992) 0 Bound.HASHBETA 6 0x0314])
    ∧ ResultBoth
        (fun r w' => TTExtends
          (fun op => False ∨ WindowOp mateEnv (-29995) (-29990) r w'.pos.ply op) checkedWorld w')
        (abNode mateEnv matedSoon matedSoon 2 (-29995) (-29990) 5 checkedWorld)
    ∧ (abNode mateEnv matedSoon matedSoon 2 (-29995) (-29000) 5 checkedWorld).map
        (fun r => (r.1, r.2.pos.ply, r.2.tt))
      = some (-29989, 3, [TTOp.probe 0x1234 5 (-29995) (-29000) 3, TTOp.getMove 0x1234,
          TTOp.store 0x1234 (-29992) 0 Bound.HASHEXACT 5 0x0314])
    ∧ ResultBoth
        (fun r w' => TTExtends
          (fun op => False ∨ WindowOp mateEnv (-29995) (-29000) r w'.pos.ply op) checkedWorld w')
        (abNode mateEnv matedSoon matedSoon 2 (-29995) (-29000) 5 checkedWorld)
    ∧ (abNode mateEnv matedSoon matedSoon 2 (-29985) (-29000) 5 checkedWorld).map
        (fun r => (r.1, r.2.pos.ply, r.2.tt))
      = some (-29989, 3, [TTOp.probe 0x1234 5 (-29985) (-29000) 3, TTOp.getMove 0x1234,
          TTOp.store 0x1234 (-29992) 0 Bound.HASHALPHA 5 0x0314])
    ∧ ResultBoth
        (fun r w' => TTExtends
          (fun op => False ∨ WindowOp mateEnv (-29985) (-29000) r w'.pos.ply op) checkedWorld w')
        (abNode mateEnv matedSoon matedSoon 2 (-29985) (-29000) 5 checkedWorld) :=
  ⟨by decide, by decide!,
    alphabeta_bound_tags mateEnv (fun _ => False) matedSoon matedSoon
      (appendsOnly_matedSoon _) (appendsOnly_matedSoon _) 2 (-29995) (-29990) 5 checkedWorld,
    by decide!,
    alphabeta_bound_tags mateEnv (fun _ => False) matedSoon matedSoon
      (appendsOnly_matedSoon _) (appendsOnly_matedSoon _) 2 (-29995) (-29000) 5 checkedWorld,
    by decide!,
    alphabeta_bound_tags mateEnv (fun _ => False) matedSoon matedSoon
      (appendsOnly_matedSoon _) (appendsOnly_matedSoon _) 2 (-29985) (-29000) 5 checkedWorld⟩

/-! ### The value returned by a single-PV root search -/

theorem rootSearchMove_total {B S : Type} (env : Env B S) (ab : Search B)
    (hf : RootFrame env ab) (c : RootCtx) (alpha : Int) (eval_type : Bound) (reduction : Int)
    (w : World B) :
    ∃ score ed w', rootSearchMove ab c alpha eval_type reduction w = some (score, ed, w')
      ∧ w'.pos.rootmovelist.length = w.pos.rootmovelist.length := by
  obtain ⟨_, _, _, hab⟩ := hf
  unfold rootSearchMove
  split
  · obtain ⟨r1, w1, h1, l1⟩ := hab (-c.beta) (-alpha) (c.depth + c.extendall - reduction - 1) w
    simp only [h1]
    split
    · obtain ⟨r2, w2, h2, l2⟩ := hab (-c.beta) (-alpha)
        (c.depth + c.extendall - reduction + reduction - 1) w1
      simp only [h2]
      exact ⟨_, _, _, rfl, l2.trans l1⟩
    · exact ⟨_, _, _, rfl, l1⟩
  · obtain ⟨r1, w1, h1, l1⟩ := hab (-alpha - 1) (-alpha) (c.depth + c.extendall - 1) w
    simp only [h1]
    split
    · obtain ⟨r2, w2, h2, l2⟩ := hab (-c.beta) (-alpha) (c.depth + c.extendall - 1) w1
      simp only [h2]
      exact ⟨_, _, _, rfl, l2.trans l1⟩
    · exact ⟨_, _, _, rfl, l1⟩

theorem rootRaiseAlpha_spec {B S : Type} (env : Env B S) (c : RootCtx) (m : chessmove)
    (score : Int) (st : RootState) (w : World B)
    (hpv : ∀ (p : Pos B) (m : Nat) (b : Bool),
      (env.updatePvTable p m b).rootmovelist.length = p.rootmovelist.length) :
    (rootRaiseAlpha env c m score st w).1.alpha = score
    ∧ (rootRaiseAlpha env c m score st w).2.pos.rootmovelist.length
      = w.pos.rootmovelist.length := by
  refine ⟨rfl, ?_⟩
  unfold rootRaiseAlpha
  simp only [World.setPos]
  split
  · split
    · exact hpv _ _ _
    · exact hpv _ _ _
  · split
    · exact hpv _ _ _
    · exact hpv _ _ _

/-- In single-PV and ponder mode the root move loop body after the stop test returns `beta`
or goes on with an alpha that has not dropped and is below `beta`. -/
theorem rootUpdate_single {B S : Type} (env : Env B S) (c : RootCtx) (m : chessmove)
    (score effectiveDepth : Int) (st : RootState) (w : World B)
    (hRT : c.RT ≠ RootsearchType.MultiPVSearch) (halpha : st.alpha < c.beta)
    (hpv : ∀ (p : Pos B) (m : Nat) (b : Bool),
      (env.updatePvTable p m b).rootmovelist.length = p.rootmovelist.length) :
    (∃ w', rootUpdate env c m score effectiveDepth st w = Step.ret (c.beta, w'))
    ∨ (∃ st' w', rootUpdate env c m score effectiveDepth st w = Step.cont (st', w')
        ∧ st.alpha ≤ st'.alpha ∧ st'.alpha < c.beta
        ∧ w'.pos.rootmovelist.length = w.pos.rootmovelist.length) := by
  have hq := rootPushQuiet_fields env m st
  unfold rootUpdate
  simp only
  split
  · exact Or.inr ⟨_, _, rfl, by rw [hq.1], by rw [hq.1]; exact halpha, rfl⟩
  · have hrank : rootRank env c m score { rootPushQuiet env m st with bestscore := score }
        (w.setPos { w.pos with bestFailingLow := m.code })
        = ({ rootPushQuiet env m st with bestscore := score },
            w.setPos { w.pos with bestFailingLow := m.code }) := by
      unfold rootRank
      rw [if_neg (fun h => hRT h.1)]
    rw [hrank]
    simp only
    unfold rootBestMove
    simp only [if_pos hRT]
    split
    · rename_i hsa
      have hs := rootRaiseAlpha_spec env c m score
        { rootPushQuiet env m st with bestscore := score }
        (w.setPos { w.pos with bestFailingLow := m.code }) hpv
      split
      · exact Or.inl ⟨_, rfl⟩
      · rename_i hnb
        have hsa' : score > st.alpha := by
          have : ({ rootPushQuiet env m st with bestscore := score } : RootState).alpha
              = st.alpha := hq.1
          rw [← this]
          exact hsa
        refine Or.inr ⟨_, _, rfl, ?_, ?_, hs.2⟩
        · show st.alpha ≤ score
          omega
        · show score < c.beta
          omega
    · refine Or.inr ⟨_, _, rfl, ?_, ?_, ?_⟩
      · exact le_of_eq hq.1.symm
      · show (rootPushQuiet env m st).alpha < c.beta
        rw [hq.1]
        exact halpha
      · split <;> rfl

theorem rootMove_single {B S : Type} (env : Env B S) (ab : Search B) (c : RootCtx) (i : Nat)
    (st : RootState) (w : World B)
    (hRT : c.RT ≠ RootsearchType.MultiPVSearch) (halpha : st.alpha < c.beta)
    (hf : RootFrame env ab)
    (hstop : ∀ n, env.stopLevel n ≠ StopLevel.ENGINESTOPIMMEDIATELY) :
    (∃ w', rootMove env ab c i st w = Step.ret (c.beta, w'))
    ∨ (∃ st' w', rootMove env ab c i st w = Step.cont (st', w')
        ∧ st.alpha ≤ st'.alpha ∧ st'.alpha < c.beta
        ∧ w'.pos.rootmovelist.length = w.pos.rootmovelist.length) := by
  have hf' := hf
  obtain ⟨hplay, hunplay, hpv, _⟩ := hf'
  unfold rootMove
  simp only
  obtain ⟨score, ed, w1, h1, l1⟩ := rootSearchMove_total env ab hf c st.alpha st.eval_type
    (rootReduction env c i
      ((selectBest w.pos.rootmovelist i).getD i ⟨0, 0⟩).code)
    ((w.setPos { w.pos with rootmovelist := selectBest w.pos.rootmovelist i }).setPos
      (env.playMove
        (w.setPos { w.pos with rootmovelist := selectBest w.pos.rootmovelist i }).pos
        ((selectBest w.pos.rootmovelist i).getD i ⟨0, 0⟩).code).2)
  have l0 : w1.pos.rootmovelist.length = w.pos.rootmovelist.length := by
    rw [l1]
    show (env.playMove _ _).2.rootmovelist.length = _
    rw [hplay]
    exact (selectBest_spec w.pos.rootmovelist i ⟨0, 0⟩).1
  simp only [World.setPos] at h1 ⊢
  rw [h1]
  simp only
  rw [if_neg (hstop _)]
  rcases rootUpdate_single env c ((selectBest w.pos.rootmovelist i).getD i ⟨0, 0⟩) score ed st
      { pos := env.unplayMove w1.pos ((selectBest w.pos.rootmovelist i).getD i ⟨0, 0⟩).code,
        tt := w1.tt, tbhits := w1.tbhits, stopReads := w1.stopReads + 1 } hRT halpha hpv
    with ⟨w', h⟩ | ⟨st', w', h, a1, a2, a3⟩
  · exact Or.inl ⟨w', h⟩
  · refine Or.inr ⟨st', w', h, a1, a2, ?_⟩
    rw [a3]
    show (env.unplayMove _ _).rootmovelist.length = _
    rw [hunplay]
    exact l0

theorem rootLoop_single {B S : Type} (env : Env B S) (ab : Search B) (c : RootCtx)
    (alpha0 : Int) (hRT : c.RT ≠ RootsearchType.MultiPVSearch) (hf : RootFrame env ab)
    (hstop : ∀ n, env.stopLevel n ≠ StopLevel.ENGINESTOPIMMEDIATELY) :
    ∀ (k i : Nat) (st : RootState) (w : World B),
      i ≤ w.pos.rootmovelist.length → w.pos.rootmovelist.length < k + i →
      alpha0 ≤ st.alpha → st.alpha < c.beta →
      ∃ r w', rootLoop env ab c k i st w = some (r, w') ∧ alpha0 ≤ r ∧ r ≤ c.beta := by
  intro k
  induction k with
  | zero =>
    intro i st w hi hk h1 h2
    omega
  | succ k ih =>
    intro i st w hi hk h1 h2
    unfold rootLoop
    split
    · rcases rootMove_single env ab c i st w hRT h2 hf hstop
        with ⟨w', h⟩ | ⟨st', w', h, a1, a2, a3⟩
      · rw [h]
        exact ⟨_, _, rfl, by omega, le_refl _⟩
      · rw [h]
        simp only
        exact ih (i + 1) st' w' (by omega) (by omega) (by omega) a2
    · have hfin : rootFinish c st w
          = (st.alpha, w.addHash w.pos.hash st.alpha c.staticeval st.eval_type c.depth
              (w.pos.bestmove.code % 65536)) := by
        unfold rootFinish
        rw [if_neg hRT]
      rw [hfin]
      exact ⟨_, _, rfl, h1, le_of_lt h2⟩

theorem rootMain_single {B S : Type} (env : Env B S) (ab : Search B) (RT : RootsearchType)
    (fuel : Nat) (alpha beta depth maxmoveindex staticeval : Int) (hashmovecode : Nat)
    (w : World B)
    (hRT : RT ≠ RootsearchType.MultiPVSearch) (halpha : alpha < beta)
    (hf : RootFrame env ab)
    (hstop : ∀ n, env.stopLevel n ≠ StopLevel.ENGINESTOPIMMEDIATELY)
    (hfuel : w.pos.rootmovelist.length < fuel) :
    ∃ r w', rootMain env ab RT fuel alpha beta depth maxmoveindex staticeval hashmovecode w
        = some (r, w') ∧ alpha ≤ r ∧ r ≤ beta := by
  unfold rootMain
  simp only
  apply rootLoop_single env ab _ alpha hRT hf hstop fuel 0 _ _ (Nat.zero_le _) _ (le_refl _)
    halpha
  simp only [World.setPos, Nat.add_zero]
  split
  · simp only [List.length_map]
    exact hfuel
  · exact hfuel

/-- C38, amended.  Let `rootsearch(alpha, beta, depth)` run in single-PV or ponder mode with
`alpha < beta` and no immediate stop, with searches that return and enough fuel for the root
move loop.  When the early transposition-table return is taken (no root-move score in use,
the probe hits, no repetition, the hash move is a move of the position) the value returned is
the probed score as it is.  Otherwise the call returns a value `r` with
`alpha <= r <= beta`. -/
theorem rootsearch_single_result {B S : Type} (env : Env B S) (ab : Search B)
    (RT : RootsearchType) (fuel : Nat) (score0 alpha beta depth : Int) (w : World B)
    (pr : Bool × Int × Int × Nat)
    (hRT : RT ≠ RootsearchType.MultiPVSearch) (halpha : alpha < beta)
    (hf : RootFrame env ab)
    (hstop : ∀ n, env.stopLevel n ≠ StopLevel.ENGINESTOPIMMEDIATELY)
    (hfuel : w.pos.rootmovelist.length < fuel)
    (hpr : pr = env.probeHash w.tt w.pos.hash score0 env.NOSCORE 0 depth alpha beta 0) :
    ((w.pos.useRootmoveScore = 0 ∧ pr.1 = true ∧ env.testRepetiton (rootEnter w).pos = 0
        ∧ env.shortMove2FullMove (rootEnter w).pos pr.2.2.2 ≠ 0) →
      ∃ w', rootsearch env ab RT fuel score0 alpha beta depth w = some (pr.2.1, w'))
    ∧ (¬ (w.pos.useRootmoveScore = 0 ∧ pr.1 = true ∧ env.testRepetiton (rootEnter w).pos = 0
        ∧ env.shortMove2FullMove (rootEnter w).pos pr.2.2.2 ≠ 0) →
      ∃ r w', rootsearch env ab RT fuel score0 alpha beta depth w = some (r, w')
        ∧ alpha ≤ r ∧ r ≤ beta) := by
  have hdec : decide (RT = RootsearchType.MultiPVSearch) = false := decide_eq_false hRT
  have hlen : (rootEnter w).pos.rootmovelist.length = w.pos.rootmovelist.length := rfl
  have hprobe : (rootEnter w).probe env (rootEnter w).pos.hash score0 env.NOSCORE 0 depth alpha
      beta 0 = (pr, { rootEnter w with tt := (rootEnter w).tt
        ++ [TTOp.probe (rootEnter w).pos.hash depth alpha beta 0] }) := by
    rw [hpr]
    rfl
  refine ⟨fun hearly => ?_, fun hno => ?_⟩
  · unfold rootsearch
    simp only [hdec, Bool.false_eq_true, if_false, not_false_eq_true, true_and]
    rw [if_pos (show (rootEnter w).pos.useRootmoveScore = 0 from hearly.1)]
    rw [hprobe]
    simp only
    rw [if_pos ⟨hearly.2.1, hearly.2.2.1, hearly.2.2.2⟩]
    exact ⟨_, rfl⟩
  · unfold rootsearch
    simp only [hdec, Bool.false_eq_true, if_false, not_false_eq_true, true_and]
    by_cases hu : (rootEnter w).pos.useRootmoveScore = 0
    · rw [if_pos hu]
      rw [hprobe]
      simp only
      rw [if_neg (fun h => hno ⟨hu, h.1, h.2.1, h.2.2⟩)]
      exact rootMain_single env ab RT fuel alpha beta depth _ _ _ _ hRT halpha hf hstop
        (by rw [← hlen] at hfuel; exact hfuel)
    · rw [if_neg hu]
      exact rootMain_single env ab RT fuel alpha beta depth _ _ _ _ hRT halpha hf hstop
        (by rw [← hlen] at hfuel; exact hfuel)

theorem rootsearch_single_result_witness :
    ((-100 : Int) < 100 ∧ twoMovesWorld.pos.rootmovelist.length < 3
      ∧ (exampleEnv.probeHash twoMovesWorld.tt twoMovesWorld.pos.hash 0 exampleEnv.NOSCORE 0 5
          (-100) 100 0).1 = false)
    ∧ ∃ r w', rootsearch exampleEnv betterMove RootsearchType.SinglePVSearch 3 0 (-100) 100 5
          twoMovesWorld = some (r, w')
        ∧ -100 ≤ r ∧ r ≤ 100 :=
  ⟨by decide,
    (rootsearch_single_result exampleEnv betterMove RootsearchType.SinglePVSearch 3 0 (-100) 100
      5 twoMovesWorld _ (by decide) (by decide)
      ⟨fun _ _ => rfl, fun _ _ => rfl, fun _ _ _ => rfl, fun _ _ _ w => ⟨-70, w, rfl, rfl⟩⟩
      (fun _ h => StopLevel.noConfusion h) (by decide) rfl).2 (by decide)⟩

/-- C38 as stated fails.  A single-PV root search with the window `(-8, 8)` finds in the table
an entry for the root position that the probe accepts, with the score 40.  The early return
hands back 40, which is above `beta`, without a search; `search_gen1` finds the score equal
to neither `alpha` nor `beta` and takes the depth for completed instead of researching with a
higher beta. -/
theorem rootsearch_single_counterexample :
    (singularEnv.probeHash twoMovesWorld.tt twoMovesWorld.pos.hash 0 singularEnv.NOSCORE 0 5
        (-8) 8 0 = (true, 40, 0, 0x0314))
    ∧ (rootsearch singularEnv betterMove RootsearchType.SinglePVSearch 3 0 (-8) 8 5
        twoMovesWorld).map (fun r => (r.1, r.2.tt))
      = some (40, [TTOp.probe 0x1234 5 (-8) 8 0])
    ∧ ¬ ((40 : Int) ≤ 8)
    ∧ ((genAspiration singularEnv RootsearchType.SinglePVSearch
          { depth5State with alpha := -8, beta := 8, score := 40, inWindow := 1,
                             lastCompleteDepth := 4 }).inWindow,
        (genAspiration singularEnv RootsearchType.SinglePVSearch
          { depth5State with alpha := -8, beta := 8, score := 40, inWindow := 1,
                             lastCompleteDepth := 4 }).lastCompleteDepth)
      = (1, 5) :=
  ⟨by decide, by decide!, by decide, by decide!⟩

/-! ### The aspiration window after a MultiPV iteration -/

/-- C39, the code at a failing input.  `search_gen1<MultiPVSearch>` with the option
`MultiPV = 3` on a root position with two moves that both score -600, in the iteration of
depth 5 with the full window.  `rootsearch` ranks `min(3, 2) = 2` lines, leaves
`bestmovescore = [-600, -600]` with `bestmovescore[2]` untouched (0 here), and returns
`bestmovescore[1] = -600`.  The new window is computed from `bestmovescore[MultiPV - 1]`,
the untouched entry: `alpha = 0 - 8 = -8`, `beta = -600 + 8 = -592`.  The next call of
`rootsearch` gets `alpha > beta`; the last ranked line would give `alpha = -608`. -/
theorem aspiration_multipv_index :
    (threeLinesEnv.MultiPV = 3 ∧ depth5State.w.pos.rootmovelist.length = 2
      ∧ depth5State.depth = 5 ∧ depth5State.alpha = SHRT_MIN + 1
      ∧ depth5State.beta = SHRT_MAX ∧ depth5State.w.pos.bestmovescore 2 = 0)
    ∧ (genSearch threeLinesEnv
          (rootCallWith threeLinesEnv losingMove RootsearchType.MultiPVSearch 3 0)
          RootsearchType.MultiPVSearch depth5State).map
        (fun g => [g.score, g.w.pos.bestmovescore 0, g.w.pos.bestmovescore 1,
          g.w.pos.bestmovescore 2, g.alpha, g.beta, g.lastCompleteDepth])
      = some [-600, -600, -600, 0, -8, -592, 5]
    ∧ ¬ ((-8 : Int) < -592)
    ∧ (min (3 : Int) 2 - 1 = 1 ∧ (-600 : Int) - 8 = -608) :=
  ⟨by decide, by decide!, by decide, by decide⟩

end RubiChess
